import Mathlib

/-! Red-black binary search tree (`custom::BST`, `bst.h`)

A shallow embedding of the pointer-based tree of `bst.h`.

* The free store is a list of cells.  The address of a node is its index; a cell that was
  `delete`d holds `none`; `new` appends a cell.  `nullptr` is `none : Ptr`.
* Every function of the source that dereferences a pointer, loops or recurses returns in
  `Except Fault`: dereferencing `nullptr` or a deleted cell has no defined result in C++
  (`Fault.nullDeref`, `Fault.freedDeref`); loops and the recursion of `balance` take a
  step budget and report `Fault.outOfFuel` when it is used up.
* `T` is the element type; the source's `operator==` and `operator<` are the equality and
  the strict order of a linear order.
* `custom::set` (`set.h`) and `custom::map` (`map.h`) are adapters with one data member,
  the tree.  The elements of the tree of a map are pairs whose operators compare the keys
  only, so `insert` is given a second time with the two operators as arguments.
-/

namespace custom

/-- Why an execution has no result. -/
inductive Fault where
  | nullDeref
  | freedDeref
  | outOfFuel
deriving DecidableEq, Repr

/-- Pointer to a node: `none` is `nullptr`. -/
abbrev Ptr := Option Nat

/-- The class `BST<T>::BNode`: the data members, in the source's names. -/
structure BNode (T : Type) where
  data : T
  pLeft : Ptr
  pRight : Ptr
  pParent : Ptr
  isRed : Bool
deriving DecidableEq, Repr

/-- The free store. -/
abbrev Heap (T : Type) := List (Option (BNode T))

/-- The class `BST<T>`: the data members `root` and `numElements`. -/
structure BST where
  root : Ptr
  numElements : Nat
deriving DecidableEq, Repr

/-- Result of the descent loop of `insert`: either the early return at a duplicate, or the
values of the locals `pParent` and `putLeft` when the loop ends. -/
inductive Descent where
  | dup (p : Nat)
  | slot (pParent : Ptr) (putLeft : Bool)
deriving DecidableEq, Repr

/-- Number of values of `size_t` (64-bit platform). -/
def sizeMod : Nat := 2 ^ 64

section Model

variable {T : Type}

/-- Content of the cell at address `a`, `none` when deleted or never allocated. -/
def Heap.cell (h : Heap T) (a : Nat) : Option (BNode T) := (h[a]?).join

/-- Overwrite the cell at address `a`. -/
def Heap.store (h : Heap T) (a : Nat) (n : BNode T) : Heap T := h.set a (some n)

/-- Dereference: `*p`. -/
def load (h : Heap T) (p : Ptr) : Except Fault (BNode T) :=
  match p with
  | none => .error .nullDeref
  | some a =>
    match h.cell a with
    | some n => .ok n
    | none => .error .freedDeref

/-- Assignment to a member through a pointer: `p->field = ...`. -/
def modify (h : Heap T) (p : Ptr) (f : BNode T → BNode T) : Except Fault (Heap T) :=
  match p with
  | none => .error .nullDeref
  | some a =>
    match h.cell a with
    | some n => .ok (h.store a (f n))
    | none => .error .freedDeref

/-- The statement `p->pLeft = x`. -/
def setLeft (h : Heap T) (p x : Ptr) : Except Fault (Heap T) :=
  modify h p (fun n => { n with pLeft := x })

/-- The statement `p->pRight = x`. -/
def setRight (h : Heap T) (p x : Ptr) : Except Fault (Heap T) :=
  modify h p (fun n => { n with pRight := x })

/-- The statement `p->pParent = x`. -/
def setParent (h : Heap T) (p x : Ptr) : Except Fault (Heap T) :=
  modify h p (fun n => { n with pParent := x })

/-- The statement `p->isRed = c`. -/
def setRed (h : Heap T) (p : Ptr) (c : Bool) : Except Fault (Heap T) :=
  modify h p (fun n => { n with isRed := c })

/-- The expression `new BNode(t)`: a red node without links in a fresh cell. -/
def newNode (h : Heap T) (t : T) : Nat × Heap T :=
  (h.length, h ++ [some { data := t, pLeft := none, pRight := none, pParent := none, isRed := true }])

/-- The statement `delete p`. -/
def delete (h : Heap T) (a : Nat) : Heap T := h.set a none

/-- `BNode::addLeft(BNode * pNode)`, called on `this`. -/
def BNode.addLeft (h : Heap T) (this pNode : Ptr) : Except Fault (Heap T) := do
  let h ← setLeft h this pNode
  if pNode ≠ none then
    let self ← load h this
    setParent h self.pLeft this
  else
    pure h

/-- `BNode::addRight(BNode * pNode)`, called on `this`. -/
def BNode.addRight (h : Heap T) (this pNode : Ptr) : Except Fault (Heap T) := do
  let h ← setRight h this pNode
  if pNode ≠ none then
    let self ← load h this
    setParent h self.pRight this
  else
    pure h

/-- `p->isLeftChild(pNode)`. -/
def BNode.isLeftChild (h : Heap T) (p pNode : Ptr) : Except Fault Bool := do
  let n ← load h p
  pure (decide (n.pLeft = pNode))

/-- `p->isRightChild(pNode)`. -/
def BNode.isRightChild (h : Heap T) (p pNode : Ptr) : Except Fault Bool := do
  let n ← load h p
  pure (decide (n.pRight = pNode))

/-- The member `pParent` read inside a member function: `this->pParent`. -/
def memberParent (h : Heap T) (this : Ptr) : Except Fault Ptr := do
  let self ← load h this
  pure self.pParent

/-- Condition of case 4a of `balance`. -/
def cond4a (h : Heap T) (this pGranny : Ptr) : Except Fault Bool := do
  let pParent ← memberParent h this
  if (← BNode.isLeftChild h pParent this) then
    BNode.isLeftChild h pGranny pParent
  else
    pure false

/-- Condition of case 4b of `balance`. -/
def cond4b (h : Heap T) (this pGranny : Ptr) : Except Fault Bool := do
  let pParent ← memberParent h this
  if (← BNode.isRightChild h pParent this) then
    BNode.isRightChild h pGranny pParent
  else
    pure false

/-- Condition of case 4c of `balance`. -/
def cond4c (h : Heap T) (this pGranny : Ptr) : Except Fault Bool := do
  let g ← load h pGranny
  if !g.isRed then
    let pParent ← memberParent h this
    if (← BNode.isRightChild h pParent this) then
      BNode.isLeftChild h pGranny pParent
    else
      pure false
  else
    pure false

/-- Condition of case 4d of `balance`. -/
def cond4d (h : Heap T) (this pGranny : Ptr) : Except Fault Bool := do
  let g ← load h pGranny
  if !g.isRed then
    let pParent ← memberParent h this
    if (← BNode.isLeftChild h pParent this) then
      BNode.isRightChild h pGranny pParent
    else
      pure false
  else
    pure false

/-- The tail shared by cases 4a and 4b: hang `pParent` below `pHead`. -/
def relinkHead (h : Heap T) (this pGranny pHead : Ptr) : Except Fault (Heap T) := do
  let pParent ← memberParent h this
  let h ← setParent h pParent pHead
  if pHead ≠ none then
    let pParent ← memberParent h this
    if (← BNode.isRightChild h pHead pGranny) then
      setRight h pHead pParent
    else
      setLeft h pHead pParent
  else
    pure h

/-- Body of case 4a of `balance`. -/
def body4a (h : Heap T) (this pGranny pSibling pHead : Ptr) : Except Fault (Heap T) := do
  let pParent ← memberParent h this
  let h ← BNode.addRight h pParent pGranny
  let h ← BNode.addLeft h pGranny pSibling
  let h ← setRed h pGranny true
  let pParent ← memberParent h this
  let h ← setRed h pParent false
  relinkHead h this pGranny pHead

/-- Body of case 4b of `balance`. -/
def body4b (h : Heap T) (this pGranny pSibling pHead : Ptr) : Except Fault (Heap T) := do
  let pParent ← memberParent h this
  let h ← BNode.addLeft h pParent pGranny
  let h ← BNode.addRight h pGranny pSibling
  let h ← setRed h pGranny true
  let pParent ← memberParent h this
  let h ← setRed h pParent false
  relinkHead h this pGranny pHead

/-- The middle of cases 4c and 4d: make the slot above `pGranny` refer to `this`. -/
def relinkAbove (h : Heap T) (this pGranny : Ptr) : Except Fault (Heap T) := do
  let g ← load h pGranny
  if g.pParent = none then
    setParent h this none
  else
    if (← BNode.isRightChild h g.pParent pGranny) then
      setRight h g.pParent this
    else
      setLeft h g.pParent this

/-- Body of case 4c of `balance`, up to the recursive call. -/
def body4c (h : Heap T) (this pGranny : Ptr) : Except Fault (Heap T) := do
  let tempParent ← memberParent h this
  let self ← load h this
  let h ← BNode.addLeft h pGranny self.pRight
  let pParent ← memberParent h this
  let self ← load h this
  let h ← BNode.addRight h pParent self.pLeft
  let h ← relinkAbove h this pGranny
  let h ← BNode.addRight h this pGranny
  let h ← BNode.addLeft h this tempParent
  let h ← setRed h pGranny true
  setRed h this false

/-- Body of case 4d of `balance`, up to the recursive call. -/
def body4d (h : Heap T) (this pGranny : Ptr) : Except Fault (Heap T) := do
  let tempParent ← memberParent h this
  let self ← load h this
  let h ← BNode.addRight h pGranny self.pLeft
  let pParent ← memberParent h this
  let self ← load h this
  let h ← BNode.addLeft h pParent self.pRight
  let h ← relinkAbove h this pGranny
  let h ← BNode.addLeft h this pGranny
  let h ← BNode.addRight h this tempParent
  let h ← setRed h pGranny true
  setRed h this false

/-- The test `pAunt && pAunt->isRed`. -/
def auntIsRed (h : Heap T) (pAunt : Ptr) : Except Fault Bool :=
  match pAunt with
  | none => pure false
  | some a => do
    let n ← load h (some a)
    pure n.isRed

/-- Case 3 of `balance`, once its condition holds: recolour and go on from `pGranny`;
`again` is the recursive call. -/
def balanceRecolor (again : Heap T → Ptr → Except Fault (Heap T)) (h : Heap T)
    (this pGranny pAunt : Ptr) : Except Fault (Heap T) := do
  let h ← setRed h pGranny true
  let pParent ← memberParent h this
  let h ← setRed h pParent false
  let h ← setRed h pAunt false
  again h pGranny

/-- Case 4 of `balance`, once the aunt is known to be absent or black: the four `if`
statements 4a to 4d in sequence; `again` is the recursive call. -/
def balanceRotate (again : Heap T → Ptr → Except Fault (Heap T)) (h : Heap T)
    (this pGranny pSibling pHead : Ptr) : Except Fault (Heap T) := do
  let h ← (do
    if (← cond4a h this pGranny) then body4a h this pGranny pSibling pHead else pure h)
  let h ← (do
    if (← cond4b h this pGranny) then body4b h this pGranny pSibling pHead else pure h)
  let h ← (do
    if (← cond4c h this pGranny) then
      let h ← body4c h this pGranny
      again h this
    else pure h)
  if (← cond4d h this pGranny) then
    let h ← body4d h this pGranny
    again h this
  else
    pure h

/-- `BNode::balance()`, called on `this`.  The first argument bounds the depth of the
recursion. -/
def BNode.balance : Nat → Heap T → Ptr → Except Fault (Heap T)
  | 0, _, _ => .error .outOfFuel
  | fuel + 1, h, this => do
    let self ← load h this
    -- Case 1: if we are the root, then color ourselves black and call it a day.
    if self.pParent = none then
      setRed h this false
    else
      let mom ← load h self.pParent
      -- Case 2: if the parent is black, then there is nothing left to do
      if !mom.isRed then
        pure h
      else
        let gran ← load h mom.pParent
        let pAunt := if gran.pLeft = self.pParent then gran.pRight else gran.pLeft
        let pGranny := mom.pParent
        let pSibling := if mom.pLeft = this then mom.pRight else mom.pLeft
        let pHead := gran.pParent
        -- Case 3: if the aunt is red, then just recolor
        if (← (if !gran.isRed then auntIsRed h pAunt else pure false)) then
          balanceRecolor (BNode.balance fuel) h this pGranny pAunt
        else
          -- Case 4: if the aunt is black or non-existant, then we need to rotate
          if !(← auntIsRed h pAunt) then
            balanceRotate (BNode.balance fuel) h this pGranny pSibling pHead
          else
            pure h

/-- The loop of `BST::insert` that looks for the place of the new node.  Arguments after
the budget: the heap, the value `t`, `keepUnique`, and the locals `pParent`, `p`, `putLeft`. -/
def BST.insertDescend [LinearOrder T] :
    Nat → Heap T → T → Bool → Ptr → Ptr → Bool → Except Fault Descent
  | _, _, _, _, pParent, none, putLeft => .ok (.slot pParent putLeft)
  | 0, _, _, _, _, some _, _ => .error .outOfFuel
  | fuel + 1, h, t, keepUnique, _, some a, _ => do
    let n ← load h (some a)
    if keepUnique && decide (t = n.data) then
      pure (.dup a)
    else if t < n.data then
      BST.insertDescend fuel h t keepUnique (some a) n.pLeft true
    else
      BST.insertDescend fuel h t keepUnique (some a) n.pRight false

/-- The loop `while (root->pParent != nullptr) root = root->pParent;` of `BST::insert`. -/
def BST.findRoot : Nat → Heap T → Ptr → Except Fault Ptr
  | 0, _, _ => .error .outOfFuel
  | fuel + 1, h, root => do
    let r ← load h root
    if r.pParent ≠ none then
      BST.findRoot fuel h r.pParent
    else
      pure root

/-- The statements of `BST::insert` that place the new node `pNew`: below `pParent` on the
side chosen by `putLeft`, or as the root when there is no parent.  Returns the heap and
the value of `root`. -/
def BST.placeNew (h : Heap T) (root pNew pParent : Ptr) (putLeft : Bool) :
    Except Fault (Heap T × Ptr) := do
  if pParent ≠ none then
    if putLeft then
      let h ← setParent h pNew pParent
      let h ← setLeft h pParent pNew
      pure (h, root)
    else
      let h ← setParent h pNew pParent
      let h ← setRight h pParent pNew
      pure (h, root)
  else
    pure (h, pNew)

/-- `BST::insert(const T & t, bool keepUnique)`.  Returns the heap and the tree after the
call and the returned pair (iterator, flag). -/
def BST.insert [LinearOrder T] (fuel : Nat) (h : Heap T) (tree : BST) (t : T)
    (keepUnique : Bool) : Except Fault (Heap T × BST × Ptr × Bool) := do
  match (← BST.insertDescend fuel h t keepUnique tree.root tree.root true) with
  | .dup p => pure (h, tree, some p, false)
  | .slot pParent putLeft =>
    -- Allocate the new node
    let (a, h) := newNode h t
    let pNew : Ptr := some a
    -- Place in the tree if parent exists
    let (h, root) ← BST.placeNew h tree.root pNew pParent putLeft
    -- Increment the elements and balance the tree
    let numElements := (tree.numElements + 1) % sizeMod
    let h ← BNode.balance fuel h pNew
    -- Find the new root node
    let root ← BST.findRoot fuel h root
    pure (h, { root := root, numElements := numElements }, pNew, true)

/-- `BST::end()`. -/
def BST.endIt : Ptr := none

/-- The loop `while (pNode->pLeft) pNode = pNode->pLeft;`. -/
def leftmost : Nat → Heap T → Ptr → Except Fault Ptr
  | 0, _, _ => .error .outOfFuel
  | fuel + 1, h, pNode => do
    let n ← load h pNode
    if n.pLeft ≠ none then
      leftmost fuel h n.pLeft
    else
      pure pNode

/-- The loop `while (pNode->pRight) pNode = pNode->pRight;`. -/
def rightmost : Nat → Heap T → Ptr → Except Fault Ptr
  | 0, _, _ => .error .outOfFuel
  | fuel + 1, h, pNode => do
    let n ← load h pNode
    if n.pRight ≠ none then
      rightmost fuel h n.pRight
    else
      pure pNode

/-- The loop `while (pNode->pParent && pNode->pParent->isRightChild(pNode))
pNode = pNode->pParent;`. -/
def climbWhileRight : Nat → Heap T → Ptr → Except Fault Ptr
  | 0, _, _ => .error .outOfFuel
  | fuel + 1, h, pNode => do
    let n ← load h pNode
    if n.pParent ≠ none then
      if (← BNode.isRightChild h n.pParent pNode) then
        climbWhileRight fuel h n.pParent
      else
        pure pNode
    else
      pure pNode

/-- The loop `while (pNode->pParent && pNode->pParent->isLeftChild(pNode))
pNode = pNode->pParent;`. -/
def climbWhileLeft : Nat → Heap T → Ptr → Except Fault Ptr
  | 0, _, _ => .error .outOfFuel
  | fuel + 1, h, pNode => do
    let n ← load h pNode
    if n.pParent ≠ none then
      if (← BNode.isLeftChild h n.pParent pNode) then
        climbWhileLeft fuel h n.pParent
      else
        pure pNode
    else
      pure pNode

/-- `BST::iterator::operator++()`: the new value of the iterator's `pNode`. -/
def iterator.inc (fuel : Nat) (h : Heap T) (pNode : Ptr) : Except Fault Ptr := do
  -- If nullptr return
  if pNode = none then
    pure pNode
  else
    let n ← load h pNode
    if n.pRight ≠ none then
      leftmost fuel h n.pRight
    else
      let up ← (if n.pParent ≠ none then BNode.isLeftChild h n.pParent pNode else pure false)
      if up then
        pure n.pParent
      else
        let pNode ← climbWhileRight fuel h pNode
        memberParent h pNode

/-- `BST::begin()`. -/
def BST.begin (fuel : Nat) (h : Heap T) (tree : BST) : Except Fault Ptr :=
  if tree.root = none then
    pure none
  else
    leftmost fuel h tree.root

/-- The loop of `BST::find`. -/
def BST.findLoop [LinearOrder T] : Nat → Heap T → T → Ptr → Except Fault Ptr
  | _, _, _, none => pure BST.endIt
  | 0, _, _, some _ => .error .outOfFuel
  | fuel + 1, h, t, some a => do
    let n ← load h (some a)
    if n.data = t then
      pure (some a)
    else if t < n.data then
      BST.findLoop fuel h t n.pLeft
    else
      BST.findLoop fuel h t n.pRight

/-- `BST::find(const T & t)`. -/
def BST.find [LinearOrder T] (fuel : Nat) (h : Heap T) (tree : BST) (t : T) :
    Except Fault Ptr :=
  BST.findLoop fuel h t tree.root

/-- `*it`: the value at an iterator. -/
def iterator.deref (h : Heap T) (pNode : Ptr) : Except Fault T := do
  let n ← load h pNode
  pure n.data

/-- Collect the values met by `for (it = begin(); it != end(); ++it)`; the budget bounds
the number of steps of the loop and of every loop inside `++`. -/
def walkFrom : Nat → Nat → Heap T → Ptr → Except Fault (List T)
  | _, _, _, none => pure []
  | 0, _, _, some _ => .error .outOfFuel
  | steps + 1, fuel, h, some a => do
    let v ← iterator.deref h (some a)
    let next ← iterator.inc fuel h (some a)
    let rest ← walkFrom steps fuel h next
    pure (v :: rest)

/-- The traversal of the whole tree with the iterator, from `begin()` to `end()`. -/
def BST.walk (fuel : Nat) (h : Heap T) (tree : BST) : Except Fault (List T) := do
  let it ← BST.begin fuel h tree
  walkFrom fuel fuel h it

/-- Heap and tree of the default constructor `BST()`, in an empty free store. -/
def BST.empty : BST := { root := none, numElements := 0 }

/-- Calls of `insert` in sequence, each on the heap and tree left by the one before. -/
def BST.insertAll [LinearOrder T] (fuel : Nat) (keepUnique : Bool) :
    List T → Heap T × BST → Except Fault (Heap T × BST)
  | [], s => pure s
  | t :: ts, s => do
    let r ← BST.insert fuel s.1 s.2 t keepUnique
    BST.insertAll fuel keepUnique ts (r.1, r.2.1)

/-- Calls of `insert` in sequence, every call with its own `keepUnique` argument. -/
def BST.insertCalls [LinearOrder T] (fuel : Nat) :
    List (T × Bool) → Heap T × BST → Except Fault (Heap T × BST)
  | [], s => pure s
  | c :: cs, s => do
    let r ← BST.insert fuel s.1 s.2 c.1 c.2
    BST.insertCalls fuel cs (r.1, r.2.1)

/-- The statement `numElements--` on a `size_t`. -/
def decrSize (n : Nat) : Nat := (n + (sizeMod - 1)) % sizeMod

/-- Case 1 of `BST::erase`, before `delete`: the node has no children. -/
def eraseLeaf (h : Heap T) (it : Ptr) : Except Fault (Heap T) := do
  let n ← load h it
  if n.pParent ≠ none then
    if (← BNode.isRightChild h n.pParent it) then
      setRight h n.pParent none
    else
      setLeft h n.pParent none
  else
    pure h

/-- Case 2 of `BST::erase`, first branch, before `delete`: only a left child. -/
def eraseLeftOnly (h : Heap T) (it : Ptr) : Except Fault (Heap T) := do
  let n ← load h it
  let h ← setParent h n.pLeft n.pParent
  let n ← load h it
  let c ← (if n.pParent ≠ none then BNode.isRightChild h n.pParent it else pure false)
  let h ← (do if c then setRight h n.pParent n.pLeft else pure h)
  let n ← load h it
  let c ← (if n.pParent ≠ none then BNode.isLeftChild h n.pParent it else pure false)
  if c then setLeft h n.pParent n.pLeft else pure h

/-- Case 2 of `BST::erase`, second branch, before `delete`: only a right child. -/
def eraseRightOnly (h : Heap T) (it : Ptr) : Except Fault (Heap T) := do
  let n ← load h it
  let h ← setParent h n.pRight n.pParent
  let n ← load h it
  let c ← (if n.pParent ≠ none then BNode.isRightChild h n.pParent it else pure false)
  let h ← (do if c then setRight h n.pParent n.pRight else pure h)
  let n ← load h it
  let c ← (if n.pParent ≠ none then BNode.isLeftChild h n.pParent it else pure false)
  if c then setLeft h n.pParent n.pRight else pure h

/-- Case 3 of `BST::erase`, before `delete`: two children.  Returns the heap and the new
value of `root`. -/
def eraseTwoChildren (h : Heap T) (root oldNode successor : Ptr) :
    Except Fault (Heap T × Ptr) := do
  let o ← load h oldNode
  let (h, root) ← (do
    if o.pParent = none then
      let h ← setParent h successor none
      pure (h, successor)
    else if (← BNode.isLeftChild h o.pParent oldNode) then
      let h ← BNode.addLeft h o.pParent successor
      pure (h, root)
    else
      let h ← BNode.addRight h o.pParent successor
      pure (h, root))
  let o ← load h oldNode
  let oldRight := o.pRight
  let s ← load h successor
  let h ← BNode.addLeft h o.pRight s.pRight
  let o ← load h oldNode
  let h ← BNode.addLeft h successor o.pLeft
  if oldRight ≠ successor then
    let o ← load h oldNode
    let h ← BNode.addRight h successor o.pRight
    pure (h, root)
  else
    pure (h, root)

/-- `BST::erase(iterator & it)`.  Returns the heap and the tree after the call and the
returned iterator. -/
def BST.erase (fuel : Nat) (h : Heap T) (tree : BST) (it : Ptr) :
    Except Fault (Heap T × BST × Ptr) :=
  match it with
  | none => pure (h, tree, BST.endIt)
  | some a => do
    let next ← iterator.inc fuel h (some a)
    let n ← load h (some a)
    let (h, root) ← (do
      if n.pRight = none ∧ n.pLeft = none then
        let h ← eraseLeaf h (some a)
        pure (delete h a, tree.root)
      else if n.pRight = none ∧ n.pLeft ≠ none then
        let h ← eraseLeftOnly h (some a)
        pure (delete h a, tree.root)
      else if n.pLeft = none ∧ n.pRight ≠ none then
        let h ← eraseRightOnly h (some a)
        pure (delete h a, tree.root)
      else
        let (h, root) ← eraseTwoChildren h tree.root (some a) next
        pure (delete h a, root))
    pure (h, { root := root, numElements := decrSize tree.numElements }, next)

/-- `BST::iterator::operator--()`: the new value of the iterator's `pNode`. -/
def iterator.dec (fuel : Nat) (h : Heap T) (pNode : Ptr) : Except Fault Ptr := do
  -- If nullptr return
  if pNode = none then
    pure pNode
  else
    let n ← load h pNode
    if n.pLeft ≠ none then
      rightmost fuel h n.pLeft
    else
      let up ← (if n.pLeft = none then BNode.isRightChild h n.pParent pNode else pure false)
      if up then
        pure n.pParent
      else
        let n ← load h pNode
        let down ← (if n.pLeft = none then BNode.isLeftChild h n.pParent pNode else pure false)
        if down then
          let pNode ← climbWhileLeft fuel h pNode
          memberParent h pNode
        else
          pure pNode

/-- The loop `for (iterator it = begin(); it != end();) it = erase(it);` of `BST::clear`,
from the iterator `it` on. -/
def BST.clearLoop : Nat → Nat → Heap T → BST → Ptr → Except Fault (Heap T × BST)
  | _, _, h, tree, none => pure (h, tree)
  | 0, _, _, _, some _ => .error .outOfFuel
  | steps + 1, fuel, h, tree, some a => do
    let r ← BST.erase fuel h tree (some a)
    BST.clearLoop steps fuel r.1 r.2.1 r.2.2

/-- `BST::clear()`. -/
def BST.clear (fuel : Nat) (h : Heap T) (tree : BST) : Except Fault (Heap T × BST) := do
  let it ← BST.begin fuel h tree
  let r ← BST.clearLoop fuel fuel h tree it
  pure (r.1, { root := none, numElements := r.2.numElements })

/-- `BST::swap(BST & rhs)`: the members of `*this` and of `rhs` after the call. -/
def BST.swap (this rhs : BST) : BST × BST :=
  ({ root := rhs.root, numElements := rhs.numElements },
   { root := this.root, numElements := this.numElements })

/-- `BST::operator=(BST && rhs)` on two distinct objects: the heap and the members of
`*this` and of `rhs` after the call. -/
def BST.assignMove (fuel : Nat) (h : Heap T) (this rhs : BST) :
    Except Fault (Heap T × BST × BST) := do
  let r ← BST.clear fuel h this
  let sw := BST.swap r.2 rhs
  pure (r.1, sw.1, sw.2)

/-- `BST::BST(BST && rhs)`: the default constructor, then move assignment. -/
def BST.constructMove (fuel : Nat) (h : Heap T) (rhs : BST) :
    Except Fault (Heap T × BST × BST) :=
  BST.assignMove fuel h BST.empty rhs

/-- The statement `p->data = x`. -/
def setData (h : Heap T) (p : Ptr) (x : T) : Except Fault (Heap T) :=
  modify h p (fun n => { n with data := x })

/-- `BST::deleteBinaryTree(BNode * pNode)`. -/
def deleteBinaryTree : Nat → Heap T → Ptr → Except Fault (Heap T)
  | _, h, none => pure h
  | 0, _, some _ => .error .outOfFuel
  | fuel + 1, h, some a => do
    let n ← load h (some a)
    let h ← deleteBinaryTree fuel h n.pLeft
    let n ← load h (some a)
    let h ← deleteBinaryTree fuel h n.pRight
    let _ ← load h (some a)
    pure (delete h a)

/-- An object of type `BNode *` that `copyBinaryTree` takes by reference: the member
`root` of the destination tree, or the member `pLeft` or `pRight` of the node at `p`. -/
inductive Slot where
  | root
  | left (p : Ptr)
  | right (p : Ptr)
deriving DecidableEq, Repr

/-- Read the pointer in a slot; `root` is the current value of the member `root`. -/
def Slot.get (h : Heap T) (root : Ptr) : Slot → Except Fault Ptr
  | .root => pure root
  | .left p => do
    let n ← load h p
    pure n.pLeft
  | .right p => do
    let n ← load h p
    pure n.pRight

/-- Assign to the pointer in a slot; returns the heap and the value of the member
`root`. -/
def Slot.set (h : Heap T) (root : Ptr) (x : Ptr) : Slot → Except Fault (Heap T × Ptr)
  | .root => pure (h, x)
  | .left p => do
    let h ← setLeft h p x
    pure (h, root)
  | .right p => do
    let h ← setRight h p x
    pure (h, root)

/-- The statements of `copyBinaryTree` that create the destination node when `pDest` is
null, and otherwise overwrite its element and colour.  Returns the heap and the value of
the destination's member `root`. -/
def copyNode (h : Heap T) (root : Ptr) (pDest : Slot) (pSrc : Ptr) :
    Except Fault (Heap T × Ptr) := do
  let d ← pDest.get h root
  -- Create new node if pDest is null
  if d = none then
    let s ← load h pSrc
    let (a, h) := newNode h s.data
    let (h, root) ← pDest.set h root (some a)
    let d ← pDest.get h root
    let s ← load h pSrc
    let h ← setRed h d s.isRed
    pure (h, root)
  else
    -- Update data if pDest already exists
    let s ← load h pSrc
    let h ← setData h d s.data
    let d ← pDest.get h root
    let s ← load h pSrc
    let h ← setRed h d s.isRed
    pure (h, root)

/-- The two recursive calls of `copyBinaryTree`, each followed by the assignment of the
child's parent link; `again` is the recursive call. -/
def copyChildren (again : Heap T → Ptr → Slot → Ptr → Except Fault (Heap T × Ptr))
    (h : Heap T) (root : Ptr) (pDest : Slot) (pSrc : Ptr) : Except Fault (Heap T × Ptr) := do
  -- Recursive call for the right child
  let d ← pDest.get h root
  let s ← load h pSrc
  let (h, root) ← again h root (.right d) s.pRight
  let d ← pDest.get h root
  let dn ← load h d
  let h ← (do
    if dn.pRight ≠ none then
      let d ← pDest.get h root
      setParent h dn.pRight d
    else
      pure h)
  -- Recursive call for the left child
  let d ← pDest.get h root
  let s ← load h pSrc
  let (h, root) ← again h root (.left d) s.pLeft
  let d ← pDest.get h root
  let dn ← load h d
  if dn.pLeft ≠ none then
    let d ← pDest.get h root
    let h ← setParent h dn.pLeft d
    pure (h, root)
  else
    pure (h, root)

/-- `BST::copyBinaryTree(BNode *& pDest, const BNode * pSrc)`.  Returns the heap and the
value of the destination's member `root`. -/
def copyBinaryTree : Nat → Heap T → Ptr → Slot → Ptr → Except Fault (Heap T × Ptr)
  | 0, _, _, _, _ => .error .outOfFuel
  | fuel + 1, h, root, pDest, pSrc => do
    if pSrc = none then
      let d ← pDest.get h root
      let h ← deleteBinaryTree fuel h d
      pDest.set h root none
    else
      let (h, root) ← copyNode h root pDest pSrc
      copyChildren (copyBinaryTree fuel) h root pDest pSrc

/-- `BST::operator=(const BST & rhs)`: the heap and the members of `*this` after the
call. -/
def BST.assignCopy (fuel : Nat) (h : Heap T) (this rhs : BST) :
    Except Fault (Heap T × BST) := do
  let r ← copyBinaryTree fuel h this.root .root rhs.root
  pure (r.1, { root := r.2, numElements := rhs.numElements })

/-- `BST::BST(const BST & rhs)`: the default constructor, then copy assignment. -/
def BST.constructCopy (fuel : Nat) (h : Heap T) (rhs : BST) :
    Except Fault (Heap T × BST) :=
  BST.assignCopy fuel h BST.empty rhs

/-- `BST::size()`. -/
def BST.size (tree : BST) : Nat := tree.numElements

/-! ## The adapters `custom::set` (`set.h`) and `custom::map` (`map.h`) -/

/-- The class `custom::set<T>`: its data member is the tree `bst`. -/
structure set where
  bst : BST
deriving DecidableEq, Repr

/-- `set::set()`. -/
def set.empty : set := { bst := BST.empty }

/-- `set::size()`. -/
def set.size (this : set) : Nat := this.bst.size

/-- `set::insert(const T & t)`: `return bst.insert(t, true);`. -/
def set.insert [LinearOrder T] (fuel : Nat) (h : Heap T) (this : set) (t : T) :
    Except Fault (Heap T × set × Ptr × Bool) := do
  let r ← BST.insert fuel h this.bst t true
  pure (r.1, { bst := r.2.1 }, r.2.2.1, r.2.2.2)

/-- `set::insert(T && t)`: `return bst.insert(std::move(t), true);`.  The overload
`BST::insert(T &&, bool)` has the statements of `BST::insert(const T &, bool)`. -/
def set.insertMove [LinearOrder T] (fuel : Nat) (h : Heap T) (this : set) (t : T) :
    Except Fault (Heap T × set × Ptr × Bool) := do
  let r ← BST.insert fuel h this.bst t true
  pure (r.1, { bst := r.2.1 }, r.2.2.1, r.2.2.2)

/-- `set::insert(const std::initializer_list<T> & il)`: the loop
`for (const T & element : il) bst.insert(element, true);`. -/
def set.insertList [LinearOrder T] (fuel : Nat) :
    List T → Heap T × set → Except Fault (Heap T × set)
  | [], s => pure s
  | element :: il, s => do
    let r ← BST.insert fuel s.1 s.2.bst element true
    set.insertList fuel il (r.1, { bst := r.2.1 })

/-- `set::insert(Iterator first, Iterator last)`: the loop
`while (first != last) { bst.insert(*first, true); ++first; }`, over the values of the
range. -/
def set.insertRange [LinearOrder T] (fuel : Nat) :
    List T → Heap T × set → Except Fault (Heap T × set)
  | [], s => pure s
  | first :: rest, s => do
    let r ← BST.insert fuel s.1 s.2.bst first true
    set.insertRange fuel rest (r.1, { bst := r.2.1 })

/-- `set::operator=(const std::initializer_list<T> & il)`: `clear()`, then the loop of
insertions. -/
def set.assignList [LinearOrder T] (fuel : Nat) (h : Heap T) (this : set) (il : List T) :
    Except Fault (Heap T × set) := do
  let r ← BST.clear fuel h this.bst
  set.insertList fuel il (r.1, { bst := r.2 })

/-- The loop of `BST::insert` that looks for the place of the new node, for an element
type whose `operator==` and `operator<` are the functions `eq` and `lt`. -/
def BST.insertDescendBy (eq lt : T → T → Bool) :
    Nat → Heap T → T → Bool → Ptr → Ptr → Bool → Except Fault Descent
  | _, _, _, _, pParent, none, putLeft => .ok (.slot pParent putLeft)
  | 0, _, _, _, _, some _, _ => .error .outOfFuel
  | fuel + 1, h, t, keepUnique, _, some a, _ => do
    let n ← load h (some a)
    if keepUnique && eq t n.data then
      pure (.dup a)
    else if lt t n.data then
      BST.insertDescendBy eq lt fuel h t keepUnique (some a) n.pLeft true
    else
      BST.insertDescendBy eq lt fuel h t keepUnique (some a) n.pRight false

/-- `BST::insert(const T & t, bool keepUnique)` for an element type whose `operator==`
and `operator<` are the functions `eq` and `lt`. -/
def BST.insertBy (eq lt : T → T → Bool) (fuel : Nat) (h : Heap T) (tree : BST) (t : T)
    (keepUnique : Bool) : Except Fault (Heap T × BST × Ptr × Bool) := do
  match (← BST.insertDescendBy eq lt fuel h t keepUnique tree.root tree.root true) with
  | .dup p => pure (h, tree, some p, false)
  | .slot pParent putLeft =>
    -- Allocate the new node
    let (a, h) := newNode h t
    let pNew : Ptr := some a
    -- Place in the tree if parent exists
    let (h, root) ← BST.placeNew h tree.root pNew pParent putLeft
    -- Increment the elements and balance the tree
    let numElements := (tree.numElements + 1) % sizeMod
    let h ← BNode.balance fuel h pNew
    -- Find the new root node
    let root ← BST.findRoot fuel h root
    pure (h, { root := root, numElements := numElements }, pNew, true)

/-- Modelled from the spec: the class `custom::pair<K, V>` of `pair.h`, which is not among
the sources; `map.h` uses its members `first` and `second`. -/
structure pair (K V : Type) where
  first : K
  second : V
deriving DecidableEq, Repr

/-- Modelled from the spec: `operator==` of `custom::pair` (`pair.h` is not among the
sources); the spec says pairs are compared by first element only. -/
def pair.eq {K V : Type} [DecidableEq K] (a b : pair K V) : Bool := decide (a.first = b.first)

/-- Modelled from the spec: `operator<` of `custom::pair` (`pair.h` is not among the
sources); the spec says pairs are compared by first element only. -/
def pair.lt {K V : Type} [LinearOrder K] (a b : pair K V) : Bool := decide (a.first < b.first)

/-- The class `custom::map<K, V>`: its data member is the tree `bst` of pairs. -/
structure map where
  bst : BST
deriving DecidableEq, Repr

/-- `map::map()`. -/
def map.empty : map := { bst := BST.empty }

/-- `map::size()`. -/
def map.size (this : map) : Nat := this.bst.size

/-- `map::insert(const Pairs & rhs)`: `auto pair = bst.insert(rhs);`, where the second
argument of `BST::insert` takes its default value `keepUnique = false`. -/
def map.insert {K V : Type} [LinearOrder K] (fuel : Nat) (h : Heap (pair K V)) (this : map)
    (rhs : pair K V) : Except Fault (Heap (pair K V) × map × Ptr × Bool) := do
  let r ← BST.insertBy pair.eq pair.lt fuel h this.bst rhs false
  pure (r.1, { bst := r.2.1 }, r.2.2.1, r.2.2.2)

/-- `map::insert(Pairs && rhs)`: `auto pair = bst.insert(std::move(rhs));`, again with the
default `keepUnique = false`. -/
def map.insertMove {K V : Type} [LinearOrder K] (fuel : Nat) (h : Heap (pair K V))
    (this : map) (rhs : pair K V) : Except Fault (Heap (pair K V) × map × Ptr × Bool) := do
  let r ← BST.insertBy pair.eq pair.lt fuel h this.bst rhs false
  pure (r.1, { bst := r.2.1 }, r.2.2.1, r.2.2.2)

/-- `map::insert(const std::initializer_list<Pairs> & il)`: the loop
`for (const Pairs & element : il) bst.insert(element, true);`. -/
def map.insertList {K V : Type} [LinearOrder K] (fuel : Nat) :
    List (pair K V) → Heap (pair K V) × map → Except Fault (Heap (pair K V) × map)
  | [], s => pure s
  | element :: il, s => do
    let r ← BST.insertBy pair.eq pair.lt fuel s.1 s.2.bst element true
    map.insertList fuel il (r.1, { bst := r.2.1 })

/-- `map::insert(Iterator first, Iterator last)`: the loop
`while (first != last) { bst.insert(*first, true); ++first; }`, over the values of the
range. -/
def map.insertRange {K V : Type} [LinearOrder K] (fuel : Nat) :
    List (pair K V) → Heap (pair K V) × map → Except Fault (Heap (pair K V) × map)
  | [], s => pure s
  | first :: rest, s => do
    let r ← BST.insertBy pair.eq pair.lt fuel s.1 s.2.bst first true
    map.insertRange fuel rest (r.1, { bst := r.2.1 })

/-! ## The debug checkers of `BNode` -/

/-- `BNode::findDepth()`, called on `this`: the number of black nodes on the path that
takes the right child where there is one and the left child otherwise.  The result is an
`int`; it is at most the number of nodes, so the arithmetic is that of the integers. -/
def BNode.findDepth : Nat → Heap T → Ptr → Except Fault Int
  | 0, _, _ => .error .outOfFuel
  | fuel + 1, h, this => do
    let self ← load h this
    -- if there are no children, the depth is ourselves
    if self.pRight = none ∧ self.pLeft = none then
      pure (if self.isRed then 0 else 1)
    -- if there is a right child, go that way
    else if self.pRight ≠ none then
      let d ← BNode.findDepth fuel h self.pRight
      pure ((if self.isRed then 0 else 1) + d)
    else
      let d ← BNode.findDepth fuel h self.pLeft
      pure ((if self.isRed then 0 else 1) + d)

/-- `BNode::verifyRedBlack(int depth)`, called on `this`.  The condition of rule d is
`pLeft == nullptr && pRight && nullptr`, whose last operand is the constant `nullptr`,
that is `false`. -/
def BNode.verifyRedBlack : Nat → Heap T → Ptr → Int → Except Fault Bool
  | 0, _, _, _ => .error .outOfFuel
  | fuel + 1, h, this, depth => do
    let self ← load h this
    let fReturn := true
    let depth := depth - (if self.isRed = false then 1 else 0)
    -- Rule b) The root is black
    let fReturn := if self.pParent = none then (if self.isRed = true then false else fReturn)
      else fReturn
    -- Rule c) Red nodes have black children
    let fReturn ← (do
      if self.isRed = true then
        let fReturn ← (do
          if self.pLeft ≠ none then
            let l ← load h self.pLeft
            pure (if l.isRed = true then false else fReturn)
          else pure fReturn)
        if self.pRight ≠ none then
          let r ← load h self.pRight
          pure (if r.isRed = true then false else fReturn)
        else pure fReturn
      else pure fReturn)
    -- Rule d) Every path from a leaf to the root has the same # of black nodes
    let fReturn := if decide (self.pLeft = none) && decide (self.pRight ≠ none) && false then
        (if depth ≠ 0 then false else fReturn)
      else fReturn
    let fReturn ← (do
      if self.pLeft ≠ none then
        let ok ← BNode.verifyRedBlack fuel h self.pLeft depth
        pure (if !ok then false else fReturn)
      else pure fReturn)
    if self.pRight ≠ none then
      let ok ← BNode.verifyRedBlack fuel h self.pRight depth
      pure (if !ok then false else fReturn)
    else pure fReturn

end Model

section Reading

variable {T : Type}

/-! ## Reading the heap as a tree

The node graph that hangs below a pointer by the child links `pLeft` and `pRight`, as a
value: addresses, colours and elements, without the parent links. -/

/-- A binary tree of nodes: left subtree, address, colour flag `isRed`, element, right
subtree. -/
inductive Tree (T : Type) where
  | nil : Tree T
  | node (l : Tree T) (a : Nat) (red : Bool) (v : T) (r : Tree T) : Tree T
deriving DecidableEq, Repr

/-- The nodes reachable from `p` by child links, to depth at most the budget. -/
def snapshot : Nat → Heap T → Ptr → Except Fault (Tree T)
  | _, _, none => pure .nil
  | 0, _, some _ => .error .outOfFuel
  | fuel + 1, h, some a => do
    let n ← load h (some a)
    let l ← snapshot fuel h n.pLeft
    let r ← snapshot fuel h n.pRight
    pure (.node l a n.isRed n.data r)

/-- Address of the top node, `nullptr` for the empty tree. -/
def Tree.ptr : Tree T → Ptr
  | .nil => none
  | .node _ a _ _ _ => some a

/-- The elements in in-order. -/
def Tree.toList : Tree T → List T
  | .nil => []
  | .node l _ _ v r => l.toList ++ v :: r.toList

/-- The addresses in in-order. -/
def Tree.addrs : Tree T → List Nat
  | .nil => []
  | .node l a _ _ r => l.addrs ++ a :: r.addrs

/-- Number of nodes. -/
def Tree.size : Tree T → Nat
  | .nil => 0
  | .node l _ _ _ r => l.size + 1 + r.size

/-- Colour flag of the top node; an absent node counts as black. -/
def Tree.isRed : Tree T → Bool
  | .nil => false
  | .node _ _ c _ _ => c

/-- Some red node has a red child. -/
def Tree.redRed : Tree T → Bool
  | .nil => false
  | .node l _ c _ r => (c && (l.isRed || r.isRed)) || l.redRed || r.redRed

/-- For every path from the top to an absent child, the number of black nodes on it. -/
def Tree.blackCounts : Tree T → List Nat
  | .nil => [0]
  | .node l _ c _ r => (l.blackCounts ++ r.blackCounts).map (fun k => if c then k else k + 1)

end Reading

section NodePredicates

variable {T : Type}

/-- Every live node of the heap satisfies `Q`. -/
def Heap.All (Q : BNode T → Prop) (h : Heap T) : Prop :=
  ∀ a nd, h.cell a = some nd → Q nd

/-- Every live node of the heap other than the one at `x` satisfies `Q`. -/
def Heap.AllBut (Q : BNode T → Prop) (h : Heap T) (x : Ptr) : Prop :=
  ∀ a nd, h.cell a = some nd → x ≠ some a → Q nd

/-- The node at `p`, when `p` refers to a live node, satisfies `Q`. -/
def Heap.At (Q : BNode T → Prop) (h : Heap T) (p : Ptr) : Prop :=
  ∀ a nd, p = some a → h.cell a = some nd → Q nd

/-- A node without parent link is black. -/
def BNode.TopBlack (nd : BNode T) : Prop := nd.pParent = none → nd.isRed = false

/-- The node has a parent link. -/
def BNode.HasParent (nd : BNode T) : Prop := nd.pParent ≠ none

/-- The node is black. -/
def BNode.Black (nd : BNode T) : Prop := nd.isRed = false

/-- A change of the heap that frees nothing, changes no colour flag and changes parent
links only to non-null values. -/
def Heap.Benign (h h' : Heap T) : Prop :=
  ∀ b nd', h'.cell b = some nd' →
    ∃ nd, h.cell b = some nd ∧ nd'.isRed = nd.isRed ∧
      (nd'.pParent = nd.pParent ∨ nd'.pParent ≠ none)

/-- The pointer is null or one of the addresses `S`. -/
def PtrIn (S : List Nat) (p : Ptr) : Prop := ∀ b, p = some b → b ∈ S

/-- Every address of `S` refers to a live node whose links are null or in `S`. -/
def Heap.ClosedOn (h : Heap T) (S : List Nat) : Prop :=
  ∀ a ∈ S, ∃ nd, h.cell a = some nd ∧
    PtrIn S nd.pLeft ∧ PtrIn S nd.pRight ∧ PtrIn S nd.pParent

/-- A change of the heap that frees nothing, allocates nothing and changes no element. -/
def Heap.SameData (h h' : Heap T) : Prop :=
  ∀ b, (h'.cell b).map (fun nd => nd.data) = (h.cell b).map (fun nd => nd.data)

/-- A change of the heap that allocates nothing and changes no colour flag of a node that
stays. -/
def Heap.SameColour (h h' : Heap T) : Prop :=
  ∀ b nd', h'.cell b = some nd' → ∃ nd, h.cell b = some nd ∧ nd'.isRed = nd.isRed

end NodePredicates

section TreeShape

variable {T : Type}

/-! ## Trees in the heap

`Tree.Rep` ties a tree value to the heap with all the members of every node, parent
links included; `Tree.Skel` ties only elements and child links.  A position inside a
tree is given by the list of its ancestors (`Frame`), nearest first. -/

/-- Element and child links of the node at address `b`. -/
def Heap.kids (h : Heap T) (b : Nat) : Option (T × Ptr × Ptr) :=
  (h.cell b).map (fun nd => (nd.data, nd.pLeft, nd.pRight))

/-- Parent link of the node at address `b`. -/
def Heap.parent (h : Heap T) (b : Nat) : Option Ptr :=
  (h.cell b).map (fun nd => nd.pParent)

/-- Colour flag of the node at address `b`. -/
def Heap.colour (h : Heap T) (b : Nat) : Option Bool :=
  (h.cell b).map (fun nd => nd.isRed)

/-- The heap holds the tree below a node whose parent link is `par`: every member of every
node is as the tree says. -/
def Tree.Rep (h : Heap T) : Ptr → Tree T → Prop
  | _, .nil => True
  | par, .node l a c v r =>
    h.cell a = some ⟨v, l.ptr, r.ptr, par, c⟩ ∧ l.Rep h (some a) ∧ r.Rep h (some a)

/-- The heap holds the tree as far as elements and child links go. -/
def Tree.Skel (h : Heap T) : Tree T → Prop
  | .nil => True
  | .node l a _ v r => h.kids a = some (v, l.ptr, r.ptr) ∧ l.Skel h ∧ r.Skel h

/-- The parent link of every node of the tree is its parent in the tree (`par` for the
top node): the check "parent links consistent with child links". -/
def Tree.parentsOk (h : Heap T) : Ptr → Tree T → Bool
  | _, .nil => true
  | par, .node l a _ _ r =>
    decide (h.parent a = some par) && l.parentsOk h (some a) && r.parentsOk h (some a)

/-- Length of the longest path from the top to an absent child. -/
def Tree.height : Tree T → Nat
  | .nil => 0
  | .node l _ _ _ r => max l.height r.height + 1

/-- A child slot of a node. -/
inductive Side where
  | left
  | right
deriving DecidableEq, Repr

/-- An ancestor of a position: the slot through which the position is reached, the
ancestor's address, colour and element, and the subtree in its other slot. -/
structure Frame (T : Type) where
  side : Side
  addr : Nat
  red : Bool
  val : T
  other : Tree T

/-- The ancestor with the tree `t` put into the slot `side`. -/
def Frame.fill (f : Frame T) (t : Tree T) : Tree T :=
  match f.side with
  | .left => .node t f.addr f.red f.val f.other
  | .right => .node f.other f.addr f.red f.val t

/-- The whole tree: `t` put at the position whose ancestors are `k`, nearest first. -/
def plug (t : Tree T) : List (Frame T) → Tree T
  | [] => t
  | f :: k => plug (f.fill t) k

/-- Address of the nearest ancestor, `nullptr` at the root position. -/
def ctxPtr : List (Frame T) → Ptr
  | [] => none
  | f :: _ => some f.addr

/-- The heap holds the ancestors `k` of a position whose content is at `child`, with all
members of every ancestor and of the subtrees in their other slots. -/
def RepCtx (h : Heap T) : Ptr → List (Frame T) → Prop
  | _, [] => True
  | child, f :: k =>
    h.cell f.addr = some (match f.side with
      | .left => ⟨f.val, child, f.other.ptr, ctxPtr k, f.red⟩
      | .right => ⟨f.val, f.other.ptr, child, ctxPtr k, f.red⟩) ∧
    f.other.Rep h (some f.addr) ∧ RepCtx h (some f.addr) k

/-- As `RepCtx`, for elements and child links only. -/
def SkelCtx (h : Heap T) : Ptr → List (Frame T) → Prop
  | _, [] => True
  | child, f :: k =>
    h.kids f.addr = some (match f.side with
      | .left => (f.val, child, f.other.ptr)
      | .right => (f.val, f.other.ptr, child)) ∧
    f.other.Skel h ∧ SkelCtx h (some f.addr) k

/-- Addresses of the ancestors and of the nodes in their other slots. -/
def ctxAddrs : List (Frame T) → List Nat
  | [] => []
  | f :: k => f.addr :: f.other.addrs ++ ctxAddrs k

/-- Among the ancestors no red node has a red parent, and the topmost one is black. -/
def CtxInv : List (Frame T) → Prop
  | [] => True
  | [f] => f.red = false
  | f :: g :: k => (f.red = true → g.red = false) ∧ CtxInv (g :: k)

/-- The new value placed after every element that is not greater. -/
def insertSorted [LinearOrder T] (v : T) (xs : List T) : List T :=
  xs.filter (fun x => decide (x ≤ v)) ++ v :: xs.filter (fun x => decide (v < x))

/-- The ancestors of the position where the descent of `insert` for `v` leaves the tree,
nearest first: left when `v` is less than the element, right otherwise. -/
def descentCtx [LinearOrder T] (v : T) : Tree T → List (Frame T) → List (Frame T)
  | .nil, k => k
  | .node l a c x r, k =>
    if v < x then descentCtx v l (⟨.left, a, c, x, r⟩ :: k)
    else descentCtx v r (⟨.right, a, c, x, l⟩ :: k)

/-- The flag `putLeft` with which the descent of `insert` arrives at the position whose
ancestors are `k`. -/
def ctxLeft : List (Frame T) → Bool
  | [] => true
  | f :: _ => decide (f.side = .left)

/-- The tree with `new` in place of the absent child at which the descent of `insert` for
`v` leaves the tree. -/
def Tree.ins [LinearOrder T] (t : Tree T) (v : T) (new : Tree T) : Tree T :=
  match t with
  | .nil => new
  | .node l a c x r =>
    if v < x then .node (l.ins v new) a c x r else .node l a c x (r.ins v new)

/-- Address of the leftmost node: the one reached from the top by left links. -/
def Tree.leftmostPtr : Tree T → Ptr
  | .nil => none
  | .node l a _ _ _ =>
    match l.leftmostPtr with
    | some b => some b
    | none => some a

/-- The nearest ancestor of which the position lies in the left subtree, `nullptr` if
there is none. -/
def upLeft : List (Frame T) → Ptr
  | [] => none
  | f :: k =>
    match f.side with
    | .left => some f.addr
    | .right => upLeft k

/-- The in-order successor of a node with right subtree `r` and ancestors `k`: the
leftmost node of `r` if there is one, otherwise the nearest ancestor of which the node
lies in the left subtree. -/
def succPtr (r : Tree T) (k : List (Frame T)) : Ptr :=
  match r.leftmostPtr with
  | some b => some b
  | none => upLeft k

/-- The entry that follows the first occurrence of `a` in the list, `nullptr` if `a` is
the last entry or does not occur. -/
def nextIn : List Nat → Nat → Ptr
  | [], _ => none
  | x :: xs, a => if x = a then xs.head? else nextIn xs a

/-- In-order addresses before the position with ancestors `k`. -/
def ctxBefore : List (Frame T) → List Nat
  | [] => []
  | f :: k =>
    ctxBefore k ++
      (match f.side with
      | .left => []
      | .right => f.other.addrs ++ [f.addr])

/-- In-order addresses after the position with ancestors `k`. -/
def ctxAfter : List (Frame T) → List Nat
  | [] => []
  | f :: k =>
    (match f.side with
    | .left => f.addr :: f.other.addrs
    | .right => []) ++ ctxAfter k

/-- The tree without the addresses: shape, colour and element at every position. -/
def Tree.shape : Tree T → Tree T
  | .nil => .nil
  | .node l _ c v r => .node l.shape 0 c v r.shape

/-- The node whose member a slot is, `nullptr` for the member `root` of the tree. -/
def Slot.owner : Slot → Ptr
  | .root => none
  | .left p => p
  | .right p => p

/-- The node `nd` with the pointer `x` in the member that the slot names. -/
def Slot.upd (x : Ptr) (nd : BNode T) : Slot → BNode T
  | .root => nd
  | .left _ => { nd with pLeft := x }
  | .right _ => { nd with pRight := x }

/-- The value of the member `root` after `x` is assigned to the slot. -/
def Slot.rootAfter (root x : Ptr) : Slot → Ptr
  | .root => x
  | .left _ => root
  | .right _ => root

/-- The slot names a member of a live node (or the member `root`) and holds `x`. -/
def Slot.Holds (h : Heap T) (root : Ptr) (x : Ptr) : Slot → Prop
  | .root => root = x
  | .left p => ∃ a nd, p = some a ∧ h.cell a = some nd ∧ nd.pLeft = x
  | .right p => ∃ a nd, p = some a ∧ h.cell a = some nd ∧ nd.pRight = x

/-- The heap holds the tree by elements, colours and child links; parent links are not
looked at. -/
def Tree.Held (h : Heap T) : Tree T → Prop
  | .nil => True
  | .node l a c v r =>
    (∃ nd, h.cell a = some nd ∧ nd.data = v ∧ nd.pLeft = l.ptr ∧ nd.pRight = r.ptr ∧
      nd.isRed = c) ∧ l.Held h ∧ r.Held h

/-- The parent link of the top node of the tree that `copyBinaryTree` leaves in a slot
which held the tree `d` below the node `par`: a node that was there keeps its link, a
new node has none. -/
def topPar (d : Tree T) (par : Ptr) : Ptr :=
  match d with
  | .nil => none
  | .node _ _ _ _ _ => par

/-- What a call `again h root sl s.ptr` of `copyBinaryTree` does when the slot `sl` holds
the destination tree `d`, with all links, below the node `par`, and the source tree `s`
shares no node with `d` and does not contain the owner of the slot: the call returns;
the slot then holds a tree `d'` with the shape, elements and colours of `s`, with all
links below the top; the nodes of `d'` are nodes of `d` or new; the nodes outside `d`
other than the owner of the slot are unchanged, and the owner is changed in the slot
only. -/
def CopySpec (again : Heap T → Ptr → Slot → Ptr → Except Fault (Heap T × Ptr))
    (s d : Tree T) : Prop :=
  ∀ (h : Heap T) (root : Ptr) (sl : Slot) (par : Ptr),
    s.Held h → d.Rep h par → sl.Holds h root d.ptr → d.addrs.Nodup →
    (∀ b ∈ s.addrs, b ∉ d.addrs) →
    (∀ a, sl.owner = some a → a ∉ s.addrs ∧ a ∉ d.addrs) →
    ∃ (h' : Heap T) (d' : Tree T),
      again h root sl s.ptr = .ok (h', sl.rootAfter root d'.ptr) ∧
      d'.shape = s.shape ∧ d'.Rep h' (topPar d par) ∧
      sl.Holds h' (sl.rootAfter root d'.ptr) d'.ptr ∧
      h.length ≤ h'.length ∧
      (∀ b ∈ d'.addrs, b ∈ d.addrs ∨ h.length ≤ b) ∧ d'.addrs.Nodup ∧
      (∀ b, b < h.length → b ∉ d.addrs → sl.owner ≠ some b → h'.cell b = h.cell b) ∧
      (∀ a nd, sl.owner = some a → h.cell a = some nd →
        h'.cell a = some (sl.upd d'.ptr nd))

end TreeShape

section LocalFacts

variable {T : Type}

/-- The pointer `q` is null or refers to a live node whose address is not in `used`. -/
def Heap.Free (h : Heap T) (q : Ptr) (used : List Nat) : Prop :=
  ∀ b, q = some b → (∃ nd, h.cell b = some nd) ∧ b ∉ used

/-- What a rotation of `balance` does to the node above the grandparent `g`, when the
subtree's new top is `top`: the slot of `pHead` that held `g` (the right one if it held
`g`, the left one if not) holds `top`; nothing else of that node changes. -/
def HeadCell (h h' : Heap T) (pHead : Ptr) (g top : Nat) : Prop :=
  ∀ hd nd, pHead = some hd → h.cell hd = some nd →
    h'.cell hd = some (if nd.pRight = some g then { nd with pRight := some top }
      else { nd with pLeft := some top })

/-- Outside the addresses `used` and the node at `pHead`, the heap `h'` has the elements
and child links of `h`, and outside the pointers `moved` the whole nodes of `h`. -/
def RestSame (h h' : Heap T) (used : List Nat) (pHead : Ptr) (moved : List Ptr) : Prop :=
  ∀ b, b ∉ used → pHead ≠ some b →
    h'.kids b = h.kids b ∧ (some b ∉ moved → h'.cell b = h.cell b)

/-- The nodes after a rotation of `balance` around `a` (the node `balance` is called on),
its parent `p` and its grandparent `g`, as far as elements, child links and the way up to
the root go: the three nodes have the given child links; when there is no node above `g`
the new top has no parent link and is the parent link of `g`; the node above `g`, if any,
has `top` in the slot of `g`; all other nodes keep elements and child links. -/
def RotPost (h h' : Heap T) (a p g top : Nat) (pHead : Ptr)
    (kidsA kidsP kidsG : T × Ptr × Ptr) (moved : List Ptr) : Prop :=
  h'.kids a = some kidsA ∧ h'.kids p = some kidsP ∧ h'.kids g = some kidsG ∧
  (pHead = none → h'.parent top = some none ∧ h'.parent g = some (some top)) ∧
  HeadCell h h' pHead g top ∧ RestSame h h' [a, p, g] pHead moved

end LocalFacts

section ClaimPredicates

variable {T : Type}

/-- The order the spec states for every node: all values in its left subtree are less
than its value, all values in its right subtree are greater or equal. -/
def Tree.strictOrder [LinearOrder T] : Tree T → Bool
  | .nil => true
  | .node l _ _ v r =>
    l.toList.all (fun x => decide (x < v)) && r.toList.all (fun x => decide (v ≤ x)) &&
      l.strictOrder && r.strictOrder

/-- The order with "less or equal" on the left: for every node, no value in its left
subtree is greater than its value and no value in its right subtree is less. -/
def Tree.weakOrder [LinearOrder T] : Tree T → Bool
  | .nil => true
  | .node l _ _ v r =>
    l.toList.all (fun x => decide (x ≤ v)) && r.toList.all (fun x => decide (v ≤ x)) &&
      l.weakOrder && r.weakOrder

/-- The colour of the node at `a` set to `c`; nothing else is written, and a heap without a
node at `a` is left as it is. -/
def Heap.paint (h : Heap T) (a : Nat) (c : Bool) : Heap T :=
  match h.cell a with
  | some nd => h.store a { nd with isRed := c }
  | none => h

/-- The recolour step in the spec's words: "recolor grandparent RED, parent BLACK, uncle
BLACK", for the parent at `p`, the uncle at `u` and the grandparent at `g`. -/
def recolourSpec (h : Heap T) (p u g : Nat) : Heap T :=
  ((h.paint g true).paint p false).paint u false

end ClaimPredicates

section Predecessor

variable {T : Type}

/-- Address of the rightmost node: the one reached from the top by right links. -/
def Tree.rightmostPtr : Tree T → Ptr
  | .nil => none
  | .node _ a _ _ r =>
    match r.rightmostPtr with
    | some b => some b
    | none => some a

/-- The nearest ancestor of which the position lies in the right subtree, `nullptr` if
there is none. -/
def upRight : List (Frame T) → Ptr
  | [] => none
  | f :: k =>
    match f.side with
    | .right => some f.addr
    | .left => upRight k

/-- The in-order predecessor of a node with left subtree `l` and ancestors `k`: the
rightmost node of `l` if there is one, otherwise the nearest ancestor of which the node
lies in the right subtree. -/
def predPtr (l : Tree T) (k : List (Frame T)) : Ptr :=
  match l.rightmostPtr with
  | some b => some b
  | none => upRight k

/-- The entry before the first occurrence of `a` in the list, when `prev` is the entry
before the list. -/
def prevFrom (prev : Ptr) : List Nat → Nat → Ptr
  | [], _ => none
  | x :: xs, a => if x = a then prev else prevFrom (some x) xs a

/-- The entry before the first occurrence of `a` in the list, `nullptr` if `a` is the
first entry or does not occur. -/
def prevIn (xs : List Nat) (a : Nat) : Ptr := prevFrom none xs a

end Predecessor

section Concrete

/-! ## Concrete heaps met in the theorems below -/

/-- The free store after inserting 10, 5, 15, 1, 3 into the empty tree. -/
def heapC1 : Heap Nat :=
  [some ⟨10, some 4, some 2, none, false⟩,
   some ⟨5, none, none, some 4, false⟩,
   some ⟨15, none, none, some 0, false⟩,
   some ⟨1, none, none, some 4, false⟩,
   some ⟨3, some 3, some 1, some 3, true⟩]

/-- The free store after inserting 1, 2, 4, 5, 6, 3 into the empty tree. -/
def heapC2 : Heap Nat :=
  [some ⟨1, none, none, some 1, false⟩,
   some ⟨2, some 0, some 3, none, false⟩,
   some ⟨4, some 5, none, some 3, false⟩,
   some ⟨5, some 2, some 4, some 1, true⟩,
   some ⟨6, none, none, some 3, false⟩,
   some ⟨3, none, none, some 2, true⟩]

/-- The nodes of `heapC2` below the root, read by child links. -/
def treeC2 : Tree Nat :=
  .node (.node .nil 0 false 1 .nil) 1 false 2
    (.node (.node (.node .nil 5 true 3 .nil) 2 false 4 .nil) 3 true 5
      (.node .nil 4 false 6 .nil))

/-- The free store `heapC2` after erasing the node that holds 2. -/
def heapC2erased : Heap Nat :=
  [some ⟨1, none, none, some 5, false⟩,
   none,
   some ⟨4, some 5, none, some 3, false⟩,
   some ⟨5, none, some 4, some 5, true⟩,
   some ⟨6, none, none, some 3, false⟩,
   some ⟨3, some 0, some 3, none, true⟩]

/-- The free store after inserting 1, 2, 3, 4, 5, 7, 6 into the empty tree. -/
def heapC3 : Heap Nat :=
  [some ⟨1, none, none, some 1, false⟩,
   some ⟨2, some 0, some 3, none, false⟩,
   some ⟨3, none, none, some 3, false⟩,
   some ⟨4, some 2, some 6, some 1, true⟩,
   some ⟨5, none, none, some 6, false⟩,
   some ⟨7, none, none, some 6, false⟩,
   some ⟨6, some 4, some 5, some 5, true⟩]

/-- The nodes of `heapC3` below the root, read by child links. -/
def treeC3 : Tree Nat :=
  .node (.node .nil 0 false 1 .nil) 1 false 2
    (.node (.node .nil 2 false 3 .nil) 3 true 4
      (.node (.node .nil 4 false 5 .nil) 6 true 6 (.node .nil 5 false 7 .nil)))

/-- The free store after inserting 1, 2, 3, 6, 4, 7, 8, 5 into the empty tree. -/
def heapC5 : Heap Nat :=
  [some ⟨1, none, none, some 1, false⟩,
   some ⟨2, some 0, some 4, none, false⟩,
   some ⟨3, none, none, some 4, false⟩,
   some ⟨6, some 4, some 5, some 5, true⟩,
   some ⟨4, some 2, some 7, some 3, false⟩,
   some ⟨7, none, some 6, some 3, false⟩,
   some ⟨8, none, none, some 5, false⟩,
   some ⟨5, none, none, some 4, false⟩]

/-- The nodes of `heapC5` below the root, read by child links. -/
def treeC5 : Tree Nat :=
  .node (.node .nil 0 false 1 .nil) 1 false 2
    (.node (.node .nil 2 false 3 .nil) 4 false 4 (.node .nil 7 false 5 .nil))

/-- The free store after inserting 0, 0, 0, 1, 0, 1, 1, 1, 1, 1 into the empty tree. -/
def heapC7 : Heap Nat :=
  [some ⟨0, none, none, some 1, false⟩,
   some ⟨0, some 0, some 4, none, false⟩,
   some ⟨0, none, none, some 4, false⟩,
   some ⟨1, some 5, none, some 4, false⟩,
   some ⟨0, some 2, some 3, some 5, true⟩,
   some ⟨1, some 4, some 7, some 3, false⟩,
   some ⟨1, none, none, some 7, false⟩,
   some ⟨1, some 6, some 8, some 5, true⟩,
   some ⟨1, none, some 9, some 7, false⟩,
   some ⟨1, none, none, some 8, true⟩]

/-- The free store after inserting 5, 3, 8, 1, 4, 7, 9, 6 into the empty tree. -/
def heapC11 : Heap Nat :=
  [some ⟨5, some 1, some 2, none, false⟩,
   some ⟨3, some 3, some 4, some 0, false⟩,
   some ⟨8, some 5, some 6, some 0, true⟩,
   some ⟨1, none, none, some 1, true⟩,
   some ⟨4, none, none, some 1, true⟩,
   some ⟨7, some 7, none, some 2, false⟩,
   some ⟨9, none, none, some 2, false⟩,
   some ⟨6, none, none, some 5, true⟩]

/-- The nodes of `heapC11` below the root, read by child links. -/
def treeC11 : Tree Nat :=
  .node (.node (.node .nil 3 true 1 .nil) 1 false 3 (.node .nil 4 true 4 .nil)) 0 false 5
    (.node (.node (.node .nil 7 true 6 .nil) 5 false 7 .nil) 2 true 8
      (.node .nil 6 false 9 .nil))

/-- The free store `heapC11` after erasing the node that holds 5. -/
def heapC11erased : Heap Nat :=
  [none,
   some ⟨3, some 3, some 4, some 7, false⟩,
   some ⟨8, none, some 6, some 7, true⟩,
   some ⟨1, none, none, some 1, true⟩,
   some ⟨4, none, none, some 1, true⟩,
   some ⟨7, some 7, none, some 2, false⟩,
   some ⟨9, none, none, some 2, false⟩,
   some ⟨6, some 1, some 2, none, true⟩]

/-- The nodes of `heapC11erased` below the root, read by child links. -/
def treeC11erased : Tree Nat :=
  .node (.node (.node .nil 3 true 1 .nil) 1 false 3 (.node .nil 4 true 4 .nil)) 7 true 6
    (.node .nil 2 true 8 (.node .nil 6 false 9 .nil))

/-- The free store after inserting 1, 2 into the empty tree. -/
def heapC14 : Heap Nat :=
  [some ⟨1, none, some 1, none, false⟩,
   some ⟨2, none, none, some 0, true⟩]

/-- The free store after inserting 2, 3 into the empty tree. -/
def heapC16 : Heap Nat :=
  [some ⟨2, none, some 1, none, false⟩,
   some ⟨3, none, none, some 0, true⟩]

/-- The free store after inserting 1, 2 into one empty tree and 5, 3, 8 into another. -/
def heapC18 : Heap Nat :=
  [some ⟨1, none, some 1, none, false⟩,
   some ⟨2, none, none, some 0, true⟩,
   some ⟨5, some 3, some 4, none, false⟩,
   some ⟨3, none, none, some 2, true⟩,
   some ⟨8, none, none, some 2, true⟩]

/-- The tree of 1, 2 in `heapC18`. -/
def treeC18dest : Tree Nat :=
  .node .nil 0 false 1 (.node .nil 1 true 2 .nil)

/-- The tree of 5, 3, 8 in `heapC18`. -/
def treeC18src : Tree Nat :=
  .node (.node .nil 3 true 3 .nil) 2 false 5 (.node .nil 4 true 8 .nil)

/-- The free store after inserting 1, 1, 1 into the empty tree. -/
def heapC21 : Heap Nat :=
  [some ⟨1, none, none, some 1, true⟩,
   some ⟨1, some 0, some 2, none, false⟩,
   some ⟨1, none, none, some 1, true⟩]

/-- The tree of `heapC21`. -/
def treeC21 : Tree Nat :=
  .node (.node .nil 0 true 1 .nil) 1 false 1 (.node .nil 2 true 1 .nil)

/-- The free store after inserting 1, 2, 3, 6, 4, 7, 8, 5 and then 6 again, every value
with `keepUnique`. -/
def heapC23 : Heap Nat :=
  [some ⟨1, none, none, some 1, false⟩,
   some ⟨2, some 0, some 4, none, false⟩,
   some ⟨3, none, none, some 4, false⟩,
   some ⟨6, some 4, some 5, some 5, true⟩,
   some ⟨4, some 2, some 7, some 3, false⟩,
   some ⟨7, none, some 6, some 3, false⟩,
   some ⟨8, none, none, some 5, false⟩,
   some ⟨5, none, some 8, some 4, false⟩,
   some ⟨6, none, none, some 7, true⟩]

/-- The free store after inserting 10, 5, 15, 3, 7 into the empty tree. -/
def heapC25 : Heap Nat :=
  [some ⟨10, some 1, some 2, none, false⟩,
   some ⟨5, some 3, some 4, some 0, false⟩,
   some ⟨15, none, none, some 0, false⟩,
   some ⟨3, none, none, some 1, true⟩,
   some ⟨7, none, none, some 1, true⟩]

/-- The free store after inserting 1, 2, 3, 4, 5, 6, 7 into the empty tree. -/
def heapC26 : Heap Nat :=
  [some ⟨1, none, none, some 1, false⟩,
   some ⟨2, some 0, some 3, none, false⟩,
   some ⟨3, none, none, some 3, false⟩,
   some ⟨4, some 2, some 5, some 1, true⟩,
   some ⟨5, none, none, some 5, true⟩,
   some ⟨6, some 4, some 6, some 3, false⟩,
   some ⟨7, none, none, some 5, true⟩]

/-- The tree of `heapC26`. -/
def treeC26 : Tree Nat :=
  .node (.node .nil 0 false 1 .nil) 1 false 2
    (.node (.node .nil 2 false 3 .nil) 3 true 4
      (.node (.node .nil 4 true 5 .nil) 5 false 6 (.node .nil 6 true 7 .nil)))

/-- The free store after inserting 10, 5, 15, 1 into the empty tree. -/
def heapC27 : Heap Nat :=
  [some ⟨10, some 1, some 2, none, false⟩,
   some ⟨5, some 3, none, some 0, false⟩,
   some ⟨15, none, none, some 0, false⟩,
   some ⟨1, none, none, some 1, true⟩]

/-- The tree of `heapC27`. -/
def treeC27 : Tree Nat :=
  .node (.node (.node .nil 3 true 1 .nil) 1 false 5 .nil) 0 false 10 (.node .nil 2 false 15 .nil)

/-- The nodes reachable by child links in `heapC1`, the free store after inserting 3 into
the tree of `heapC27`. -/
def treeC1 : Tree Nat :=
  .node (.node (.node .nil 3 false 1 .nil) 4 true 3 (.node .nil 1 false 5 .nil)) 0 false 10
    (.node .nil 2 false 15 .nil)

/-- The free store of `heapC27` after `insert` has linked the new node holding 3 below
the node holding 1, before the call of `balance`. -/
def heapC28 : Heap Nat :=
  [some ⟨10, some 1, some 2, none, false⟩,
   some ⟨5, some 3, none, some 0, false⟩,
   some ⟨15, none, none, some 0, false⟩,
   some ⟨1, none, some 4, some 1, true⟩,
   some ⟨3, none, none, some 3, true⟩]

/-- The tree of `heapC28`. -/
def treeC28 : Tree Nat :=
  .node (.node (.node .nil 3 true 1 (.node .nil 4 true 3 .nil)) 1 false 5 .nil) 0 false 10
    (.node .nil 2 false 15 .nil)

/-- The free store after inserting 10, 5, 15, 3 into the empty tree and linking a new node
holding 1 below the node holding 3, before the call of `balance`. -/
def heapC29 : Heap Nat :=
  [some ⟨10, some 1, some 2, none, false⟩,
   some ⟨5, some 3, none, some 0, false⟩,
   some ⟨15, none, none, some 0, false⟩,
   some ⟨3, some 4, none, some 1, true⟩,
   some ⟨1, none, none, some 3, true⟩]

/-- The free store after inserting 1, 2, 3, 4, 5, 6, 7 into the empty tree and linking a
new node holding 8 below the node holding 7, before the call of `balance`. -/
def heapC30deep : Heap Nat :=
  [some ⟨1, none, none, some 1, false⟩,
   some ⟨2, some 0, some 3, none, false⟩,
   some ⟨3, none, none, some 3, false⟩,
   some ⟨4, some 2, some 5, some 1, true⟩,
   some ⟨5, none, none, some 5, true⟩,
   some ⟨6, some 4, some 6, some 3, false⟩,
   some ⟨7, none, some 7, some 5, true⟩,
   some ⟨8, none, none, some 6, true⟩]

/-- The free store after inserting 10, 5, 15 into the empty tree and linking a new node
holding 3 below the node holding 5, before the call of `balance`. -/
def heapC30 : Heap Nat :=
  [some ⟨10, some 1, some 2, none, false⟩,
   some ⟨5, some 3, none, some 0, true⟩,
   some ⟨15, none, none, some 0, true⟩,
   some ⟨3, none, none, some 1, true⟩]

end Concrete

/-! ## Theorems -/

section ExceptLemmas

variable {ε α β : Type}

@[simp] theorem bind_ok (a : α) (f : α → Except ε β) : (Except.ok a >>= f) = f a := rfl

@[simp] theorem bind_error (e : ε) (f : α → Except ε β) :
    (Except.error e >>= f) = Except.error e := rfl

@[simp] theorem pure_eq_ok (a : α) : (pure a : Except ε α) = Except.ok a := rfl

theorem bind_eq_ok {x : Except ε α} {f : α → Except ε β} {b : β} :
    (x >>= f) = Except.ok b ↔ ∃ a, x = Except.ok a ∧ f a = Except.ok b := by
  cases x with
  | error e => simp
  | ok a => simp

end ExceptLemmas

section HeapBasics

variable {T : Type}

theorem load_eq_ok {h : Heap T} {p : Ptr} {n : BNode T} :
    load h p = .ok n ↔ ∃ a, p = some a ∧ h.cell a = some n := by
  cases p with
  | none => simp [load]
  | some a =>
    simp only [load, Option.some.injEq, exists_eq_left']
    cases h.cell a with
    | none => simp
    | some m => simp

theorem load_some {h : Heap T} {a : Nat} {n : BNode T} (hc : h.cell a = some n) :
    load h (some a) = .ok n := load_eq_ok.mpr ⟨a, rfl, hc⟩

theorem snapshot_none (n : Nat) (h : Heap T) : snapshot n h none = .ok .nil := by
  cases n <;> rfl

theorem snapshot_succ_ok {n : Nat} {h : Heap T} {a : Nat} {s : Tree T} :
    snapshot (n + 1) h (some a) = .ok s ↔
      ∃ nd l r, h.cell a = some nd ∧ snapshot n h nd.pLeft = .ok l ∧
        snapshot n h nd.pRight = .ok r ∧ s = .node l a nd.isRed nd.data r := by
  simp only [snapshot, bind_eq_ok, pure_eq_ok, Except.ok.injEq, load_eq_ok,
    Option.some.injEq, exists_eq_left']
  constructor
  · rintro ⟨nd, hnd, l, hl, r, hr, rfl⟩
    exact ⟨nd, l, r, hnd, hl, hr, rfl⟩
  · rintro ⟨nd, l, r, hnd, hl, hr, rfl⟩
    exact ⟨nd, hnd, l, hl, r, hr, rfl⟩

theorem snapshot_zero_some (h : Heap T) (a : Nat) (s : Tree T) :
    snapshot 0 h (some a) ≠ .ok s := by
  intro e; cases e

end HeapBasics

section HeapWrites

variable {T : Type}

theorem cell_lt_length {h : Heap T} {a : Nat} {n : BNode T} (hc : h.cell a = some n) :
    a < h.length := by
  by_contra hlt
  have : h[a]? = none := List.getElem?_eq_none (Nat.le_of_not_lt hlt)
  simp [Heap.cell, this] at hc

theorem cell_store (h : Heap T) (a b : Nat) (n : BNode T) :
    (h.store a n).cell b =
      if a = b then (if a < h.length then some n else none) else h.cell b := by
  unfold Heap.cell Heap.store
  rw [List.getElem?_set]
  by_cases hab : a = b
  · subst hab
    by_cases hl : a < h.length
    · simp [hl]
    · simp [hl]
  · simp [hab]

theorem modify_eq_ok {h h' : Heap T} {p : Ptr} {f : BNode T → BNode T} :
    modify h p f = .ok h' ↔ ∃ a n, p = some a ∧ h.cell a = some n ∧ h' = h.store a (f n) := by
  cases p with
  | none => simp [modify]
  | some a =>
    simp only [modify, Option.some.injEq, exists_and_left, exists_eq_left']
    cases hc : h.cell a with
    | none => simp
    | some m =>
      simp only [Except.ok.injEq, Option.some.injEq, exists_eq_left']
      exact eq_comm

theorem cell_modify {h h' : Heap T} {p : Ptr} {f : BNode T → BNode T}
    (hm : modify h p f = .ok h') (b : Nat) :
    h'.cell b = if p = some b then (h.cell b).map f else h.cell b := by
  obtain ⟨a, n, rfl, hc, rfl⟩ := modify_eq_ok.mp hm
  rw [cell_store]
  by_cases hab : a = b
  · subst hab
    simp [cell_lt_length hc, hc]
  · simp [hab]

end HeapWrites

section Unfolding

variable {T : Type}

@[simp] theorem length_store (h : Heap T) (a : Nat) (n : BNode T) :
    (h.store a n).length = h.length := by simp [Heap.store]

/-- One step of `balance`. -/
theorem balance_succ (fuel : Nat) (h : Heap T) (this : Ptr) :
    BNode.balance (fuel + 1) h this = (do
    let self ← load h this
    if self.pParent = none then
      setRed h this false
    else
      let mom ← load h self.pParent
      if !mom.isRed then
        pure h
      else
        let gran ← load h mom.pParent
        let pAunt := if gran.pLeft = self.pParent then gran.pRight else gran.pLeft
        let pGranny := mom.pParent
        let pSibling := if mom.pLeft = this then mom.pRight else mom.pLeft
        let pHead := gran.pParent
        if (← (if !gran.isRed then auntIsRed h pAunt else pure false)) then
          balanceRecolor (BNode.balance fuel) h this pGranny pAunt
        else
          if !(← auntIsRed h pAunt) then
            balanceRotate (BNode.balance fuel) h this pGranny pSibling pHead
          else
            pure h) := rfl

end Unfolding

section Divergences

/-! ## The code at the inputs where it leaves the documented behaviour -/

theorem walkFrom_succ_ok {T : Type} {n fuel : Nat} {h : Heap T} {a : Nat} {l : List T} :
    walkFrom (n + 1) fuel h (some a) = .ok l ↔
      ∃ v nx rest, iterator.deref h (some a) = .ok v ∧ iterator.inc fuel h (some a) = .ok nx ∧
        walkFrom n fuel h nx = .ok rest ∧ l = v :: rest := by
  simp only [walkFrom, bind_eq_ok, pure_eq_ok, Except.ok.injEq]
  constructor
  · rintro ⟨v, hv, nx, hnx, rest, hrest, rfl⟩
    exact ⟨v, nx, rest, hv, hnx, hrest, rfl⟩
  · rintro ⟨v, nx, rest, hv, hnx, hrest, rfl⟩
    exact ⟨v, hv, nx, hnx, rest, hrest, rfl⟩

theorem heapC1_inc (fuel : Nat) :
    iterator.inc fuel heapC1 (some 3) = .ok (some 4) ∧
    (iterator.inc fuel heapC1 (some 4) = .ok (some 1) ∨
      iterator.inc fuel heapC1 (some 4) = .error .outOfFuel) ∧
    (iterator.inc fuel heapC1 (some 1) = .ok (some 3) ∨
      iterator.inc fuel heapC1 (some 1) = .error .outOfFuel) := by
  refine ⟨rfl, ?_, ?_⟩
  · cases fuel with
    | zero => exact Or.inr rfl
    | succ n => exact Or.inl rfl
  · cases fuel with
    | zero => exact Or.inr rfl
    | succ n =>
      cases n with
      | zero => exact Or.inr rfl
      | succ m => exact Or.inl rfl

theorem heapC1_walk_never_ends (steps fuel : Nat) :
    ∀ a, a = 1 ∨ a = 3 ∨ a = 4 → ∀ l, walkFrom steps fuel heapC1 (some a) ≠ .ok l := by
  induction steps with
  | zero => intro a _ l h; simp [walkFrom] at h
  | succ n ih =>
    intro a ha l h
    obtain ⟨h3, h4, h1⟩ := heapC1_inc fuel
    obtain ⟨v, nx, rest, -, hnx, hrest, -⟩ := walkFrom_succ_ok.mp h
    rcases ha with rfl | rfl | rfl
    · rcases h1 with h1 | h1
      · rw [h1] at hnx; cases hnx; exact ih 3 (by simp) _ hrest
      · rw [h1] at hnx; cases hnx
    · rw [h3] at hnx; cases hnx; exact ih 4 (by simp) _ hrest
    · rcases h4 with h4 | h4
      · rw [h4] at hnx; cases hnx; exact ih 1 (by simp) _ hrest
      · rw [h4] at hnx; cases hnx

theorem heapC1_begin (fuel : Nat) (it : Ptr)
    (h : BST.begin fuel heapC1 ⟨some 0, 5⟩ = .ok it) : it = some 3 := by
  match fuel, h with
  | 0, h => cases h
  | 1, h => cases h
  | 2, h => cases h
  | k + 3, h =>
    have e : BST.begin (k + 3) heapC1 ⟨some 0, 5⟩ = .ok (some 3) := rfl
    rw [e] at h
    cases h
    rfl

/-- C1 (the code leaves the claim): after `insert` of 10, 5, 15, 1, 3 into the empty tree
the traversal from `begin()` with `++` goes from the node holding 1 to the node holding 3,
to the node holding 5 and from there back to the node holding 1; it never equals `end()`,
whatever the budget, and the values it yields are not non-decreasing (5 is followed
by 1). -/
theorem C1_traversal_cycles_after_inserts :
    BST.insertAll 50 false [10, 5, 15, 1, 3] (([] : Heap Nat), BST.empty)
        = .ok (heapC1, ⟨some 0, 5⟩) ∧
      BST.begin 50 heapC1 ⟨some 0, 5⟩ = .ok (some 3) ∧
      iterator.inc 50 heapC1 (some 3) = .ok (some 4) ∧
      iterator.inc 50 heapC1 (some 4) = .ok (some 1) ∧
      iterator.inc 50 heapC1 (some 1) = .ok (some 3) ∧
      iterator.deref heapC1 (some 3) = .ok 1 ∧
      iterator.deref heapC1 (some 4) = .ok 3 ∧
      iterator.deref heapC1 (some 1) = .ok 5 ∧
      (∀ fuel l, BST.walk fuel heapC1 ⟨some 0, 5⟩ ≠ .ok l) := by
  refine ⟨rfl, rfl, rfl, rfl, rfl, rfl, rfl, rfl, ?_⟩
  intro fuel l h
  simp only [BST.walk, bind_eq_ok] at h
  obtain ⟨it, hit, hw⟩ := h
  have e := heapC1_begin fuel it hit
  subst e
  exact heapC1_walk_never_ends _ _ 3 (by simp) _ hw

/-- C2 (the code leaves the claim): after `insert` of 1, 2, 4, 5, 6, 3 into the empty tree
and `erase` of the node found for 2 (a node with two children whose successor, the node
holding 3, lies two levels below its right child), `size()` is 5 but the traversal from
`begin()` to `end()` visits the four nodes holding 1, 3, 5, 6: the node holding 4 is no
longer linked into the tree. -/
theorem C2_size_differs_from_traversal_after_erase :
    BST.insertAll 50 false [1, 2, 4, 5, 6, 3] (([] : Heap Nat), BST.empty)
        = .ok (heapC2, ⟨some 1, 6⟩) ∧
      BST.walk 50 heapC2 ⟨some 1, 6⟩ = .ok [1, 2, 3, 4, 5, 6] ∧
      BST.find 50 heapC2 ⟨some 1, 6⟩ 2 = .ok (some 1) ∧
      BST.erase 50 heapC2 ⟨some 1, 6⟩ (some 1) = .ok (heapC2erased, ⟨some 5, 5⟩, some 5) ∧
      BST.walk 50 heapC2erased ⟨some 5, 5⟩ = .ok [1, 3, 5, 6] ∧
      heapC2erased.cell 2 = some ⟨4, some 5, none, some 3, false⟩ := by
  refine ⟨rfl, rfl, rfl, rfl, rfl, rfl⟩

/-- C3 (the code leaves the claim): after `insert` of 1, 2, 3, 4, 5, 7, 6 into the empty
tree the red node holding 4 (reached from the root by its right link) has the red right
child holding 6. -/
theorem C3_red_node_with_red_child_after_inserts :
    BST.insertAll 50 false [1, 2, 3, 4, 5, 7, 6] (([] : Heap Nat), BST.empty)
        = .ok (heapC3, ⟨some 1, 7⟩) ∧
      snapshot 50 heapC3 (some 1) = .ok treeC3 ∧
      treeC3.redRed = true ∧
      heapC3.cell 1 = some ⟨2, some 0, some 3, none, false⟩ ∧
      heapC3.cell 3 = some ⟨4, some 2, some 6, some 1, true⟩ ∧
      heapC3.cell 6 = some ⟨6, some 4, some 5, some 5, true⟩ := by
  refine ⟨rfl, rfl, rfl, rfl, rfl, rfl⟩

/-- C5 (the code leaves the claim): after `insert` of 1, 2, 3, 6, 4, 7, 8, 5 into the
empty tree the paths from the root to an absent child pass through 2 black nodes on the
left of the root and through 3 black nodes on its right. -/
theorem C5_black_counts_differ_after_inserts :
    BST.insertAll 50 false [1, 2, 3, 6, 4, 7, 8, 5] (([] : Heap Nat), BST.empty)
        = .ok (heapC5, ⟨some 1, 8⟩) ∧
      snapshot 50 heapC5 (some 1) = .ok treeC5 ∧
      treeC5.blackCounts = [2, 2, 3, 3, 3, 3] := by
  refine ⟨rfl, rfl, rfl⟩

theorem heapC7_descend_cycle (fuel : Nat) :
    ∀ pp pl,
      BST.insertDescend fuel heapC7 0 false pp (some 3) pl = .error .outOfFuel ∧
      BST.insertDescend fuel heapC7 0 false pp (some 5) pl = .error .outOfFuel ∧
      BST.insertDescend fuel heapC7 0 false pp (some 4) pl = .error .outOfFuel := by
  induction fuel with
  | zero => intro pp pl; exact ⟨rfl, rfl, rfl⟩
  | succ n ih =>
    intro pp pl
    refine ⟨?_, ?_, ?_⟩
    · exact (ih (some 3) true).2.1
    · exact (ih (some 5) true).2.2
    · exact (ih (some 4) false).1

/-- C7 (the code leaves the claim): after `insert` of 0, 0, 0, 1, 0, 1, 1, 1, 1, 1 into the
empty tree (all calls return) the child links hold the cycle 3 → 5 → 4 → 3 of addresses,
and the call `insert(0, false)` does not return, whatever the budget: its descent loop
goes round that cycle. -/
theorem C7_insert_does_not_return :
    BST.insertAll 50 false [0, 0, 0, 1, 0, 1, 1, 1, 1, 1] (([] : Heap Nat), BST.empty)
        = .ok (heapC7, ⟨some 1, 10⟩) ∧
      (∀ fuel, BST.insert fuel heapC7 ⟨some 1, 10⟩ 0 false = .error .outOfFuel) := by
  refine ⟨rfl, ?_⟩
  intro fuel
  have e : BST.insertDescend fuel heapC7 0 false (some 1) (some 1) true
      = .error .outOfFuel := by
    cases fuel with
    | zero => rfl
    | succ n => exact (heapC7_descend_cycle n (some 1) false).2.2
  simp only [BST.insert, e, bind_error]

/-- C10 (the code leaves the claim): after `insert(1)` into the empty tree and `erase` of
`begin()`, `size()` is 0 but `root` still holds the address of the deleted node, so
`begin()` dereferences a deleted node instead of returning `end()`. -/
theorem C10_root_dangles_after_erasing_all :
    BST.insertAll 50 false [1] (([] : Heap Nat), BST.empty)
        = .ok ([some ⟨1, none, none, none, false⟩], ⟨some 0, 1⟩) ∧
      BST.begin 50 [some (⟨1, none, none, none, false⟩ : BNode Nat)] ⟨some 0, 1⟩
        = .ok (some 0) ∧
      BST.erase 50 [some (⟨1, none, none, none, false⟩ : BNode Nat)] ⟨some 0, 1⟩ (some 0)
        = .ok ([none], ⟨some 0, 0⟩, none) ∧
      (∀ fuel, BST.begin (fuel + 1) ([none] : Heap Nat) ⟨some 0, 0⟩ = .error .freedDeref) := by
  refine ⟨rfl, rfl, rfl, ?_⟩
  intro fuel
  rfl

end Divergences

section Find

variable {T : Type} [LinearOrder T]

theorem findLoop_correct (h : Heap T) (v : T) :
    ∀ (n : Nat) (p : Ptr) (s : Tree T), snapshot n h p = .ok s →
      s.toList.Sorted (· ≤ ·) →
      ∃ it, BST.findLoop n h v p = .ok it ∧
        (v ∈ s.toList → ∃ a nd, it = some a ∧ a ∈ s.addrs ∧ h.cell a = some nd ∧ nd.data = v) ∧
        (v ∉ s.toList → it = BST.endIt) := by
  intro n
  induction n with
  | zero =>
    intro p s hs _
    cases p with
    | none =>
      rw [snapshot_none] at hs
      cases hs
      exact ⟨none, rfl, by simp [Tree.toList], fun _ => rfl⟩
    | some a => exact absurd hs (snapshot_zero_some h a s)
  | succ n ih =>
    intro p s hs hsort
    cases p with
    | none =>
      rw [snapshot_none] at hs
      cases hs
      exact ⟨none, rfl, by simp [Tree.toList], fun _ => rfl⟩
    | some a =>
      obtain ⟨nd, l, r, hnd, hl, hr, rfl⟩ := snapshot_succ_ok.mp hs
      simp only [Tree.toList, List.Sorted, List.pairwise_append, List.pairwise_cons,
        List.mem_cons, forall_eq_or_imp] at hsort
      obtain ⟨hsl, ⟨hdr, hsr⟩, hld⟩ := hsort
      simp only [BST.findLoop, load_some hnd, bind_ok]
      by_cases hv : nd.data = v
      · refine ⟨some a, by simp [hv], ?_, ?_⟩
        · intro _
          exact ⟨a, nd, rfl, by simp [Tree.addrs], hnd, hv⟩
        · intro hnot
          exact absurd (by simp [Tree.toList, hv]) hnot
      · by_cases hlt : v < nd.data
        · obtain ⟨it, hit, hin, hout⟩ := ih nd.pLeft l hl hsl
          refine ⟨it, by simp [hv, hlt, hit], ?_, ?_⟩
          · intro hmem
            simp only [Tree.toList, List.mem_append, List.mem_cons] at hmem
            have hvl : v ∈ l.toList := by
              rcases hmem with hm | hm | hm
              · exact hm
              · exact absurd hm.symm hv
              · exact absurd (hdr v hm) (not_le.mpr hlt)
            obtain ⟨b, nb, rfl, hb, hcb, hdb⟩ := hin hvl
            exact ⟨b, nb, rfl, by simp [Tree.addrs, hb], hcb, hdb⟩
          · intro hnot
            apply hout
            intro hm
            exact hnot (by simp [Tree.toList, hm])
        · obtain ⟨it, hit, hin, hout⟩ := ih nd.pRight r hr hsr
          have hgt : nd.data < v := lt_of_le_of_ne (not_lt.mp hlt) hv
          refine ⟨it, by simp [hv, hlt, hit], ?_, ?_⟩
          · intro hmem
            simp only [Tree.toList, List.mem_append, List.mem_cons] at hmem
            have hvr : v ∈ r.toList := by
              rcases hmem with hm | hm | hm
              · exact absurd ((hld v hm).1) (not_le.mpr hgt)
              · exact absurd hm.symm hv
              · exact hm
            obtain ⟨b, nb, rfl, hb, hcb, hdb⟩ := hin hvr
            exact ⟨b, nb, rfl, by simp [Tree.addrs, hb], hcb, hdb⟩
          · intro hnot
            apply hout
            intro hm
            exact hnot (by simp [Tree.toList, hm])

/-- C9: in a heap where the nodes below `root` (read by child links to depth `n`) form the
tree `s` with a non-decreasing in-order sequence, `find(v)` returns (within the budget
`n`) an iterator to a node of the tree whose value equals `v` when `v` occurs in the
tree, and `end()` otherwise.  The empty tree is the case `root = nullptr`, where the
in-order sequence is empty and the result is `end()` for every `v`. -/
theorem C9_find_returns_node_with_value_or_end (n : Nat) (h : Heap T) (tree : BST)
    (s : Tree T) (v : T) (hs : snapshot n h tree.root = .ok s)
    (hsorted : s.toList.Sorted (· ≤ ·)) :
    ∃ it, BST.find n h tree v = .ok it ∧
      (v ∈ s.toList →
        ∃ a nd, it = some a ∧ a ∈ s.addrs ∧ h.cell a = some nd ∧ nd.data = v) ∧
      (v ∉ s.toList → it = BST.endIt) :=
  findLoop_correct h v n tree.root s hs hsorted

end Find

section RootBlack

variable {T : Type}

theorem cell_modify_cases {h h' : Heap T} {p : Ptr} {f : BNode T → BNode T}
    (hm : modify h p f = .ok h') {b : Nat} {nd' : BNode T} (hb : h'.cell b = some nd') :
    (p ≠ some b ∧ h.cell b = some nd') ∨
      (p = some b ∧ ∃ nd, h.cell b = some nd ∧ nd' = f nd) := by
  rw [cell_modify hm b] at hb
  by_cases hp : p = some b
  · right
    simp only [hp, if_true, Option.map_eq_some'] at hb
    obtain ⟨nd, hnd, rfl⟩ := hb
    exact ⟨hp, nd, hnd, rfl⟩
  · left
    simp only [hp, if_false] at hb
    exact ⟨hp, hb⟩

theorem Heap.Benign.refl (h : Heap T) : h.Benign h :=
  fun _ nd' hb => ⟨nd', hb, rfl, Or.inl rfl⟩

theorem Heap.Benign.trans {h₁ h₂ h₃ : Heap T} (h12 : h₁.Benign h₂) (h23 : h₂.Benign h₃) :
    h₁.Benign h₃ := by
  intro b nd3 hb
  obtain ⟨nd2, h2, hc2, hp2⟩ := h23 b nd3 hb
  obtain ⟨nd1, h1, hc1, hp1⟩ := h12 b nd2 h2
  refine ⟨nd1, h1, hc2.trans hc1, ?_⟩
  rcases hp2 with hp2 | hp2
  · rcases hp1 with hp1 | hp1
    · exact Or.inl (hp2.trans hp1)
    · exact Or.inr (hp2 ▸ hp1)
  · exact Or.inr hp2

theorem benign_modify {h h' : Heap T} {p : Ptr} {f : BNode T → BNode T}
    (hm : modify h p f = .ok h')
    (hf : ∀ nd, (f nd).isRed = nd.isRed ∧ ((f nd).pParent = nd.pParent ∨ (f nd).pParent ≠ none)) :
    h.Benign h' := by
  intro b nd' hb
  rcases cell_modify_cases hm hb with ⟨_, hb0⟩ | ⟨_, nd, hb0, rfl⟩
  · exact ⟨nd', hb0, rfl, Or.inl rfl⟩
  · exact ⟨nd, hb0, (hf nd).1, (hf nd).2⟩

theorem benign_setLeft {h h' : Heap T} {p x : Ptr} (hm : setLeft h p x = .ok h') :
    h.Benign h' :=
  benign_modify hm (fun _ => ⟨rfl, Or.inl rfl⟩)

theorem benign_setRight {h h' : Heap T} {p x : Ptr} (hm : setRight h p x = .ok h') :
    h.Benign h' :=
  benign_modify hm (fun _ => ⟨rfl, Or.inl rfl⟩)

theorem benign_setParent {h h' : Heap T} {p : Ptr} {x : Nat}
    (hm : setParent h p (some x) = .ok h') : h.Benign h' :=
  benign_modify hm (fun _ => ⟨rfl, Or.inr (by simp)⟩)

theorem modify_ptr_some {h h' : Heap T} {p : Ptr} {f : BNode T → BNode T}
    (hm : modify h p f = .ok h') : ∃ a, p = some a := by
  obtain ⟨a, _, rfl, _, _⟩ := modify_eq_ok.mp hm
  exact ⟨a, rfl⟩

theorem benign_addLeft {h h' : Heap T} {this x : Ptr} (hm : BNode.addLeft h this x = .ok h') :
    h.Benign h' := by
  simp only [BNode.addLeft, bind_eq_ok] at hm
  obtain ⟨h1, hh1, hm⟩ := hm
  obtain ⟨a, rfl⟩ := modify_ptr_some hh1
  by_cases hx : x = none
  · simp only [hx, ne_eq, not_true_eq_false, if_false, pure_eq_ok, Except.ok.injEq] at hm
    subst hm
    exact benign_setLeft hh1
  · simp only [ne_eq, hx, not_false_eq_true, if_true, bind_eq_ok] at hm
    obtain ⟨self, _, hm⟩ := hm
    exact (benign_setLeft hh1).trans (benign_setParent hm)

theorem benign_addRight {h h' : Heap T} {this x : Ptr}
    (hm : BNode.addRight h this x = .ok h') : h.Benign h' := by
  simp only [BNode.addRight, bind_eq_ok] at hm
  obtain ⟨h1, hh1, hm⟩ := hm
  obtain ⟨a, rfl⟩ := modify_ptr_some hh1
  by_cases hx : x = none
  · simp only [hx, ne_eq, not_true_eq_false, if_false, pure_eq_ok, Except.ok.injEq] at hm
    subst hm
    exact benign_setRight hh1
  · simp only [ne_eq, hx, not_false_eq_true, if_true, bind_eq_ok] at hm
    obtain ⟨self, _, hm⟩ := hm
    exact (benign_setRight hh1).trans (benign_setParent hm)

theorem Heap.all_iff_allBut_none {Q : BNode T → Prop} {h : Heap T} :
    h.All Q ↔ h.AllBut Q none :=
  ⟨fun hall a nd hc _ => hall a nd hc, fun hall a nd hc => hall a nd hc (by simp)⟩

theorem Heap.All.weaken {Q : BNode T → Prop} {h : Heap T} (hall : h.All Q) (x : Ptr) :
    h.AllBut Q x :=
  fun a nd hc _ => hall a nd hc

theorem Heap.Benign.allBut {h h' : Heap T} (hb : h.Benign h') {x : Ptr}
    (hall : h.AllBut BNode.TopBlack x) : h'.AllBut BNode.TopBlack x := by
  intro b nd' hc hx htop
  obtain ⟨nd, hnd, hcol, hpar⟩ := hb b nd' hc
  rcases hpar with hpar | hpar
  · rw [hcol]
    exact hall b nd hnd hx (hpar ▸ htop)
  · exact absurd htop hpar

theorem Heap.Benign.all {h h' : Heap T} (hb : h.Benign h')
    (hall : h.All BNode.TopBlack) : h'.All BNode.TopBlack :=
  Heap.all_iff_allBut_none.mpr (hb.allBut (hall.weaken none))

theorem Heap.Benign.hasParent {h h' : Heap T} (hb : h.Benign h') {x : Ptr}
    (hat : h.At BNode.HasParent x) : h'.At BNode.HasParent x := by
  intro b nd' hx hc
  obtain ⟨nd, hnd, _, hpar⟩ := hb b nd' hc
  rcases hpar with hpar | hpar
  · unfold BNode.HasParent
    rw [hpar]
    exact hat b nd hx hnd
  · exact hpar

theorem allBut_modify {Q : BNode T → Prop} {h h' : Heap T} {p x : Ptr}
    {f : BNode T → BNode T} (hm : modify h p f = .ok h') (hall : h.AllBut Q x)
    (hf : ∀ a nd, p = some a → x ≠ some a → h.cell a = some nd → Q nd → Q (f nd)) :
    h'.AllBut Q x := by
  intro b nd' hc hx
  rcases cell_modify_cases hm hc with ⟨_, hb0⟩ | ⟨hp, nd, hb0, rfl⟩
  · exact hall b nd' hb0 hx
  · exact hf b nd hp hx hb0 (hall b nd hb0 hx)

theorem all_modify {Q : BNode T → Prop} {h h' : Heap T} {p : Ptr}
    {f : BNode T → BNode T} (hm : modify h p f = .ok h') (hall : h.AllBut Q p)
    (hf : ∀ nd, Q (f nd)) : h'.All Q := by
  intro b nd' hc
  rcases cell_modify_cases hm hc with ⟨hp, hb0⟩ | ⟨_, nd, _, rfl⟩
  · exact hall b nd' hb0 hp
  · exact hf nd

theorem at_modify {Q : BNode T → Prop} {h h' : Heap T} {p x : Ptr}
    {f : BNode T → BNode T} (hm : modify h p f = .ok h') (hat : h.At Q x)
    (hf : ∀ nd, Q nd → Q (f nd)) : h'.At Q x := by
  intro b nd' hx hc
  rcases cell_modify_cases hm hc with ⟨_, hb0⟩ | ⟨_, nd, hb0, rfl⟩
  · exact hat b nd' hx hb0
  · exact hf nd (hat b nd hx hb0)

theorem at_modify_self {Q : BNode T → Prop} {h h' : Heap T} {p : Ptr}
    {f : BNode T → BNode T} (hm : modify h p f = .ok h') (hf : ∀ nd, Q (f nd)) :
    h'.At Q p := by
  intro b nd' hx hc
  rcases cell_modify_cases hm hc with ⟨hp, _⟩ | ⟨_, nd, _, rfl⟩
  · exact absurd hx hp
  · exact hf nd

theorem memberParent_modify {h h' : Heap T} {p : Ptr} {f : BNode T → BNode T}
    (hm : modify h p f = .ok h') (hf : ∀ nd, (f nd).pParent = nd.pParent) (x : Ptr) :
    memberParent h' x = memberParent h x := by
  cases x with
  | none => rfl
  | some b =>
    simp only [memberParent, load, cell_modify hm b]
    by_cases hp : p = some b
    · simp only [hp, if_true]
      cases h.cell b with
      | none => rfl
      | some nd => simp [hf]
    · simp only [hp, if_false]

/-- `addRight` without the second read of `pRight`. -/
theorem addRight_eq_ok {h h' : Heap T} {this x : Ptr} :
    BNode.addRight h this x = .ok h' ↔
      ∃ h1, setRight h this x = .ok h1 ∧
        (if x = none then h' = h1 else setParent h1 x this = .ok h') := by
  simp only [BNode.addRight, bind_eq_ok]
  constructor
  · rintro ⟨h1, hh1, hm⟩
    refine ⟨h1, hh1, ?_⟩
    by_cases hx : x = none
    · simp only [hx, ne_eq, not_true_eq_false, if_false, pure_eq_ok, Except.ok.injEq] at hm
      simp [hx, hm]
    · simp only [ne_eq, hx, not_false_eq_true, if_true, bind_eq_ok, if_false] at hm ⊢
      obtain ⟨self, hself, hm⟩ := hm
      obtain ⟨a, n, rfl, hc, rfl⟩ := modify_eq_ok.mp hh1
      rw [load_eq_ok] at hself
      obtain ⟨a', ha', hself⟩ := hself
      cases ha'
      rw [cell_store] at hself
      simp only [if_true, cell_lt_length hc, Option.some.injEq] at hself
      subst hself
      exact hm
  · rintro ⟨h1, hh1, hm⟩
    refine ⟨h1, hh1, ?_⟩
    by_cases hx : x = none
    · simp only [hx, if_true] at hm
      simp [hx, hm]
    · simp only [hx, if_false] at hm
      simp only [ne_eq, hx, not_false_eq_true, if_true, bind_eq_ok]
      obtain ⟨a, n, rfl, hc, rfl⟩ := modify_eq_ok.mp hh1
      have hl : (h.store a { n with pRight := x }).cell a = some { n with pRight := x } := by
        rw [cell_store]; simp [cell_lt_length hc]
      exact ⟨_, load_some hl, hm⟩

/-- `addLeft` without the second read of `pLeft`. -/
theorem addLeft_eq_ok {h h' : Heap T} {this x : Ptr} :
    BNode.addLeft h this x = .ok h' ↔
      ∃ h1, setLeft h this x = .ok h1 ∧
        (if x = none then h' = h1 else setParent h1 x this = .ok h') := by
  simp only [BNode.addLeft, bind_eq_ok]
  constructor
  · rintro ⟨h1, hh1, hm⟩
    refine ⟨h1, hh1, ?_⟩
    by_cases hx : x = none
    · simp only [hx, ne_eq, not_true_eq_false, if_false, pure_eq_ok, Except.ok.injEq] at hm
      simp [hx, hm]
    · simp only [ne_eq, hx, not_false_eq_true, if_true, bind_eq_ok, if_false] at hm ⊢
      obtain ⟨self, hself, hm⟩ := hm
      obtain ⟨a, n, rfl, hc, rfl⟩ := modify_eq_ok.mp hh1
      rw [load_eq_ok] at hself
      obtain ⟨a', ha', hself⟩ := hself
      cases ha'
      rw [cell_store] at hself
      simp only [if_true, cell_lt_length hc, Option.some.injEq] at hself
      subst hself
      exact hm
  · rintro ⟨h1, hh1, hm⟩
    refine ⟨h1, hh1, ?_⟩
    by_cases hx : x = none
    · simp only [hx, if_true] at hm
      simp [hx, hm]
    · simp only [hx, if_false] at hm
      simp only [ne_eq, hx, not_false_eq_true, if_true, bind_eq_ok]
      obtain ⟨a, n, rfl, hc, rfl⟩ := modify_eq_ok.mp hh1
      have hl : (h.store a { n with pLeft := x }).cell a = some { n with pLeft := x } := by
        rw [cell_store]; simp [cell_lt_length hc]
      exact ⟨_, load_some hl, hm⟩

theorem addRight_hasParent {h h' : Heap T} {this : Ptr} {g : Nat}
    (hm : BNode.addRight h this (some g) = .ok h') : h'.At BNode.HasParent (some g) := by
  obtain ⟨h1, hh1, hm⟩ := addRight_eq_ok.mp hm
  obtain ⟨a, rfl⟩ := modify_ptr_some hh1
  simp only [reduceCtorEq, if_false] at hm
  exact at_modify_self hm (fun nd => by simp [BNode.HasParent])

theorem addLeft_hasParent {h h' : Heap T} {this : Ptr} {g : Nat}
    (hm : BNode.addLeft h this (some g) = .ok h') : h'.At BNode.HasParent (some g) := by
  obtain ⟨h1, hh1, hm⟩ := addLeft_eq_ok.mp hm
  obtain ⟨a, rfl⟩ := modify_ptr_some hh1
  simp only [reduceCtorEq, if_false] at hm
  exact at_modify_self hm (fun nd => by simp [BNode.HasParent])

end RootBlack

section RootBlackBodies

variable {T : Type}

theorem relinkHead_topBlack {h h' : Heap T} {this pGranny pHead : Ptr}
    (hm : relinkHead h this pGranny pHead = .ok h') (hall : h.All BNode.TopBlack)
    (hblk : ∀ P, memberParent h this = .ok P → h.At BNode.Black P) :
    h'.All BNode.TopBlack := by
  simp only [relinkHead, bind_eq_ok] at hm
  obtain ⟨P, hP, h1, hh1, hm⟩ := hm
  have a1 : h1.All BNode.TopBlack :=
    Heap.all_iff_allBut_none.mpr (allBut_modify hh1 (hall.weaken none)
      (fun a nd ha _ hc _ _ => hblk P hP a nd ha hc))
  by_cases hhead : pHead = none
  · simp only [hhead, ne_eq, not_true_eq_false, if_false, pure_eq_ok, Except.ok.injEq] at hm
    subst hm
    exact a1
  · simp only [ne_eq, hhead, not_false_eq_true, if_true, bind_eq_ok] at hm
    obtain ⟨P', _, c, _, hm⟩ := hm
    cases c with
    | true => exact (benign_setRight hm).all a1
    | false => exact (benign_setLeft hm).all a1

theorem relinkAbove_topBlack {h h' : Heap T} {this pGranny : Ptr}
    (hm : relinkAbove h this pGranny = .ok h') (hall : h.All BNode.TopBlack) :
    h'.AllBut BNode.TopBlack this := by
  simp only [relinkAbove, bind_eq_ok] at hm
  obtain ⟨g, _, hm⟩ := hm
  by_cases hg : g.pParent = none
  · simp only [hg, if_true] at hm
    exact allBut_modify hm (hall.weaken this) (fun a _ ha hx _ _ => absurd ha hx)
  · simp only [hg, if_false, bind_eq_ok] at hm
    obtain ⟨c, _, hm⟩ := hm
    cases c with
    | true => exact (benign_setRight hm).allBut (hall.weaken this)
    | false => exact (benign_setLeft hm).allBut (hall.weaken this)

theorem body4a_topBlack {h h' : Heap T} {this pGranny pSibling pHead : Ptr}
    (hm : body4a h this pGranny pSibling pHead = .ok h') (hall : h.All BNode.TopBlack) :
    h'.All BNode.TopBlack := by
  simp only [body4a, bind_eq_ok] at hm
  obtain ⟨P, _, h1, hh1, h2, hh2, h3, hh3, P', hP', h4, hh4, hm⟩ := hm
  obtain ⟨g, rfl⟩ : ∃ g, pGranny = some g := modify_ptr_some hh3
  have a1 : h1.All BNode.TopBlack := (benign_addRight hh1).all hall
  have p1 : h1.At BNode.HasParent (some g) := addRight_hasParent hh1
  have a2 : h2.All BNode.TopBlack := (benign_addLeft hh2).all a1
  have p2 : h2.At BNode.HasParent (some g) := (benign_addLeft hh2).hasParent p1
  have a3 : h3.All BNode.TopBlack :=
    Heap.all_iff_allBut_none.mpr (allBut_modify hh3 (a2.weaken none)
      (fun a nd ha _ hc _ hpar => absurd hpar (p2 a nd ha hc)))
  have a4 : h4.All BNode.TopBlack :=
    Heap.all_iff_allBut_none.mpr (allBut_modify hh4 (a3.weaken none)
      (fun _ _ _ _ _ _ _ => rfl))
  have b4 : h4.At BNode.Black P' := at_modify_self hh4 (fun _ => rfl)
  refine relinkHead_topBlack hm a4 ?_
  intro P'' hP''
  rw [memberParent_modify hh4 (fun _ => rfl), hP'] at hP''
  cases hP''
  exact b4

theorem body4b_topBlack {h h' : Heap T} {this pGranny pSibling pHead : Ptr}
    (hm : body4b h this pGranny pSibling pHead = .ok h') (hall : h.All BNode.TopBlack) :
    h'.All BNode.TopBlack := by
  simp only [body4b, bind_eq_ok] at hm
  obtain ⟨P, _, h1, hh1, h2, hh2, h3, hh3, P', hP', h4, hh4, hm⟩ := hm
  obtain ⟨g, rfl⟩ : ∃ g, pGranny = some g := modify_ptr_some hh3
  have a1 : h1.All BNode.TopBlack := (benign_addLeft hh1).all hall
  have p1 : h1.At BNode.HasParent (some g) := addLeft_hasParent hh1
  have a2 : h2.All BNode.TopBlack := (benign_addRight hh2).all a1
  have p2 : h2.At BNode.HasParent (some g) := (benign_addRight hh2).hasParent p1
  have a3 : h3.All BNode.TopBlack :=
    Heap.all_iff_allBut_none.mpr (allBut_modify hh3 (a2.weaken none)
      (fun a nd ha _ hc _ hpar => absurd hpar (p2 a nd ha hc)))
  have a4 : h4.All BNode.TopBlack :=
    Heap.all_iff_allBut_none.mpr (allBut_modify hh4 (a3.weaken none)
      (fun _ _ _ _ _ _ _ => rfl))
  have b4 : h4.At BNode.Black P' := at_modify_self hh4 (fun _ => rfl)
  refine relinkHead_topBlack hm a4 ?_
  intro P'' hP''
  rw [memberParent_modify hh4 (fun _ => rfl), hP'] at hP''
  cases hP''
  exact b4

theorem body4c_topBlack {h h' : Heap T} {this pGranny : Ptr}
    (hm : body4c h this pGranny = .ok h') (hall : h.All BNode.TopBlack) :
    h'.All BNode.TopBlack := by
  simp only [body4c, bind_eq_ok] at hm
  obtain ⟨tempParent, _, self, _, h1, hh1, pParent, _, self', _, h2, hh2, h3, hh3,
    h4, hh4, h5, hh5, h6, hh6, hm⟩ := hm
  obtain ⟨g, rfl⟩ : ∃ g, pGranny = some g := modify_ptr_some hh6
  have a2 : h2.All BNode.TopBlack := (benign_addRight hh2).all ((benign_addLeft hh1).all hall)
  have a3 : h3.AllBut BNode.TopBlack this := relinkAbove_topBlack hh3 a2
  have a4 : h4.AllBut BNode.TopBlack this := (benign_addRight hh4).allBut a3
  have p4 : h4.At BNode.HasParent (some g) := addRight_hasParent hh4
  have a5 : h5.AllBut BNode.TopBlack this := (benign_addLeft hh5).allBut a4
  have p5 : h5.At BNode.HasParent (some g) := (benign_addLeft hh5).hasParent p4
  have a6 : h6.AllBut BNode.TopBlack this :=
    allBut_modify hh6 a5 (fun a nd ha _ hc _ hpar => absurd hpar (p5 a nd ha hc))
  exact all_modify hm a6 (fun _ _ => rfl)

theorem body4d_topBlack {h h' : Heap T} {this pGranny : Ptr}
    (hm : body4d h this pGranny = .ok h') (hall : h.All BNode.TopBlack) :
    h'.All BNode.TopBlack := by
  simp only [body4d, bind_eq_ok] at hm
  obtain ⟨tempParent, _, self, _, h1, hh1, pParent, _, self', _, h2, hh2, h3, hh3,
    h4, hh4, h5, hh5, h6, hh6, hm⟩ := hm
  obtain ⟨g, rfl⟩ : ∃ g, pGranny = some g := modify_ptr_some hh6
  have a2 : h2.All BNode.TopBlack := (benign_addLeft hh2).all ((benign_addRight hh1).all hall)
  have a3 : h3.AllBut BNode.TopBlack this := relinkAbove_topBlack hh3 a2
  have a4 : h4.AllBut BNode.TopBlack this := (benign_addLeft hh4).allBut a3
  have p4 : h4.At BNode.HasParent (some g) := addLeft_hasParent hh4
  have a5 : h5.AllBut BNode.TopBlack this := (benign_addRight hh5).allBut a4
  have p5 : h5.At BNode.HasParent (some g) := (benign_addRight hh5).hasParent p4
  have a6 : h6.AllBut BNode.TopBlack this :=
    allBut_modify hh6 a5 (fun a nd ha _ hc _ hpar => absurd hpar (p5 a nd ha hc))
  exact all_modify hm a6 (fun _ _ => rfl)

end RootBlackBodies

section RootBlackMain

variable {T : Type}

theorem balanceRotate_topBlack {again : Heap T → Ptr → Except Fault (Heap T)}
    (hrec : ∀ h x h', again h x = .ok h' → h.AllBut BNode.TopBlack x → h'.All BNode.TopBlack)
    {h h' : Heap T} {this pGranny pSibling pHead : Ptr}
    (hm : balanceRotate again h this pGranny pSibling pHead = .ok h')
    (hall : h.All BNode.TopBlack) : h'.All BNode.TopBlack := by
  simp only [balanceRotate, bind_eq_ok] at hm
  obtain ⟨h1, ⟨c1, _, hh1⟩, h2, ⟨c2, _, hh2⟩, h3, ⟨c3, _, hh3⟩, c4, _, hm⟩ := hm
  have a1 : h1.All BNode.TopBlack := by
    cases c1 with
    | true => exact body4a_topBlack hh1 hall
    | false => cases hh1; exact hall
  have a2 : h2.All BNode.TopBlack := by
    cases c2 with
    | true => exact body4b_topBlack hh2 a1
    | false => cases hh2; exact a1
  have a3 : h3.All BNode.TopBlack := by
    cases c3 with
    | true =>
      simp only [if_true, bind_eq_ok] at hh3
      obtain ⟨k, hk, hh3⟩ := hh3
      exact hrec _ _ _ hh3 ((body4c_topBlack hk a2).weaken this)
    | false => cases hh3; exact a2
  cases c4 with
  | true =>
    simp only [if_true, bind_eq_ok] at hm
    obtain ⟨k, hk, hm⟩ := hm
    exact hrec _ _ _ hm ((body4d_topBlack hk a3).weaken this)
  | false => cases hm; exact a3

theorem balanceRecolor_topBlack {again : Heap T → Ptr → Except Fault (Heap T)}
    (hrec : ∀ h x h', again h x = .ok h' → h.AllBut BNode.TopBlack x → h'.All BNode.TopBlack)
    {h h' : Heap T} {this pGranny pAunt : Ptr}
    (hm : balanceRecolor again h this pGranny pAunt = .ok h')
    (hall : h.All BNode.TopBlack) : h'.All BNode.TopBlack := by
  simp only [balanceRecolor, bind_eq_ok] at hm
  obtain ⟨h1, hh1, P, _, h2, hh2, h3, hh3, hm⟩ := hm
  have a1 : h1.AllBut BNode.TopBlack pGranny :=
    allBut_modify hh1 (hall.weaken pGranny) (fun a _ ha hx _ _ => absurd ha hx)
  have a2 : h2.AllBut BNode.TopBlack pGranny :=
    allBut_modify hh2 a1 (fun _ _ _ _ _ _ _ => rfl)
  have a3 : h3.AllBut BNode.TopBlack pGranny :=
    allBut_modify hh3 a2 (fun _ _ _ _ _ _ _ => rfl)
  exact hrec _ _ _ hm a3

theorem all_of_allBut_hasParent {h : Heap T} {a : Nat} {self : BNode T}
    (hall : h.AllBut BNode.TopBlack (some a)) (hc : h.cell a = some self)
    (hp : self.pParent ≠ none) : h.All BNode.TopBlack := by
  intro b nd hb
  by_cases hab : a = b
  · subst hab
    rw [hc] at hb
    cases hb
    exact fun hpar => absurd hpar hp
  · exact hall b nd hb (by simpa using hab)

/-- `balance` re-establishes "every node without a parent link is black" when it holds
for every node except the one `balance` is called on. -/
theorem balance_topBlack :
    ∀ (fuel : Nat) (h : Heap T) (this : Ptr) (h' : Heap T),
      BNode.balance fuel h this = .ok h' → h.AllBut BNode.TopBlack this →
      h'.All BNode.TopBlack := by
  intro fuel
  induction fuel with
  | zero => intro h this h' hm; cases hm
  | succ n ih =>
    intro h this h' hm hall
    simp only [BNode.balance, bind_eq_ok] at hm
    obtain ⟨self, hself, hm⟩ := hm
    obtain ⟨a, rfl, hca⟩ := load_eq_ok.mp hself
    by_cases hpar : self.pParent = none
    · simp only [hpar, if_true] at hm
      exact all_modify hm hall (fun _ _ => rfl)
    · have hall' : h.All BNode.TopBlack := all_of_allBut_hasParent hall hca hpar
      simp only [hpar, if_false, bind_eq_ok] at hm
      obtain ⟨mom, _, hm⟩ := hm
      by_cases hmr : mom.isRed = true
      · simp only [hmr, Bool.not_true, Bool.false_eq_true, if_false, bind_eq_ok] at hm
        obtain ⟨gran, _, c3, _, hm⟩ := hm
        cases c3 with
        | true =>
          simp only [if_true] at hm
          exact balanceRecolor_topBlack ih hm hall'
        | false =>
          simp only [Bool.false_eq_true, if_false, bind_eq_ok] at hm
          obtain ⟨ar, _, hm⟩ := hm
          cases ar with
          | true =>
            simp only [Bool.not_true, Bool.false_eq_true, if_false, pure_eq_ok,
              Except.ok.injEq] at hm
            subst hm
            exact hall'
          | false =>
            simp only [Bool.not_false, if_true] at hm
            exact balanceRotate_topBlack ih hm hall'
      · simp only [Bool.not_eq_true] at hmr
        simp only [hmr, Bool.not_false, if_true, pure_eq_ok, Except.ok.injEq] at hm
        subst hm
        exact hall'

end RootBlackMain

section RootBlackInsert

variable {T : Type}

theorem cell_newNode (h : Heap T) (t : T) (b : Nat) :
    (newNode h t).2.cell b =
      if b = h.length then
        some { data := t, pLeft := none, pRight := none, pParent := none, isRed := true }
      else h.cell b := by
  simp only [newNode, Heap.cell]
  by_cases hb : b = h.length
  · subst hb
    simp
  · simp only [hb, if_false]
    rcases Nat.lt_or_gt_of_ne hb with hlt | hgt
    · rw [List.getElem?_append_left hlt]
    · have h1 : (h ++ [some (⟨t, none, none, none, true⟩ : BNode T)])[b]? = none :=
        List.getElem?_eq_none (by simp; omega)
      have h2 : h[b]? = none := List.getElem?_eq_none (by omega)
      rw [h1, h2]

theorem findRoot_ok {h : Heap T} :
    ∀ (fuel : Nat) (root r : Ptr), BST.findRoot fuel h root = .ok r →
      ∃ a nd, r = some a ∧ h.cell a = some nd ∧ nd.pParent = none := by
  intro fuel
  induction fuel with
  | zero => intro root r hm; cases hm
  | succ n ih =>
    intro root r hm
    simp only [BST.findRoot, bind_eq_ok] at hm
    obtain ⟨nd, hnd, hm⟩ := hm
    by_cases hp : nd.pParent = none
    · simp only [hp, ne_eq, not_true_eq_false, if_false, pure_eq_ok, Except.ok.injEq] at hm
      subst hm
      obtain ⟨a, rfl, hc⟩ := load_eq_ok.mp hnd
      exact ⟨a, nd, rfl, hc, hp⟩
    · simp only [ne_eq, hp, not_false_eq_true, if_true] at hm
      exact ih _ _ hm

theorem placeNew_allBut {h h' : Heap T} {root root' pNew pParent : Ptr} {putLeft : Bool}
    (hm : BST.placeNew h root pNew pParent putLeft = .ok (h', root'))
    (hall : h.AllBut BNode.TopBlack pNew) : h'.AllBut BNode.TopBlack pNew := by
  unfold BST.placeNew at hm
  by_cases hp : pParent = none
  · simp only [hp, ne_eq, not_true_eq_false, if_false, pure_eq_ok, Except.ok.injEq,
      Prod.mk.injEq] at hm
    obtain ⟨rfl, -⟩ := hm
    exact hall
  · cases putLeft with
    | true =>
      simp only [ne_eq, hp, not_false_eq_true, if_true, bind_eq_ok, pure_eq_ok,
        Except.ok.injEq, Prod.mk.injEq] at hm
      obtain ⟨h1, hh1, h2, hh2, rfl, -⟩ := hm
      exact (benign_setLeft hh2).allBut
        (allBut_modify hh1 hall (fun a _ ha hx _ _ => absurd ha hx))
    | false =>
      simp only [ne_eq, hp, not_false_eq_true, if_true, Bool.false_eq_true, if_false,
        bind_eq_ok, pure_eq_ok, Except.ok.injEq, Prod.mk.injEq] at hm
      obtain ⟨h1, hh1, h2, hh2, rfl, -⟩ := hm
      exact (benign_setRight hh2).allBut
        (allBut_modify hh1 hall (fun a _ ha hx _ _ => absurd ha hx))

variable [LinearOrder T]

theorem insertDescend_dup {h : Heap T} {t : T} {ku : Bool} :
    ∀ (fuel : Nat) (pp p : Ptr) (pl : Bool) (d : Nat),
      BST.insertDescend fuel h t ku pp p pl = .ok (.dup d) → p ≠ none := by
  intro fuel pp p pl d hm
  cases p with
  | none => cases fuel <;> cases hm
  | some a => simp

/-- One call of `insert` keeps "every node without a parent link is black"; when it
returns, `root` refers to a live node without parent link (for the early return at a
duplicate: provided it did before). -/
theorem insert_topBlack {fuel : Nat} {h h' : Heap T} {tree tree' : BST} {t : T}
    {ku : Bool} {it : Ptr} {flag : Bool}
    (hm : BST.insert fuel h tree t ku = .ok (h', tree', it, flag))
    (hall : h.All BNode.TopBlack)
    (hroot : tree.root = none ∨
      ∃ a nd, tree.root = some a ∧ h.cell a = some nd ∧ nd.pParent = none) :
    h'.All BNode.TopBlack ∧
      ∃ a nd, tree'.root = some a ∧ h'.cell a = some nd ∧ nd.pParent = none := by
  simp only [BST.insert, bind_eq_ok] at hm
  obtain ⟨d, hd, hm⟩ := hm
  cases d with
  | dup p =>
    simp only [pure_eq_ok, Except.ok.injEq, Prod.mk.injEq] at hm
    obtain ⟨rfl, rfl, -, -⟩ := hm
    refine ⟨hall, ?_⟩
    rcases hroot with hr | hr
    · exact absurd hr (insertDescend_dup fuel _ _ _ _ hd)
    · exact hr
  | slot pParent putLeft =>
    simp only [bind_eq_ok, pure_eq_ok, Except.ok.injEq, Prod.mk.injEq] at hm
    obtain ⟨⟨h2, root⟩, hplace, h3, hbal, r, hr, rfl, rfl, -, -⟩ := hm
    have a1 : (newNode h t).2.AllBut BNode.TopBlack (some (newNode h t).1) := by
      intro b nd hc hx
      rw [cell_newNode] at hc
      by_cases hb : b = h.length
      · exact absurd (by simp [newNode, hb]) hx
      · simp only [hb, if_false] at hc
        exact hall b nd hc
    have a2 : h2.AllBut BNode.TopBlack (some (newNode h t).1) := placeNew_allBut hplace a1
    have a3 : h3.All BNode.TopBlack := balance_topBlack fuel _ _ _ hbal a2
    exact ⟨a3, findRoot_ok fuel _ _ hr⟩

end RootBlackInsert

section RootBlackClaim

variable {T : Type} [LinearOrder T]

theorem insertCalls_topBlack (fuel : Nat) :
    ∀ (calls : List (T × Bool)) (h₀ : Heap T) (t₀ : BST) (h : Heap T) (tree : BST),
      BST.insertCalls fuel calls (h₀, t₀) = .ok (h, tree) →
      h₀.All BNode.TopBlack →
      (t₀.root = none ∨ ∃ a nd, t₀.root = some a ∧ h₀.cell a = some nd ∧ nd.pParent = none) →
      h.All BNode.TopBlack ∧
        (calls ≠ [] → ∃ a nd, tree.root = some a ∧ h.cell a = some nd ∧ nd.pParent = none) := by
  intro calls
  induction calls with
  | nil =>
    intro h₀ t₀ h tree hrun hall _
    simp only [BST.insertCalls, pure_eq_ok, Except.ok.injEq, Prod.mk.injEq] at hrun
    obtain ⟨rfl, rfl⟩ := hrun
    exact ⟨hall, fun hne => absurd rfl hne⟩
  | cons c cs ih =>
    intro h₀ t₀ h tree hrun hall hroot
    simp only [BST.insertCalls, bind_eq_ok] at hrun
    obtain ⟨⟨h1, t1, it, flag⟩, hins, hrun⟩ := hrun
    obtain ⟨a1, r1⟩ := insert_topBlack hins hall hroot
    obtain ⟨a2, r2⟩ := ih h1 t1 h tree hrun a1 (Or.inr r1)
    refine ⟨a2, fun _ => ?_⟩
    cases cs with
    | nil =>
      simp only [BST.insertCalls, pure_eq_ok, Except.ok.injEq, Prod.mk.injEq] at hrun
      obtain ⟨rfl, rfl⟩ := hrun
      exact r1
    | cons c' cs' => exact r2 (by simp)

end RootBlackClaim

section Witnesses

theorem C9_find_returns_node_with_value_or_end_witness :
    snapshot 4 heapC2 (⟨some 1, 6⟩ : BST).root = .ok treeC2 ∧
      treeC2.toList.Sorted (· ≤ ·) ∧
      ∃ it, BST.find 4 heapC2 ⟨some 1, 6⟩ 5 = .ok it ∧
        (5 ∈ treeC2.toList →
          ∃ a nd, it = some a ∧ a ∈ treeC2.addrs ∧ heapC2.cell a = some nd ∧ nd.data = 5) ∧
        (5 ∉ treeC2.toList → it = BST.endIt) :=
  ⟨rfl, by decide,
    C9_find_returns_node_with_value_or_end 4 heapC2 ⟨some 1, 6⟩ treeC2 5 rfl (by decide)⟩

end Witnesses

section RotationExec

variable {T : Type}

set_option maxHeartbeats 4000000 in
/-- Case 4a of `balance` on a well-formed neighbourhood: the nodes after the rotation. -/
theorem exec4a {again : Heap T → Ptr → Except Fault (Heap T)} {h : Heap T} {a p g : Nat}
    {v vp vg : T} {lp rp sp up hdp : Ptr} {c : Bool}
    (ca : h.cell a = some ⟨v, lp, rp, some p, c⟩)
    (cp : h.cell p = some ⟨vp, some a, sp, some g, true⟩)
    (cg : h.cell g = some ⟨vg, some p, up, hdp, false⟩)
    (hap : a ≠ p) (hag : a ≠ g) (hpg : p ≠ g)
    (hhd : h.Free hdp [a, p, g])
    (hsp : h.Free sp [a, p, g]) (hsh : sp = none ∨ sp ≠ hdp) :
    ∃ h', balanceRotate again h (some a) (some g) sp hdp = .ok h' ∧
      h'.cell a = some ⟨v, lp, rp, some p, c⟩ ∧
      h'.cell p = some ⟨vp, some a, some g, hdp, false⟩ ∧
      h'.cell g = some ⟨vg, sp, up, some p, true⟩ ∧
      HeadCell h h' hdp g p ∧ RestSame h h' [a, p, g] hdp [sp] := by
  have la := cell_lt_length ca
  have lp' := cell_lt_length cp
  have lg := cell_lt_length cg
  have hpa := hap.symm
  have hga := hag.symm
  have hgp := hpg.symm
  rcases sp with _ | s <;> rcases hdp with _ | hd
  · clear hhd hsp hsh
    simp only [balanceRotate, cond4a, cond4b, cond4c, cond4d, body4a, body4b, body4c,
      body4d, relinkAbove, relinkHead, memberParent, load, modify, BNode.isLeftChild,
      BNode.isRightChild, BNode.addLeft, BNode.addRight, setLeft, setRight, setParent, setRed,
      pure_eq_ok, bind_ok, bind_error, bind_assoc, decide_eq_true_eq, decide_True,
      decide_False, ↓reduceIte, ne_eq, reduceCtorEq, not_false_eq_true, not_true_eq_false,
      Bool.not_eq_eq_eq_not, Bool.not_true, Bool.not_false, Option.some.injEq,
      Bool.false_eq_true, Bool.true_eq_false, ite_self, Except.ok.injEq, exists_eq_left',
      Option.map_some', Option.map_none', true_and, and_true, and_self, cell_store,
      length_store, *]
    refine ⟨?_, ?_⟩
    · exact fun hd' nd e => absurd e (by simp)
    · intro b hb hbh
      simp only [List.mem_cons, List.mem_singleton, List.not_mem_nil, or_false, not_or] at hb
      obtain ⟨h1, h2, h3⟩ := hb
      have h1' := Ne.symm h1
      have h2' := Ne.symm h2
      have h3' := Ne.symm h3
      refine ⟨?_, fun hbm => ?_⟩
      · simp only [Heap.kids, pure_eq_ok, bind_ok, bind_error, bind_assoc, decide_eq_true_eq, decide_True, decide_False, ↓reduceIte, ne_eq, reduceCtorEq, not_false_eq_true, not_true_eq_false, Bool.not_eq_eq_eq_not, Bool.not_true, Bool.not_false, Option.some.injEq, Bool.false_eq_true, Bool.true_eq_false, ite_self, Except.ok.injEq, exists_eq_left', Option.map_some', Option.map_none', true_and, and_true, and_self, cell_store, length_store, *]
      · simp only [List.mem_cons, List.mem_singleton, List.not_mem_nil, or_false, not_or] at hbm
        simp only [Heap.kids, pure_eq_ok, bind_ok, bind_error, bind_assoc, decide_eq_true_eq, decide_True, decide_False, ↓reduceIte, ne_eq, reduceCtorEq, not_false_eq_true, not_true_eq_false, Bool.not_eq_eq_eq_not, Bool.not_true, Bool.not_false, Option.some.injEq, Bool.false_eq_true, Bool.true_eq_false, ite_self, Except.ok.injEq, exists_eq_left', Option.map_some', Option.map_none', true_and, and_true, and_self, cell_store, length_store, *]
  · obtain ⟨⟨⟨vh, hl, hr, hpar, hc⟩, ch⟩, hn⟩ := hhd hd rfl
    simp only [List.mem_cons, List.mem_singleton, List.not_mem_nil, or_false, not_or] at hn
    obtain ⟨dha, dhp, dhg⟩ := hn
    have lh := cell_lt_length ch
    have dha' := Ne.symm dha
    have dhp' := Ne.symm dhp
    have dhg' := Ne.symm dhg
    clear hhd hsp hsh
    by_cases hrg : hr = some g
    · simp only [balanceRotate, cond4a, cond4b, cond4c, cond4d, body4a, body4b, body4c,
        body4d, relinkAbove, relinkHead, memberParent, load, modify, BNode.isLeftChild,
        BNode.isRightChild, BNode.addLeft, BNode.addRight, setLeft, setRight, setParent, setRed,
        pure_eq_ok, bind_ok, bind_error, bind_assoc, decide_eq_true_eq, decide_True,
        decide_False, ↓reduceIte, ne_eq, reduceCtorEq, not_false_eq_true, not_true_eq_false,
        Bool.not_eq_eq_eq_not, Bool.not_true, Bool.not_false, Option.some.injEq,
        Bool.false_eq_true, Bool.true_eq_false, ite_self, Except.ok.injEq, exists_eq_left',
        Option.map_some', Option.map_none', true_and, and_true, and_self, cell_store,
        length_store, *]
      refine ⟨?_, ?_⟩
      · intro hd' nd e hc'
        cases e
        rw [ch] at hc'
        cases hc'
        simp only [Heap.kids, pure_eq_ok, bind_ok, bind_error, bind_assoc, decide_eq_true_eq, decide_True, decide_False, ↓reduceIte, ne_eq, reduceCtorEq, not_false_eq_true, not_true_eq_false, Bool.not_eq_eq_eq_not, Bool.not_true, Bool.not_false, Option.some.injEq, Bool.false_eq_true, Bool.true_eq_false, ite_self, Except.ok.injEq, exists_eq_left', Option.map_some', Option.map_none', true_and, and_true, and_self, cell_store, length_store, *]
      · intro b hb hbh
        simp only [List.mem_cons, List.mem_singleton, List.not_mem_nil, or_false, not_or] at hb
        obtain ⟨h1, h2, h3⟩ := hb
        have h1' := Ne.symm h1
        have h2' := Ne.symm h2
        have h3' := Ne.symm h3
        have h4 : hd ≠ b := by simpa using hbh
        refine ⟨?_, fun hbm => ?_⟩
        · simp only [Heap.kids, pure_eq_ok, bind_ok, bind_error, bind_assoc, decide_eq_true_eq, decide_True, decide_False, ↓reduceIte, ne_eq, reduceCtorEq, not_false_eq_true, not_true_eq_false, Bool.not_eq_eq_eq_not, Bool.not_true, Bool.not_false, Option.some.injEq, Bool.false_eq_true, Bool.true_eq_false, ite_self, Except.ok.injEq, exists_eq_left', Option.map_some', Option.map_none', true_and, and_true, and_self, cell_store, length_store, *]
        · simp only [List.mem_cons, List.mem_singleton, List.not_mem_nil, or_false, not_or] at hbm
          simp only [Heap.kids, pure_eq_ok, bind_ok, bind_error, bind_assoc, decide_eq_true_eq, decide_True, decide_False, ↓reduceIte, ne_eq, reduceCtorEq, not_false_eq_true, not_true_eq_false, Bool.not_eq_eq_eq_not, Bool.not_true, Bool.not_false, Option.some.injEq, Bool.false_eq_true, Bool.true_eq_false, ite_self, Except.ok.injEq, exists_eq_left', Option.map_some', Option.map_none', true_and, and_true, and_self, cell_store, length_store, *]
    · simp only [balanceRotate, cond4a, cond4b, cond4c, cond4d, body4a, body4b, body4c,
        body4d, relinkAbove, relinkHead, memberParent, load, modify, BNode.isLeftChild,
        BNode.isRightChild, BNode.addLeft, BNode.addRight, setLeft, setRight, setParent, setRed,
        pure_eq_ok, bind_ok, bind_error, bind_assoc, decide_eq_true_eq, decide_True,
        decide_False, ↓reduceIte, ne_eq, reduceCtorEq, not_false_eq_true, not_true_eq_false,
        Bool.not_eq_eq_eq_not, Bool.not_true, Bool.not_false, Option.some.injEq,
        Bool.false_eq_true, Bool.true_eq_false, ite_self, Except.ok.injEq, exists_eq_left',
        Option.map_some', Option.map_none', true_and, and_true, and_self, cell_store,
        length_store, *]
      refine ⟨?_, ?_⟩
      · intro hd' nd e hc'
        cases e
        rw [ch] at hc'
        cases hc'
        simp only [Heap.kids, pure_eq_ok, bind_ok, bind_error, bind_assoc, decide_eq_true_eq, decide_True, decide_False, ↓reduceIte, ne_eq, reduceCtorEq, not_false_eq_true, not_true_eq_false, Bool.not_eq_eq_eq_not, Bool.not_true, Bool.not_false, Option.some.injEq, Bool.false_eq_true, Bool.true_eq_false, ite_self, Except.ok.injEq, exists_eq_left', Option.map_some', Option.map_none', true_and, and_true, and_self, cell_store, length_store, *]
      · intro b hb hbh
        simp only [List.mem_cons, List.mem_singleton, List.not_mem_nil, or_false, not_or] at hb
        obtain ⟨h1, h2, h3⟩ := hb
        have h1' := Ne.symm h1
        have h2' := Ne.symm h2
        have h3' := Ne.symm h3
        have h4 : hd ≠ b := by simpa using hbh
        refine ⟨?_, fun hbm => ?_⟩
        · simp only [Heap.kids, pure_eq_ok, bind_ok, bind_error, bind_assoc, decide_eq_true_eq, decide_True, decide_False, ↓reduceIte, ne_eq, reduceCtorEq, not_false_eq_true, not_true_eq_false, Bool.not_eq_eq_eq_not, Bool.not_true, Bool.not_false, Option.some.injEq, Bool.false_eq_true, Bool.true_eq_false, ite_self, Except.ok.injEq, exists_eq_left', Option.map_some', Option.map_none', true_and, and_true, and_self, cell_store, length_store, *]
        · simp only [List.mem_cons, List.mem_singleton, List.not_mem_nil, or_false, not_or] at hbm
          simp only [Heap.kids, pure_eq_ok, bind_ok, bind_error, bind_assoc, decide_eq_true_eq, decide_True, decide_False, ↓reduceIte, ne_eq, reduceCtorEq, not_false_eq_true, not_true_eq_false, Bool.not_eq_eq_eq_not, Bool.not_true, Bool.not_false, Option.some.injEq, Bool.false_eq_true, Bool.true_eq_false, ite_self, Except.ok.injEq, exists_eq_left', Option.map_some', Option.map_none', true_and, and_true, and_self, cell_store, length_store, *]
  · obtain ⟨⟨nds, cs⟩, hn⟩ := hsp s rfl
    simp only [List.mem_cons, List.mem_singleton, List.not_mem_nil, or_false, not_or] at hn
    obtain ⟨dsa, dsp, dsg⟩ := hn
    have ls := cell_lt_length cs
    have dsa' := Ne.symm dsa
    have dsp' := Ne.symm dsp
    have dsg' := Ne.symm dsg
    clear hhd hsp hsh
    simp only [balanceRotate, cond4a, cond4b, cond4c, cond4d, body4a, body4b, body4c,
      body4d, relinkAbove, relinkHead, memberParent, load, modify, BNode.isLeftChild,
      BNode.isRightChild, BNode.addLeft, BNode.addRight, setLeft, setRight, setParent, setRed,
      pure_eq_ok, bind_ok, bind_error, bind_assoc, decide_eq_true_eq, decide_True,
      decide_False, ↓reduceIte, ne_eq, reduceCtorEq, not_false_eq_true, not_true_eq_false,
      Bool.not_eq_eq_eq_not, Bool.not_true, Bool.not_false, Option.some.injEq,
      Bool.false_eq_true, Bool.true_eq_false, ite_self, Except.ok.injEq, exists_eq_left',
      Option.map_some', Option.map_none', true_and, and_true, and_self, cell_store,
      length_store, *]
    refine ⟨?_, ?_⟩
    · exact fun hd' nd e => absurd e (by simp)
    · intro b hb hbh
      simp only [List.mem_cons, List.mem_singleton, List.not_mem_nil, or_false, not_or] at hb
      obtain ⟨h1, h2, h3⟩ := hb
      have h1' := Ne.symm h1
      have h2' := Ne.symm h2
      have h3' := Ne.symm h3
      refine ⟨?_, fun hbm => ?_⟩
      · by_cases hbs : s = b
        · subst hbs
          simp only [Heap.kids, pure_eq_ok, bind_ok, bind_error, bind_assoc, decide_eq_true_eq, decide_True, decide_False, ↓reduceIte, ne_eq, reduceCtorEq, not_false_eq_true, not_true_eq_false, Bool.not_eq_eq_eq_not, Bool.not_true, Bool.not_false, Option.some.injEq, Bool.false_eq_true, Bool.true_eq_false, ite_self, Except.ok.injEq, exists_eq_left', Option.map_some', Option.map_none', true_and, and_true, and_self, cell_store, length_store, *]
        · simp only [Heap.kids, pure_eq_ok, bind_ok, bind_error, bind_assoc, decide_eq_true_eq, decide_True, decide_False, ↓reduceIte, ne_eq, reduceCtorEq, not_false_eq_true, not_true_eq_false, Bool.not_eq_eq_eq_not, Bool.not_true, Bool.not_false, Option.some.injEq, Bool.false_eq_true, Bool.true_eq_false, ite_self, Except.ok.injEq, exists_eq_left', Option.map_some', Option.map_none', true_and, and_true, and_self, cell_store, length_store, *]
      · simp only [List.mem_cons, List.mem_singleton, List.not_mem_nil, or_false, not_or] at hbm
        have hms : s ≠ b := by
          intro e
          subst e
          simp at hbm
        simp only [Heap.kids, pure_eq_ok, bind_ok, bind_error, bind_assoc, decide_eq_true_eq, decide_True, decide_False, ↓reduceIte, ne_eq, reduceCtorEq, not_false_eq_true, not_true_eq_false, Bool.not_eq_eq_eq_not, Bool.not_true, Bool.not_false, Option.some.injEq, Bool.false_eq_true, Bool.true_eq_false, ite_self, Except.ok.injEq, exists_eq_left', Option.map_some', Option.map_none', true_and, and_true, and_self, cell_store, length_store, *]
  · obtain ⟨⟨nds, cs⟩, hn⟩ := hsp s rfl
    simp only [List.mem_cons, List.mem_singleton, List.not_mem_nil, or_false, not_or] at hn
    obtain ⟨dsa, dsp, dsg⟩ := hn
    have ls := cell_lt_length cs
    have dsa' := Ne.symm dsa
    have dsp' := Ne.symm dsp
    have dsg' := Ne.symm dsg
    obtain ⟨⟨⟨vh, hl, hr, hpar, hc⟩, ch⟩, hn⟩ := hhd hd rfl
    simp only [List.mem_cons, List.mem_singleton, List.not_mem_nil, or_false, not_or] at hn
    obtain ⟨dha, dhp, dhg⟩ := hn
    have lh := cell_lt_length ch
    have dha' := Ne.symm dha
    have dhp' := Ne.symm dhp
    have dhg' := Ne.symm dhg
    have dsh : s ≠ hd := by simpa using hsh
    have dsh' := Ne.symm dsh
    clear hhd hsp hsh
    by_cases hrg : hr = some g
    · simp only [balanceRotate, cond4a, cond4b, cond4c, cond4d, body4a, body4b, body4c,
        body4d, relinkAbove, relinkHead, memberParent, load, modify, BNode.isLeftChild,
        BNode.isRightChild, BNode.addLeft, BNode.addRight, setLeft, setRight, setParent, setRed,
        pure_eq_ok, bind_ok, bind_error, bind_assoc, decide_eq_true_eq, decide_True,
        decide_False, ↓reduceIte, ne_eq, reduceCtorEq, not_false_eq_true, not_true_eq_false,
        Bool.not_eq_eq_eq_not, Bool.not_true, Bool.not_false, Option.some.injEq,
        Bool.false_eq_true, Bool.true_eq_false, ite_self, Except.ok.injEq, exists_eq_left',
        Option.map_some', Option.map_none', true_and, and_true, and_self, cell_store,
        length_store, *]
      refine ⟨?_, ?_⟩
      · intro hd' nd e hc'
        cases e
        rw [ch] at hc'
        cases hc'
        simp only [Heap.kids, pure_eq_ok, bind_ok, bind_error, bind_assoc, decide_eq_true_eq, decide_True, decide_False, ↓reduceIte, ne_eq, reduceCtorEq, not_false_eq_true, not_true_eq_false, Bool.not_eq_eq_eq_not, Bool.not_true, Bool.not_false, Option.some.injEq, Bool.false_eq_true, Bool.true_eq_false, ite_self, Except.ok.injEq, exists_eq_left', Option.map_some', Option.map_none', true_and, and_true, and_self, cell_store, length_store, *]
      · intro b hb hbh
        simp only [List.mem_cons, List.mem_singleton, List.not_mem_nil, or_false, not_or] at hb
        obtain ⟨h1, h2, h3⟩ := hb
        have h1' := Ne.symm h1
        have h2' := Ne.symm h2
        have h3' := Ne.symm h3
        have h4 : hd ≠ b := by simpa using hbh
        refine ⟨?_, fun hbm => ?_⟩
        · by_cases hbs : s = b
          · subst hbs
            simp only [Heap.kids, pure_eq_ok, bind_ok, bind_error, bind_assoc, decide_eq_true_eq, decide_True, decide_False, ↓reduceIte, ne_eq, reduceCtorEq, not_false_eq_true, not_true_eq_false, Bool.not_eq_eq_eq_not, Bool.not_true, Bool.not_false, Option.some.injEq, Bool.false_eq_true, Bool.true_eq_false, ite_self, Except.ok.injEq, exists_eq_left', Option.map_some', Option.map_none', true_and, and_true, and_self, cell_store, length_store, *]
          · simp only [Heap.kids, pure_eq_ok, bind_ok, bind_error, bind_assoc, decide_eq_true_eq, decide_True, decide_False, ↓reduceIte, ne_eq, reduceCtorEq, not_false_eq_true, not_true_eq_false, Bool.not_eq_eq_eq_not, Bool.not_true, Bool.not_false, Option.some.injEq, Bool.false_eq_true, Bool.true_eq_false, ite_self, Except.ok.injEq, exists_eq_left', Option.map_some', Option.map_none', true_and, and_true, and_self, cell_store, length_store, *]
        · simp only [List.mem_cons, List.mem_singleton, List.not_mem_nil, or_false, not_or] at hbm
          have hms : s ≠ b := by
            intro e
            subst e
            simp at hbm
          simp only [Heap.kids, pure_eq_ok, bind_ok, bind_error, bind_assoc, decide_eq_true_eq, decide_True, decide_False, ↓reduceIte, ne_eq, reduceCtorEq, not_false_eq_true, not_true_eq_false, Bool.not_eq_eq_eq_not, Bool.not_true, Bool.not_false, Option.some.injEq, Bool.false_eq_true, Bool.true_eq_false, ite_self, Except.ok.injEq, exists_eq_left', Option.map_some', Option.map_none', true_and, and_true, and_self, cell_store, length_store, *]
    · simp only [balanceRotate, cond4a, cond4b, cond4c, cond4d, body4a, body4b, body4c,
        body4d, relinkAbove, relinkHead, memberParent, load, modify, BNode.isLeftChild,
        BNode.isRightChild, BNode.addLeft, BNode.addRight, setLeft, setRight, setParent, setRed,
        pure_eq_ok, bind_ok, bind_error, bind_assoc, decide_eq_true_eq, decide_True,
        decide_False, ↓reduceIte, ne_eq, reduceCtorEq, not_false_eq_true, not_true_eq_false,
        Bool.not_eq_eq_eq_not, Bool.not_true, Bool.not_false, Option.some.injEq,
        Bool.false_eq_true, Bool.true_eq_false, ite_self, Except.ok.injEq, exists_eq_left',
        Option.map_some', Option.map_none', true_and, and_true, and_self, cell_store,
        length_store, *]
      refine ⟨?_, ?_⟩
      · intro hd' nd e hc'
        cases e
        rw [ch] at hc'
        cases hc'
        simp only [Heap.kids, pure_eq_ok, bind_ok, bind_error, bind_assoc, decide_eq_true_eq, decide_True, decide_False, ↓reduceIte, ne_eq, reduceCtorEq, not_false_eq_true, not_true_eq_false, Bool.not_eq_eq_eq_not, Bool.not_true, Bool.not_false, Option.some.injEq, Bool.false_eq_true, Bool.true_eq_false, ite_self, Except.ok.injEq, exists_eq_left', Option.map_some', Option.map_none', true_and, and_true, and_self, cell_store, length_store, *]
      · intro b hb hbh
        simp only [List.mem_cons, List.mem_singleton, List.not_mem_nil, or_false, not_or] at hb
        obtain ⟨h1, h2, h3⟩ := hb
        have h1' := Ne.symm h1
        have h2' := Ne.symm h2
        have h3' := Ne.symm h3
        have h4 : hd ≠ b := by simpa using hbh
        refine ⟨?_, fun hbm => ?_⟩
        · by_cases hbs : s = b
          · subst hbs
            simp only [Heap.kids, pure_eq_ok, bind_ok, bind_error, bind_assoc, decide_eq_true_eq, decide_True, decide_False, ↓reduceIte, ne_eq, reduceCtorEq, not_false_eq_true, not_true_eq_false, Bool.not_eq_eq_eq_not, Bool.not_true, Bool.not_false, Option.some.injEq, Bool.false_eq_true, Bool.true_eq_false, ite_self, Except.ok.injEq, exists_eq_left', Option.map_some', Option.map_none', true_and, and_true, and_self, cell_store, length_store, *]
          · simp only [Heap.kids, pure_eq_ok, bind_ok, bind_error, bind_assoc, decide_eq_true_eq, decide_True, decide_False, ↓reduceIte, ne_eq, reduceCtorEq, not_false_eq_true, not_true_eq_false, Bool.not_eq_eq_eq_not, Bool.not_true, Bool.not_false, Option.some.injEq, Bool.false_eq_true, Bool.true_eq_false, ite_self, Except.ok.injEq, exists_eq_left', Option.map_some', Option.map_none', true_and, and_true, and_self, cell_store, length_store, *]
        · simp only [List.mem_cons, List.mem_singleton, List.not_mem_nil, or_false, not_or] at hbm
          have hms : s ≠ b := by
            intro e
            subst e
            simp at hbm
          simp only [Heap.kids, pure_eq_ok, bind_ok, bind_error, bind_assoc, decide_eq_true_eq, decide_True, decide_False, ↓reduceIte, ne_eq, reduceCtorEq, not_false_eq_true, not_true_eq_false, Bool.not_eq_eq_eq_not, Bool.not_true, Bool.not_false, Option.some.injEq, Bool.false_eq_true, Bool.true_eq_false, ite_self, Except.ok.injEq, exists_eq_left', Option.map_some', Option.map_none', true_and, and_true, and_self, cell_store, length_store, *]

set_option maxHeartbeats 4000000 in
/-- Case 4b of `balance` on a well-formed neighbourhood: the nodes after the rotation. -/
theorem exec4b {again : Heap T → Ptr → Except Fault (Heap T)} {h : Heap T} {a p g : Nat}
    {v vp vg : T} {lp rp sp up hdp : Ptr} {c : Bool}
    (ca : h.cell a = some ⟨v, lp, rp, some p, c⟩)
    (cp : h.cell p = some ⟨vp, sp, some a, some g, true⟩)
    (cg : h.cell g = some ⟨vg, up, some p, hdp, false⟩)
    (hap : a ≠ p) (hag : a ≠ g) (hpg : p ≠ g)
    (hhd : h.Free hdp [a, p, g])
    (hsp : h.Free sp [a, p, g]) (hsh : sp = none ∨ sp ≠ hdp) :
    ∃ h', balanceRotate again h (some a) (some g) sp hdp = .ok h' ∧
      h'.cell a = some ⟨v, lp, rp, some p, c⟩ ∧
      h'.cell p = some ⟨vp, some g, some a, hdp, false⟩ ∧
      h'.cell g = some ⟨vg, up, sp, some p, true⟩ ∧
      HeadCell h h' hdp g p ∧ RestSame h h' [a, p, g] hdp [sp] := by
  have la := cell_lt_length ca
  have lp' := cell_lt_length cp
  have lg := cell_lt_length cg
  have hpa := hap.symm
  have hga := hag.symm
  have hgp := hpg.symm
  rcases sp with _ | s <;> rcases hdp with _ | hd
  · clear hhd hsp hsh
    simp only [balanceRotate, cond4a, cond4b, cond4c, cond4d, body4a, body4b, body4c,
      body4d, relinkAbove, relinkHead, memberParent, load, modify, BNode.isLeftChild,
      BNode.isRightChild, BNode.addLeft, BNode.addRight, setLeft, setRight, setParent, setRed,
      pure_eq_ok, bind_ok, bind_error, bind_assoc, decide_eq_true_eq, decide_True,
      decide_False, ↓reduceIte, ne_eq, reduceCtorEq, not_false_eq_true, not_true_eq_false,
      Bool.not_eq_eq_eq_not, Bool.not_true, Bool.not_false, Option.some.injEq,
      Bool.false_eq_true, Bool.true_eq_false, ite_self, Except.ok.injEq, exists_eq_left',
      Option.map_some', Option.map_none', true_and, and_true, and_self, cell_store,
      length_store, *]
    refine ⟨?_, ?_⟩
    · exact fun hd' nd e => absurd e (by simp)
    · intro b hb hbh
      simp only [List.mem_cons, List.mem_singleton, List.not_mem_nil, or_false, not_or] at hb
      obtain ⟨h1, h2, h3⟩ := hb
      have h1' := Ne.symm h1
      have h2' := Ne.symm h2
      have h3' := Ne.symm h3
      refine ⟨?_, fun hbm => ?_⟩
      · simp only [Heap.kids, pure_eq_ok, bind_ok, bind_error, bind_assoc, decide_eq_true_eq, decide_True, decide_False, ↓reduceIte, ne_eq, reduceCtorEq, not_false_eq_true, not_true_eq_false, Bool.not_eq_eq_eq_not, Bool.not_true, Bool.not_false, Option.some.injEq, Bool.false_eq_true, Bool.true_eq_false, ite_self, Except.ok.injEq, exists_eq_left', Option.map_some', Option.map_none', true_and, and_true, and_self, cell_store, length_store, *]
      · simp only [List.mem_cons, List.mem_singleton, List.not_mem_nil, or_false, not_or] at hbm
        simp only [Heap.kids, pure_eq_ok, bind_ok, bind_error, bind_assoc, decide_eq_true_eq, decide_True, decide_False, ↓reduceIte, ne_eq, reduceCtorEq, not_false_eq_true, not_true_eq_false, Bool.not_eq_eq_eq_not, Bool.not_true, Bool.not_false, Option.some.injEq, Bool.false_eq_true, Bool.true_eq_false, ite_self, Except.ok.injEq, exists_eq_left', Option.map_some', Option.map_none', true_and, and_true, and_self, cell_store, length_store, *]
  · obtain ⟨⟨⟨vh, hl, hr, hpar, hc⟩, ch⟩, hn⟩ := hhd hd rfl
    simp only [List.mem_cons, List.mem_singleton, List.not_mem_nil, or_false, not_or] at hn
    obtain ⟨dha, dhp, dhg⟩ := hn
    have lh := cell_lt_length ch
    have dha' := Ne.symm dha
    have dhp' := Ne.symm dhp
    have dhg' := Ne.symm dhg
    clear hhd hsp hsh
    by_cases hrg : hr = some g
    · simp only [balanceRotate, cond4a, cond4b, cond4c, cond4d, body4a, body4b, body4c,
        body4d, relinkAbove, relinkHead, memberParent, load, modify, BNode.isLeftChild,
        BNode.isRightChild, BNode.addLeft, BNode.addRight, setLeft, setRight, setParent, setRed,
        pure_eq_ok, bind_ok, bind_error, bind_assoc, decide_eq_true_eq, decide_True,
        decide_False, ↓reduceIte, ne_eq, reduceCtorEq, not_false_eq_true, not_true_eq_false,
        Bool.not_eq_eq_eq_not, Bool.not_true, Bool.not_false, Option.some.injEq,
        Bool.false_eq_true, Bool.true_eq_false, ite_self, Except.ok.injEq, exists_eq_left',
        Option.map_some', Option.map_none', true_and, and_true, and_self, cell_store,
        length_store, *]
      refine ⟨?_, ?_⟩
      · intro hd' nd e hc'
        cases e
        rw [ch] at hc'
        cases hc'
        simp only [Heap.kids, pure_eq_ok, bind_ok, bind_error, bind_assoc, decide_eq_true_eq, decide_True, decide_False, ↓reduceIte, ne_eq, reduceCtorEq, not_false_eq_true, not_true_eq_false, Bool.not_eq_eq_eq_not, Bool.not_true, Bool.not_false, Option.some.injEq, Bool.false_eq_true, Bool.true_eq_false, ite_self, Except.ok.injEq, exists_eq_left', Option.map_some', Option.map_none', true_and, and_true, and_self, cell_store, length_store, *]
      · intro b hb hbh
        simp only [List.mem_cons, List.mem_singleton, List.not_mem_nil, or_false, not_or] at hb
        obtain ⟨h1, h2, h3⟩ := hb
        have h1' := Ne.symm h1
        have h2' := Ne.symm h2
        have h3' := Ne.symm h3
        have h4 : hd ≠ b := by simpa using hbh
        refine ⟨?_, fun hbm => ?_⟩
        · simp only [Heap.kids, pure_eq_ok, bind_ok, bind_error, bind_assoc, decide_eq_true_eq, decide_True, decide_False, ↓reduceIte, ne_eq, reduceCtorEq, not_false_eq_true, not_true_eq_false, Bool.not_eq_eq_eq_not, Bool.not_true, Bool.not_false, Option.some.injEq, Bool.false_eq_true, Bool.true_eq_false, ite_self, Except.ok.injEq, exists_eq_left', Option.map_some', Option.map_none', true_and, and_true, and_self, cell_store, length_store, *]
        · simp only [List.mem_cons, List.mem_singleton, List.not_mem_nil, or_false, not_or] at hbm
          simp only [Heap.kids, pure_eq_ok, bind_ok, bind_error, bind_assoc, decide_eq_true_eq, decide_True, decide_False, ↓reduceIte, ne_eq, reduceCtorEq, not_false_eq_true, not_true_eq_false, Bool.not_eq_eq_eq_not, Bool.not_true, Bool.not_false, Option.some.injEq, Bool.false_eq_true, Bool.true_eq_false, ite_self, Except.ok.injEq, exists_eq_left', Option.map_some', Option.map_none', true_and, and_true, and_self, cell_store, length_store, *]
    · simp only [balanceRotate, cond4a, cond4b, cond4c, cond4d, body4a, body4b, body4c,
        body4d, relinkAbove, relinkHead, memberParent, load, modify, BNode.isLeftChild,
        BNode.isRightChild, BNode.addLeft, BNode.addRight, setLeft, setRight, setParent, setRed,
        pure_eq_ok, bind_ok, bind_error, bind_assoc, decide_eq_true_eq, decide_True,
        decide_False, ↓reduceIte, ne_eq, reduceCtorEq, not_false_eq_true, not_true_eq_false,
        Bool.not_eq_eq_eq_not, Bool.not_true, Bool.not_false, Option.some.injEq,
        Bool.false_eq_true, Bool.true_eq_false, ite_self, Except.ok.injEq, exists_eq_left',
        Option.map_some', Option.map_none', true_and, and_true, and_self, cell_store,
        length_store, *]
      refine ⟨?_, ?_⟩
      · intro hd' nd e hc'
        cases e
        rw [ch] at hc'
        cases hc'
        simp only [Heap.kids, pure_eq_ok, bind_ok, bind_error, bind_assoc, decide_eq_true_eq, decide_True, decide_False, ↓reduceIte, ne_eq, reduceCtorEq, not_false_eq_true, not_true_eq_false, Bool.not_eq_eq_eq_not, Bool.not_true, Bool.not_false, Option.some.injEq, Bool.false_eq_true, Bool.true_eq_false, ite_self, Except.ok.injEq, exists_eq_left', Option.map_some', Option.map_none', true_and, and_true, and_self, cell_store, length_store, *]
      · intro b hb hbh
        simp only [List.mem_cons, List.mem_singleton, List.not_mem_nil, or_false, not_or] at hb
        obtain ⟨h1, h2, h3⟩ := hb
        have h1' := Ne.symm h1
        have h2' := Ne.symm h2
        have h3' := Ne.symm h3
        have h4 : hd ≠ b := by simpa using hbh
        refine ⟨?_, fun hbm => ?_⟩
        · simp only [Heap.kids, pure_eq_ok, bind_ok, bind_error, bind_assoc, decide_eq_true_eq, decide_True, decide_False, ↓reduceIte, ne_eq, reduceCtorEq, not_false_eq_true, not_true_eq_false, Bool.not_eq_eq_eq_not, Bool.not_true, Bool.not_false, Option.some.injEq, Bool.false_eq_true, Bool.true_eq_false, ite_self, Except.ok.injEq, exists_eq_left', Option.map_some', Option.map_none', true_and, and_true, and_self, cell_store, length_store, *]
        · simp only [List.mem_cons, List.mem_singleton, List.not_mem_nil, or_false, not_or] at hbm
          simp only [Heap.kids, pure_eq_ok, bind_ok, bind_error, bind_assoc, decide_eq_true_eq, decide_True, decide_False, ↓reduceIte, ne_eq, reduceCtorEq, not_false_eq_true, not_true_eq_false, Bool.not_eq_eq_eq_not, Bool.not_true, Bool.not_false, Option.some.injEq, Bool.false_eq_true, Bool.true_eq_false, ite_self, Except.ok.injEq, exists_eq_left', Option.map_some', Option.map_none', true_and, and_true, and_self, cell_store, length_store, *]
  · obtain ⟨⟨nds, cs⟩, hn⟩ := hsp s rfl
    simp only [List.mem_cons, List.mem_singleton, List.not_mem_nil, or_false, not_or] at hn
    obtain ⟨dsa, dsp, dsg⟩ := hn
    have ls := cell_lt_length cs
    have dsa' := Ne.symm dsa
    have dsp' := Ne.symm dsp
    have dsg' := Ne.symm dsg
    clear hhd hsp hsh
    simp only [balanceRotate, cond4a, cond4b, cond4c, cond4d, body4a, body4b, body4c,
      body4d, relinkAbove, relinkHead, memberParent, load, modify, BNode.isLeftChild,
      BNode.isRightChild, BNode.addLeft, BNode.addRight, setLeft, setRight, setParent, setRed,
      pure_eq_ok, bind_ok, bind_error, bind_assoc, decide_eq_true_eq, decide_True,
      decide_False, ↓reduceIte, ne_eq, reduceCtorEq, not_false_eq_true, not_true_eq_false,
      Bool.not_eq_eq_eq_not, Bool.not_true, Bool.not_false, Option.some.injEq,
      Bool.false_eq_true, Bool.true_eq_false, ite_self, Except.ok.injEq, exists_eq_left',
      Option.map_some', Option.map_none', true_and, and_true, and_self, cell_store,
      length_store, *]
    refine ⟨?_, ?_⟩
    · exact fun hd' nd e => absurd e (by simp)
    · intro b hb hbh
      simp only [List.mem_cons, List.mem_singleton, List.not_mem_nil, or_false, not_or] at hb
      obtain ⟨h1, h2, h3⟩ := hb
      have h1' := Ne.symm h1
      have h2' := Ne.symm h2
      have h3' := Ne.symm h3
      refine ⟨?_, fun hbm => ?_⟩
      · by_cases hbs : s = b
        · subst hbs
          simp only [Heap.kids, pure_eq_ok, bind_ok, bind_error, bind_assoc, decide_eq_true_eq, decide_True, decide_False, ↓reduceIte, ne_eq, reduceCtorEq, not_false_eq_true, not_true_eq_false, Bool.not_eq_eq_eq_not, Bool.not_true, Bool.not_false, Option.some.injEq, Bool.false_eq_true, Bool.true_eq_false, ite_self, Except.ok.injEq, exists_eq_left', Option.map_some', Option.map_none', true_and, and_true, and_self, cell_store, length_store, *]
        · simp only [Heap.kids, pure_eq_ok, bind_ok, bind_error, bind_assoc, decide_eq_true_eq, decide_True, decide_False, ↓reduceIte, ne_eq, reduceCtorEq, not_false_eq_true, not_true_eq_false, Bool.not_eq_eq_eq_not, Bool.not_true, Bool.not_false, Option.some.injEq, Bool.false_eq_true, Bool.true_eq_false, ite_self, Except.ok.injEq, exists_eq_left', Option.map_some', Option.map_none', true_and, and_true, and_self, cell_store, length_store, *]
      · simp only [List.mem_cons, List.mem_singleton, List.not_mem_nil, or_false, not_or] at hbm
        have hms : s ≠ b := by
          intro e
          subst e
          simp at hbm
        simp only [Heap.kids, pure_eq_ok, bind_ok, bind_error, bind_assoc, decide_eq_true_eq, decide_True, decide_False, ↓reduceIte, ne_eq, reduceCtorEq, not_false_eq_true, not_true_eq_false, Bool.not_eq_eq_eq_not, Bool.not_true, Bool.not_false, Option.some.injEq, Bool.false_eq_true, Bool.true_eq_false, ite_self, Except.ok.injEq, exists_eq_left', Option.map_some', Option.map_none', true_and, and_true, and_self, cell_store, length_store, *]
  · obtain ⟨⟨nds, cs⟩, hn⟩ := hsp s rfl
    simp only [List.mem_cons, List.mem_singleton, List.not_mem_nil, or_false, not_or] at hn
    obtain ⟨dsa, dsp, dsg⟩ := hn
    have ls := cell_lt_length cs
    have dsa' := Ne.symm dsa
    have dsp' := Ne.symm dsp
    have dsg' := Ne.symm dsg
    obtain ⟨⟨⟨vh, hl, hr, hpar, hc⟩, ch⟩, hn⟩ := hhd hd rfl
    simp only [List.mem_cons, List.mem_singleton, List.not_mem_nil, or_false, not_or] at hn
    obtain ⟨dha, dhp, dhg⟩ := hn
    have lh := cell_lt_length ch
    have dha' := Ne.symm dha
    have dhp' := Ne.symm dhp
    have dhg' := Ne.symm dhg
    have dsh : s ≠ hd := by simpa using hsh
    have dsh' := Ne.symm dsh
    clear hhd hsp hsh
    by_cases hrg : hr = some g
    · simp only [balanceRotate, cond4a, cond4b, cond4c, cond4d, body4a, body4b, body4c,
        body4d, relinkAbove, relinkHead, memberParent, load, modify, BNode.isLeftChild,
        BNode.isRightChild, BNode.addLeft, BNode.addRight, setLeft, setRight, setParent, setRed,
        pure_eq_ok, bind_ok, bind_error, bind_assoc, decide_eq_true_eq, decide_True,
        decide_False, ↓reduceIte, ne_eq, reduceCtorEq, not_false_eq_true, not_true_eq_false,
        Bool.not_eq_eq_eq_not, Bool.not_true, Bool.not_false, Option.some.injEq,
        Bool.false_eq_true, Bool.true_eq_false, ite_self, Except.ok.injEq, exists_eq_left',
        Option.map_some', Option.map_none', true_and, and_true, and_self, cell_store,
        length_store, *]
      refine ⟨?_, ?_⟩
      · intro hd' nd e hc'
        cases e
        rw [ch] at hc'
        cases hc'
        simp only [Heap.kids, pure_eq_ok, bind_ok, bind_error, bind_assoc, decide_eq_true_eq, decide_True, decide_False, ↓reduceIte, ne_eq, reduceCtorEq, not_false_eq_true, not_true_eq_false, Bool.not_eq_eq_eq_not, Bool.not_true, Bool.not_false, Option.some.injEq, Bool.false_eq_true, Bool.true_eq_false, ite_self, Except.ok.injEq, exists_eq_left', Option.map_some', Option.map_none', true_and, and_true, and_self, cell_store, length_store, *]
      · intro b hb hbh
        simp only [List.mem_cons, List.mem_singleton, List.not_mem_nil, or_false, not_or] at hb
        obtain ⟨h1, h2, h3⟩ := hb
        have h1' := Ne.symm h1
        have h2' := Ne.symm h2
        have h3' := Ne.symm h3
        have h4 : hd ≠ b := by simpa using hbh
        refine ⟨?_, fun hbm => ?_⟩
        · by_cases hbs : s = b
          · subst hbs
            simp only [Heap.kids, pure_eq_ok, bind_ok, bind_error, bind_assoc, decide_eq_true_eq, decide_True, decide_False, ↓reduceIte, ne_eq, reduceCtorEq, not_false_eq_true, not_true_eq_false, Bool.not_eq_eq_eq_not, Bool.not_true, Bool.not_false, Option.some.injEq, Bool.false_eq_true, Bool.true_eq_false, ite_self, Except.ok.injEq, exists_eq_left', Option.map_some', Option.map_none', true_and, and_true, and_self, cell_store, length_store, *]
          · simp only [Heap.kids, pure_eq_ok, bind_ok, bind_error, bind_assoc, decide_eq_true_eq, decide_True, decide_False, ↓reduceIte, ne_eq, reduceCtorEq, not_false_eq_true, not_true_eq_false, Bool.not_eq_eq_eq_not, Bool.not_true, Bool.not_false, Option.some.injEq, Bool.false_eq_true, Bool.true_eq_false, ite_self, Except.ok.injEq, exists_eq_left', Option.map_some', Option.map_none', true_and, and_true, and_self, cell_store, length_store, *]
        · simp only [List.mem_cons, List.mem_singleton, List.not_mem_nil, or_false, not_or] at hbm
          have hms : s ≠ b := by
            intro e
            subst e
            simp at hbm
          simp only [Heap.kids, pure_eq_ok, bind_ok, bind_error, bind_assoc, decide_eq_true_eq, decide_True, decide_False, ↓reduceIte, ne_eq, reduceCtorEq, not_false_eq_true, not_true_eq_false, Bool.not_eq_eq_eq_not, Bool.not_true, Bool.not_false, Option.some.injEq, Bool.false_eq_true, Bool.true_eq_false, ite_self, Except.ok.injEq, exists_eq_left', Option.map_some', Option.map_none', true_and, and_true, and_self, cell_store, length_store, *]
    · simp only [balanceRotate, cond4a, cond4b, cond4c, cond4d, body4a, body4b, body4c,
        body4d, relinkAbove, relinkHead, memberParent, load, modify, BNode.isLeftChild,
        BNode.isRightChild, BNode.addLeft, BNode.addRight, setLeft, setRight, setParent, setRed,
        pure_eq_ok, bind_ok, bind_error, bind_assoc, decide_eq_true_eq, decide_True,
        decide_False, ↓reduceIte, ne_eq, reduceCtorEq, not_false_eq_true, not_true_eq_false,
        Bool.not_eq_eq_eq_not, Bool.not_true, Bool.not_false, Option.some.injEq,
        Bool.false_eq_true, Bool.true_eq_false, ite_self, Except.ok.injEq, exists_eq_left',
        Option.map_some', Option.map_none', true_and, and_true, and_self, cell_store,
        length_store, *]
      refine ⟨?_, ?_⟩
      · intro hd' nd e hc'
        cases e
        rw [ch] at hc'
        cases hc'
        simp only [Heap.kids, pure_eq_ok, bind_ok, bind_error, bind_assoc, decide_eq_true_eq, decide_True, decide_False, ↓reduceIte, ne_eq, reduceCtorEq, not_false_eq_true, not_true_eq_false, Bool.not_eq_eq_eq_not, Bool.not_true, Bool.not_false, Option.some.injEq, Bool.false_eq_true, Bool.true_eq_false, ite_self, Except.ok.injEq, exists_eq_left', Option.map_some', Option.map_none', true_and, and_true, and_self, cell_store, length_store, *]
      · intro b hb hbh
        simp only [List.mem_cons, List.mem_singleton, List.not_mem_nil, or_false, not_or] at hb
        obtain ⟨h1, h2, h3⟩ := hb
        have h1' := Ne.symm h1
        have h2' := Ne.symm h2
        have h3' := Ne.symm h3
        have h4 : hd ≠ b := by simpa using hbh
        refine ⟨?_, fun hbm => ?_⟩
        · by_cases hbs : s = b
          · subst hbs
            simp only [Heap.kids, pure_eq_ok, bind_ok, bind_error, bind_assoc, decide_eq_true_eq, decide_True, decide_False, ↓reduceIte, ne_eq, reduceCtorEq, not_false_eq_true, not_true_eq_false, Bool.not_eq_eq_eq_not, Bool.not_true, Bool.not_false, Option.some.injEq, Bool.false_eq_true, Bool.true_eq_false, ite_self, Except.ok.injEq, exists_eq_left', Option.map_some', Option.map_none', true_and, and_true, and_self, cell_store, length_store, *]
          · simp only [Heap.kids, pure_eq_ok, bind_ok, bind_error, bind_assoc, decide_eq_true_eq, decide_True, decide_False, ↓reduceIte, ne_eq, reduceCtorEq, not_false_eq_true, not_true_eq_false, Bool.not_eq_eq_eq_not, Bool.not_true, Bool.not_false, Option.some.injEq, Bool.false_eq_true, Bool.true_eq_false, ite_self, Except.ok.injEq, exists_eq_left', Option.map_some', Option.map_none', true_and, and_true, and_self, cell_store, length_store, *]
        · simp only [List.mem_cons, List.mem_singleton, List.not_mem_nil, or_false, not_or] at hbm
          have hms : s ≠ b := by
            intro e
            subst e
            simp at hbm
          simp only [Heap.kids, pure_eq_ok, bind_ok, bind_error, bind_assoc, decide_eq_true_eq, decide_True, decide_False, ↓reduceIte, ne_eq, reduceCtorEq, not_false_eq_true, not_true_eq_false, Bool.not_eq_eq_eq_not, Bool.not_true, Bool.not_false, Option.some.injEq, Bool.false_eq_true, Bool.true_eq_false, ite_self, Except.ok.injEq, exists_eq_left', Option.map_some', Option.map_none', true_and, and_true, and_self, cell_store, length_store, *]

set_option maxHeartbeats 4000000 in
/-- The body of case 4c of `balance` on a well-formed neighbourhood: the nodes after the double rotation, before the recursive call. -/
theorem body4c_exec {h : Heap T} {a p g : Nat}
    {v vp vg : T} {lp rp sp up hdp : Ptr} {c : Bool}
    (ca : h.cell a = some ⟨v, lp, rp, some p, c⟩)
    (cp : h.cell p = some ⟨vp, sp, some a, some g, true⟩)
    (cg : h.cell g = some ⟨vg, some p, up, hdp, false⟩)
    (hap : a ≠ p) (hag : a ≠ g) (hpg : p ≠ g)
    (hhd : h.Free hdp [a, p, g])
    (hlp : h.Free lp [a, p, g]) (hlh : lp = none ∨ lp ≠ hdp)
    (hrp : h.Free rp [a, p, g]) (hrh : rp = none ∨ rp ≠ hdp)
    (hlr : lp = none ∨ lp ≠ rp) :
    ∃ h', body4c h (some a) (some g) = .ok h' ∧
      h'.cell a = some ⟨v, some p, some g, (if hdp = none then none else some p), false⟩ ∧
      h'.cell p = some ⟨vp, sp, lp, some a, true⟩ ∧
      h'.cell g = some ⟨vg, rp, up, some a, true⟩ ∧
      HeadCell h h' hdp g a ∧ RestSame h h' [a, p, g] hdp [lp, rp] := by
  have la := cell_lt_length ca
  have lp' := cell_lt_length cp
  have lg := cell_lt_length cg
  have hpa := hap.symm
  have hga := hag.symm
  have hgp := hpg.symm
  rcases lp with _ | x <;> rcases rp with _ | y <;> rcases hdp with _ | hd
  · clear hhd hlp hlh hrp hrh hlr
    simp only [balanceRotate, cond4a, cond4b, cond4c, cond4d, body4a, body4b, body4c,
      body4d, relinkAbove, relinkHead, memberParent, load, modify, BNode.isLeftChild,
      BNode.isRightChild, BNode.addLeft, BNode.addRight, setLeft, setRight, setParent, setRed,
      pure_eq_ok, bind_ok, bind_error, bind_assoc, decide_eq_true_eq, decide_True,
      decide_False, ↓reduceIte, ne_eq, reduceCtorEq, not_false_eq_true, not_true_eq_false,
      Bool.not_eq_eq_eq_not, Bool.not_true, Bool.not_false, Option.some.injEq,
      Bool.false_eq_true, Bool.true_eq_false, ite_self, Except.ok.injEq, exists_eq_left',
      Option.map_some', Option.map_none', true_and, and_true, and_self, cell_store,
      length_store, *]
    refine ⟨?_, ?_⟩
    · exact fun hd' nd e => absurd e (by simp)
    · intro b hb hbh
      simp only [List.mem_cons, List.mem_singleton, List.not_mem_nil, or_false, not_or] at hb
      obtain ⟨h1, h2, h3⟩ := hb
      have h1' := Ne.symm h1
      have h2' := Ne.symm h2
      have h3' := Ne.symm h3
      refine ⟨?_, fun hbm => ?_⟩
      · simp only [Heap.kids, pure_eq_ok, bind_ok, bind_error, bind_assoc, decide_eq_true_eq, decide_True, decide_False, ↓reduceIte, ne_eq, reduceCtorEq, not_false_eq_true, not_true_eq_false, Bool.not_eq_eq_eq_not, Bool.not_true, Bool.not_false, Option.some.injEq, Bool.false_eq_true, Bool.true_eq_false, ite_self, Except.ok.injEq, exists_eq_left', Option.map_some', Option.map_none', true_and, and_true, and_self, cell_store, length_store, *]
      · simp only [List.mem_cons, List.mem_singleton, List.not_mem_nil, or_false, not_or] at hbm
        simp only [Heap.kids, pure_eq_ok, bind_ok, bind_error, bind_assoc, decide_eq_true_eq, decide_True, decide_False, ↓reduceIte, ne_eq, reduceCtorEq, not_false_eq_true, not_true_eq_false, Bool.not_eq_eq_eq_not, Bool.not_true, Bool.not_false, Option.some.injEq, Bool.false_eq_true, Bool.true_eq_false, ite_self, Except.ok.injEq, exists_eq_left', Option.map_some', Option.map_none', true_and, and_true, and_self, cell_store, length_store, *]
  · obtain ⟨⟨⟨vh, hl, hr, hpar, hc⟩, ch⟩, hn⟩ := hhd hd rfl
    simp only [List.mem_cons, List.mem_singleton, List.not_mem_nil, or_false, not_or] at hn
    obtain ⟨dha, dhp, dhg⟩ := hn
    have lh := cell_lt_length ch
    have dha' := Ne.symm dha
    have dhp' := Ne.symm dhp
    have dhg' := Ne.symm dhg
    clear hhd hlp hlh hrp hrh hlr
    by_cases hrg : hr = some g
    · simp only [balanceRotate, cond4a, cond4b, cond4c, cond4d, body4a, body4b, body4c,
        body4d, relinkAbove, relinkHead, memberParent, load, modify, BNode.isLeftChild,
        BNode.isRightChild, BNode.addLeft, BNode.addRight, setLeft, setRight, setParent, setRed,
        pure_eq_ok, bind_ok, bind_error, bind_assoc, decide_eq_true_eq, decide_True,
        decide_False, ↓reduceIte, ne_eq, reduceCtorEq, not_false_eq_true, not_true_eq_false,
        Bool.not_eq_eq_eq_not, Bool.not_true, Bool.not_false, Option.some.injEq,
        Bool.false_eq_true, Bool.true_eq_false, ite_self, Except.ok.injEq, exists_eq_left',
        Option.map_some', Option.map_none', true_and, and_true, and_self, cell_store,
        length_store, *]
      refine ⟨?_, ?_⟩
      · intro hd' nd e hc'
        cases e
        rw [ch] at hc'
        cases hc'
        simp only [Heap.kids, pure_eq_ok, bind_ok, bind_error, bind_assoc, decide_eq_true_eq, decide_True, decide_False, ↓reduceIte, ne_eq, reduceCtorEq, not_false_eq_true, not_true_eq_false, Bool.not_eq_eq_eq_not, Bool.not_true, Bool.not_false, Option.some.injEq, Bool.false_eq_true, Bool.true_eq_false, ite_self, Except.ok.injEq, exists_eq_left', Option.map_some', Option.map_none', true_and, and_true, and_self, cell_store, length_store, *]
      · intro b hb hbh
        simp only [List.mem_cons, List.mem_singleton, List.not_mem_nil, or_false, not_or] at hb
        obtain ⟨h1, h2, h3⟩ := hb
        have h1' := Ne.symm h1
        have h2' := Ne.symm h2
        have h3' := Ne.symm h3
        have h4 : hd ≠ b := by simpa using hbh
        refine ⟨?_, fun hbm => ?_⟩
        · simp only [Heap.kids, pure_eq_ok, bind_ok, bind_error, bind_assoc, decide_eq_true_eq, decide_True, decide_False, ↓reduceIte, ne_eq, reduceCtorEq, not_false_eq_true, not_true_eq_false, Bool.not_eq_eq_eq_not, Bool.not_true, Bool.not_false, Option.some.injEq, Bool.false_eq_true, Bool.true_eq_false, ite_self, Except.ok.injEq, exists_eq_left', Option.map_some', Option.map_none', true_and, and_true, and_self, cell_store, length_store, *]
        · simp only [List.mem_cons, List.mem_singleton, List.not_mem_nil, or_false, not_or] at hbm
          simp only [Heap.kids, pure_eq_ok, bind_ok, bind_error, bind_assoc, decide_eq_true_eq, decide_True, decide_False, ↓reduceIte, ne_eq, reduceCtorEq, not_false_eq_true, not_true_eq_false, Bool.not_eq_eq_eq_not, Bool.not_true, Bool.not_false, Option.some.injEq, Bool.false_eq_true, Bool.true_eq_false, ite_self, Except.ok.injEq, exists_eq_left', Option.map_some', Option.map_none', true_and, and_true, and_self, cell_store, length_store, *]
    · simp only [balanceRotate, cond4a, cond4b, cond4c, cond4d, body4a, body4b, body4c,
        body4d, relinkAbove, relinkHead, memberParent, load, modify, BNode.isLeftChild,
        BNode.isRightChild, BNode.addLeft, BNode.addRight, setLeft, setRight, setParent, setRed,
        pure_eq_ok, bind_ok, bind_error, bind_assoc, decide_eq_true_eq, decide_True,
        decide_False, ↓reduceIte, ne_eq, reduceCtorEq, not_false_eq_true, not_true_eq_false,
        Bool.not_eq_eq_eq_not, Bool.not_true, Bool.not_false, Option.some.injEq,
        Bool.false_eq_true, Bool.true_eq_false, ite_self, Except.ok.injEq, exists_eq_left',
        Option.map_some', Option.map_none', true_and, and_true, and_self, cell_store,
        length_store, *]
      refine ⟨?_, ?_⟩
      · intro hd' nd e hc'
        cases e
        rw [ch] at hc'
        cases hc'
        simp only [Heap.kids, pure_eq_ok, bind_ok, bind_error, bind_assoc, decide_eq_true_eq, decide_True, decide_False, ↓reduceIte, ne_eq, reduceCtorEq, not_false_eq_true, not_true_eq_false, Bool.not_eq_eq_eq_not, Bool.not_true, Bool.not_false, Option.some.injEq, Bool.false_eq_true, Bool.true_eq_false, ite_self, Except.ok.injEq, exists_eq_left', Option.map_some', Option.map_none', true_and, and_true, and_self, cell_store, length_store, *]
      · intro b hb hbh
        simp only [List.mem_cons, List.mem_singleton, List.not_mem_nil, or_false, not_or] at hb
        obtain ⟨h1, h2, h3⟩ := hb
        have h1' := Ne.symm h1
        have h2' := Ne.symm h2
        have h3' := Ne.symm h3
        have h4 : hd ≠ b := by simpa using hbh
        refine ⟨?_, fun hbm => ?_⟩
        · simp only [Heap.kids, pure_eq_ok, bind_ok, bind_error, bind_assoc, decide_eq_true_eq, decide_True, decide_False, ↓reduceIte, ne_eq, reduceCtorEq, not_false_eq_true, not_true_eq_false, Bool.not_eq_eq_eq_not, Bool.not_true, Bool.not_false, Option.some.injEq, Bool.false_eq_true, Bool.true_eq_false, ite_self, Except.ok.injEq, exists_eq_left', Option.map_some', Option.map_none', true_and, and_true, and_self, cell_store, length_store, *]
        · simp only [List.mem_cons, List.mem_singleton, List.not_mem_nil, or_false, not_or] at hbm
          simp only [Heap.kids, pure_eq_ok, bind_ok, bind_error, bind_assoc, decide_eq_true_eq, decide_True, decide_False, ↓reduceIte, ne_eq, reduceCtorEq, not_false_eq_true, not_true_eq_false, Bool.not_eq_eq_eq_not, Bool.not_true, Bool.not_false, Option.some.injEq, Bool.false_eq_true, Bool.true_eq_false, ite_self, Except.ok.injEq, exists_eq_left', Option.map_some', Option.map_none', true_and, and_true, and_self, cell_store, length_store, *]
  · obtain ⟨⟨ndy, cy⟩, hn⟩ := hrp y rfl
    simp only [List.mem_cons, List.mem_singleton, List.not_mem_nil, or_false, not_or] at hn
    obtain ⟨dya, dyp, dyg⟩ := hn
    have ly := cell_lt_length cy
    have dya' := Ne.symm dya
    have dyp' := Ne.symm dyp
    have dyg' := Ne.symm dyg
    clear hhd hlp hlh hrp hrh hlr
    simp only [balanceRotate, cond4a, cond4b, cond4c, cond4d, body4a, body4b, body4c,
      body4d, relinkAbove, relinkHead, memberParent, load, modify, BNode.isLeftChild,
      BNode.isRightChild, BNode.addLeft, BNode.addRight, setLeft, setRight, setParent, setRed,
      pure_eq_ok, bind_ok, bind_error, bind_assoc, decide_eq_true_eq, decide_True,
      decide_False, ↓reduceIte, ne_eq, reduceCtorEq, not_false_eq_true, not_true_eq_false,
      Bool.not_eq_eq_eq_not, Bool.not_true, Bool.not_false, Option.some.injEq,
      Bool.false_eq_true, Bool.true_eq_false, ite_self, Except.ok.injEq, exists_eq_left',
      Option.map_some', Option.map_none', true_and, and_true, and_self, cell_store,
      length_store, *]
    refine ⟨?_, ?_⟩
    · exact fun hd' nd e => absurd e (by simp)
    · intro b hb hbh
      simp only [List.mem_cons, List.mem_singleton, List.not_mem_nil, or_false, not_or] at hb
      obtain ⟨h1, h2, h3⟩ := hb
      have h1' := Ne.symm h1
      have h2' := Ne.symm h2
      have h3' := Ne.symm h3
      refine ⟨?_, fun hbm => ?_⟩
      · by_cases hby : y = b
        · subst hby
          simp only [Heap.kids, pure_eq_ok, bind_ok, bind_error, bind_assoc, decide_eq_true_eq, decide_True, decide_False, ↓reduceIte, ne_eq, reduceCtorEq, not_false_eq_true, not_true_eq_false, Bool.not_eq_eq_eq_not, Bool.not_true, Bool.not_false, Option.some.injEq, Bool.false_eq_true, Bool.true_eq_false, ite_self, Except.ok.injEq, exists_eq_left', Option.map_some', Option.map_none', true_and, and_true, and_self, cell_store, length_store, *]
        · simp only [Heap.kids, pure_eq_ok, bind_ok, bind_error, bind_assoc, decide_eq_true_eq, decide_True, decide_False, ↓reduceIte, ne_eq, reduceCtorEq, not_false_eq_true, not_true_eq_false, Bool.not_eq_eq_eq_not, Bool.not_true, Bool.not_false, Option.some.injEq, Bool.false_eq_true, Bool.true_eq_false, ite_self, Except.ok.injEq, exists_eq_left', Option.map_some', Option.map_none', true_and, and_true, and_self, cell_store, length_store, *]
      · simp only [List.mem_cons, List.mem_singleton, List.not_mem_nil, or_false, not_or] at hbm
        have hmy : y ≠ b := by
          intro e
          subst e
          simp at hbm
        simp only [Heap.kids, pure_eq_ok, bind_ok, bind_error, bind_assoc, decide_eq_true_eq, decide_True, decide_False, ↓reduceIte, ne_eq, reduceCtorEq, not_false_eq_true, not_true_eq_false, Bool.not_eq_eq_eq_not, Bool.not_true, Bool.not_false, Option.some.injEq, Bool.false_eq_true, Bool.true_eq_false, ite_self, Except.ok.injEq, exists_eq_left', Option.map_some', Option.map_none', true_and, and_true, and_self, cell_store, length_store, *]
  · obtain ⟨⟨ndy, cy⟩, hn⟩ := hrp y rfl
    simp only [List.mem_cons, List.mem_singleton, List.not_mem_nil, or_false, not_or] at hn
    obtain ⟨dya, dyp, dyg⟩ := hn
    have ly := cell_lt_length cy
    have dya' := Ne.symm dya
    have dyp' := Ne.symm dyp
    have dyg' := Ne.symm dyg
    obtain ⟨⟨⟨vh, hl, hr, hpar, hc⟩, ch⟩, hn⟩ := hhd hd rfl
    simp only [List.mem_cons, List.mem_singleton, List.not_mem_nil, or_false, not_or] at hn
    obtain ⟨dha, dhp, dhg⟩ := hn
    have lh := cell_lt_length ch
    have dha' := Ne.symm dha
    have dhp' := Ne.symm dhp
    have dhg' := Ne.symm dhg
    have dyh : y ≠ hd := by simpa using hrh
    have dyh' := Ne.symm dyh
    clear hhd hlp hlh hrp hrh hlr
    by_cases hrg : hr = some g
    · simp only [balanceRotate, cond4a, cond4b, cond4c, cond4d, body4a, body4b, body4c,
        body4d, relinkAbove, relinkHead, memberParent, load, modify, BNode.isLeftChild,
        BNode.isRightChild, BNode.addLeft, BNode.addRight, setLeft, setRight, setParent, setRed,
        pure_eq_ok, bind_ok, bind_error, bind_assoc, decide_eq_true_eq, decide_True,
        decide_False, ↓reduceIte, ne_eq, reduceCtorEq, not_false_eq_true, not_true_eq_false,
        Bool.not_eq_eq_eq_not, Bool.not_true, Bool.not_false, Option.some.injEq,
        Bool.false_eq_true, Bool.true_eq_false, ite_self, Except.ok.injEq, exists_eq_left',
        Option.map_some', Option.map_none', true_and, and_true, and_self, cell_store,
        length_store, *]
      refine ⟨?_, ?_⟩
      · intro hd' nd e hc'
        cases e
        rw [ch] at hc'
        cases hc'
        simp only [Heap.kids, pure_eq_ok, bind_ok, bind_error, bind_assoc, decide_eq_true_eq, decide_True, decide_False, ↓reduceIte, ne_eq, reduceCtorEq, not_false_eq_true, not_true_eq_false, Bool.not_eq_eq_eq_not, Bool.not_true, Bool.not_false, Option.some.injEq, Bool.false_eq_true, Bool.true_eq_false, ite_self, Except.ok.injEq, exists_eq_left', Option.map_some', Option.map_none', true_and, and_true, and_self, cell_store, length_store, *]
      · intro b hb hbh
        simp only [List.mem_cons, List.mem_singleton, List.not_mem_nil, or_false, not_or] at hb
        obtain ⟨h1, h2, h3⟩ := hb
        have h1' := Ne.symm h1
        have h2' := Ne.symm h2
        have h3' := Ne.symm h3
        have h4 : hd ≠ b := by simpa using hbh
        refine ⟨?_, fun hbm => ?_⟩
        · by_cases hby : y = b
          · subst hby
            simp only [Heap.kids, pure_eq_ok, bind_ok, bind_error, bind_assoc, decide_eq_true_eq, decide_True, decide_False, ↓reduceIte, ne_eq, reduceCtorEq, not_false_eq_true, not_true_eq_false, Bool.not_eq_eq_eq_not, Bool.not_true, Bool.not_false, Option.some.injEq, Bool.false_eq_true, Bool.true_eq_false, ite_self, Except.ok.injEq, exists_eq_left', Option.map_some', Option.map_none', true_and, and_true, and_self, cell_store, length_store, *]
          · simp only [Heap.kids, pure_eq_ok, bind_ok, bind_error, bind_assoc, decide_eq_true_eq, decide_True, decide_False, ↓reduceIte, ne_eq, reduceCtorEq, not_false_eq_true, not_true_eq_false, Bool.not_eq_eq_eq_not, Bool.not_true, Bool.not_false, Option.some.injEq, Bool.false_eq_true, Bool.true_eq_false, ite_self, Except.ok.injEq, exists_eq_left', Option.map_some', Option.map_none', true_and, and_true, and_self, cell_store, length_store, *]
        · simp only [List.mem_cons, List.mem_singleton, List.not_mem_nil, or_false, not_or] at hbm
          have hmy : y ≠ b := by
            intro e
            subst e
            simp at hbm
          simp only [Heap.kids, pure_eq_ok, bind_ok, bind_error, bind_assoc, decide_eq_true_eq, decide_True, decide_False, ↓reduceIte, ne_eq, reduceCtorEq, not_false_eq_true, not_true_eq_false, Bool.not_eq_eq_eq_not, Bool.not_true, Bool.not_false, Option.some.injEq, Bool.false_eq_true, Bool.true_eq_false, ite_self, Except.ok.injEq, exists_eq_left', Option.map_some', Option.map_none', true_and, and_true, and_self, cell_store, length_store, *]
    · simp only [balanceRotate, cond4a, cond4b, cond4c, cond4d, body4a, body4b, body4c,
        body4d, relinkAbove, relinkHead, memberParent, load, modify, BNode.isLeftChild,
        BNode.isRightChild, BNode.addLeft, BNode.addRight, setLeft, setRight, setParent, setRed,
        pure_eq_ok, bind_ok, bind_error, bind_assoc, decide_eq_true_eq, decide_True,
        decide_False, ↓reduceIte, ne_eq, reduceCtorEq, not_false_eq_true, not_true_eq_false,
        Bool.not_eq_eq_eq_not, Bool.not_true, Bool.not_false, Option.some.injEq,
        Bool.false_eq_true, Bool.true_eq_false, ite_self, Except.ok.injEq, exists_eq_left',
        Option.map_some', Option.map_none', true_and, and_true, and_self, cell_store,
        length_store, *]
      refine ⟨?_, ?_⟩
      · intro hd' nd e hc'
        cases e
        rw [ch] at hc'
        cases hc'
        simp only [Heap.kids, pure_eq_ok, bind_ok, bind_error, bind_assoc, decide_eq_true_eq, decide_True, decide_False, ↓reduceIte, ne_eq, reduceCtorEq, not_false_eq_true, not_true_eq_false, Bool.not_eq_eq_eq_not, Bool.not_true, Bool.not_false, Option.some.injEq, Bool.false_eq_true, Bool.true_eq_false, ite_self, Except.ok.injEq, exists_eq_left', Option.map_some', Option.map_none', true_and, and_true, and_self, cell_store, length_store, *]
      · intro b hb hbh
        simp only [List.mem_cons, List.mem_singleton, List.not_mem_nil, or_false, not_or] at hb
        obtain ⟨h1, h2, h3⟩ := hb
        have h1' := Ne.symm h1
        have h2' := Ne.symm h2
        have h3' := Ne.symm h3
        have h4 : hd ≠ b := by simpa using hbh
        refine ⟨?_, fun hbm => ?_⟩
        · by_cases hby : y = b
          · subst hby
            simp only [Heap.kids, pure_eq_ok, bind_ok, bind_error, bind_assoc, decide_eq_true_eq, decide_True, decide_False, ↓reduceIte, ne_eq, reduceCtorEq, not_false_eq_true, not_true_eq_false, Bool.not_eq_eq_eq_not, Bool.not_true, Bool.not_false, Option.some.injEq, Bool.false_eq_true, Bool.true_eq_false, ite_self, Except.ok.injEq, exists_eq_left', Option.map_some', Option.map_none', true_and, and_true, and_self, cell_store, length_store, *]
          · simp only [Heap.kids, pure_eq_ok, bind_ok, bind_error, bind_assoc, decide_eq_true_eq, decide_True, decide_False, ↓reduceIte, ne_eq, reduceCtorEq, not_false_eq_true, not_true_eq_false, Bool.not_eq_eq_eq_not, Bool.not_true, Bool.not_false, Option.some.injEq, Bool.false_eq_true, Bool.true_eq_false, ite_self, Except.ok.injEq, exists_eq_left', Option.map_some', Option.map_none', true_and, and_true, and_self, cell_store, length_store, *]
        · simp only [List.mem_cons, List.mem_singleton, List.not_mem_nil, or_false, not_or] at hbm
          have hmy : y ≠ b := by
            intro e
            subst e
            simp at hbm
          simp only [Heap.kids, pure_eq_ok, bind_ok, bind_error, bind_assoc, decide_eq_true_eq, decide_True, decide_False, ↓reduceIte, ne_eq, reduceCtorEq, not_false_eq_true, not_true_eq_false, Bool.not_eq_eq_eq_not, Bool.not_true, Bool.not_false, Option.some.injEq, Bool.false_eq_true, Bool.true_eq_false, ite_self, Except.ok.injEq, exists_eq_left', Option.map_some', Option.map_none', true_and, and_true, and_self, cell_store, length_store, *]
  · obtain ⟨⟨ndx, cx⟩, hn⟩ := hlp x rfl
    simp only [List.mem_cons, List.mem_singleton, List.not_mem_nil, or_false, not_or] at hn
    obtain ⟨dxa, dxp, dxg⟩ := hn
    have lx := cell_lt_length cx
    have dxa' := Ne.symm dxa
    have dxp' := Ne.symm dxp
    have dxg' := Ne.symm dxg
    clear hhd hlp hlh hrp hrh hlr
    simp only [balanceRotate, cond4a, cond4b, cond4c, cond4d, body4a, body4b, body4c,
      body4d, relinkAbove, relinkHead, memberParent, load, modify, BNode.isLeftChild,
      BNode.isRightChild, BNode.addLeft, BNode.addRight, setLeft, setRight, setParent, setRed,
      pure_eq_ok, bind_ok, bind_error, bind_assoc, decide_eq_true_eq, decide_True,
      decide_False, ↓reduceIte, ne_eq, reduceCtorEq, not_false_eq_true, not_true_eq_false,
      Bool.not_eq_eq_eq_not, Bool.not_true, Bool.not_false, Option.some.injEq,
      Bool.false_eq_true, Bool.true_eq_false, ite_self, Except.ok.injEq, exists_eq_left',
      Option.map_some', Option.map_none', true_and, and_true, and_self, cell_store,
      length_store, *]
    refine ⟨?_, ?_⟩
    · exact fun hd' nd e => absurd e (by simp)
    · intro b hb hbh
      simp only [List.mem_cons, List.mem_singleton, List.not_mem_nil, or_false, not_or] at hb
      obtain ⟨h1, h2, h3⟩ := hb
      have h1' := Ne.symm h1
      have h2' := Ne.symm h2
      have h3' := Ne.symm h3
      refine ⟨?_, fun hbm => ?_⟩
      · by_cases hbx : x = b
        · subst hbx
          simp only [Heap.kids, pure_eq_ok, bind_ok, bind_error, bind_assoc, decide_eq_true_eq, decide_True, decide_False, ↓reduceIte, ne_eq, reduceCtorEq, not_false_eq_true, not_true_eq_false, Bool.not_eq_eq_eq_not, Bool.not_true, Bool.not_false, Option.some.injEq, Bool.false_eq_true, Bool.true_eq_false, ite_self, Except.ok.injEq, exists_eq_left', Option.map_some', Option.map_none', true_and, and_true, and_self, cell_store, length_store, *]
        · simp only [Heap.kids, pure_eq_ok, bind_ok, bind_error, bind_assoc, decide_eq_true_eq, decide_True, decide_False, ↓reduceIte, ne_eq, reduceCtorEq, not_false_eq_true, not_true_eq_false, Bool.not_eq_eq_eq_not, Bool.not_true, Bool.not_false, Option.some.injEq, Bool.false_eq_true, Bool.true_eq_false, ite_self, Except.ok.injEq, exists_eq_left', Option.map_some', Option.map_none', true_and, and_true, and_self, cell_store, length_store, *]
      · simp only [List.mem_cons, List.mem_singleton, List.not_mem_nil, or_false, not_or] at hbm
        have hmx : x ≠ b := by
          intro e
          subst e
          simp at hbm
        simp only [Heap.kids, pure_eq_ok, bind_ok, bind_error, bind_assoc, decide_eq_true_eq, decide_True, decide_False, ↓reduceIte, ne_eq, reduceCtorEq, not_false_eq_true, not_true_eq_false, Bool.not_eq_eq_eq_not, Bool.not_true, Bool.not_false, Option.some.injEq, Bool.false_eq_true, Bool.true_eq_false, ite_self, Except.ok.injEq, exists_eq_left', Option.map_some', Option.map_none', true_and, and_true, and_self, cell_store, length_store, *]
  · obtain ⟨⟨ndx, cx⟩, hn⟩ := hlp x rfl
    simp only [List.mem_cons, List.mem_singleton, List.not_mem_nil, or_false, not_or] at hn
    obtain ⟨dxa, dxp, dxg⟩ := hn
    have lx := cell_lt_length cx
    have dxa' := Ne.symm dxa
    have dxp' := Ne.symm dxp
    have dxg' := Ne.symm dxg
    obtain ⟨⟨⟨vh, hl, hr, hpar, hc⟩, ch⟩, hn⟩ := hhd hd rfl
    simp only [List.mem_cons, List.mem_singleton, List.not_mem_nil, or_false, not_or] at hn
    obtain ⟨dha, dhp, dhg⟩ := hn
    have lh := cell_lt_length ch
    have dha' := Ne.symm dha
    have dhp' := Ne.symm dhp
    have dhg' := Ne.symm dhg
    have dxh : x ≠ hd := by simpa using hlh
    have dxh' := Ne.symm dxh
    clear hhd hlp hlh hrp hrh hlr
    by_cases hrg : hr = some g
    · simp only [balanceRotate, cond4a, cond4b, cond4c, cond4d, body4a, body4b, body4c,
        body4d, relinkAbove, relinkHead, memberParent, load, modify, BNode.isLeftChild,
        BNode.isRightChild, BNode.addLeft, BNode.addRight, setLeft, setRight, setParent, setRed,
        pure_eq_ok, bind_ok, bind_error, bind_assoc, decide_eq_true_eq, decide_True,
        decide_False, ↓reduceIte, ne_eq, reduceCtorEq, not_false_eq_true, not_true_eq_false,
        Bool.not_eq_eq_eq_not, Bool.not_true, Bool.not_false, Option.some.injEq,
        Bool.false_eq_true, Bool.true_eq_false, ite_self, Except.ok.injEq, exists_eq_left',
        Option.map_some', Option.map_none', true_and, and_true, and_self, cell_store,
        length_store, *]
      refine ⟨?_, ?_⟩
      · intro hd' nd e hc'
        cases e
        rw [ch] at hc'
        cases hc'
        simp only [Heap.kids, pure_eq_ok, bind_ok, bind_error, bind_assoc, decide_eq_true_eq, decide_True, decide_False, ↓reduceIte, ne_eq, reduceCtorEq, not_false_eq_true, not_true_eq_false, Bool.not_eq_eq_eq_not, Bool.not_true, Bool.not_false, Option.some.injEq, Bool.false_eq_true, Bool.true_eq_false, ite_self, Except.ok.injEq, exists_eq_left', Option.map_some', Option.map_none', true_and, and_true, and_self, cell_store, length_store, *]
      · intro b hb hbh
        simp only [List.mem_cons, List.mem_singleton, List.not_mem_nil, or_false, not_or] at hb
        obtain ⟨h1, h2, h3⟩ := hb
        have h1' := Ne.symm h1
        have h2' := Ne.symm h2
        have h3' := Ne.symm h3
        have h4 : hd ≠ b := by simpa using hbh
        refine ⟨?_, fun hbm => ?_⟩
        · by_cases hbx : x = b
          · subst hbx
            simp only [Heap.kids, pure_eq_ok, bind_ok, bind_error, bind_assoc, decide_eq_true_eq, decide_True, decide_False, ↓reduceIte, ne_eq, reduceCtorEq, not_false_eq_true, not_true_eq_false, Bool.not_eq_eq_eq_not, Bool.not_true, Bool.not_false, Option.some.injEq, Bool.false_eq_true, Bool.true_eq_false, ite_self, Except.ok.injEq, exists_eq_left', Option.map_some', Option.map_none', true_and, and_true, and_self, cell_store, length_store, *]
          · simp only [Heap.kids, pure_eq_ok, bind_ok, bind_error, bind_assoc, decide_eq_true_eq, decide_True, decide_False, ↓reduceIte, ne_eq, reduceCtorEq, not_false_eq_true, not_true_eq_false, Bool.not_eq_eq_eq_not, Bool.not_true, Bool.not_false, Option.some.injEq, Bool.false_eq_true, Bool.true_eq_false, ite_self, Except.ok.injEq, exists_eq_left', Option.map_some', Option.map_none', true_and, and_true, and_self, cell_store, length_store, *]
        · simp only [List.mem_cons, List.mem_singleton, List.not_mem_nil, or_false, not_or] at hbm
          have hmx : x ≠ b := by
            intro e
            subst e
            simp at hbm
          simp only [Heap.kids, pure_eq_ok, bind_ok, bind_error, bind_assoc, decide_eq_true_eq, decide_True, decide_False, ↓reduceIte, ne_eq, reduceCtorEq, not_false_eq_true, not_true_eq_false, Bool.not_eq_eq_eq_not, Bool.not_true, Bool.not_false, Option.some.injEq, Bool.false_eq_true, Bool.true_eq_false, ite_self, Except.ok.injEq, exists_eq_left', Option.map_some', Option.map_none', true_and, and_true, and_self, cell_store, length_store, *]
    · simp only [balanceRotate, cond4a, cond4b, cond4c, cond4d, body4a, body4b, body4c,
        body4d, relinkAbove, relinkHead, memberParent, load, modify, BNode.isLeftChild,
        BNode.isRightChild, BNode.addLeft, BNode.addRight, setLeft, setRight, setParent, setRed,
        pure_eq_ok, bind_ok, bind_error, bind_assoc, decide_eq_true_eq, decide_True,
        decide_False, ↓reduceIte, ne_eq, reduceCtorEq, not_false_eq_true, not_true_eq_false,
        Bool.not_eq_eq_eq_not, Bool.not_true, Bool.not_false, Option.some.injEq,
        Bool.false_eq_true, Bool.true_eq_false, ite_self, Except.ok.injEq, exists_eq_left',
        Option.map_some', Option.map_none', true_and, and_true, and_self, cell_store,
        length_store, *]
      refine ⟨?_, ?_⟩
      · intro hd' nd e hc'
        cases e
        rw [ch] at hc'
        cases hc'
        simp only [Heap.kids, pure_eq_ok, bind_ok, bind_error, bind_assoc, decide_eq_true_eq, decide_True, decide_False, ↓reduceIte, ne_eq, reduceCtorEq, not_false_eq_true, not_true_eq_false, Bool.not_eq_eq_eq_not, Bool.not_true, Bool.not_false, Option.some.injEq, Bool.false_eq_true, Bool.true_eq_false, ite_self, Except.ok.injEq, exists_eq_left', Option.map_some', Option.map_none', true_and, and_true, and_self, cell_store, length_store, *]
      · intro b hb hbh
        simp only [List.mem_cons, List.mem_singleton, List.not_mem_nil, or_false, not_or] at hb
        obtain ⟨h1, h2, h3⟩ := hb
        have h1' := Ne.symm h1
        have h2' := Ne.symm h2
        have h3' := Ne.symm h3
        have h4 : hd ≠ b := by simpa using hbh
        refine ⟨?_, fun hbm => ?_⟩
        · by_cases hbx : x = b
          · subst hbx
            simp only [Heap.kids, pure_eq_ok, bind_ok, bind_error, bind_assoc, decide_eq_true_eq, decide_True, decide_False, ↓reduceIte, ne_eq, reduceCtorEq, not_false_eq_true, not_true_eq_false, Bool.not_eq_eq_eq_not, Bool.not_true, Bool.not_false, Option.some.injEq, Bool.false_eq_true, Bool.true_eq_false, ite_self, Except.ok.injEq, exists_eq_left', Option.map_some', Option.map_none', true_and, and_true, and_self, cell_store, length_store, *]
          · simp only [Heap.kids, pure_eq_ok, bind_ok, bind_error, bind_assoc, decide_eq_true_eq, decide_True, decide_False, ↓reduceIte, ne_eq, reduceCtorEq, not_false_eq_true, not_true_eq_false, Bool.not_eq_eq_eq_not, Bool.not_true, Bool.not_false, Option.some.injEq, Bool.false_eq_true, Bool.true_eq_false, ite_self, Except.ok.injEq, exists_eq_left', Option.map_some', Option.map_none', true_and, and_true, and_self, cell_store, length_store, *]
        · simp only [List.mem_cons, List.mem_singleton, List.not_mem_nil, or_false, not_or] at hbm
          have hmx : x ≠ b := by
            intro e
            subst e
            simp at hbm
          simp only [Heap.kids, pure_eq_ok, bind_ok, bind_error, bind_assoc, decide_eq_true_eq, decide_True, decide_False, ↓reduceIte, ne_eq, reduceCtorEq, not_false_eq_true, not_true_eq_false, Bool.not_eq_eq_eq_not, Bool.not_true, Bool.not_false, Option.some.injEq, Bool.false_eq_true, Bool.true_eq_false, ite_self, Except.ok.injEq, exists_eq_left', Option.map_some', Option.map_none', true_and, and_true, and_self, cell_store, length_store, *]
  · obtain ⟨⟨ndx, cx⟩, hn⟩ := hlp x rfl
    simp only [List.mem_cons, List.mem_singleton, List.not_mem_nil, or_false, not_or] at hn
    obtain ⟨dxa, dxp, dxg⟩ := hn
    have lx := cell_lt_length cx
    have dxa' := Ne.symm dxa
    have dxp' := Ne.symm dxp
    have dxg' := Ne.symm dxg
    obtain ⟨⟨ndy, cy⟩, hn⟩ := hrp y rfl
    simp only [List.mem_cons, List.mem_singleton, List.not_mem_nil, or_false, not_or] at hn
    obtain ⟨dya, dyp, dyg⟩ := hn
    have ly := cell_lt_length cy
    have dya' := Ne.symm dya
    have dyp' := Ne.symm dyp
    have dyg' := Ne.symm dyg
    have hxy : x ≠ y := by simpa using hlr
    have hyx := Ne.symm hxy
    clear hhd hlp hlh hrp hrh hlr
    simp only [balanceRotate, cond4a, cond4b, cond4c, cond4d, body4a, body4b, body4c,
      body4d, relinkAbove, relinkHead, memberParent, load, modify, BNode.isLeftChild,
      BNode.isRightChild, BNode.addLeft, BNode.addRight, setLeft, setRight, setParent, setRed,
      pure_eq_ok, bind_ok, bind_error, bind_assoc, decide_eq_true_eq, decide_True,
      decide_False, ↓reduceIte, ne_eq, reduceCtorEq, not_false_eq_true, not_true_eq_false,
      Bool.not_eq_eq_eq_not, Bool.not_true, Bool.not_false, Option.some.injEq,
      Bool.false_eq_true, Bool.true_eq_false, ite_self, Except.ok.injEq, exists_eq_left',
      Option.map_some', Option.map_none', true_and, and_true, and_self, cell_store,
      length_store, *]
    refine ⟨?_, ?_⟩
    · exact fun hd' nd e => absurd e (by simp)
    · intro b hb hbh
      simp only [List.mem_cons, List.mem_singleton, List.not_mem_nil, or_false, not_or] at hb
      obtain ⟨h1, h2, h3⟩ := hb
      have h1' := Ne.symm h1
      have h2' := Ne.symm h2
      have h3' := Ne.symm h3
      refine ⟨?_, fun hbm => ?_⟩
      · by_cases hbx : x = b
        · subst hbx
          simp only [Heap.kids, pure_eq_ok, bind_ok, bind_error, bind_assoc, decide_eq_true_eq, decide_True, decide_False, ↓reduceIte, ne_eq, reduceCtorEq, not_false_eq_true, not_true_eq_false, Bool.not_eq_eq_eq_not, Bool.not_true, Bool.not_false, Option.some.injEq, Bool.false_eq_true, Bool.true_eq_false, ite_self, Except.ok.injEq, exists_eq_left', Option.map_some', Option.map_none', true_and, and_true, and_self, cell_store, length_store, *]
        · by_cases hby : y = b
          · subst hby
            simp only [Heap.kids, pure_eq_ok, bind_ok, bind_error, bind_assoc, decide_eq_true_eq, decide_True, decide_False, ↓reduceIte, ne_eq, reduceCtorEq, not_false_eq_true, not_true_eq_false, Bool.not_eq_eq_eq_not, Bool.not_true, Bool.not_false, Option.some.injEq, Bool.false_eq_true, Bool.true_eq_false, ite_self, Except.ok.injEq, exists_eq_left', Option.map_some', Option.map_none', true_and, and_true, and_self, cell_store, length_store, *]
          · simp only [Heap.kids, pure_eq_ok, bind_ok, bind_error, bind_assoc, decide_eq_true_eq, decide_True, decide_False, ↓reduceIte, ne_eq, reduceCtorEq, not_false_eq_true, not_true_eq_false, Bool.not_eq_eq_eq_not, Bool.not_true, Bool.not_false, Option.some.injEq, Bool.false_eq_true, Bool.true_eq_false, ite_self, Except.ok.injEq, exists_eq_left', Option.map_some', Option.map_none', true_and, and_true, and_self, cell_store, length_store, *]
      · simp only [List.mem_cons, List.mem_singleton, List.not_mem_nil, or_false, not_or] at hbm
        have hmx : x ≠ b := by
          intro e
          subst e
          simp at hbm
        have hmy : y ≠ b := by
          intro e
          subst e
          simp at hbm
        simp only [Heap.kids, pure_eq_ok, bind_ok, bind_error, bind_assoc, decide_eq_true_eq, decide_True, decide_False, ↓reduceIte, ne_eq, reduceCtorEq, not_false_eq_true, not_true_eq_false, Bool.not_eq_eq_eq_not, Bool.not_true, Bool.not_false, Option.some.injEq, Bool.false_eq_true, Bool.true_eq_false, ite_self, Except.ok.injEq, exists_eq_left', Option.map_some', Option.map_none', true_and, and_true, and_self, cell_store, length_store, *]
  · obtain ⟨⟨ndx, cx⟩, hn⟩ := hlp x rfl
    simp only [List.mem_cons, List.mem_singleton, List.not_mem_nil, or_false, not_or] at hn
    obtain ⟨dxa, dxp, dxg⟩ := hn
    have lx := cell_lt_length cx
    have dxa' := Ne.symm dxa
    have dxp' := Ne.symm dxp
    have dxg' := Ne.symm dxg
    obtain ⟨⟨ndy, cy⟩, hn⟩ := hrp y rfl
    simp only [List.mem_cons, List.mem_singleton, List.not_mem_nil, or_false, not_or] at hn
    obtain ⟨dya, dyp, dyg⟩ := hn
    have ly := cell_lt_length cy
    have dya' := Ne.symm dya
    have dyp' := Ne.symm dyp
    have dyg' := Ne.symm dyg
    have hxy : x ≠ y := by simpa using hlr
    have hyx := Ne.symm hxy
    obtain ⟨⟨⟨vh, hl, hr, hpar, hc⟩, ch⟩, hn⟩ := hhd hd rfl
    simp only [List.mem_cons, List.mem_singleton, List.not_mem_nil, or_false, not_or] at hn
    obtain ⟨dha, dhp, dhg⟩ := hn
    have lh := cell_lt_length ch
    have dha' := Ne.symm dha
    have dhp' := Ne.symm dhp
    have dhg' := Ne.symm dhg
    have dxh : x ≠ hd := by simpa using hlh
    have dxh' := Ne.symm dxh
    have dyh : y ≠ hd := by simpa using hrh
    have dyh' := Ne.symm dyh
    clear hhd hlp hlh hrp hrh hlr
    by_cases hrg : hr = some g
    · simp only [balanceRotate, cond4a, cond4b, cond4c, cond4d, body4a, body4b, body4c,
        body4d, relinkAbove, relinkHead, memberParent, load, modify, BNode.isLeftChild,
        BNode.isRightChild, BNode.addLeft, BNode.addRight, setLeft, setRight, setParent, setRed,
        pure_eq_ok, bind_ok, bind_error, bind_assoc, decide_eq_true_eq, decide_True,
        decide_False, ↓reduceIte, ne_eq, reduceCtorEq, not_false_eq_true, not_true_eq_false,
        Bool.not_eq_eq_eq_not, Bool.not_true, Bool.not_false, Option.some.injEq,
        Bool.false_eq_true, Bool.true_eq_false, ite_self, Except.ok.injEq, exists_eq_left',
        Option.map_some', Option.map_none', true_and, and_true, and_self, cell_store,
        length_store, *]
      refine ⟨?_, ?_⟩
      · intro hd' nd e hc'
        cases e
        rw [ch] at hc'
        cases hc'
        simp only [Heap.kids, pure_eq_ok, bind_ok, bind_error, bind_assoc, decide_eq_true_eq, decide_True, decide_False, ↓reduceIte, ne_eq, reduceCtorEq, not_false_eq_true, not_true_eq_false, Bool.not_eq_eq_eq_not, Bool.not_true, Bool.not_false, Option.some.injEq, Bool.false_eq_true, Bool.true_eq_false, ite_self, Except.ok.injEq, exists_eq_left', Option.map_some', Option.map_none', true_and, and_true, and_self, cell_store, length_store, *]
      · intro b hb hbh
        simp only [List.mem_cons, List.mem_singleton, List.not_mem_nil, or_false, not_or] at hb
        obtain ⟨h1, h2, h3⟩ := hb
        have h1' := Ne.symm h1
        have h2' := Ne.symm h2
        have h3' := Ne.symm h3
        have h4 : hd ≠ b := by simpa using hbh
        refine ⟨?_, fun hbm => ?_⟩
        · by_cases hbx : x = b
          · subst hbx
            simp only [Heap.kids, pure_eq_ok, bind_ok, bind_error, bind_assoc, decide_eq_true_eq, decide_True, decide_False, ↓reduceIte, ne_eq, reduceCtorEq, not_false_eq_true, not_true_eq_false, Bool.not_eq_eq_eq_not, Bool.not_true, Bool.not_false, Option.some.injEq, Bool.false_eq_true, Bool.true_eq_false, ite_self, Except.ok.injEq, exists_eq_left', Option.map_some', Option.map_none', true_and, and_true, and_self, cell_store, length_store, *]
          · by_cases hby : y = b
            · subst hby
              simp only [Heap.kids, pure_eq_ok, bind_ok, bind_error, bind_assoc, decide_eq_true_eq, decide_True, decide_False, ↓reduceIte, ne_eq, reduceCtorEq, not_false_eq_true, not_true_eq_false, Bool.not_eq_eq_eq_not, Bool.not_true, Bool.not_false, Option.some.injEq, Bool.false_eq_true, Bool.true_eq_false, ite_self, Except.ok.injEq, exists_eq_left', Option.map_some', Option.map_none', true_and, and_true, and_self, cell_store, length_store, *]
            · simp only [Heap.kids, pure_eq_ok, bind_ok, bind_error, bind_assoc, decide_eq_true_eq, decide_True, decide_False, ↓reduceIte, ne_eq, reduceCtorEq, not_false_eq_true, not_true_eq_false, Bool.not_eq_eq_eq_not, Bool.not_true, Bool.not_false, Option.some.injEq, Bool.false_eq_true, Bool.true_eq_false, ite_self, Except.ok.injEq, exists_eq_left', Option.map_some', Option.map_none', true_and, and_true, and_self, cell_store, length_store, *]
        · simp only [List.mem_cons, List.mem_singleton, List.not_mem_nil, or_false, not_or] at hbm
          have hmx : x ≠ b := by
            intro e
            subst e
            simp at hbm
          have hmy : y ≠ b := by
            intro e
            subst e
            simp at hbm
          simp only [Heap.kids, pure_eq_ok, bind_ok, bind_error, bind_assoc, decide_eq_true_eq, decide_True, decide_False, ↓reduceIte, ne_eq, reduceCtorEq, not_false_eq_true, not_true_eq_false, Bool.not_eq_eq_eq_not, Bool.not_true, Bool.not_false, Option.some.injEq, Bool.false_eq_true, Bool.true_eq_false, ite_self, Except.ok.injEq, exists_eq_left', Option.map_some', Option.map_none', true_and, and_true, and_self, cell_store, length_store, *]
    · simp only [balanceRotate, cond4a, cond4b, cond4c, cond4d, body4a, body4b, body4c,
        body4d, relinkAbove, relinkHead, memberParent, load, modify, BNode.isLeftChild,
        BNode.isRightChild, BNode.addLeft, BNode.addRight, setLeft, setRight, setParent, setRed,
        pure_eq_ok, bind_ok, bind_error, bind_assoc, decide_eq_true_eq, decide_True,
        decide_False, ↓reduceIte, ne_eq, reduceCtorEq, not_false_eq_true, not_true_eq_false,
        Bool.not_eq_eq_eq_not, Bool.not_true, Bool.not_false, Option.some.injEq,
        Bool.false_eq_true, Bool.true_eq_false, ite_self, Except.ok.injEq, exists_eq_left',
        Option.map_some', Option.map_none', true_and, and_true, and_self, cell_store,
        length_store, *]
      refine ⟨?_, ?_⟩
      · intro hd' nd e hc'
        cases e
        rw [ch] at hc'
        cases hc'
        simp only [Heap.kids, pure_eq_ok, bind_ok, bind_error, bind_assoc, decide_eq_true_eq, decide_True, decide_False, ↓reduceIte, ne_eq, reduceCtorEq, not_false_eq_true, not_true_eq_false, Bool.not_eq_eq_eq_not, Bool.not_true, Bool.not_false, Option.some.injEq, Bool.false_eq_true, Bool.true_eq_false, ite_self, Except.ok.injEq, exists_eq_left', Option.map_some', Option.map_none', true_and, and_true, and_self, cell_store, length_store, *]
      · intro b hb hbh
        simp only [List.mem_cons, List.mem_singleton, List.not_mem_nil, or_false, not_or] at hb
        obtain ⟨h1, h2, h3⟩ := hb
        have h1' := Ne.symm h1
        have h2' := Ne.symm h2
        have h3' := Ne.symm h3
        have h4 : hd ≠ b := by simpa using hbh
        refine ⟨?_, fun hbm => ?_⟩
        · by_cases hbx : x = b
          · subst hbx
            simp only [Heap.kids, pure_eq_ok, bind_ok, bind_error, bind_assoc, decide_eq_true_eq, decide_True, decide_False, ↓reduceIte, ne_eq, reduceCtorEq, not_false_eq_true, not_true_eq_false, Bool.not_eq_eq_eq_not, Bool.not_true, Bool.not_false, Option.some.injEq, Bool.false_eq_true, Bool.true_eq_false, ite_self, Except.ok.injEq, exists_eq_left', Option.map_some', Option.map_none', true_and, and_true, and_self, cell_store, length_store, *]
          · by_cases hby : y = b
            · subst hby
              simp only [Heap.kids, pure_eq_ok, bind_ok, bind_error, bind_assoc, decide_eq_true_eq, decide_True, decide_False, ↓reduceIte, ne_eq, reduceCtorEq, not_false_eq_true, not_true_eq_false, Bool.not_eq_eq_eq_not, Bool.not_true, Bool.not_false, Option.some.injEq, Bool.false_eq_true, Bool.true_eq_false, ite_self, Except.ok.injEq, exists_eq_left', Option.map_some', Option.map_none', true_and, and_true, and_self, cell_store, length_store, *]
            · simp only [Heap.kids, pure_eq_ok, bind_ok, bind_error, bind_assoc, decide_eq_true_eq, decide_True, decide_False, ↓reduceIte, ne_eq, reduceCtorEq, not_false_eq_true, not_true_eq_false, Bool.not_eq_eq_eq_not, Bool.not_true, Bool.not_false, Option.some.injEq, Bool.false_eq_true, Bool.true_eq_false, ite_self, Except.ok.injEq, exists_eq_left', Option.map_some', Option.map_none', true_and, and_true, and_self, cell_store, length_store, *]
        · simp only [List.mem_cons, List.mem_singleton, List.not_mem_nil, or_false, not_or] at hbm
          have hmx : x ≠ b := by
            intro e
            subst e
            simp at hbm
          have hmy : y ≠ b := by
            intro e
            subst e
            simp at hbm
          simp only [Heap.kids, pure_eq_ok, bind_ok, bind_error, bind_assoc, decide_eq_true_eq, decide_True, decide_False, ↓reduceIte, ne_eq, reduceCtorEq, not_false_eq_true, not_true_eq_false, Bool.not_eq_eq_eq_not, Bool.not_true, Bool.not_false, Option.some.injEq, Bool.false_eq_true, Bool.true_eq_false, ite_self, Except.ok.injEq, exists_eq_left', Option.map_some', Option.map_none', true_and, and_true, and_self, cell_store, length_store, *]

set_option maxHeartbeats 4000000 in
/-- The body of case 4d of `balance` on a well-formed neighbourhood: the nodes after the double rotation, before the recursive call. -/
theorem body4d_exec {h : Heap T} {a p g : Nat}
    {v vp vg : T} {lp rp sp up hdp : Ptr} {c : Bool}
    (ca : h.cell a = some ⟨v, lp, rp, some p, c⟩)
    (cp : h.cell p = some ⟨vp, some a, sp, some g, true⟩)
    (cg : h.cell g = some ⟨vg, up, some p, hdp, false⟩)
    (hap : a ≠ p) (hag : a ≠ g) (hpg : p ≠ g)
    (hhd : h.Free hdp [a, p, g])
    (hlp : h.Free lp [a, p, g]) (hlh : lp = none ∨ lp ≠ hdp)
    (hrp : h.Free rp [a, p, g]) (hrh : rp = none ∨ rp ≠ hdp)
    (hlr : lp = none ∨ lp ≠ rp) :
    ∃ h', body4d h (some a) (some g) = .ok h' ∧
      h'.cell a = some ⟨v, some g, some p, (if hdp = none then none else some p), false⟩ ∧
      h'.cell p = some ⟨vp, rp, sp, some a, true⟩ ∧
      h'.cell g = some ⟨vg, up, lp, some a, true⟩ ∧
      HeadCell h h' hdp g a ∧ RestSame h h' [a, p, g] hdp [lp, rp] := by
  have la := cell_lt_length ca
  have lp' := cell_lt_length cp
  have lg := cell_lt_length cg
  have hpa := hap.symm
  have hga := hag.symm
  have hgp := hpg.symm
  rcases lp with _ | x <;> rcases rp with _ | y <;> rcases hdp with _ | hd
  · clear hhd hlp hlh hrp hrh hlr
    simp only [balanceRotate, cond4a, cond4b, cond4c, cond4d, body4a, body4b, body4c,
      body4d, relinkAbove, relinkHead, memberParent, load, modify, BNode.isLeftChild,
      BNode.isRightChild, BNode.addLeft, BNode.addRight, setLeft, setRight, setParent, setRed,
      pure_eq_ok, bind_ok, bind_error, bind_assoc, decide_eq_true_eq, decide_True,
      decide_False, ↓reduceIte, ne_eq, reduceCtorEq, not_false_eq_true, not_true_eq_false,
      Bool.not_eq_eq_eq_not, Bool.not_true, Bool.not_false, Option.some.injEq,
      Bool.false_eq_true, Bool.true_eq_false, ite_self, Except.ok.injEq, exists_eq_left',
      Option.map_some', Option.map_none', true_and, and_true, and_self, cell_store,
      length_store, *]
    refine ⟨?_, ?_⟩
    · exact fun hd' nd e => absurd e (by simp)
    · intro b hb hbh
      simp only [List.mem_cons, List.mem_singleton, List.not_mem_nil, or_false, not_or] at hb
      obtain ⟨h1, h2, h3⟩ := hb
      have h1' := Ne.symm h1
      have h2' := Ne.symm h2
      have h3' := Ne.symm h3
      refine ⟨?_, fun hbm => ?_⟩
      · simp only [Heap.kids, pure_eq_ok, bind_ok, bind_error, bind_assoc, decide_eq_true_eq, decide_True, decide_False, ↓reduceIte, ne_eq, reduceCtorEq, not_false_eq_true, not_true_eq_false, Bool.not_eq_eq_eq_not, Bool.not_true, Bool.not_false, Option.some.injEq, Bool.false_eq_true, Bool.true_eq_false, ite_self, Except.ok.injEq, exists_eq_left', Option.map_some', Option.map_none', true_and, and_true, and_self, cell_store, length_store, *]
      · simp only [List.mem_cons, List.mem_singleton, List.not_mem_nil, or_false, not_or] at hbm
        simp only [Heap.kids, pure_eq_ok, bind_ok, bind_error, bind_assoc, decide_eq_true_eq, decide_True, decide_False, ↓reduceIte, ne_eq, reduceCtorEq, not_false_eq_true, not_true_eq_false, Bool.not_eq_eq_eq_not, Bool.not_true, Bool.not_false, Option.some.injEq, Bool.false_eq_true, Bool.true_eq_false, ite_self, Except.ok.injEq, exists_eq_left', Option.map_some', Option.map_none', true_and, and_true, and_self, cell_store, length_store, *]
  · obtain ⟨⟨⟨vh, hl, hr, hpar, hc⟩, ch⟩, hn⟩ := hhd hd rfl
    simp only [List.mem_cons, List.mem_singleton, List.not_mem_nil, or_false, not_or] at hn
    obtain ⟨dha, dhp, dhg⟩ := hn
    have lh := cell_lt_length ch
    have dha' := Ne.symm dha
    have dhp' := Ne.symm dhp
    have dhg' := Ne.symm dhg
    clear hhd hlp hlh hrp hrh hlr
    by_cases hrg : hr = some g
    · simp only [balanceRotate, cond4a, cond4b, cond4c, cond4d, body4a, body4b, body4c,
        body4d, relinkAbove, relinkHead, memberParent, load, modify, BNode.isLeftChild,
        BNode.isRightChild, BNode.addLeft, BNode.addRight, setLeft, setRight, setParent, setRed,
        pure_eq_ok, bind_ok, bind_error, bind_assoc, decide_eq_true_eq, decide_True,
        decide_False, ↓reduceIte, ne_eq, reduceCtorEq, not_false_eq_true, not_true_eq_false,
        Bool.not_eq_eq_eq_not, Bool.not_true, Bool.not_false, Option.some.injEq,
        Bool.false_eq_true, Bool.true_eq_false, ite_self, Except.ok.injEq, exists_eq_left',
        Option.map_some', Option.map_none', true_and, and_true, and_self, cell_store,
        length_store, *]
      refine ⟨?_, ?_⟩
      · intro hd' nd e hc'
        cases e
        rw [ch] at hc'
        cases hc'
        simp only [Heap.kids, pure_eq_ok, bind_ok, bind_error, bind_assoc, decide_eq_true_eq, decide_True, decide_False, ↓reduceIte, ne_eq, reduceCtorEq, not_false_eq_true, not_true_eq_false, Bool.not_eq_eq_eq_not, Bool.not_true, Bool.not_false, Option.some.injEq, Bool.false_eq_true, Bool.true_eq_false, ite_self, Except.ok.injEq, exists_eq_left', Option.map_some', Option.map_none', true_and, and_true, and_self, cell_store, length_store, *]
      · intro b hb hbh
        simp only [List.mem_cons, List.mem_singleton, List.not_mem_nil, or_false, not_or] at hb
        obtain ⟨h1, h2, h3⟩ := hb
        have h1' := Ne.symm h1
        have h2' := Ne.symm h2
        have h3' := Ne.symm h3
        have h4 : hd ≠ b := by simpa using hbh
        refine ⟨?_, fun hbm => ?_⟩
        · simp only [Heap.kids, pure_eq_ok, bind_ok, bind_error, bind_assoc, decide_eq_true_eq, decide_True, decide_False, ↓reduceIte, ne_eq, reduceCtorEq, not_false_eq_true, not_true_eq_false, Bool.not_eq_eq_eq_not, Bool.not_true, Bool.not_false, Option.some.injEq, Bool.false_eq_true, Bool.true_eq_false, ite_self, Except.ok.injEq, exists_eq_left', Option.map_some', Option.map_none', true_and, and_true, and_self, cell_store, length_store, *]
        · simp only [List.mem_cons, List.mem_singleton, List.not_mem_nil, or_false, not_or] at hbm
          simp only [Heap.kids, pure_eq_ok, bind_ok, bind_error, bind_assoc, decide_eq_true_eq, decide_True, decide_False, ↓reduceIte, ne_eq, reduceCtorEq, not_false_eq_true, not_true_eq_false, Bool.not_eq_eq_eq_not, Bool.not_true, Bool.not_false, Option.some.injEq, Bool.false_eq_true, Bool.true_eq_false, ite_self, Except.ok.injEq, exists_eq_left', Option.map_some', Option.map_none', true_and, and_true, and_self, cell_store, length_store, *]
    · simp only [balanceRotate, cond4a, cond4b, cond4c, cond4d, body4a, body4b, body4c,
        body4d, relinkAbove, relinkHead, memberParent, load, modify, BNode.isLeftChild,
        BNode.isRightChild, BNode.addLeft, BNode.addRight, setLeft, setRight, setParent, setRed,
        pure_eq_ok, bind_ok, bind_error, bind_assoc, decide_eq_true_eq, decide_True,
        decide_False, ↓reduceIte, ne_eq, reduceCtorEq, not_false_eq_true, not_true_eq_false,
        Bool.not_eq_eq_eq_not, Bool.not_true, Bool.not_false, Option.some.injEq,
        Bool.false_eq_true, Bool.true_eq_false, ite_self, Except.ok.injEq, exists_eq_left',
        Option.map_some', Option.map_none', true_and, and_true, and_self, cell_store,
        length_store, *]
      refine ⟨?_, ?_⟩
      · intro hd' nd e hc'
        cases e
        rw [ch] at hc'
        cases hc'
        simp only [Heap.kids, pure_eq_ok, bind_ok, bind_error, bind_assoc, decide_eq_true_eq, decide_True, decide_False, ↓reduceIte, ne_eq, reduceCtorEq, not_false_eq_true, not_true_eq_false, Bool.not_eq_eq_eq_not, Bool.not_true, Bool.not_false, Option.some.injEq, Bool.false_eq_true, Bool.true_eq_false, ite_self, Except.ok.injEq, exists_eq_left', Option.map_some', Option.map_none', true_and, and_true, and_self, cell_store, length_store, *]
      · intro b hb hbh
        simp only [List.mem_cons, List.mem_singleton, List.not_mem_nil, or_false, not_or] at hb
        obtain ⟨h1, h2, h3⟩ := hb
        have h1' := Ne.symm h1
        have h2' := Ne.symm h2
        have h3' := Ne.symm h3
        have h4 : hd ≠ b := by simpa using hbh
        refine ⟨?_, fun hbm => ?_⟩
        · simp only [Heap.kids, pure_eq_ok, bind_ok, bind_error, bind_assoc, decide_eq_true_eq, decide_True, decide_False, ↓reduceIte, ne_eq, reduceCtorEq, not_false_eq_true, not_true_eq_false, Bool.not_eq_eq_eq_not, Bool.not_true, Bool.not_false, Option.some.injEq, Bool.false_eq_true, Bool.true_eq_false, ite_self, Except.ok.injEq, exists_eq_left', Option.map_some', Option.map_none', true_and, and_true, and_self, cell_store, length_store, *]
        · simp only [List.mem_cons, List.mem_singleton, List.not_mem_nil, or_false, not_or] at hbm
          simp only [Heap.kids, pure_eq_ok, bind_ok, bind_error, bind_assoc, decide_eq_true_eq, decide_True, decide_False, ↓reduceIte, ne_eq, reduceCtorEq, not_false_eq_true, not_true_eq_false, Bool.not_eq_eq_eq_not, Bool.not_true, Bool.not_false, Option.some.injEq, Bool.false_eq_true, Bool.true_eq_false, ite_self, Except.ok.injEq, exists_eq_left', Option.map_some', Option.map_none', true_and, and_true, and_self, cell_store, length_store, *]
  · obtain ⟨⟨ndy, cy⟩, hn⟩ := hrp y rfl
    simp only [List.mem_cons, List.mem_singleton, List.not_mem_nil, or_false, not_or] at hn
    obtain ⟨dya, dyp, dyg⟩ := hn
    have ly := cell_lt_length cy
    have dya' := Ne.symm dya
    have dyp' := Ne.symm dyp
    have dyg' := Ne.symm dyg
    clear hhd hlp hlh hrp hrh hlr
    simp only [balanceRotate, cond4a, cond4b, cond4c, cond4d, body4a, body4b, body4c,
      body4d, relinkAbove, relinkHead, memberParent, load, modify, BNode.isLeftChild,
      BNode.isRightChild, BNode.addLeft, BNode.addRight, setLeft, setRight, setParent, setRed,
      pure_eq_ok, bind_ok, bind_error, bind_assoc, decide_eq_true_eq, decide_True,
      decide_False, ↓reduceIte, ne_eq, reduceCtorEq, not_false_eq_true, not_true_eq_false,
      Bool.not_eq_eq_eq_not, Bool.not_true, Bool.not_false, Option.some.injEq,
      Bool.false_eq_true, Bool.true_eq_false, ite_self, Except.ok.injEq, exists_eq_left',
      Option.map_some', Option.map_none', true_and, and_true, and_self, cell_store,
      length_store, *]
    refine ⟨?_, ?_⟩
    · exact fun hd' nd e => absurd e (by simp)
    · intro b hb hbh
      simp only [List.mem_cons, List.mem_singleton, List.not_mem_nil, or_false, not_or] at hb
      obtain ⟨h1, h2, h3⟩ := hb
      have h1' := Ne.symm h1
      have h2' := Ne.symm h2
      have h3' := Ne.symm h3
      refine ⟨?_, fun hbm => ?_⟩
      · by_cases hby : y = b
        · subst hby
          simp only [Heap.kids, pure_eq_ok, bind_ok, bind_error, bind_assoc, decide_eq_true_eq, decide_True, decide_False, ↓reduceIte, ne_eq, reduceCtorEq, not_false_eq_true, not_true_eq_false, Bool.not_eq_eq_eq_not, Bool.not_true, Bool.not_false, Option.some.injEq, Bool.false_eq_true, Bool.true_eq_false, ite_self, Except.ok.injEq, exists_eq_left', Option.map_some', Option.map_none', true_and, and_true, and_self, cell_store, length_store, *]
        · simp only [Heap.kids, pure_eq_ok, bind_ok, bind_error, bind_assoc, decide_eq_true_eq, decide_True, decide_False, ↓reduceIte, ne_eq, reduceCtorEq, not_false_eq_true, not_true_eq_false, Bool.not_eq_eq_eq_not, Bool.not_true, Bool.not_false, Option.some.injEq, Bool.false_eq_true, Bool.true_eq_false, ite_self, Except.ok.injEq, exists_eq_left', Option.map_some', Option.map_none', true_and, and_true, and_self, cell_store, length_store, *]
      · simp only [List.mem_cons, List.mem_singleton, List.not_mem_nil, or_false, not_or] at hbm
        have hmy : y ≠ b := by
          intro e
          subst e
          simp at hbm
        simp only [Heap.kids, pure_eq_ok, bind_ok, bind_error, bind_assoc, decide_eq_true_eq, decide_True, decide_False, ↓reduceIte, ne_eq, reduceCtorEq, not_false_eq_true, not_true_eq_false, Bool.not_eq_eq_eq_not, Bool.not_true, Bool.not_false, Option.some.injEq, Bool.false_eq_true, Bool.true_eq_false, ite_self, Except.ok.injEq, exists_eq_left', Option.map_some', Option.map_none', true_and, and_true, and_self, cell_store, length_store, *]
  · obtain ⟨⟨ndy, cy⟩, hn⟩ := hrp y rfl
    simp only [List.mem_cons, List.mem_singleton, List.not_mem_nil, or_false, not_or] at hn
    obtain ⟨dya, dyp, dyg⟩ := hn
    have ly := cell_lt_length cy
    have dya' := Ne.symm dya
    have dyp' := Ne.symm dyp
    have dyg' := Ne.symm dyg
    obtain ⟨⟨⟨vh, hl, hr, hpar, hc⟩, ch⟩, hn⟩ := hhd hd rfl
    simp only [List.mem_cons, List.mem_singleton, List.not_mem_nil, or_false, not_or] at hn
    obtain ⟨dha, dhp, dhg⟩ := hn
    have lh := cell_lt_length ch
    have dha' := Ne.symm dha
    have dhp' := Ne.symm dhp
    have dhg' := Ne.symm dhg
    have dyh : y ≠ hd := by simpa using hrh
    have dyh' := Ne.symm dyh
    clear hhd hlp hlh hrp hrh hlr
    by_cases hrg : hr = some g
    · simp only [balanceRotate, cond4a, cond4b, cond4c, cond4d, body4a, body4b, body4c,
        body4d, relinkAbove, relinkHead, memberParent, load, modify, BNode.isLeftChild,
        BNode.isRightChild, BNode.addLeft, BNode.addRight, setLeft, setRight, setParent, setRed,
        pure_eq_ok, bind_ok, bind_error, bind_assoc, decide_eq_true_eq, decide_True,
        decide_False, ↓reduceIte, ne_eq, reduceCtorEq, not_false_eq_true, not_true_eq_false,
        Bool.not_eq_eq_eq_not, Bool.not_true, Bool.not_false, Option.some.injEq,
        Bool.false_eq_true, Bool.true_eq_false, ite_self, Except.ok.injEq, exists_eq_left',
        Option.map_some', Option.map_none', true_and, and_true, and_self, cell_store,
        length_store, *]
      refine ⟨?_, ?_⟩
      · intro hd' nd e hc'
        cases e
        rw [ch] at hc'
        cases hc'
        simp only [Heap.kids, pure_eq_ok, bind_ok, bind_error, bind_assoc, decide_eq_true_eq, decide_True, decide_False, ↓reduceIte, ne_eq, reduceCtorEq, not_false_eq_true, not_true_eq_false, Bool.not_eq_eq_eq_not, Bool.not_true, Bool.not_false, Option.some.injEq, Bool.false_eq_true, Bool.true_eq_false, ite_self, Except.ok.injEq, exists_eq_left', Option.map_some', Option.map_none', true_and, and_true, and_self, cell_store, length_store, *]
      · intro b hb hbh
        simp only [List.mem_cons, List.mem_singleton, List.not_mem_nil, or_false, not_or] at hb
        obtain ⟨h1, h2, h3⟩ := hb
        have h1' := Ne.symm h1
        have h2' := Ne.symm h2
        have h3' := Ne.symm h3
        have h4 : hd ≠ b := by simpa using hbh
        refine ⟨?_, fun hbm => ?_⟩
        · by_cases hby : y = b
          · subst hby
            simp only [Heap.kids, pure_eq_ok, bind_ok, bind_error, bind_assoc, decide_eq_true_eq, decide_True, decide_False, ↓reduceIte, ne_eq, reduceCtorEq, not_false_eq_true, not_true_eq_false, Bool.not_eq_eq_eq_not, Bool.not_true, Bool.not_false, Option.some.injEq, Bool.false_eq_true, Bool.true_eq_false, ite_self, Except.ok.injEq, exists_eq_left', Option.map_some', Option.map_none', true_and, and_true, and_self, cell_store, length_store, *]
          · simp only [Heap.kids, pure_eq_ok, bind_ok, bind_error, bind_assoc, decide_eq_true_eq, decide_True, decide_False, ↓reduceIte, ne_eq, reduceCtorEq, not_false_eq_true, not_true_eq_false, Bool.not_eq_eq_eq_not, Bool.not_true, Bool.not_false, Option.some.injEq, Bool.false_eq_true, Bool.true_eq_false, ite_self, Except.ok.injEq, exists_eq_left', Option.map_some', Option.map_none', true_and, and_true, and_self, cell_store, length_store, *]
        · simp only [List.mem_cons, List.mem_singleton, List.not_mem_nil, or_false, not_or] at hbm
          have hmy : y ≠ b := by
            intro e
            subst e
            simp at hbm
          simp only [Heap.kids, pure_eq_ok, bind_ok, bind_error, bind_assoc, decide_eq_true_eq, decide_True, decide_False, ↓reduceIte, ne_eq, reduceCtorEq, not_false_eq_true, not_true_eq_false, Bool.not_eq_eq_eq_not, Bool.not_true, Bool.not_false, Option.some.injEq, Bool.false_eq_true, Bool.true_eq_false, ite_self, Except.ok.injEq, exists_eq_left', Option.map_some', Option.map_none', true_and, and_true, and_self, cell_store, length_store, *]
    · simp only [balanceRotate, cond4a, cond4b, cond4c, cond4d, body4a, body4b, body4c,
        body4d, relinkAbove, relinkHead, memberParent, load, modify, BNode.isLeftChild,
        BNode.isRightChild, BNode.addLeft, BNode.addRight, setLeft, setRight, setParent, setRed,
        pure_eq_ok, bind_ok, bind_error, bind_assoc, decide_eq_true_eq, decide_True,
        decide_False, ↓reduceIte, ne_eq, reduceCtorEq, not_false_eq_true, not_true_eq_false,
        Bool.not_eq_eq_eq_not, Bool.not_true, Bool.not_false, Option.some.injEq,
        Bool.false_eq_true, Bool.true_eq_false, ite_self, Except.ok.injEq, exists_eq_left',
        Option.map_some', Option.map_none', true_and, and_true, and_self, cell_store,
        length_store, *]
      refine ⟨?_, ?_⟩
      · intro hd' nd e hc'
        cases e
        rw [ch] at hc'
        cases hc'
        simp only [Heap.kids, pure_eq_ok, bind_ok, bind_error, bind_assoc, decide_eq_true_eq, decide_True, decide_False, ↓reduceIte, ne_eq, reduceCtorEq, not_false_eq_true, not_true_eq_false, Bool.not_eq_eq_eq_not, Bool.not_true, Bool.not_false, Option.some.injEq, Bool.false_eq_true, Bool.true_eq_false, ite_self, Except.ok.injEq, exists_eq_left', Option.map_some', Option.map_none', true_and, and_true, and_self, cell_store, length_store, *]
      · intro b hb hbh
        simp only [List.mem_cons, List.mem_singleton, List.not_mem_nil, or_false, not_or] at hb
        obtain ⟨h1, h2, h3⟩ := hb
        have h1' := Ne.symm h1
        have h2' := Ne.symm h2
        have h3' := Ne.symm h3
        have h4 : hd ≠ b := by simpa using hbh
        refine ⟨?_, fun hbm => ?_⟩
        · by_cases hby : y = b
          · subst hby
            simp only [Heap.kids, pure_eq_ok, bind_ok, bind_error, bind_assoc, decide_eq_true_eq, decide_True, decide_False, ↓reduceIte, ne_eq, reduceCtorEq, not_false_eq_true, not_true_eq_false, Bool.not_eq_eq_eq_not, Bool.not_true, Bool.not_false, Option.some.injEq, Bool.false_eq_true, Bool.true_eq_false, ite_self, Except.ok.injEq, exists_eq_left', Option.map_some', Option.map_none', true_and, and_true, and_self, cell_store, length_store, *]
          · simp only [Heap.kids, pure_eq_ok, bind_ok, bind_error, bind_assoc, decide_eq_true_eq, decide_True, decide_False, ↓reduceIte, ne_eq, reduceCtorEq, not_false_eq_true, not_true_eq_false, Bool.not_eq_eq_eq_not, Bool.not_true, Bool.not_false, Option.some.injEq, Bool.false_eq_true, Bool.true_eq_false, ite_self, Except.ok.injEq, exists_eq_left', Option.map_some', Option.map_none', true_and, and_true, and_self, cell_store, length_store, *]
        · simp only [List.mem_cons, List.mem_singleton, List.not_mem_nil, or_false, not_or] at hbm
          have hmy : y ≠ b := by
            intro e
            subst e
            simp at hbm
          simp only [Heap.kids, pure_eq_ok, bind_ok, bind_error, bind_assoc, decide_eq_true_eq, decide_True, decide_False, ↓reduceIte, ne_eq, reduceCtorEq, not_false_eq_true, not_true_eq_false, Bool.not_eq_eq_eq_not, Bool.not_true, Bool.not_false, Option.some.injEq, Bool.false_eq_true, Bool.true_eq_false, ite_self, Except.ok.injEq, exists_eq_left', Option.map_some', Option.map_none', true_and, and_true, and_self, cell_store, length_store, *]
  · obtain ⟨⟨ndx, cx⟩, hn⟩ := hlp x rfl
    simp only [List.mem_cons, List.mem_singleton, List.not_mem_nil, or_false, not_or] at hn
    obtain ⟨dxa, dxp, dxg⟩ := hn
    have lx := cell_lt_length cx
    have dxa' := Ne.symm dxa
    have dxp' := Ne.symm dxp
    have dxg' := Ne.symm dxg
    clear hhd hlp hlh hrp hrh hlr
    simp only [balanceRotate, cond4a, cond4b, cond4c, cond4d, body4a, body4b, body4c,
      body4d, relinkAbove, relinkHead, memberParent, load, modify, BNode.isLeftChild,
      BNode.isRightChild, BNode.addLeft, BNode.addRight, setLeft, setRight, setParent, setRed,
      pure_eq_ok, bind_ok, bind_error, bind_assoc, decide_eq_true_eq, decide_True,
      decide_False, ↓reduceIte, ne_eq, reduceCtorEq, not_false_eq_true, not_true_eq_false,
      Bool.not_eq_eq_eq_not, Bool.not_true, Bool.not_false, Option.some.injEq,
      Bool.false_eq_true, Bool.true_eq_false, ite_self, Except.ok.injEq, exists_eq_left',
      Option.map_some', Option.map_none', true_and, and_true, and_self, cell_store,
      length_store, *]
    refine ⟨?_, ?_⟩
    · exact fun hd' nd e => absurd e (by simp)
    · intro b hb hbh
      simp only [List.mem_cons, List.mem_singleton, List.not_mem_nil, or_false, not_or] at hb
      obtain ⟨h1, h2, h3⟩ := hb
      have h1' := Ne.symm h1
      have h2' := Ne.symm h2
      have h3' := Ne.symm h3
      refine ⟨?_, fun hbm => ?_⟩
      · by_cases hbx : x = b
        · subst hbx
          simp only [Heap.kids, pure_eq_ok, bind_ok, bind_error, bind_assoc, decide_eq_true_eq, decide_True, decide_False, ↓reduceIte, ne_eq, reduceCtorEq, not_false_eq_true, not_true_eq_false, Bool.not_eq_eq_eq_not, Bool.not_true, Bool.not_false, Option.some.injEq, Bool.false_eq_true, Bool.true_eq_false, ite_self, Except.ok.injEq, exists_eq_left', Option.map_some', Option.map_none', true_and, and_true, and_self, cell_store, length_store, *]
        · simp only [Heap.kids, pure_eq_ok, bind_ok, bind_error, bind_assoc, decide_eq_true_eq, decide_True, decide_False, ↓reduceIte, ne_eq, reduceCtorEq, not_false_eq_true, not_true_eq_false, Bool.not_eq_eq_eq_not, Bool.not_true, Bool.not_false, Option.some.injEq, Bool.false_eq_true, Bool.true_eq_false, ite_self, Except.ok.injEq, exists_eq_left', Option.map_some', Option.map_none', true_and, and_true, and_self, cell_store, length_store, *]
      · simp only [List.mem_cons, List.mem_singleton, List.not_mem_nil, or_false, not_or] at hbm
        have hmx : x ≠ b := by
          intro e
          subst e
          simp at hbm
        simp only [Heap.kids, pure_eq_ok, bind_ok, bind_error, bind_assoc, decide_eq_true_eq, decide_True, decide_False, ↓reduceIte, ne_eq, reduceCtorEq, not_false_eq_true, not_true_eq_false, Bool.not_eq_eq_eq_not, Bool.not_true, Bool.not_false, Option.some.injEq, Bool.false_eq_true, Bool.true_eq_false, ite_self, Except.ok.injEq, exists_eq_left', Option.map_some', Option.map_none', true_and, and_true, and_self, cell_store, length_store, *]
  · obtain ⟨⟨ndx, cx⟩, hn⟩ := hlp x rfl
    simp only [List.mem_cons, List.mem_singleton, List.not_mem_nil, or_false, not_or] at hn
    obtain ⟨dxa, dxp, dxg⟩ := hn
    have lx := cell_lt_length cx
    have dxa' := Ne.symm dxa
    have dxp' := Ne.symm dxp
    have dxg' := Ne.symm dxg
    obtain ⟨⟨⟨vh, hl, hr, hpar, hc⟩, ch⟩, hn⟩ := hhd hd rfl
    simp only [List.mem_cons, List.mem_singleton, List.not_mem_nil, or_false, not_or] at hn
    obtain ⟨dha, dhp, dhg⟩ := hn
    have lh := cell_lt_length ch
    have dha' := Ne.symm dha
    have dhp' := Ne.symm dhp
    have dhg' := Ne.symm dhg
    have dxh : x ≠ hd := by simpa using hlh
    have dxh' := Ne.symm dxh
    clear hhd hlp hlh hrp hrh hlr
    by_cases hrg : hr = some g
    · simp only [balanceRotate, cond4a, cond4b, cond4c, cond4d, body4a, body4b, body4c,
        body4d, relinkAbove, relinkHead, memberParent, load, modify, BNode.isLeftChild,
        BNode.isRightChild, BNode.addLeft, BNode.addRight, setLeft, setRight, setParent, setRed,
        pure_eq_ok, bind_ok, bind_error, bind_assoc, decide_eq_true_eq, decide_True,
        decide_False, ↓reduceIte, ne_eq, reduceCtorEq, not_false_eq_true, not_true_eq_false,
        Bool.not_eq_eq_eq_not, Bool.not_true, Bool.not_false, Option.some.injEq,
        Bool.false_eq_true, Bool.true_eq_false, ite_self, Except.ok.injEq, exists_eq_left',
        Option.map_some', Option.map_none', true_and, and_true, and_self, cell_store,
        length_store, *]
      refine ⟨?_, ?_⟩
      · intro hd' nd e hc'
        cases e
        rw [ch] at hc'
        cases hc'
        simp only [Heap.kids, pure_eq_ok, bind_ok, bind_error, bind_assoc, decide_eq_true_eq, decide_True, decide_False, ↓reduceIte, ne_eq, reduceCtorEq, not_false_eq_true, not_true_eq_false, Bool.not_eq_eq_eq_not, Bool.not_true, Bool.not_false, Option.some.injEq, Bool.false_eq_true, Bool.true_eq_false, ite_self, Except.ok.injEq, exists_eq_left', Option.map_some', Option.map_none', true_and, and_true, and_self, cell_store, length_store, *]
      · intro b hb hbh
        simp only [List.mem_cons, List.mem_singleton, List.not_mem_nil, or_false, not_or] at hb
        obtain ⟨h1, h2, h3⟩ := hb
        have h1' := Ne.symm h1
        have h2' := Ne.symm h2
        have h3' := Ne.symm h3
        have h4 : hd ≠ b := by simpa using hbh
        refine ⟨?_, fun hbm => ?_⟩
        · by_cases hbx : x = b
          · subst hbx
            simp only [Heap.kids, pure_eq_ok, bind_ok, bind_error, bind_assoc, decide_eq_true_eq, decide_True, decide_False, ↓reduceIte, ne_eq, reduceCtorEq, not_false_eq_true, not_true_eq_false, Bool.not_eq_eq_eq_not, Bool.not_true, Bool.not_false, Option.some.injEq, Bool.false_eq_true, Bool.true_eq_false, ite_self, Except.ok.injEq, exists_eq_left', Option.map_some', Option.map_none', true_and, and_true, and_self, cell_store, length_store, *]
          · simp only [Heap.kids, pure_eq_ok, bind_ok, bind_error, bind_assoc, decide_eq_true_eq, decide_True, decide_False, ↓reduceIte, ne_eq, reduceCtorEq, not_false_eq_true, not_true_eq_false, Bool.not_eq_eq_eq_not, Bool.not_true, Bool.not_false, Option.some.injEq, Bool.false_eq_true, Bool.true_eq_false, ite_self, Except.ok.injEq, exists_eq_left', Option.map_some', Option.map_none', true_and, and_true, and_self, cell_store, length_store, *]
        · simp only [List.mem_cons, List.mem_singleton, List.not_mem_nil, or_false, not_or] at hbm
          have hmx : x ≠ b := by
            intro e
            subst e
            simp at hbm
          simp only [Heap.kids, pure_eq_ok, bind_ok, bind_error, bind_assoc, decide_eq_true_eq, decide_True, decide_False, ↓reduceIte, ne_eq, reduceCtorEq, not_false_eq_true, not_true_eq_false, Bool.not_eq_eq_eq_not, Bool.not_true, Bool.not_false, Option.some.injEq, Bool.false_eq_true, Bool.true_eq_false, ite_self, Except.ok.injEq, exists_eq_left', Option.map_some', Option.map_none', true_and, and_true, and_self, cell_store, length_store, *]
    · simp only [balanceRotate, cond4a, cond4b, cond4c, cond4d, body4a, body4b, body4c,
        body4d, relinkAbove, relinkHead, memberParent, load, modify, BNode.isLeftChild,
        BNode.isRightChild, BNode.addLeft, BNode.addRight, setLeft, setRight, setParent, setRed,
        pure_eq_ok, bind_ok, bind_error, bind_assoc, decide_eq_true_eq, decide_True,
        decide_False, ↓reduceIte, ne_eq, reduceCtorEq, not_false_eq_true, not_true_eq_false,
        Bool.not_eq_eq_eq_not, Bool.not_true, Bool.not_false, Option.some.injEq,
        Bool.false_eq_true, Bool.true_eq_false, ite_self, Except.ok.injEq, exists_eq_left',
        Option.map_some', Option.map_none', true_and, and_true, and_self, cell_store,
        length_store, *]
      refine ⟨?_, ?_⟩
      · intro hd' nd e hc'
        cases e
        rw [ch] at hc'
        cases hc'
        simp only [Heap.kids, pure_eq_ok, bind_ok, bind_error, bind_assoc, decide_eq_true_eq, decide_True, decide_False, ↓reduceIte, ne_eq, reduceCtorEq, not_false_eq_true, not_true_eq_false, Bool.not_eq_eq_eq_not, Bool.not_true, Bool.not_false, Option.some.injEq, Bool.false_eq_true, Bool.true_eq_false, ite_self, Except.ok.injEq, exists_eq_left', Option.map_some', Option.map_none', true_and, and_true, and_self, cell_store, length_store, *]
      · intro b hb hbh
        simp only [List.mem_cons, List.mem_singleton, List.not_mem_nil, or_false, not_or] at hb
        obtain ⟨h1, h2, h3⟩ := hb
        have h1' := Ne.symm h1
        have h2' := Ne.symm h2
        have h3' := Ne.symm h3
        have h4 : hd ≠ b := by simpa using hbh
        refine ⟨?_, fun hbm => ?_⟩
        · by_cases hbx : x = b
          · subst hbx
            simp only [Heap.kids, pure_eq_ok, bind_ok, bind_error, bind_assoc, decide_eq_true_eq, decide_True, decide_False, ↓reduceIte, ne_eq, reduceCtorEq, not_false_eq_true, not_true_eq_false, Bool.not_eq_eq_eq_not, Bool.not_true, Bool.not_false, Option.some.injEq, Bool.false_eq_true, Bool.true_eq_false, ite_self, Except.ok.injEq, exists_eq_left', Option.map_some', Option.map_none', true_and, and_true, and_self, cell_store, length_store, *]
          · simp only [Heap.kids, pure_eq_ok, bind_ok, bind_error, bind_assoc, decide_eq_true_eq, decide_True, decide_False, ↓reduceIte, ne_eq, reduceCtorEq, not_false_eq_true, not_true_eq_false, Bool.not_eq_eq_eq_not, Bool.not_true, Bool.not_false, Option.some.injEq, Bool.false_eq_true, Bool.true_eq_false, ite_self, Except.ok.injEq, exists_eq_left', Option.map_some', Option.map_none', true_and, and_true, and_self, cell_store, length_store, *]
        · simp only [List.mem_cons, List.mem_singleton, List.not_mem_nil, or_false, not_or] at hbm
          have hmx : x ≠ b := by
            intro e
            subst e
            simp at hbm
          simp only [Heap.kids, pure_eq_ok, bind_ok, bind_error, bind_assoc, decide_eq_true_eq, decide_True, decide_False, ↓reduceIte, ne_eq, reduceCtorEq, not_false_eq_true, not_true_eq_false, Bool.not_eq_eq_eq_not, Bool.not_true, Bool.not_false, Option.some.injEq, Bool.false_eq_true, Bool.true_eq_false, ite_self, Except.ok.injEq, exists_eq_left', Option.map_some', Option.map_none', true_and, and_true, and_self, cell_store, length_store, *]
  · obtain ⟨⟨ndx, cx⟩, hn⟩ := hlp x rfl
    simp only [List.mem_cons, List.mem_singleton, List.not_mem_nil, or_false, not_or] at hn
    obtain ⟨dxa, dxp, dxg⟩ := hn
    have lx := cell_lt_length cx
    have dxa' := Ne.symm dxa
    have dxp' := Ne.symm dxp
    have dxg' := Ne.symm dxg
    obtain ⟨⟨ndy, cy⟩, hn⟩ := hrp y rfl
    simp only [List.mem_cons, List.mem_singleton, List.not_mem_nil, or_false, not_or] at hn
    obtain ⟨dya, dyp, dyg⟩ := hn
    have ly := cell_lt_length cy
    have dya' := Ne.symm dya
    have dyp' := Ne.symm dyp
    have dyg' := Ne.symm dyg
    have hxy : x ≠ y := by simpa using hlr
    have hyx := Ne.symm hxy
    clear hhd hlp hlh hrp hrh hlr
    simp only [balanceRotate, cond4a, cond4b, cond4c, cond4d, body4a, body4b, body4c,
      body4d, relinkAbove, relinkHead, memberParent, load, modify, BNode.isLeftChild,
      BNode.isRightChild, BNode.addLeft, BNode.addRight, setLeft, setRight, setParent, setRed,
      pure_eq_ok, bind_ok, bind_error, bind_assoc, decide_eq_true_eq, decide_True,
      decide_False, ↓reduceIte, ne_eq, reduceCtorEq, not_false_eq_true, not_true_eq_false,
      Bool.not_eq_eq_eq_not, Bool.not_true, Bool.not_false, Option.some.injEq,
      Bool.false_eq_true, Bool.true_eq_false, ite_self, Except.ok.injEq, exists_eq_left',
      Option.map_some', Option.map_none', true_and, and_true, and_self, cell_store,
      length_store, *]
    refine ⟨?_, ?_⟩
    · exact fun hd' nd e => absurd e (by simp)
    · intro b hb hbh
      simp only [List.mem_cons, List.mem_singleton, List.not_mem_nil, or_false, not_or] at hb
      obtain ⟨h1, h2, h3⟩ := hb
      have h1' := Ne.symm h1
      have h2' := Ne.symm h2
      have h3' := Ne.symm h3
      refine ⟨?_, fun hbm => ?_⟩
      · by_cases hbx : x = b
        · subst hbx
          simp only [Heap.kids, pure_eq_ok, bind_ok, bind_error, bind_assoc, decide_eq_true_eq, decide_True, decide_False, ↓reduceIte, ne_eq, reduceCtorEq, not_false_eq_true, not_true_eq_false, Bool.not_eq_eq_eq_not, Bool.not_true, Bool.not_false, Option.some.injEq, Bool.false_eq_true, Bool.true_eq_false, ite_self, Except.ok.injEq, exists_eq_left', Option.map_some', Option.map_none', true_and, and_true, and_self, cell_store, length_store, *]
        · by_cases hby : y = b
          · subst hby
            simp only [Heap.kids, pure_eq_ok, bind_ok, bind_error, bind_assoc, decide_eq_true_eq, decide_True, decide_False, ↓reduceIte, ne_eq, reduceCtorEq, not_false_eq_true, not_true_eq_false, Bool.not_eq_eq_eq_not, Bool.not_true, Bool.not_false, Option.some.injEq, Bool.false_eq_true, Bool.true_eq_false, ite_self, Except.ok.injEq, exists_eq_left', Option.map_some', Option.map_none', true_and, and_true, and_self, cell_store, length_store, *]
          · simp only [Heap.kids, pure_eq_ok, bind_ok, bind_error, bind_assoc, decide_eq_true_eq, decide_True, decide_False, ↓reduceIte, ne_eq, reduceCtorEq, not_false_eq_true, not_true_eq_false, Bool.not_eq_eq_eq_not, Bool.not_true, Bool.not_false, Option.some.injEq, Bool.false_eq_true, Bool.true_eq_false, ite_self, Except.ok.injEq, exists_eq_left', Option.map_some', Option.map_none', true_and, and_true, and_self, cell_store, length_store, *]
      · simp only [List.mem_cons, List.mem_singleton, List.not_mem_nil, or_false, not_or] at hbm
        have hmx : x ≠ b := by
          intro e
          subst e
          simp at hbm
        have hmy : y ≠ b := by
          intro e
          subst e
          simp at hbm
        simp only [Heap.kids, pure_eq_ok, bind_ok, bind_error, bind_assoc, decide_eq_true_eq, decide_True, decide_False, ↓reduceIte, ne_eq, reduceCtorEq, not_false_eq_true, not_true_eq_false, Bool.not_eq_eq_eq_not, Bool.not_true, Bool.not_false, Option.some.injEq, Bool.false_eq_true, Bool.true_eq_false, ite_self, Except.ok.injEq, exists_eq_left', Option.map_some', Option.map_none', true_and, and_true, and_self, cell_store, length_store, *]
  · obtain ⟨⟨ndx, cx⟩, hn⟩ := hlp x rfl
    simp only [List.mem_cons, List.mem_singleton, List.not_mem_nil, or_false, not_or] at hn
    obtain ⟨dxa, dxp, dxg⟩ := hn
    have lx := cell_lt_length cx
    have dxa' := Ne.symm dxa
    have dxp' := Ne.symm dxp
    have dxg' := Ne.symm dxg
    obtain ⟨⟨ndy, cy⟩, hn⟩ := hrp y rfl
    simp only [List.mem_cons, List.mem_singleton, List.not_mem_nil, or_false, not_or] at hn
    obtain ⟨dya, dyp, dyg⟩ := hn
    have ly := cell_lt_length cy
    have dya' := Ne.symm dya
    have dyp' := Ne.symm dyp
    have dyg' := Ne.symm dyg
    have hxy : x ≠ y := by simpa using hlr
    have hyx := Ne.symm hxy
    obtain ⟨⟨⟨vh, hl, hr, hpar, hc⟩, ch⟩, hn⟩ := hhd hd rfl
    simp only [List.mem_cons, List.mem_singleton, List.not_mem_nil, or_false, not_or] at hn
    obtain ⟨dha, dhp, dhg⟩ := hn
    have lh := cell_lt_length ch
    have dha' := Ne.symm dha
    have dhp' := Ne.symm dhp
    have dhg' := Ne.symm dhg
    have dxh : x ≠ hd := by simpa using hlh
    have dxh' := Ne.symm dxh
    have dyh : y ≠ hd := by simpa using hrh
    have dyh' := Ne.symm dyh
    clear hhd hlp hlh hrp hrh hlr
    by_cases hrg : hr = some g
    · simp only [balanceRotate, cond4a, cond4b, cond4c, cond4d, body4a, body4b, body4c,
        body4d, relinkAbove, relinkHead, memberParent, load, modify, BNode.isLeftChild,
        BNode.isRightChild, BNode.addLeft, BNode.addRight, setLeft, setRight, setParent, setRed,
        pure_eq_ok, bind_ok, bind_error, bind_assoc, decide_eq_true_eq, decide_True,
        decide_False, ↓reduceIte, ne_eq, reduceCtorEq, not_false_eq_true, not_true_eq_false,
        Bool.not_eq_eq_eq_not, Bool.not_true, Bool.not_false, Option.some.injEq,
        Bool.false_eq_true, Bool.true_eq_false, ite_self, Except.ok.injEq, exists_eq_left',
        Option.map_some', Option.map_none', true_and, and_true, and_self, cell_store,
        length_store, *]
      refine ⟨?_, ?_⟩
      · intro hd' nd e hc'
        cases e
        rw [ch] at hc'
        cases hc'
        simp only [Heap.kids, pure_eq_ok, bind_ok, bind_error, bind_assoc, decide_eq_true_eq, decide_True, decide_False, ↓reduceIte, ne_eq, reduceCtorEq, not_false_eq_true, not_true_eq_false, Bool.not_eq_eq_eq_not, Bool.not_true, Bool.not_false, Option.some.injEq, Bool.false_eq_true, Bool.true_eq_false, ite_self, Except.ok.injEq, exists_eq_left', Option.map_some', Option.map_none', true_and, and_true, and_self, cell_store, length_store, *]
      · intro b hb hbh
        simp only [List.mem_cons, List.mem_singleton, List.not_mem_nil, or_false, not_or] at hb
        obtain ⟨h1, h2, h3⟩ := hb
        have h1' := Ne.symm h1
        have h2' := Ne.symm h2
        have h3' := Ne.symm h3
        have h4 : hd ≠ b := by simpa using hbh
        refine ⟨?_, fun hbm => ?_⟩
        · by_cases hbx : x = b
          · subst hbx
            simp only [Heap.kids, pure_eq_ok, bind_ok, bind_error, bind_assoc, decide_eq_true_eq, decide_True, decide_False, ↓reduceIte, ne_eq, reduceCtorEq, not_false_eq_true, not_true_eq_false, Bool.not_eq_eq_eq_not, Bool.not_true, Bool.not_false, Option.some.injEq, Bool.false_eq_true, Bool.true_eq_false, ite_self, Except.ok.injEq, exists_eq_left', Option.map_some', Option.map_none', true_and, and_true, and_self, cell_store, length_store, *]
          · by_cases hby : y = b
            · subst hby
              simp only [Heap.kids, pure_eq_ok, bind_ok, bind_error, bind_assoc, decide_eq_true_eq, decide_True, decide_False, ↓reduceIte, ne_eq, reduceCtorEq, not_false_eq_true, not_true_eq_false, Bool.not_eq_eq_eq_not, Bool.not_true, Bool.not_false, Option.some.injEq, Bool.false_eq_true, Bool.true_eq_false, ite_self, Except.ok.injEq, exists_eq_left', Option.map_some', Option.map_none', true_and, and_true, and_self, cell_store, length_store, *]
            · simp only [Heap.kids, pure_eq_ok, bind_ok, bind_error, bind_assoc, decide_eq_true_eq, decide_True, decide_False, ↓reduceIte, ne_eq, reduceCtorEq, not_false_eq_true, not_true_eq_false, Bool.not_eq_eq_eq_not, Bool.not_true, Bool.not_false, Option.some.injEq, Bool.false_eq_true, Bool.true_eq_false, ite_self, Except.ok.injEq, exists_eq_left', Option.map_some', Option.map_none', true_and, and_true, and_self, cell_store, length_store, *]
        · simp only [List.mem_cons, List.mem_singleton, List.not_mem_nil, or_false, not_or] at hbm
          have hmx : x ≠ b := by
            intro e
            subst e
            simp at hbm
          have hmy : y ≠ b := by
            intro e
            subst e
            simp at hbm
          simp only [Heap.kids, pure_eq_ok, bind_ok, bind_error, bind_assoc, decide_eq_true_eq, decide_True, decide_False, ↓reduceIte, ne_eq, reduceCtorEq, not_false_eq_true, not_true_eq_false, Bool.not_eq_eq_eq_not, Bool.not_true, Bool.not_false, Option.some.injEq, Bool.false_eq_true, Bool.true_eq_false, ite_self, Except.ok.injEq, exists_eq_left', Option.map_some', Option.map_none', true_and, and_true, and_self, cell_store, length_store, *]
    · simp only [balanceRotate, cond4a, cond4b, cond4c, cond4d, body4a, body4b, body4c,
        body4d, relinkAbove, relinkHead, memberParent, load, modify, BNode.isLeftChild,
        BNode.isRightChild, BNode.addLeft, BNode.addRight, setLeft, setRight, setParent, setRed,
        pure_eq_ok, bind_ok, bind_error, bind_assoc, decide_eq_true_eq, decide_True,
        decide_False, ↓reduceIte, ne_eq, reduceCtorEq, not_false_eq_true, not_true_eq_false,
        Bool.not_eq_eq_eq_not, Bool.not_true, Bool.not_false, Option.some.injEq,
        Bool.false_eq_true, Bool.true_eq_false, ite_self, Except.ok.injEq, exists_eq_left',
        Option.map_some', Option.map_none', true_and, and_true, and_self, cell_store,
        length_store, *]
      refine ⟨?_, ?_⟩
      · intro hd' nd e hc'
        cases e
        rw [ch] at hc'
        cases hc'
        simp only [Heap.kids, pure_eq_ok, bind_ok, bind_error, bind_assoc, decide_eq_true_eq, decide_True, decide_False, ↓reduceIte, ne_eq, reduceCtorEq, not_false_eq_true, not_true_eq_false, Bool.not_eq_eq_eq_not, Bool.not_true, Bool.not_false, Option.some.injEq, Bool.false_eq_true, Bool.true_eq_false, ite_self, Except.ok.injEq, exists_eq_left', Option.map_some', Option.map_none', true_and, and_true, and_self, cell_store, length_store, *]
      · intro b hb hbh
        simp only [List.mem_cons, List.mem_singleton, List.not_mem_nil, or_false, not_or] at hb
        obtain ⟨h1, h2, h3⟩ := hb
        have h1' := Ne.symm h1
        have h2' := Ne.symm h2
        have h3' := Ne.symm h3
        have h4 : hd ≠ b := by simpa using hbh
        refine ⟨?_, fun hbm => ?_⟩
        · by_cases hbx : x = b
          · subst hbx
            simp only [Heap.kids, pure_eq_ok, bind_ok, bind_error, bind_assoc, decide_eq_true_eq, decide_True, decide_False, ↓reduceIte, ne_eq, reduceCtorEq, not_false_eq_true, not_true_eq_false, Bool.not_eq_eq_eq_not, Bool.not_true, Bool.not_false, Option.some.injEq, Bool.false_eq_true, Bool.true_eq_false, ite_self, Except.ok.injEq, exists_eq_left', Option.map_some', Option.map_none', true_and, and_true, and_self, cell_store, length_store, *]
          · by_cases hby : y = b
            · subst hby
              simp only [Heap.kids, pure_eq_ok, bind_ok, bind_error, bind_assoc, decide_eq_true_eq, decide_True, decide_False, ↓reduceIte, ne_eq, reduceCtorEq, not_false_eq_true, not_true_eq_false, Bool.not_eq_eq_eq_not, Bool.not_true, Bool.not_false, Option.some.injEq, Bool.false_eq_true, Bool.true_eq_false, ite_self, Except.ok.injEq, exists_eq_left', Option.map_some', Option.map_none', true_and, and_true, and_self, cell_store, length_store, *]
            · simp only [Heap.kids, pure_eq_ok, bind_ok, bind_error, bind_assoc, decide_eq_true_eq, decide_True, decide_False, ↓reduceIte, ne_eq, reduceCtorEq, not_false_eq_true, not_true_eq_false, Bool.not_eq_eq_eq_not, Bool.not_true, Bool.not_false, Option.some.injEq, Bool.false_eq_true, Bool.true_eq_false, ite_self, Except.ok.injEq, exists_eq_left', Option.map_some', Option.map_none', true_and, and_true, and_self, cell_store, length_store, *]
        · simp only [List.mem_cons, List.mem_singleton, List.not_mem_nil, or_false, not_or] at hbm
          have hmx : x ≠ b := by
            intro e
            subst e
            simp at hbm
          have hmy : y ≠ b := by
            intro e
            subst e
            simp at hbm
          simp only [Heap.kids, pure_eq_ok, bind_ok, bind_error, bind_assoc, decide_eq_true_eq, decide_True, decide_False, ↓reduceIte, ne_eq, reduceCtorEq, not_false_eq_true, not_true_eq_false, Bool.not_eq_eq_eq_not, Bool.not_true, Bool.not_false, Option.some.injEq, Bool.false_eq_true, Bool.true_eq_false, ite_self, Except.ok.injEq, exists_eq_left', Option.map_some', Option.map_none', true_and, and_true, and_self, cell_store, length_store, *]

end RotationExec

section InnerCalls

variable {T : Type}

/-- The recursive call of cases 4c and 4d when the grandparent was the root: `this` has
no parent link and only its colour is written. -/
theorem inner_root {H : Heap T} {a : Nat} {v : T} {l r : Ptr} (fuel : Nat)
    (cA : H.cell a = some ⟨v, l, r, none, false⟩) :
    ∃ H', BNode.balance (fuel + 1) H (some a) = .ok H' ∧ ∀ b, H'.cell b = H.cell b := by
  have la := cell_lt_length cA
  simp only [balance_succ, load, setRed, modify, cA, bind_ok, if_true, Except.ok.injEq,
    exists_eq_left']
  intro b
  rw [cell_store]
  by_cases hab : a = b
  · subst hab
    simp [la, cA]
  · simp [hab]

/-- The recursive call of cases 4c and 4d when the grandparent was not the root: `this`
still has its former parent `p` as parent link, which now is its child; the call takes
the recolouring case with `this` in the role of the grandparent and its other child `g`
in the role of the aunt, and then stops. -/
theorem inner_stale {H : Heap T} {a p g : Nat} {v vp vg : T} {al ar pl pr gl gr : Ptr}
    (fuel : Nat)
    (cA : H.cell a = some ⟨v, al, ar, some p, false⟩)
    (cP : H.cell p = some ⟨vp, pl, pr, some a, true⟩)
    (cG : H.cell g = some ⟨vg, gl, gr, some a, true⟩)
    (hkids : (al = some p ∧ ar = some g) ∨ (al = some g ∧ ar = some p))
    (hpl : pl ≠ some a) (hap : a ≠ p) (hag : a ≠ g) (hpg : p ≠ g) :
    ∃ H', BNode.balance (fuel + 2) H (some a) = .ok H' ∧
      H'.cell a = some ⟨v, al, ar, some p, true⟩ ∧
      H'.cell p = some ⟨vp, pl, pr, some a, false⟩ ∧
      H'.cell g = some ⟨vg, gl, gr, some a, false⟩ ∧
      ∀ b, b ≠ a → b ≠ p → b ≠ g → H'.cell b = H.cell b := by
  have la := cell_lt_length cA
  have lp := cell_lt_length cP
  have lg := cell_lt_length cG
  have hpa := hap.symm
  have hga := hag.symm
  have hgp := hpg.symm
  have hpl' : ¬ pl = some a := hpl
  rcases hkids with ⟨rfl, rfl⟩ | ⟨rfl, rfl⟩
  · simp only [balance_succ, balanceRecolor, auntIsRed, memberParent, load, setRed, modify,
      pure_eq_ok, bind_ok, bind_error, bind_assoc, decide_eq_true_eq, decide_True,
      decide_False, ↓reduceIte, ne_eq, reduceCtorEq, not_false_eq_true, not_true_eq_false,
      Bool.not_eq_eq_eq_not, Bool.not_true, Bool.not_false, Option.some.injEq,
      Bool.false_eq_true, Bool.true_eq_false, ite_self, Except.ok.injEq, exists_eq_left',
      true_and, and_true, and_self, cell_store, length_store, *]
    intro b h1 h2 h3
    have h1' := Ne.symm h1
    have h2' := Ne.symm h2
    have h3' := Ne.symm h3
    simp only [↓reduceIte, *]
  · simp only [balance_succ, balanceRecolor, auntIsRed, memberParent, load, setRed, modify,
      pure_eq_ok, bind_ok, bind_error, bind_assoc, decide_eq_true_eq, decide_True,
      decide_False, ↓reduceIte, ne_eq, reduceCtorEq, not_false_eq_true, not_true_eq_false,
      Bool.not_eq_eq_eq_not, Bool.not_true, Bool.not_false, Option.some.injEq,
      Bool.false_eq_true, Bool.true_eq_false, ite_self, Except.ok.injEq, exists_eq_left',
      true_and, and_true, and_self, cell_store, length_store, *]
    intro b h1 h2 h3
    have h1' := Ne.symm h1
    have h2' := Ne.symm h2
    have h3' := Ne.symm h3
    simp only [↓reduceIte, *]

end InnerCalls

section Rotations

variable {T : Type}

/-- Case 4a of `balance`, from the call to the return. -/
theorem balance_4a {h : Heap T} {a p g : Nat} {v vp vg : T}
    {lp rp sp up hdp : Ptr} {c : Bool} (fuel : Nat)
    (ca : h.cell a = some ⟨v, lp, rp, some p, c⟩)
    (cp : h.cell p = some ⟨vp, some a, sp, some g, true⟩)
    (cg : h.cell g = some ⟨vg, some p, up, hdp, false⟩)
    (hu : auntIsRed h up = .ok false)
    (hap : a ≠ p) (hag : a ≠ g) (hpg : p ≠ g)
    (hhd : h.Free hdp [a, p, g])
    (hsp : h.Free sp [a, p, g]) (hsh : sp = none ∨ sp ≠ hdp) :
    ∃ h', BNode.balance (fuel + 1) h (some a) = .ok h' ∧
      RotPost h h' a p g p hdp (v, lp, rp) (vp, some a, some g) (vg, sp, up) [sp] := by
  have e : BNode.balance (fuel + 1) h (some a)
      = balanceRotate (BNode.balance fuel) h (some a) (some g) sp hdp := by
    simp only [balance_succ, load, ca, cp, cg, hu, pure_eq_ok, bind_ok, bind_error, bind_assoc, decide_eq_true_eq, decide_True,
    decide_False, ↓reduceIte, ne_eq, reduceCtorEq, not_false_eq_true, not_true_eq_false,
    Bool.not_eq_eq_eq_not, Bool.not_true, Bool.not_false, Option.some.injEq,
    Bool.false_eq_true, Bool.true_eq_false, ite_self, Except.ok.injEq, exists_eq_left',
    Option.map_some', Option.map_none', true_and, and_true, and_self]
  obtain ⟨h', hex, cA, cP, cG, hHead, hRest⟩ :=
    @exec4a T (BNode.balance fuel) _ _ _ _ _ _ _ _ _ _ _ _ _ ca cp cg hap hag hpg hhd hsp hsh
  refine ⟨h', e.trans hex, ?_, ?_, ?_, ?_, hHead, hRest⟩
  · simp only [Heap.kids, cA, Option.map_some']
  · simp only [Heap.kids, cP, Option.map_some']
  · simp only [Heap.kids, cG, Option.map_some']
  · intro hn
    subst hn
    simp only [Heap.parent, cP, cG, Option.map_some', and_self]

/-- Case 4b of `balance`, from the call to the return. -/
theorem balance_4b {h : Heap T} {a p g : Nat} {v vp vg : T}
    {lp rp sp up hdp : Ptr} {c : Bool} (fuel : Nat)
    (ca : h.cell a = some ⟨v, lp, rp, some p, c⟩)
    (cp : h.cell p = some ⟨vp, sp, some a, some g, true⟩)
    (cg : h.cell g = some ⟨vg, up, some p, hdp, false⟩)
    (hu : auntIsRed h up = .ok false) (hup : up ≠ some p)
    (hap : a ≠ p) (hag : a ≠ g) (hpg : p ≠ g)
    (hhd : h.Free hdp [a, p, g])
    (hsp : h.Free sp [a, p, g]) (hsh : sp = none ∨ sp ≠ hdp) :
    ∃ h', BNode.balance (fuel + 1) h (some a) = .ok h' ∧
      RotPost h h' a p g p hdp (v, lp, rp) (vp, some g, some a) (vg, up, sp) [sp] := by
  have hsa : ¬ sp = some a := by
    intro e
    have := (hsp a e).2
    simp at this
  have hup' : ¬ up = some p := hup
  have e : BNode.balance (fuel + 1) h (some a)
      = balanceRotate (BNode.balance fuel) h (some a) (some g) sp hdp := by
    simp only [balance_succ, load, ca, cp, cg, hu, hsa, hup', pure_eq_ok, bind_ok, bind_error, bind_assoc, decide_eq_true_eq, decide_True,
    decide_False, ↓reduceIte, ne_eq, reduceCtorEq, not_false_eq_true, not_true_eq_false,
    Bool.not_eq_eq_eq_not, Bool.not_true, Bool.not_false, Option.some.injEq,
    Bool.false_eq_true, Bool.true_eq_false, ite_self, Except.ok.injEq, exists_eq_left',
    Option.map_some', Option.map_none', true_and, and_true, and_self]
  obtain ⟨h', hex, cA, cP, cG, hHead, hRest⟩ :=
    @exec4b T (BNode.balance fuel) _ _ _ _ _ _ _ _ _ _ _ _ _ ca cp cg hap hag hpg hhd hsp hsh
  refine ⟨h', e.trans hex, ?_, ?_, ?_, ?_, hHead, hRest⟩
  · simp only [Heap.kids, cA, Option.map_some']
  · simp only [Heap.kids, cP, Option.map_some']
  · simp only [Heap.kids, cG, Option.map_some']
  · intro hn
    subst hn
    simp only [Heap.parent, cP, cG, Option.map_some', and_self]

set_option maxHeartbeats 1000000 in
/-- Case 4c of `balance`, from the call to the return, the recursive call included. -/
theorem balance_4c {h : Heap T} {a p g : Nat} {v vp vg : T}
    {lp rp sp up hdp : Ptr} {c : Bool} (fuel : Nat)
    (ca : h.cell a = some ⟨v, lp, rp, some p, c⟩)
    (cp : h.cell p = some ⟨vp, sp, some a, some g, true⟩)
    (cg : h.cell g = some ⟨vg, some p, up, hdp, false⟩)
    (hu : auntIsRed h up = .ok false) (hsa : sp ≠ some a) (hup : up ≠ some p)
    (hap : a ≠ p) (hag : a ≠ g) (hpg : p ≠ g)
    (hhd : h.Free hdp [a, p, g])
    (hlp : h.Free lp [a, p, g]) (hlh : lp = none ∨ lp ≠ hdp)
    (hrp : h.Free rp [a, p, g]) (hrh : rp = none ∨ rp ≠ hdp)
    (hlr : lp = none ∨ lp ≠ rp) :
    ∃ h', BNode.balance (fuel + 3) h (some a) = .ok h' ∧
      RotPost h h' a p g a hdp (v, some p, some g) (vp, sp, lp) (vg, rp, up) [lp, rp] := by
  have hsa' : ¬ sp = some a := hsa
  have hup' : ¬ up = some p := hup
  have hrpa : rp ≠ some a := by
    intro e
    have := (hrp a e).2
    simp at this
  have hpa := hap.symm
  have hga := hag.symm
  have hgp := hpg.symm
  have e : BNode.balance (fuel + 3) h (some a)
      = balanceRotate (BNode.balance (fuel + 2)) h (some a) (some g) sp hdp := by
    simp only [balance_succ (fuel + 2), load, ca, cp, cg, hu, hsa', hup', pure_eq_ok, bind_ok, bind_error, bind_assoc, decide_eq_true_eq, decide_True,
    decide_False, ↓reduceIte, ne_eq, reduceCtorEq, not_false_eq_true, not_true_eq_false,
    Bool.not_eq_eq_eq_not, Bool.not_true, Bool.not_false, Option.some.injEq,
    Bool.false_eq_true, Bool.true_eq_false, ite_self, Except.ok.injEq, exists_eq_left',
    Option.map_some', Option.map_none', true_and, and_true, and_self]
  obtain ⟨H, hbody, cA, cP, cG, hHead, hRest⟩ :=
    body4c_exec ca cp cg hap hag hpg hhd hlp hlh hrp hrh hlr
  rcases hdp with _ | hd
  · simp only [if_true] at cA
    obtain ⟨H', hin, hsame⟩ := inner_root (fuel + 1) cA
    refine ⟨H', ?_, ?_, ?_, ?_, ?_, ?_, ?_⟩
    · rw [e]
      simp only [balanceRotate, cond4a, cond4b, cond4c, cond4d, memberParent,
        BNode.isLeftChild, BNode.isRightChild, load, ca, cp, cg, hbody, hin, hsame, cA, cP,
        cG, hsa', hup', hap, hag, hpg, hpa, hga, hgp, pure_eq_ok, bind_ok, bind_error, bind_assoc, decide_eq_true_eq, decide_True,
    decide_False, ↓reduceIte, ne_eq, reduceCtorEq, not_false_eq_true, not_true_eq_false,
    Bool.not_eq_eq_eq_not, Bool.not_true, Bool.not_false, Option.some.injEq,
    Bool.false_eq_true, Bool.true_eq_false, ite_self, Except.ok.injEq, exists_eq_left',
    Option.map_some', Option.map_none', true_and, and_true, and_self]
    · simp only [Heap.kids, hsame, cA, Option.map_some']
    · simp only [Heap.kids, hsame, cP, Option.map_some']
    · simp only [Heap.kids, hsame, cG, Option.map_some']
    · intro _
      simp only [Heap.parent, hsame, cA, cG, Option.map_some', and_self]
    · intro hd' nd e'
      cases e'
    · intro b hb hbh
      obtain ⟨k1, k2⟩ := hRest b hb hbh
      refine ⟨?_, fun hm => ?_⟩
      · simp only [Heap.kids, hsame]
        exact k1
      · rw [hsame]
        exact k2 hm
  · simp only [reduceCtorEq, if_false] at cA
    obtain ⟨H', hin, cA', cP', cG', hsame⟩ :=
      inner_stale fuel cA cP cG (Or.inl ⟨rfl, rfl⟩) hsa hap hag hpg
    have hbne : ∀ b, b ∉ [a, p, g] → b ≠ a ∧ b ≠ p ∧ b ≠ g := by
      intro b hb
      simpa using hb
    refine ⟨H', ?_, ?_, ?_, ?_, ?_, ?_, ?_⟩
    · rw [e]
      simp only [balanceRotate, cond4a, cond4b, cond4c, cond4d, memberParent,
        BNode.isLeftChild, BNode.isRightChild, load, ca, cp, cg, hbody, hin, cA', cP',
        cG', hsa', hup', hrpa, hap, hag, hpg, hpa, hga, hgp, pure_eq_ok, bind_ok, bind_error, bind_assoc, decide_eq_true_eq, decide_True,
    decide_False, ↓reduceIte, ne_eq, reduceCtorEq, not_false_eq_true, not_true_eq_false,
    Bool.not_eq_eq_eq_not, Bool.not_true, Bool.not_false, Option.some.injEq,
    Bool.false_eq_true, Bool.true_eq_false, ite_self, Except.ok.injEq, exists_eq_left',
    Option.map_some', Option.map_none', true_and, and_true, and_self]
    · simp only [Heap.kids, cA', Option.map_some']
    · simp only [Heap.kids, cP', Option.map_some']
    · simp only [Heap.kids, cG', Option.map_some']
    · intro hn
      cases hn
    · intro hd' nd e' hc'
      obtain ⟨-, hn⟩ := hhd hd' e'
      obtain ⟨n1, n2, n3⟩ := hbne hd' hn
      rw [hsame hd' n1 n2 n3]
      exact hHead hd' nd e' hc'
    · intro b hb hbh
      obtain ⟨n1, n2, n3⟩ := hbne b hb
      obtain ⟨k1, k2⟩ := hRest b hb hbh
      refine ⟨?_, fun hm => ?_⟩
      · simp only [Heap.kids, hsame b n1 n2 n3]
        exact k1
      · rw [hsame b n1 n2 n3]
        exact k2 hm

set_option maxHeartbeats 1000000 in
/-- Case 4d of `balance`, from the call to the return, the recursive call included. -/
theorem balance_4d {h : Heap T} {a p g : Nat} {v vp vg : T}
    {lp rp sp up hdp : Ptr} {c : Bool} (fuel : Nat)
    (ca : h.cell a = some ⟨v, lp, rp, some p, c⟩)
    (cp : h.cell p = some ⟨vp, some a, sp, some g, true⟩)
    (cg : h.cell g = some ⟨vg, up, some p, hdp, false⟩)
    (hu : auntIsRed h up = .ok false) (hsa : sp ≠ some a) (hup : up ≠ some p)
    (hap : a ≠ p) (hag : a ≠ g) (hpg : p ≠ g)
    (hhd : h.Free hdp [a, p, g])
    (hlp : h.Free lp [a, p, g]) (hlh : lp = none ∨ lp ≠ hdp)
    (hrp : h.Free rp [a, p, g]) (hrh : rp = none ∨ rp ≠ hdp)
    (hlr : lp = none ∨ lp ≠ rp) :
    ∃ h', BNode.balance (fuel + 3) h (some a) = .ok h' ∧
      RotPost h h' a p g a hdp (v, some g, some p) (vp, rp, sp) (vg, up, lp) [lp, rp] := by
  have hsa' : ¬ sp = some a := hsa
  have hup' : ¬ up = some p := hup
  have hrpa : rp ≠ some a := by
    intro e
    have := (hrp a e).2
    simp at this
  have hpa := hap.symm
  have hga := hag.symm
  have hgp := hpg.symm
  have e : BNode.balance (fuel + 3) h (some a)
      = balanceRotate (BNode.balance (fuel + 2)) h (some a) (some g) sp hdp := by
    simp only [balance_succ (fuel + 2), load, ca, cp, cg, hu, hsa', hup', pure_eq_ok, bind_ok, bind_error, bind_assoc, decide_eq_true_eq, decide_True,
    decide_False, ↓reduceIte, ne_eq, reduceCtorEq, not_false_eq_true, not_true_eq_false,
    Bool.not_eq_eq_eq_not, Bool.not_true, Bool.not_false, Option.some.injEq,
    Bool.false_eq_true, Bool.true_eq_false, ite_self, Except.ok.injEq, exists_eq_left',
    Option.map_some', Option.map_none', true_and, and_true, and_self]
  obtain ⟨H, hbody, cA, cP, cG, hHead, hRest⟩ :=
    body4d_exec ca cp cg hap hag hpg hhd hlp hlh hrp hrh hlr
  rcases hdp with _ | hd
  · simp only [if_true] at cA
    obtain ⟨H', hin, hsame⟩ := inner_root (fuel + 1) cA
    refine ⟨H', ?_, ?_, ?_, ?_, ?_, ?_, ?_⟩
    · rw [e]
      simp only [balanceRotate, cond4a, cond4b, cond4c, cond4d, memberParent,
        BNode.isLeftChild, BNode.isRightChild, load, ca, cp, cg, hbody, hin, hsame, cA, cP,
        cG, hsa', hup', hap, hag, hpg, hpa, hga, hgp, pure_eq_ok, bind_ok, bind_error, bind_assoc, decide_eq_true_eq, decide_True,
    decide_False, ↓reduceIte, ne_eq, reduceCtorEq, not_false_eq_true, not_true_eq_false,
    Bool.not_eq_eq_eq_not, Bool.not_true, Bool.not_false, Option.some.injEq,
    Bool.false_eq_true, Bool.true_eq_false, ite_self, Except.ok.injEq, exists_eq_left',
    Option.map_some', Option.map_none', true_and, and_true, and_self]
    · simp only [Heap.kids, hsame, cA, Option.map_some']
    · simp only [Heap.kids, hsame, cP, Option.map_some']
    · simp only [Heap.kids, hsame, cG, Option.map_some']
    · intro _
      simp only [Heap.parent, hsame, cA, cG, Option.map_some', and_self]
    · intro hd' nd e'
      cases e'
    · intro b hb hbh
      obtain ⟨k1, k2⟩ := hRest b hb hbh
      refine ⟨?_, fun hm => ?_⟩
      · simp only [Heap.kids, hsame]
        exact k1
      · rw [hsame]
        exact k2 hm
  · simp only [reduceCtorEq, if_false] at cA
    obtain ⟨H', hin, cA', cP', cG', hsame⟩ :=
      inner_stale fuel cA cP cG (Or.inr ⟨rfl, rfl⟩) hrpa hap hag hpg
    have hbne : ∀ b, b ∉ [a, p, g] → b ≠ a ∧ b ≠ p ∧ b ≠ g := by
      intro b hb
      simpa using hb
    refine ⟨H', ?_, ?_, ?_, ?_, ?_, ?_, ?_⟩
    · rw [e]
      simp only [balanceRotate, cond4a, cond4b, cond4c, cond4d, memberParent,
        BNode.isLeftChild, BNode.isRightChild, load, ca, cp, cg, hbody, hin, cA', cP',
        cG', hsa', hup', hrpa, hap, hag, hpg, hpa, hga, hgp, pure_eq_ok, bind_ok, bind_error, bind_assoc, decide_eq_true_eq, decide_True,
    decide_False, ↓reduceIte, ne_eq, reduceCtorEq, not_false_eq_true, not_true_eq_false,
    Bool.not_eq_eq_eq_not, Bool.not_true, Bool.not_false, Option.some.injEq,
    Bool.false_eq_true, Bool.true_eq_false, ite_self, Except.ok.injEq, exists_eq_left',
    Option.map_some', Option.map_none', true_and, and_true, and_self]
    · simp only [Heap.kids, cA', Option.map_some']
    · simp only [Heap.kids, cP', Option.map_some']
    · simp only [Heap.kids, cG', Option.map_some']
    · intro hn
      cases hn
    · intro hd' nd e' hc'
      obtain ⟨-, hn⟩ := hhd hd' e'
      obtain ⟨n1, n2, n3⟩ := hbne hd' hn
      rw [hsame hd' n1 n2 n3]
      exact hHead hd' nd e' hc'
    · intro b hb hbh
      obtain ⟨n1, n2, n3⟩ := hbne b hb
      obtain ⟨k1, k2⟩ := hRest b hb hbh
      refine ⟨?_, fun hm => ?_⟩
      · simp only [Heap.kids, hsame b n1 n2 n3]
        exact k1
      · rw [hsame b n1 n2 n3]
        exact k2 hm

end Rotations

section TreeLemmas

variable {T : Type}

theorem rep_fill {h : Heap T} {f : Frame T} {t : Tree T} {par : Ptr} :
    (f.fill t).Rep h par ↔
      h.cell f.addr = some (match f.side with
        | .left => ⟨f.val, t.ptr, f.other.ptr, par, f.red⟩
        | .right => ⟨f.val, f.other.ptr, t.ptr, par, f.red⟩) ∧
      f.other.Rep h (some f.addr) ∧ t.Rep h (some f.addr) := by
  obtain ⟨side, addr, red, val, other⟩ := f
  cases side <;> simp only [Frame.fill, Tree.Rep, Tree.ptr]
  tauto

theorem fill_ptr (f : Frame T) (t : Tree T) : (f.fill t).ptr = some f.addr := by
  obtain ⟨side, addr, red, val, other⟩ := f
  cases side <;> rfl

theorem rep_plug {h : Heap T} :
    ∀ (k : List (Frame T)) (t : Tree T),
      (plug t k).Rep h none ↔ t.Rep h (ctxPtr k) ∧ RepCtx h t.ptr k := by
  intro k
  induction k with
  | nil => intro t; simp [plug, ctxPtr, RepCtx]
  | cons f k ih =>
    intro t
    rw [plug, ih (f.fill t), rep_fill, fill_ptr]
    simp only [RepCtx, ctxPtr]
    tauto

theorem skel_fill {h : Heap T} {f : Frame T} {t : Tree T} :
    (f.fill t).Skel h ↔
      h.kids f.addr = some (match f.side with
        | .left => (f.val, t.ptr, f.other.ptr)
        | .right => (f.val, f.other.ptr, t.ptr)) ∧
      f.other.Skel h ∧ t.Skel h := by
  obtain ⟨side, addr, red, val, other⟩ := f
  cases side <;> simp only [Frame.fill, Tree.Skel, Tree.ptr]
  tauto

theorem skel_plug {h : Heap T} :
    ∀ (k : List (Frame T)) (t : Tree T),
      (plug t k).Skel h ↔ t.Skel h ∧ SkelCtx h t.ptr k := by
  intro k
  induction k with
  | nil => intro t; simp [plug, SkelCtx]
  | cons f k ih =>
    intro t
    rw [plug, ih (f.fill t), skel_fill, fill_ptr]
    simp only [SkelCtx]
    tauto

theorem Tree.Rep.skel {h : Heap T} : ∀ {t : Tree T} {par : Ptr}, t.Rep h par → t.Skel h
  | .nil, _, _ => trivial
  | .node l a c v r, par, ⟨hc, hl, hr⟩ =>
    ⟨by simp only [Heap.kids, hc, Option.map_some'], hl.skel, hr.skel⟩

theorem RepCtx.toSkelCtx {h : Heap T} :
    ∀ {k : List (Frame T)} {child : Ptr}, RepCtx h child k → SkelCtx h child k
  | [], _, _ => trivial
  | f :: k, child, ⟨hc, ho, hk⟩ => by
    refine ⟨?_, ho.skel, hk.toSkelCtx⟩
    obtain ⟨side, addr, red, val, other⟩ := f
    cases side <;> simp only [Heap.kids, hc, Option.map_some']

theorem Tree.Skel.frame {h h' : Heap T} :
    ∀ {t : Tree T}, t.Skel h → (∀ b ∈ t.addrs, h'.kids b = h.kids b) → t.Skel h'
  | .nil, _, _ => trivial
  | .node l a c v r, ⟨hc, hl, hr⟩, hsame => by
    refine ⟨?_, hl.frame (fun b hb => hsame b ?_), hr.frame (fun b hb => hsame b ?_)⟩
    · rw [hsame a (by simp [Tree.addrs])]
      exact hc
    · simp [Tree.addrs, hb]
    · simp [Tree.addrs, hb]

theorem SkelCtx.ctxFrame {h h' : Heap T} :
    ∀ {k : List (Frame T)} {child : Ptr}, SkelCtx h child k →
      (∀ b ∈ ctxAddrs k, h'.kids b = h.kids b) → SkelCtx h' child k
  | [], _, _, _ => trivial
  | f :: k, child, ⟨hc, ho, hk⟩, hsame => by
    refine ⟨?_, ho.frame (fun b hb => hsame b ?_), hk.ctxFrame (fun b hb => hsame b ?_)⟩
    · rw [hsame f.addr (by simp [ctxAddrs])]
      exact hc
    · simp [ctxAddrs, hb]
    · simp [ctxAddrs, hb]

theorem Tree.Rep.repFrame {h h' : Heap T} :
    ∀ {t : Tree T} {par : Ptr}, t.Rep h par → (∀ b ∈ t.addrs, h'.cell b = h.cell b) →
      t.Rep h' par
  | .nil, _, _, _ => trivial
  | .node l a c v r, par, ⟨hc, hl, hr⟩, hsame => by
    refine ⟨?_, hl.repFrame (fun b hb => hsame b ?_), hr.repFrame (fun b hb => hsame b ?_)⟩
    · rw [hsame a (by simp [Tree.addrs])]
      exact hc
    · simp [Tree.addrs, hb]
    · simp [Tree.addrs, hb]

theorem RepCtx.repCtxFrame {h h' : Heap T} :
    ∀ {k : List (Frame T)} {child : Ptr}, RepCtx h child k →
      (∀ b ∈ ctxAddrs k, h'.cell b = h.cell b) → RepCtx h' child k
  | [], _, _, _ => trivial
  | f :: k, child, ⟨hc, ho, hk⟩, hsame => by
    refine ⟨?_, ho.repFrame (fun b hb => hsame b ?_), hk.repCtxFrame (fun b hb => hsame b ?_)⟩
    · rw [hsame f.addr (by simp [ctxAddrs])]
      exact hc
    · simp [ctxAddrs, hb]
    · simp [ctxAddrs, hb]

theorem fill_addrs_perm (f : Frame T) (t : Tree T) :
    (f.fill t).addrs.Perm (t.addrs ++ (f.addr :: f.other.addrs)) := by
  obtain ⟨side, addr, red, val, other⟩ := f
  cases side
  · simp only [Frame.fill, Tree.addrs]
    exact List.Perm.refl _
  · simp only [Frame.fill, Tree.addrs]
    exact List.perm_middle.trans
      (((List.perm_append_comm).cons addr).trans List.perm_middle.symm)

theorem plug_addrs_perm :
    ∀ (k : List (Frame T)) (t : Tree T), (plug t k).addrs.Perm (t.addrs ++ ctxAddrs k) := by
  intro k
  induction k with
  | nil => intro t; simp [plug, ctxAddrs]
  | cons f k ih =>
    intro t
    rw [plug]
    refine (ih (f.fill t)).trans ?_
    simp only [ctxAddrs]
    refine ((fill_addrs_perm f t).append_right _).trans ?_
    simp [List.append_assoc]

theorem fill_toList_congr (f : Frame T) {t t' : Tree T} (e : t.toList = t'.toList) :
    (f.fill t).toList = (f.fill t').toList := by
  obtain ⟨side, addr, red, val, other⟩ := f
  cases side <;> simp only [Frame.fill, Tree.toList, e]

theorem plug_toList_congr :
    ∀ (k : List (Frame T)) {t t' : Tree T}, t.toList = t'.toList →
      (plug t k).toList = (plug t' k).toList := by
  intro k
  induction k with
  | nil => intro t t' e; exact e
  | cons f k ih => intro t t' e; exact ih (fill_toList_congr f e)

theorem plug_ptr_congr :
    ∀ (k : List (Frame T)) {t t' : Tree T}, t.ptr = t'.ptr → (plug t k).ptr = (plug t' k).ptr := by
  intro k
  induction k with
  | nil => intro t t' e; exact e
  | cons f k ih => intro t t' _; exact ih (by rw [fill_ptr, fill_ptr])

/-- The topmost ancestor is a live node without parent link, and it is the top of the
whole tree. -/
theorem repCtx_top {h : Heap T} :
    ∀ (k : List (Frame T)) (f : Frame T) (child : Ptr) (t : Tree T),
      RepCtx h child (f :: k) →
      ∃ r nd, (plug t (f :: k)).ptr = some r ∧ r ∈ ctxAddrs (f :: k) ∧
        h.cell r = some nd ∧ nd.pParent = none := by
  intro k
  induction k with
  | nil =>
    intro f child t hk
    obtain ⟨hc, -, -⟩ := hk
    refine ⟨f.addr, _, by simp [plug, fill_ptr], by simp [ctxAddrs], hc, ?_⟩
    obtain ⟨side, addr, red, val, other⟩ := f
    cases side <;> rfl
  | cons g k ih =>
    intro f child t hk
    obtain ⟨-, -, hk'⟩ := hk
    obtain ⟨r, nd, hp, hm, hc, hn⟩ := ih g (some f.addr) (f.fill t) hk'
    refine ⟨r, nd, ?_, ?_, hc, hn⟩
    · rw [plug]
      exact hp
    · simp only [ctxAddrs] at hm ⊢
      simp only [List.mem_cons, List.mem_append] at hm ⊢
      tauto

theorem findRoot_of_top {h : Heap T} {r : Nat} {nd : BNode T} (hc : h.cell r = some nd)
    (hn : nd.pParent = none) (f : Nat) : BST.findRoot (f + 1) h (some r) = .ok (some r) := by
  simp [BST.findRoot, load, hc, hn]

theorem findRoot_one_up {h : Heap T} {g top : Nat}
    (hg : h.parent g = some (some top)) (ht : h.parent top = some none) (f : Nat) :
    BST.findRoot (f + 2) h (some g) = .ok (some top) := by
  simp only [Heap.parent, Option.map_eq_some'] at hg ht
  obtain ⟨ng, cg, eg⟩ := hg
  obtain ⟨nt, ct, et⟩ := ht
  simp [BST.findRoot, load, cg, eg, ct, et]

end TreeLemmas

section Assemble

variable {T : Type}

theorem free_of_rep {h : Heap T} {s : Tree T} {par : Ptr} (hs : s.Rep h par)
    (used : List Nat) (hd : ∀ b ∈ used, b ∉ s.addrs) : h.Free s.ptr used := by
  intro b hb
  cases s with
  | nil => cases hb
  | node l a c v r =>
    cases hb
    refine ⟨⟨_, hs.1⟩, fun hu => hd b hu ?_⟩
    simp [Tree.addrs]

theorem ptr_mem_addrs {s : Tree T} {b : Nat} (hb : s.ptr = some b) : b ∈ s.addrs := by
  cases s with
  | nil => cases hb
  | node l a c v r =>
    cases hb
    simp [Tree.addrs]

theorem ctxPtr_mem {k : List (Frame T)} {b : Nat} (hb : ctxPtr k = some b) :
    b ∈ ctxAddrs k := by
  cases k with
  | nil => cases hb
  | cons f k =>
    cases hb
    simp [ctxAddrs]

theorem free_of_repCtx {h : Heap T} {k : List (Frame T)} {child : Ptr}
    (hk : RepCtx h child k) (used : List Nat) (hd : ∀ b ∈ used, b ∉ ctxAddrs k) :
    h.Free (ctxPtr k) used := by
  intro b hb
  cases k with
  | nil => cases hb
  | cons f k =>
    cases hb
    refine ⟨⟨_, hk.1⟩, fun hu => hd _ hu ?_⟩
    simp [ctxAddrs]

theorem auntIsRed_of_rep {h : Heap T} {s : Tree T} {par : Ptr} (hs : s.Rep h par) :
    auntIsRed h s.ptr = .ok s.isRed := by
  cases s with
  | nil => rfl
  | node l a c v r => simp [auntIsRed, Tree.ptr, load, hs.1, Tree.isRed]

/-- After a rotation at the grandparent `g` the tree with the rotated subtree `rot` in
place of the old subtree `orig` is in the heap (elements and child links), and the
root-finding loop of `insert`, started at the old root, ends at its top. -/
theorem rot_assemble {h h' : Heap T} {a p g top : Nat} {k : List (Frame T)}
    {kA kP kG : T × Ptr × Ptr} {moved : List Ptr} {orig rot : Tree T}
    (hpost : RotPost h h' a p g top (ctxPtr k) kA kP kG moved)
    (hctx : RepCtx h (some g) k) (horig : orig.ptr = some g)
    (hrot : rot.Skel h') (hptr : rot.ptr = some top) (hlist : rot.toList = orig.toList)
    (hdis : ∀ b ∈ ctxAddrs k, b ∉ [a, p, g]) (hnd : (ctxAddrs k).Nodup)
    (hmoved : ∀ b ∈ ctxAddrs k, some b ∉ moved) :
    (plug rot k).Skel h' ∧ (plug rot k).toList = (plug orig k).toList ∧
      ∀ f, BST.findRoot (f + 2) h' (plug orig k).ptr = .ok (plug rot k).ptr := by
  obtain ⟨-, -, -, hroot, hhead, hrest⟩ := hpost
  refine ⟨?_, plug_toList_congr k hlist, ?_⟩
  · rw [skel_plug]
    refine ⟨hrot, ?_⟩
    rw [hptr]
    cases k with
    | nil => trivial
    | cons f k' =>
      obtain ⟨hc, ho, hk'⟩ := hctx
      rw [ctxAddrs, List.nodup_append, List.nodup_cons] at hnd
      obtain ⟨⟨hfo, -⟩, -, hdj⟩ := hnd
      have hfk : f.addr ∉ ctxAddrs k' := fun hm => hdj (List.mem_cons_self _ _) hm
      have hkids : ∀ b ∈ ctxAddrs (f :: k'), b ≠ f.addr → h'.kids b = h.kids b := by
        intro b hb hne
        exact (hrest b (hdis b hb) (by simpa [ctxPtr] using Ne.symm hne)).1
      refine ⟨?_, ho.skel.frame (fun b hb => hkids b (by simp [ctxAddrs, hb]) ?_),
        hk'.toSkelCtx.ctxFrame (fun b hb => hkids b (by simp [ctxAddrs, hb]) ?_)⟩
      · have hg : g ∉ f.other.addrs := by
          intro hm
          have := hdis g (by simp [ctxAddrs, hm])
          simp at this
        have hx := hhead f.addr _ rfl hc
        obtain ⟨side, addr, red, val, other⟩ := f
        cases side
        · have hne : ¬ other.ptr = some g := fun e => hg (ptr_mem_addrs e)
          simp only [Heap.kids, hx, hne, if_false, Option.map_some']
        · simp only [Heap.kids, hx, if_true, Option.map_some']
      · rintro rfl
        exact hfo hb
      · rintro rfl
        exact hfk hb
  · intro f
    cases k with
    | nil =>
      obtain ⟨ht, hg⟩ := hroot rfl
      simp only [plug, horig, hptr]
      exact findRoot_one_up hg ht f
    | cons fr k' =>
      obtain ⟨r, nd, hp, hm, hc, hn⟩ := repCtx_top k' fr (some g) orig hctx
      have hp' : (plug rot (fr :: k')).ptr = some r := by
        rw [← hp]
        simp only [plug]
        exact plug_ptr_congr k' (by rw [fill_ptr, fill_ptr])
      rw [hp, hp']
      by_cases hr : r = fr.addr
      · subst hr
        have hx := hhead fr.addr nd rfl hc
        refine findRoot_of_top hx ?_ (f + 1)
        split <;> exact hn
      · have := (hrest r (hdis r hm) (by simpa [ctxPtr] using Ne.symm hr)).2 (hmoved r hm)
        exact findRoot_of_top (this.trans hc) hn (f + 1)

end Assemble

section Recolor

variable {T : Type}

/-- Case 3 of `balance` on a well-formed neighbourhood: the grandparent becomes red, the
parent and the aunt black, and `balance` goes on from the grandparent. -/
theorem balance_recolor {h : Heap T} {a p g u : Nat} {v vp vg vu : T}
    {lp rp pl pr gl gr ul ur hdp : Ptr} {c : Bool} (fuel : Nat)
    (ca : h.cell a = some ⟨v, lp, rp, some p, c⟩)
    (cp : h.cell p = some ⟨vp, pl, pr, some g, true⟩)
    (cg : h.cell g = some ⟨vg, gl, gr, hdp, false⟩)
    (cu : h.cell u = some ⟨vu, ul, ur, some g, true⟩)
    (hsh : (gl = some p ∧ gr = some u) ∨ (gl = some u ∧ gr = some p))
    (hap : a ≠ p) (hag : a ≠ g) (hau : a ≠ u) (hpg : p ≠ g) (hpu : p ≠ u) (hgu : g ≠ u) :
    ∃ h3, BNode.balance (fuel + 1) h (some a) = BNode.balance fuel h3 (some g) ∧
      h3.cell g = some ⟨vg, gl, gr, hdp, true⟩ ∧
      h3.cell p = some ⟨vp, pl, pr, some g, false⟩ ∧
      h3.cell u = some ⟨vu, ul, ur, some g, false⟩ ∧
      ∀ b, b ≠ g → b ≠ p → b ≠ u → h3.cell b = h.cell b := by
  have la := cell_lt_length ca
  have lp' := cell_lt_length cp
  have lg := cell_lt_length cg
  have lu := cell_lt_length cu
  have hpa := hap.symm
  have hga := hag.symm
  have hua := hau.symm
  have hgp := hpg.symm
  have hup := hpu.symm
  have hug := hgu.symm
  have hup' : ¬ (some u : Ptr) = some p := by simpa using hup
  refine ⟨((h.store g ⟨vg, gl, gr, hdp, true⟩).store p ⟨vp, pl, pr, some g, false⟩).store u
    ⟨vu, ul, ur, some g, false⟩, ?_, ?_, ?_, ?_, ?_⟩
  · rcases hsh with ⟨rfl, rfl⟩ | ⟨rfl, rfl⟩ <;>
    simp only [balance_succ, balanceRecolor, auntIsRed, memberParent, load, setRed, modify,
      pure_eq_ok, bind_ok, bind_error, bind_assoc, decide_eq_true_eq, decide_True,
      decide_False, ↓reduceIte, ne_eq, reduceCtorEq, not_false_eq_true, not_true_eq_false,
      Bool.not_eq_eq_eq_not, Bool.not_true, Bool.not_false, Option.some.injEq,
      Bool.false_eq_true, Bool.true_eq_false, ite_self, Except.ok.injEq, exists_eq_left',
      true_and, and_true, and_self, cell_store, length_store, *]
  · simp only [cell_store, length_store, ↓reduceIte, *]
  · simp only [cell_store, length_store, ↓reduceIte, *]
  · simp only [cell_store, length_store, ↓reduceIte, *]
  · intro b h1 h2 h3
    have h1' := Ne.symm h1
    have h2' := Ne.symm h2
    have h3' := Ne.symm h3
    simp only [cell_store, length_store, ↓reduceIte, *]

end Recolor

section NodupParts

theorem nodup_parts {L R S U K : List Nat} {a p g : Nat}
    (hnd : ((L ++ a :: R) ++ ((p :: S) ++ ((g :: U) ++ K))).Nodup) :
    a ≠ p ∧ a ≠ g ∧ p ≠ g ∧
      (∀ b ∈ L, b ∉ [a, p, g] ∧ b ∉ R ∧ b ∉ S ∧ b ∉ U ∧ b ∉ K) ∧
      (∀ b ∈ R, b ∉ [a, p, g] ∧ b ∉ S ∧ b ∉ U ∧ b ∉ K) ∧
      (∀ b ∈ S, b ∉ [a, p, g] ∧ b ∉ U ∧ b ∉ K) ∧
      (∀ b ∈ U, b ∉ [a, p, g] ∧ b ∉ K) ∧
      (∀ b ∈ K, b ∉ [a, p, g]) ∧ K.Nodup ∧ U.Nodup := by
  simp only [List.Nodup, List.pairwise_append, List.pairwise_cons, List.mem_append,
    List.mem_cons, ne_eq] at hnd
  obtain ⟨⟨hL, ⟨haR, hR⟩, hLaR⟩, ⟨⟨hpS, hS⟩, ⟨⟨hgU, hU⟩, hK, hgUK⟩, hpSgUK⟩, hall⟩ := hnd
  simp only [List.mem_cons, List.mem_singleton, List.not_mem_nil, or_false, not_or]
  refine ⟨?_, ?_, ?_, ?_, ?_, ?_, ?_, ?_, hK, hU⟩
  · exact hall a (Or.inr (Or.inl rfl)) p (Or.inl (Or.inl rfl))
  · exact hall a (Or.inr (Or.inl rfl)) g (Or.inr (Or.inl (Or.inl rfl)))
  · exact hpSgUK p (Or.inl rfl) g (Or.inl (Or.inl rfl))
  · intro b hb
    refine ⟨⟨?_, ?_, ?_⟩, ?_, ?_, ?_, ?_⟩
    · exact hLaR b hb a (Or.inl rfl)
    · exact hall b (Or.inl hb) p (Or.inl (Or.inl rfl))
    · exact hall b (Or.inl hb) g (Or.inr (Or.inl (Or.inl rfl)))
    · exact fun hm => hLaR b hb b (Or.inr hm) rfl
    · exact fun hm => hall b (Or.inl hb) b (Or.inl (Or.inr hm)) rfl
    · exact fun hm => hall b (Or.inl hb) b (Or.inr (Or.inl (Or.inr hm))) rfl
    · exact fun hm => hall b (Or.inl hb) b (Or.inr (Or.inr hm)) rfl
  · intro b hb
    refine ⟨⟨?_, ?_, ?_⟩, ?_, ?_, ?_⟩
    · exact fun e => haR b hb e.symm
    · exact hall b (Or.inr (Or.inr hb)) p (Or.inl (Or.inl rfl))
    · exact hall b (Or.inr (Or.inr hb)) g (Or.inr (Or.inl (Or.inl rfl)))
    · exact fun hm => hall b (Or.inr (Or.inr hb)) b (Or.inl (Or.inr hm)) rfl
    · exact fun hm => hall b (Or.inr (Or.inr hb)) b (Or.inr (Or.inl (Or.inr hm))) rfl
    · exact fun hm => hall b (Or.inr (Or.inr hb)) b (Or.inr (Or.inr hm)) rfl
  · intro b hb
    refine ⟨⟨?_, ?_, ?_⟩, ?_, ?_⟩
    · exact fun e => hall a (Or.inr (Or.inl rfl)) b (Or.inl (Or.inr hb)) e.symm
    · exact fun e => hpS b hb e.symm
    · exact hpSgUK b (Or.inr hb) g (Or.inl (Or.inl rfl))
    · exact fun hm => hpSgUK b (Or.inr hb) b (Or.inl (Or.inr hm)) rfl
    · exact fun hm => hpSgUK b (Or.inr hb) b (Or.inr hm) rfl
  · intro b hb
    refine ⟨⟨?_, ?_, ?_⟩, ?_⟩
    · exact fun e => hall a (Or.inr (Or.inl rfl)) b (Or.inr (Or.inl (Or.inr hb))) e.symm
    · exact fun e => hpSgUK p (Or.inl rfl) b (Or.inl (Or.inr hb)) e.symm
    · exact fun e => hgU b hb e.symm
    · exact fun hm => hgUK b (Or.inr hb) b hm rfl
  · intro b hb
    refine ⟨?_, ?_, ?_⟩
    · exact fun e => hall a (Or.inr (Or.inl rfl)) b (Or.inr (Or.inr hb)) e.symm
    · exact fun e => hpSgUK p (Or.inl rfl) b (Or.inr hb) e.symm
    · exact fun e => hgUK g (Or.inl rfl) b hb e.symm

end NodupParts

section BalanceSpec

variable {T : Type}

theorem setRed_kids {h h' : Heap T} {p : Ptr} {c : Bool} (hm : setRed h p c = .ok h')
    (b : Nat) : h'.kids b = h.kids b := by
  simp only [Heap.kids, cell_modify hm b]
  by_cases hp : p = some b
  · simp only [hp, if_true]
    cases h.cell b <;> rfl
  · simp only [hp, if_false]

theorem ctxInv_tail {f : Frame T} {k : List (Frame T)} (hi : CtxInv (f :: k)) : CtxInv k := by
  cases k with
  | nil => trivial
  | cons g k => exact hi.2

/-- Case 1 of `balance` on a well-formed tree: called on the root. -/
theorem balance_spec_root {h : Heap T} {t : Tree T} {a : Nat} (fuel : Nat)
    (ht : t.ptr = some a) (hrep : t.Rep h none) :
    ∃ (h' : Heap T) (t' : Tree T), BNode.balance (fuel + 1) h (some a) = .ok h' ∧
      t'.Skel h' ∧ t'.toList = t.toList ∧
      ∀ f, BST.findRoot (f + 2) h' t.ptr = .ok t'.ptr := by
  cases t with
  | nil => cases ht
  | node l a' c v r =>
    cases ht
    obtain ⟨hc, hl, hr⟩ := hrep
    have hset : ∃ h', setRed h (some a) false = .ok h' := by
      simp [setRed, modify, hc]
    obtain ⟨h', hh'⟩ := hset
    refine ⟨h', .node l a c v r, ?_, ?_, rfl, ?_⟩
    · simp only [balance_succ, load, hc, bind_ok, if_true, hh']
    · exact (@Tree.Rep.skel T _ (.node l a c v r) none ⟨hc, hl, hr⟩).frame
        (fun b _ => setRed_kids hh' b)
    · intro f
      obtain ⟨nd, hnd', hnd''⟩ : ∃ nd, h'.cell a = some nd ∧ nd.pParent = none := by
        rw [cell_modify hh' a]
        simp [hc]
      exact findRoot_of_top hnd' hnd'' (f + 1)

/-- Case 2 of `balance` on a well-formed tree: the parent is black. -/
theorem balance_spec_black {h : Heap T} {t : Tree T} {a : Nat} {fP : Frame T}
    {k : List (Frame T)} (fuel : Nat) (ht : t.ptr = some a)
    (hrep : t.Rep h (ctxPtr (fP :: k))) (hctx : RepCtx h (some a) (fP :: k))
    (hblack : fP.red = false) :
    ∃ (h' : Heap T) (t' : Tree T), BNode.balance (fuel + 1) h (some a) = .ok h' ∧
      t'.Skel h' ∧ t'.toList = (plug t (fP :: k)).toList ∧
      ∀ f, BST.findRoot (f + 2) h' (plug t (fP :: k)).ptr = .ok t'.ptr := by
  cases t with
  | nil => cases ht
  | node l a' c v r =>
    cases ht
    refine ⟨h, plug (.node l a c v r) (fP :: k), ?_, ?_, rfl, ?_⟩
    · have hc := hrep.1
      have hp := hctx.1
      obtain ⟨side, p, red, val, other⟩ := fP
      simp only at hblack
      subst hblack
      cases side <;>
        simp [balance_succ, load, hc, hp, ctxPtr]
    · rw [skel_plug]
      exact ⟨hrep.skel, by simpa [Tree.ptr] using hctx.toSkelCtx⟩
    · intro f
      obtain ⟨r', nd, hp, -, hc, hn⟩ := repCtx_top k fP (some a) (.node l a c v r) hctx
      rw [hp]
      exact findRoot_of_top hc hn (f + 1)

end BalanceSpec

section BalanceRotateSpec

variable {T : Type}

theorem not_mem_of_ptr {s : Tree T} {b : Nat} (hb : b ∉ s.addrs) : s.ptr ≠ some b :=
  fun e => hb (ptr_mem_addrs e)

theorem ptr_ne_ctxPtr {s : Tree T} {k : List (Frame T)}
    (hd : ∀ b ∈ s.addrs, b ∉ ctxAddrs k) : s.ptr = none ∨ s.ptr ≠ ctxPtr k := by
  cases hs : s.ptr with
  | none => exact Or.inl rfl
  | some b =>
    right
    intro e
    exact hd b (ptr_mem_addrs hs) (ctxPtr_mem e.symm)

theorem ptr_ne_ptr {s s' : Tree T} (hd : ∀ b ∈ s.addrs, b ∉ s'.addrs) :
    s.ptr = none ∨ s.ptr ≠ s'.ptr := by
  cases hs : s.ptr with
  | none => exact Or.inl rfl
  | some b =>
    right
    intro e
    exact hd b (ptr_mem_addrs hs) (ptr_mem_addrs e.symm)

/-- Case 4 of `balance` on a well-formed tree: the parent is red, the grandparent black,
the aunt absent or black. -/
theorem balance_spec_rotate {h : Heap T} {l r : Tree T} {a : Nat} {c : Bool} {v : T}
    {fP fG : Frame T} {k : List (Frame T)} (fuel : Nat)
    (hrep : (Tree.node l a c v r).Rep h (ctxPtr (fP :: fG :: k)))
    (hctx : RepCtx h (some a) (fP :: fG :: k))
    (hnd : ((Tree.node l a c v r).addrs ++ ctxAddrs (fP :: fG :: k)).Nodup)
    (hPred : fP.red = true) (hGblack : fG.red = false) (hUblack : fG.other.isRed = false) :
    ∃ (h' : Heap T) (t' : Tree T), BNode.balance (fuel + 3) h (some a) = .ok h' ∧
      t'.Skel h' ∧ t'.toList = (plug (Tree.node l a c v r) (fP :: fG :: k)).toList ∧
      ∀ f, BST.findRoot (f + 2) h' (plug (Tree.node l a c v r) (fP :: fG :: k)).ptr
        = .ok t'.ptr := by
  obtain ⟨sideP, p, redP, vp, sib⟩ := fP
  obtain ⟨sideG, g, redG, vg, aunt⟩ := fG
  simp only at hPred hGblack hUblack
  subst hPred hGblack
  simp only [Tree.addrs, ctxAddrs] at hnd
  obtain ⟨hap, hag, hpg, dL, dR, dS, dU, dK, hK, -⟩ := nodup_parts hnd
  obtain ⟨ca, hl, hr⟩ := hrep
  obtain ⟨cp, hsib, cg, haunt, hk⟩ := hctx
  simp only [ctxPtr] at ca cp cg
  have hu : auntIsRed h aunt.ptr = .ok false := by
    rw [auntIsRed_of_rep haunt, hUblack]
  have nK : ∀ b ∈ [a, p, g], b ∉ ctxAddrs k := fun b hb hm => dK b hm hb
  have nS : ∀ b ∈ [a, p, g], b ∉ sib.addrs := fun b hb hm => (dS b hm).1 hb
  have nL : ∀ b ∈ [a, p, g], b ∉ l.addrs := fun b hb hm => (dL b hm).1 hb
  have nR : ∀ b ∈ [a, p, g], b ∉ r.addrs := fun b hb hm => (dR b hm).1 hb
  have hhd := free_of_repCtx hk [a, p, g] nK
  have hsp := free_of_rep hsib [a, p, g] nS
  have hlp := free_of_rep hl [a, p, g] nL
  have hrp := free_of_rep hr [a, p, g] nR
  have hsh := ptr_ne_ctxPtr (s := sib) (k := k) (fun b hb => (dS b hb).2.2)
  have hlh := ptr_ne_ctxPtr (s := l) (k := k) (fun b hb => (dL b hb).2.2.2.2)
  have hrh := ptr_ne_ctxPtr (s := r) (k := k) (fun b hb => (dR b hb).2.2.2)
  have hlr := @ptr_ne_ptr T l r (fun b hb => (dL b hb).2.1)
  have hsa : sib.ptr ≠ some a := not_mem_of_ptr (nS a (by simp))
  have hup : aunt.ptr ≠ some p := not_mem_of_ptr (fun hm => (dU p hm).1 (by simp))
  -- the subtrees keep their elements and child links
  have hsk : ∀ (sub : Tree T) (par : Ptr) (h' : Heap T) (moved : List Ptr),
      RestSame h h' [a, p, g] (ctxPtr k) moved → sub.Rep h par →
      (∀ b ∈ sub.addrs, b ∉ [a, p, g] ∧ b ∉ ctxAddrs k) → sub.Skel h' := by
    intro sub par h' moved hrest hs hd
    refine hs.skel.frame (fun b hb => (hrest b (hd b hb).1 ?_).1)
    intro e
    exact (hd b hb).2 (ctxPtr_mem e)
  have aL : ∀ b ∈ l.addrs, b ∉ [a, p, g] ∧ b ∉ ctxAddrs k :=
    fun b hb => ⟨(dL b hb).1, (dL b hb).2.2.2.2⟩
  have aR : ∀ b ∈ r.addrs, b ∉ [a, p, g] ∧ b ∉ ctxAddrs k :=
    fun b hb => ⟨(dR b hb).1, (dR b hb).2.2.2⟩
  have aS : ∀ b ∈ sib.addrs, b ∉ [a, p, g] ∧ b ∉ ctxAddrs k :=
    fun b hb => ⟨(dS b hb).1, (dS b hb).2.2⟩
  have aU : ∀ b ∈ aunt.addrs, b ∉ [a, p, g] ∧ b ∉ ctxAddrs k :=
    fun b hb => ⟨(dU b hb).1, (dU b hb).2⟩
  have mS : ∀ b ∈ ctxAddrs k, some b ∉ [sib.ptr] := by
    intro b hb hm
    simp only [List.mem_singleton] at hm
    exact (dS b (ptr_mem_addrs hm.symm)).2.2 hb
  have mLR : ∀ b ∈ ctxAddrs k, some b ∉ [l.ptr, r.ptr] := by
    intro b hb hm
    simp only [List.mem_cons, List.mem_singleton, List.not_mem_nil, or_false] at hm
    rcases hm with hm | hm
    · exact (dL b (ptr_mem_addrs hm.symm)).2.2.2.2 hb
    · exact (dR b (ptr_mem_addrs hm.symm)).2.2.2 hb
  cases sideP <;> cases sideG
  · -- 4a
    simp only [Tree.ptr] at cp cg
    obtain ⟨h', hex, hpost⟩ := balance_4a (fuel + 2) ca cp cg hu hap hag hpg hhd hsp hsh
    have hrot : (Tree.node (.node l a c v r) p true vp (.node sib g false vg aunt)).Skel h' :=
      ⟨hpost.2.1, ⟨hpost.1, hsk l _ h' _ hpost.2.2.2.2.2 hl aL,
        hsk r _ h' _ hpost.2.2.2.2.2 hr aR⟩,
        ⟨hpost.2.2.1, hsk sib _ h' _ hpost.2.2.2.2.2 hsib aS,
          hsk aunt _ h' _ hpost.2.2.2.2.2 haunt aU⟩⟩
    obtain ⟨s1, s2, s3⟩ := @rot_assemble T _ _ _ _ _ _ _ _ _ _ _
      (Frame.fill ⟨.left, g, false, vg, aunt⟩
        (Frame.fill ⟨.left, p, true, vp, sib⟩ (.node l a c v r))) _
      hpost hk rfl hrot rfl (by simp [Frame.fill, Tree.toList]) dK hK mS
    exact ⟨h', _, hex, s1, s2, s3⟩
  · -- 4d
    simp only [Tree.ptr] at cp cg
    obtain ⟨h', hex, hpost⟩ :=
      balance_4d fuel ca cp cg hu hsa hup hap hag hpg hhd hlp hlh hrp hrh hlr
    have hrot : (Tree.node (.node aunt g false vg l) a c v (.node r p true vp sib)).Skel h' :=
      ⟨hpost.1, ⟨hpost.2.2.1, hsk aunt _ h' _ hpost.2.2.2.2.2 haunt aU,
        hsk l _ h' _ hpost.2.2.2.2.2 hl aL⟩,
        ⟨hpost.2.1, hsk r _ h' _ hpost.2.2.2.2.2 hr aR,
          hsk sib _ h' _ hpost.2.2.2.2.2 hsib aS⟩⟩
    obtain ⟨s1, s2, s3⟩ := @rot_assemble T _ _ _ _ _ _ _ _ _ _ _
      (Frame.fill ⟨.right, g, false, vg, aunt⟩
        (Frame.fill ⟨.left, p, true, vp, sib⟩ (.node l a c v r))) _
      hpost hk rfl hrot rfl (by simp [Frame.fill, Tree.toList]) dK hK mLR
    exact ⟨h', _, hex, s1, s2, s3⟩
  · -- 4c
    simp only [Tree.ptr] at cp cg
    obtain ⟨h', hex, hpost⟩ :=
      balance_4c fuel ca cp cg hu hsa hup hap hag hpg hhd hlp hlh hrp hrh hlr
    have hrot : (Tree.node (.node sib p true vp l) a c v (.node r g false vg aunt)).Skel h' :=
      ⟨hpost.1, ⟨hpost.2.1, hsk sib _ h' _ hpost.2.2.2.2.2 hsib aS,
        hsk l _ h' _ hpost.2.2.2.2.2 hl aL⟩,
        ⟨hpost.2.2.1, hsk r _ h' _ hpost.2.2.2.2.2 hr aR,
          hsk aunt _ h' _ hpost.2.2.2.2.2 haunt aU⟩⟩
    obtain ⟨s1, s2, s3⟩ := @rot_assemble T _ _ _ _ _ _ _ _ _ _ _
      (Frame.fill ⟨.left, g, false, vg, aunt⟩
        (Frame.fill ⟨.right, p, true, vp, sib⟩ (.node l a c v r))) _
      hpost hk rfl hrot rfl (by simp [Frame.fill, Tree.toList]) dK hK mLR
    exact ⟨h', _, hex, s1, s2, s3⟩
  · -- 4b
    simp only [Tree.ptr] at cp cg
    obtain ⟨h', hex, hpost⟩ :=
      balance_4b (fuel + 2) ca cp cg hu hup hap hag hpg hhd hsp hsh
    have hrot : (Tree.node (.node aunt g false vg sib) p true vp (.node l a c v r)).Skel h' :=
      ⟨hpost.2.1, ⟨hpost.2.2.1, hsk aunt _ h' _ hpost.2.2.2.2.2 haunt aU,
        hsk sib _ h' _ hpost.2.2.2.2.2 hsib aS⟩,
        ⟨hpost.1, hsk l _ h' _ hpost.2.2.2.2.2 hl aL,
          hsk r _ h' _ hpost.2.2.2.2.2 hr aR⟩⟩
    obtain ⟨s1, s2, s3⟩ := @rot_assemble T _ _ _ _ _ _ _ _ _ _ _
      (Frame.fill ⟨.right, g, false, vg, aunt⟩
        (Frame.fill ⟨.right, p, true, vp, sib⟩ (.node l a c v r))) _
      hpost hk rfl hrot rfl (by simp [Frame.fill, Tree.toList]) dK hK mS
    exact ⟨h', _, hex, s1, s2, s3⟩

end BalanceRotateSpec

section BalanceSpecMain

variable {T : Type}

/-- Case 3 of `balance` on a well-formed tree: parent and aunt red.  The heap after the
recolouring holds the recoloured tree with all members, and `balance` goes on from the
grandparent. -/
theorem balance_spec_recolor {h : Heap T} {l r ul ur : Tree T} {a u : Nat} {c : Bool}
    {v vu : T} {sideP sideG : Side} {p g : Nat} {vp vg : T} {sib : Tree T}
    {k : List (Frame T)} (fuel : Nat)
    (hrep : (Tree.node l a c v r).Rep h (some p))
    (hctx : RepCtx h (some a)
      (⟨sideP, p, true, vp, sib⟩ :: ⟨sideG, g, false, vg, .node ul u true vu ur⟩ :: k))
    (hnd : ((Tree.node l a c v r).addrs ++ ctxAddrs
      (⟨sideP, p, true, vp, sib⟩ :: ⟨sideG, g, false, vg, .node ul u true vu ur⟩ :: k)).Nodup) :
    ∃ h3 : Heap T,
      BNode.balance (fuel + 1) h (some a) = BNode.balance fuel h3 (some g) ∧
      (Frame.fill ⟨sideG, g, true, vg, .node ul u false vu ur⟩
        (Frame.fill ⟨sideP, p, false, vp, sib⟩ (.node l a c v r))).Rep h3 (ctxPtr k) ∧
      RepCtx h3 (some g) k := by
  simp only [Tree.addrs, ctxAddrs] at hnd
  obtain ⟨hap, hag, hpg, dL, dR, dS, dU, dK, hK, hU⟩ := nodup_parts hnd
  have hu : u ∈ ul.addrs ++ u :: ur.addrs := by simp
  have hau : a ≠ u := fun e => (dU u hu).1 (by simp [e])
  have hpu : p ≠ u := fun e => (dU u hu).1 (by simp [e])
  have hgu : g ≠ u := fun e => (dU u hu).1 (by simp [e])
  obtain ⟨ca, hl, hr⟩ := hrep
  obtain ⟨cp, hsib, cg, ⟨cu, hul, hur⟩, hk⟩ := hctx
  simp only [ctxPtr] at cp cg
  have key : ∀ (pl pr gl gr : Ptr),
      h.cell p = some ⟨vp, pl, pr, some g, true⟩ →
      h.cell g = some ⟨vg, gl, gr, ctxPtr k, false⟩ →
      ((gl = some p ∧ gr = some u) ∨ (gl = some u ∧ gr = some p)) →
      ∃ h3 : Heap T, BNode.balance (fuel + 1) h (some a) = BNode.balance fuel h3 (some g) ∧
        h3.cell g = some ⟨vg, gl, gr, ctxPtr k, true⟩ ∧
        h3.cell p = some ⟨vp, pl, pr, some g, false⟩ ∧
        (Tree.node ul u false vu ur).Rep h3 (some g) ∧ sib.Rep h3 (some p) ∧
        (Tree.node l a c v r).Rep h3 (some p) ∧ RepCtx h3 (some g) k := by
    intro pl pr gl gr cp' cg' hsh
    obtain ⟨h3, hex, c3g, c3p, c3u, hsame⟩ :=
      balance_recolor fuel ca cp' cg' cu hsh hap hag hau hpg hpu hgu
    have same : ∀ b, b ∉ [a, p, g] → b ≠ u → h3.cell b = h.cell b := by
      intro b hb hbu
      simp only [List.mem_cons, List.mem_singleton, List.not_mem_nil, or_false, not_or] at hb
      exact hsame b hb.2.2 hb.2.1 hbu
    have huU : ∀ b, b ∉ ul.addrs ++ u :: ur.addrs → b ≠ u := by
      intro b hb e
      exact hb (by simp [e])
    rw [List.nodup_append, List.nodup_cons] at hU
    refine ⟨h3, hex, c3g, c3p, ⟨c3u, ?_, ?_⟩, ?_, ⟨?_, ?_, ?_⟩, ?_⟩
    · refine hul.repFrame (fun b hb => same b (dU b (by simp [hb])).1 ?_)
      rintro rfl
      exact hU.2.2 hb (List.mem_cons_self _ _)
    · refine hur.repFrame (fun b hb => same b (dU b (by simp [hb])).1 ?_)
      rintro rfl
      exact hU.2.1.1 hb
    · exact hsib.repFrame (fun b hb => same b (dS b hb).1 (huU b (dS b hb).2.1))
    · rw [hsame a hag hap hau]
      exact ca
    · exact hl.repFrame (fun b hb => same b (dL b hb).1 (huU b (dL b hb).2.2.2.1))
    · exact hr.repFrame (fun b hb => same b (dR b hb).1 (huU b (dR b hb).2.2.1))
    · exact hk.repCtxFrame (fun b hb => same b (dK b hb) (fun e => (dU u hu).2 (e ▸ hb)))
  cases sideP <;> cases sideG
  · obtain ⟨h3, hex, c3g, c3p, r1, r2, r3, r4⟩ := key _ _ _ _ cp cg (Or.inl ⟨rfl, rfl⟩)
    exact ⟨h3, hex, ⟨c3g, ⟨c3p, r3, r2⟩, r1⟩, r4⟩
  · obtain ⟨h3, hex, c3g, c3p, r1, r2, r3, r4⟩ := key _ _ _ _ cp cg (Or.inr ⟨rfl, rfl⟩)
    exact ⟨h3, hex, ⟨c3g, r1, ⟨c3p, r3, r2⟩⟩, r4⟩
  · obtain ⟨h3, hex, c3g, c3p, r1, r2, r3, r4⟩ := key _ _ _ _ cp cg (Or.inl ⟨rfl, rfl⟩)
    exact ⟨h3, hex, ⟨c3g, ⟨c3p, r2, r3⟩, r1⟩, r4⟩
  · obtain ⟨h3, hex, c3g, c3p, r1, r2, r3, r4⟩ := key _ _ _ _ cp cg (Or.inr ⟨rfl, rfl⟩)
    exact ⟨h3, hex, ⟨c3g, r1, ⟨c3p, r2, r3⟩⟩, r4⟩

/-- What `balance` does on a well-formed tree, called on the top node `a` of the subtree
`t` at the position with the ancestors `k`: it returns, and afterwards the heap holds (as
far as elements and child links go) a tree `t'` with the in-order sequence of before,
whose top the root-finding loop of `insert` reaches from the old top. -/
theorem balance_spec (n : Nat) :
    ∀ (k : List (Frame T)), k.length ≤ n → ∀ (h : Heap T) (t : Tree T) (a fuel : Nat),
      t.ptr = some a → t.Rep h (ctxPtr k) → RepCtx h (some a) k →
      (t.addrs ++ ctxAddrs k).Nodup → CtxInv k → k.length + 3 ≤ fuel →
      ∃ (h' : Heap T) (t' : Tree T), BNode.balance fuel h (some a) = .ok h' ∧ t'.Skel h' ∧
        t'.toList = (plug t k).toList ∧
        ∀ f, BST.findRoot (f + 2) h' (plug t k).ptr = .ok t'.ptr := by
  induction n with
  | zero =>
    intro k hk h t a fuel ht hrep hctx hnd hinv hfuel
    obtain ⟨fuel, rfl⟩ : ∃ f, fuel = f + 1 := ⟨fuel - 1, by omega⟩
    have hk0 : k = [] := List.length_eq_zero.mp (Nat.le_zero.mp hk)
    subst hk0
    exact balance_spec_root fuel ht hrep
  | succ n ih =>
    intro k hk h t a fuel ht hrep hctx hnd hinv hfuel
    obtain ⟨fuel, rfl⟩ : ∃ f, fuel = f + 3 := ⟨fuel - 3, by omega⟩
    match k, hk, hrep, hctx, hnd, hinv, hfuel with
    | [], _, hrep, _, _, _, _ => exact balance_spec_root (fuel + 2) ht hrep
    | [fP], _, hrep, hctx, _, hinv, _ =>
      exact balance_spec_black (fuel + 2) ht hrep hctx hinv
    | fP :: fG :: k, hk, hrep, hctx, hnd, hinv, hfuel =>
      by_cases hP : fP.red = true
      · have hG : fG.red = false := hinv.1 hP
        cases t with
        | nil => cases ht
        | node l a' c v r =>
          cases ht
          by_cases hU : fG.other.isRed = true
          · obtain ⟨sideP, p, redP, vp, sib⟩ := fP
            obtain ⟨sideG, g, redG, vg, aunt⟩ := fG
            simp only at hP hG hU
            subst hP hG
            cases aunt with
            | nil => cases hU
            | node ul u cu vu ur =>
              simp only [Tree.isRed] at hU
              subst hU
              obtain ⟨h3, hex, hrep3, hctx3⟩ := balance_spec_recolor (fuel + 2) hrep hctx hnd
              have hnd3 : ((Frame.fill ⟨sideG, g, true, vg, .node ul u false vu ur⟩
                  (Frame.fill ⟨sideP, p, false, vp, sib⟩ (.node l a c v r))).addrs
                  ++ ctxAddrs k).Nodup := by
                refine (List.Perm.nodup_iff ?_).mpr hnd
                simp only [ctxAddrs]
                refine ((fill_addrs_perm _ _).append_right _).trans ?_
                refine (((fill_addrs_perm _ _).append_right _).append_right _).trans ?_
                simp only [Tree.addrs, List.append_assoc]
                exact List.Perm.refl _
              simp only [List.length_cons] at hk hfuel
              obtain ⟨h', t', hbal, hskel, hlist, hroot⟩ :=
                ih k (by omega) h3 _ g (fuel + 2) (fill_ptr _ _) hrep3 hctx3 hnd3
                  (ctxInv_tail (ctxInv_tail hinv)) (by omega)
              refine ⟨h', t', hex.trans hbal, hskel, hlist.trans ?_, fun f => ?_⟩
              · simp only [plug]
                refine plug_toList_congr k ?_
                cases sideP <;> cases sideG <;> simp [Frame.fill, Tree.toList]
              · rw [← hroot f]
                simp only [plug]
                rw [@plug_ptr_congr T k (Frame.fill _ (Frame.fill _ _))
                  (Frame.fill ⟨sideG, g, true, vg, .node ul u false vu ur⟩
                    (Frame.fill ⟨sideP, p, false, vp, sib⟩ (.node l a c v r)))
                  (by rw [fill_ptr, fill_ptr])]
          · exact balance_spec_rotate fuel hrep hctx hnd hP hG (by simpa using hU)
      · exact balance_spec_black (fuel + 2) ht hrep hctx (by simpa using hP)

end BalanceSpecMain

section Descent

variable {T : Type}

theorem snapshot_ptr {h : Heap T} :
    ∀ (n : Nat) (p : Ptr) (s : Tree T), snapshot n h p = .ok s → s.ptr = p := by
  intro n p s hs
  cases p with
  | none =>
    rw [snapshot_none] at hs
    cases hs
    rfl
  | some a =>
    cases n with
    | zero => exact absurd hs (snapshot_zero_some h a s)
    | succ n =>
      obtain ⟨nd, l, r, -, -, -, rfl⟩ := snapshot_succ_ok.mp hs
      rfl

theorem snapshot_rep {h : Heap T} :
    ∀ (n : Nat) (p par : Ptr) (s : Tree T), snapshot n h p = .ok s →
      s.parentsOk h par = true → s.Rep h par := by
  intro n
  induction n with
  | zero =>
    intro p par s hs _
    cases p with
    | none =>
      rw [snapshot_none] at hs
      cases hs
      trivial
    | some a => exact absurd hs (snapshot_zero_some h a s)
  | succ n ih =>
    intro p par s hs hp
    cases p with
    | none =>
      rw [snapshot_none] at hs
      cases hs
      trivial
    | some a =>
      obtain ⟨nd, l, r, hnd, hl, hr, rfl⟩ := snapshot_succ_ok.mp hs
      simp only [Tree.parentsOk, Bool.and_eq_true, decide_eq_true_eq, Heap.parent, hnd,
        Option.map_some', Option.some.injEq] at hp
      obtain ⟨⟨hpar, hpl⟩, hpr⟩ := hp
      refine ⟨?_, ih _ _ _ hl hpl, ih _ _ _ hr hpr⟩
      rw [hnd, snapshot_ptr _ _ _ hl, snapshot_ptr _ _ _ hr, ← hpar]

theorem snapshot_skel {h : Heap T} :
    ∀ (n : Nat) (p : Ptr) (s : Tree T), snapshot n h p = .ok s → s.Skel h := by
  intro n
  induction n with
  | zero =>
    intro p s hs
    cases p with
    | none =>
      rw [snapshot_none] at hs
      cases hs
      trivial
    | some a => exact absurd hs (snapshot_zero_some h a s)
  | succ n ih =>
    intro p s hs
    cases p with
    | none =>
      rw [snapshot_none] at hs
      cases hs
      trivial
    | some a =>
      obtain ⟨nd, l, r, hnd, hl, hr, rfl⟩ := snapshot_succ_ok.mp hs
      refine ⟨?_, ih _ _ hl, ih _ _ hr⟩
      simp only [Heap.kids, hnd, Option.map_some', snapshot_ptr _ _ _ hl,
        snapshot_ptr _ _ _ hr]

theorem snapshot_height {h : Heap T} :
    ∀ (n : Nat) (p : Ptr) (s : Tree T), snapshot n h p = .ok s → s.height ≤ n := by
  intro n
  induction n with
  | zero =>
    intro p s hs
    cases p with
    | none =>
      rw [snapshot_none] at hs
      cases hs
      exact Nat.le_refl _
    | some a => exact absurd hs (snapshot_zero_some h a s)
  | succ n ih =>
    intro p s hs
    cases p with
    | none =>
      rw [snapshot_none] at hs
      cases hs
      exact Nat.zero_le _
    | some a =>
      obtain ⟨nd, l, r, hnd, hl, hr, rfl⟩ := snapshot_succ_ok.mp hs
      have h1 := ih _ _ hl
      have h2 := ih _ _ hr
      simp only [Tree.height]
      omega

/-- A tree that the heap holds by elements and child links is what `snapshot` reads, up
to the colours. -/
theorem Tree.Skel.snapshot {h : Heap T} :
    ∀ (t : Tree T) (m : Nat), t.Skel h → t.height ≤ m →
      ∃ t', snapshot m h t.ptr = .ok t' ∧ t'.toList = t.toList ∧ t'.addrs = t.addrs
  | .nil, m, _, _ => ⟨.nil, snapshot_none m h, rfl, rfl⟩
  | .node l a c v r, m, ⟨hc, hl, hr⟩, hm => by
    obtain ⟨m, rfl⟩ : ∃ m', m = m' + 1 := ⟨m - 1, by simp only [Tree.height] at hm; omega⟩
    simp only [Tree.height] at hm
    obtain ⟨l', hl1, hl2, hl3⟩ := Tree.Skel.snapshot l m hl (by omega)
    obtain ⟨r', hr1, hr2, hr3⟩ := Tree.Skel.snapshot r m hr (by omega)
    simp only [Heap.kids, Option.map_eq_some', Prod.mk.injEq] at hc
    obtain ⟨nd, hnd, hd, hpl, hpr⟩ := hc
    refine ⟨.node l' a nd.isRed nd.data r', ?_, ?_, ?_⟩
    · refine snapshot_succ_ok.mpr ⟨nd, l', r', hnd, ?_, ?_, rfl⟩
      · rw [hpl]; exact hl1
      · rw [hpr]; exact hr1
    · simp only [Tree.toList, hl2, hr2, hd]
    · simp only [Tree.addrs, hl3, hr3]

theorem rep_lt {h : Heap T} :
    ∀ {t : Tree T} {par : Ptr}, t.Rep h par → ∀ b ∈ t.addrs, b < h.length
  | .nil, _, _, b, hb => by simp [Tree.addrs] at hb
  | .node l a c v r, par, ⟨hc, hl, hr⟩, b, hb => by
    simp only [Tree.addrs, List.mem_append, List.mem_cons] at hb
    rcases hb with hb | rfl | hb
    · exact rep_lt hl b hb
    · exact cell_lt_length hc
    · exact rep_lt hr b hb

theorem repCtx_lt {h : Heap T} :
    ∀ {k : List (Frame T)} {child : Ptr}, RepCtx h child k → ∀ b ∈ ctxAddrs k, b < h.length
  | [], _, _, b, hb => by simp [ctxAddrs] at hb
  | f :: k, child, ⟨hc, ho, hk⟩, b, hb => by
    simp only [ctxAddrs, List.cons_append, List.mem_cons, List.mem_append] at hb
    rcases hb with rfl | hb | hb
    · exact cell_lt_length hc
    · exact rep_lt ho b hb
    · exact repCtx_lt hk b hb

variable [LinearOrder T]

theorem ins_nil (v : T) : ∀ (t : Tree T), t.ins v .nil = t
  | .nil => rfl
  | .node l a c x r => by
    simp only [Tree.ins, ins_nil v l, ins_nil v r, ite_self]

theorem plug_descent (v : T) (new : Tree T) :
    ∀ (t : Tree T) (k : List (Frame T)), plug new (descentCtx v t k) = plug (t.ins v new) k
  | .nil, k => rfl
  | .node l a c x r, k => by
    simp only [descentCtx, Tree.ins]
    split
    · rw [plug_descent v new l]
      rfl
    · rw [plug_descent v new r]
      rfl

theorem plug_nil_descent (v : T) (t : Tree T) (k : List (Frame T)) :
    plug .nil (descentCtx v t k) = plug t k := by
  rw [plug_descent, ins_nil]

theorem descent_length (v : T) :
    ∀ (t : Tree T) (k : List (Frame T)), (descentCtx v t k).length ≤ t.height + k.length
  | .nil, k => by simp [descentCtx, Tree.height]
  | .node l a c x r, k => by
    simp only [descentCtx, Tree.height]
    split
    · have := descent_length v l (⟨.left, a, c, x, r⟩ :: k)
      simp only [List.length_cons] at this
      omega
    · have := descent_length v r (⟨.right, a, c, x, l⟩ :: k)
      simp only [List.length_cons] at this
      omega

theorem descent_addrs_perm (v : T) (t : Tree T) (k : List (Frame T)) :
    (ctxAddrs (descentCtx v t k)).Perm (t.addrs ++ ctxAddrs k) := by
  have h1 := plug_addrs_perm (descentCtx v t k) (.nil : Tree T)
  rw [plug_nil_descent] at h1
  simp only [Tree.addrs, List.nil_append] at h1
  exact h1.symm.trans (plug_addrs_perm k t)

theorem descent_repCtx {h : Heap T} (v : T) :
    ∀ (t : Tree T) (k : List (Frame T)), t.Rep h (ctxPtr k) → RepCtx h t.ptr k →
      RepCtx h none (descentCtx v t k)
  | .nil, k, _, hk => hk
  | .node l a c x r, k, ⟨hc, hl, hr⟩, hk => by
    simp only [descentCtx]
    split
    · exact descent_repCtx v l _ hl ⟨hc, hr, hk⟩
    · exact descent_repCtx v r _ hr ⟨hc, hl, hk⟩

theorem descent_ctxInv (v : T) :
    ∀ (t : Tree T) (k : List (Frame T)), CtxInv k → t.redRed = false →
      (k = [] → t.isRed = false) → (∀ f ∈ k.head?, t.isRed = true → f.red = false) →
      CtxInv (descentCtx v t k)
  | .nil, k, hk, _, _, _ => hk
  | .node l a c x r, k, hk, hrr, htop, hhead => by
    simp only [Tree.redRed, Bool.or_eq_false_iff, Bool.and_eq_false_imp] at hrr
    obtain ⟨⟨hc, hlr⟩, hrrr⟩ := hrr
    have htop : k = [] → c = false := htop
    have hhead : ∀ f ∈ k.head?, c = true → f.red = false := hhead
    have hinv : ∀ (s : Side) (o : Tree T), CtxInv (⟨s, a, c, x, o⟩ :: k) := by
      intro s o
      cases k with
      | nil => exact htop rfl
      | cons g k => exact ⟨fun hcr => hhead g (by simp) hcr, hk⟩
    simp only [descentCtx]
    split
    · refine descent_ctxInv v l _ (hinv _ _) hlr (by simp) ?_
      intro f hf hred
      simp only [List.head?_cons, Option.mem_def, Option.some.injEq] at hf
      subst hf
      cases c with
      | false => rfl
      | true =>
        have := hc rfl
        simp [hred] at this
    · refine descent_ctxInv v r _ (hinv _ _) hrrr (by simp) ?_
      intro f hf hred
      simp only [List.head?_cons, Option.mem_def, Option.some.injEq] at hf
      subst hf
      cases c with
      | false => rfl
      | true =>
        have := hc rfl
        simp [hred] at this

theorem ctxInv_descent_root (v : T) (s : Tree T) (hblack : s.isRed = false)
    (hrr : s.redRed = false) : CtxInv (descentCtx v s []) :=
  descent_ctxInv v s [] trivial hrr (fun _ => hblack) (by simp)

/-- The descent of `insert` through a tree in which it meets no equal element (or does not
look for one) ends at the absent child whose ancestors are `descentCtx`. -/
theorem descend_slot {h : Heap T} (v : T) (ku : Bool) :
    ∀ (t : Tree T) (k : List (Frame T)) (fuel : Nat) (pp : Ptr) (pl : Bool),
      t.Skel h → t.height ≤ fuel → (ku = true → v ∉ t.toList) →
      (t = .nil → pp = ctxPtr k ∧ pl = ctxLeft k) →
      BST.insertDescend fuel h v ku pp t.ptr pl =
        .ok (.slot (ctxPtr (descentCtx v t k)) (ctxLeft (descentCtx v t k)))
  | .nil, k, fuel, pp, pl, _, _, _, hpp => by
    obtain ⟨rfl, rfl⟩ := hpp rfl
    cases fuel <;> rfl
  | .node l a c x r, k, fuel, pp, pl, ⟨hc, hl, hr⟩, hf, hku, _ => by
    simp only [Tree.height] at hf
    obtain ⟨fuel, rfl⟩ : ∃ m', fuel = m' + 1 := ⟨fuel - 1, by omega⟩
    simp only [Heap.kids, Option.map_eq_some', Prod.mk.injEq] at hc
    obtain ⟨nd, hnd, hd, hpl, hpr⟩ := hc
    have hne : (ku && decide (v = x)) = false := by
      cases ku with
      | false => rfl
      | true =>
        have : v ≠ x := fun e => hku rfl (by simp [Tree.toList, e])
        simp [this]
    change BST.insertDescend (fuel + 1) h v ku pp (some a) pl = _
    simp only [BST.insertDescend, load_some hnd, bind_ok, hd, hne, Bool.false_eq_true,
      ↓reduceIte, hpl, hpr, descentCtx]
    by_cases hlt : v < x
    · simp only [hlt, ↓reduceIte]
      refine descend_slot v ku l _ fuel _ _ hl (by omega) ?_ ?_
      · intro hk hm
        exact hku hk (by simp [Tree.toList, hm])
      · intro _
        exact ⟨rfl, rfl⟩
    · simp only [hlt, ↓reduceIte]
      refine descend_slot v ku r _ fuel _ _ hr (by omega) ?_ ?_
      · intro hk hm
        exact hku hk (by simp [Tree.toList, hm])
      · intro _
        exact ⟨rfl, rfl⟩

/-- The descent of `insert` with `keepUnique` through a tree with a non-decreasing
in-order sequence that holds `v` stops at a node with that value. -/
theorem descend_dup {h : Heap T} (v : T) :
    ∀ (t : Tree T) (fuel : Nat) (pp : Ptr) (pl : Bool),
      t.Skel h → t.height ≤ fuel → t.toList.Sorted (· ≤ ·) → v ∈ t.toList →
      ∃ a nd, BST.insertDescend fuel h v true pp t.ptr pl = .ok (.dup a) ∧ a ∈ t.addrs ∧
        h.cell a = some nd ∧ nd.data = v
  | .nil, _, _, _, _, _, _, hm => by simp [Tree.toList] at hm
  | .node l a c x r, fuel, pp, pl, ⟨hc, hl, hr⟩, hf, hsort, hm => by
    simp only [Tree.height] at hf
    obtain ⟨fuel, rfl⟩ : ∃ m', fuel = m' + 1 := ⟨fuel - 1, by omega⟩
    simp only [Heap.kids, Option.map_eq_some', Prod.mk.injEq] at hc
    obtain ⟨nd, hnd, hd, hpl, hpr⟩ := hc
    simp only [Tree.toList, List.Sorted, List.pairwise_append, List.pairwise_cons,
      List.mem_cons, forall_eq_or_imp] at hsort
    obtain ⟨hsl, ⟨hdr, hsr⟩, hld⟩ := hsort
    simp only [Tree.toList, List.mem_append, List.mem_cons] at hm
    change ∃ a' nd', BST.insertDescend (fuel + 1) h v true pp (some a) pl = _ ∧ _
    simp only [BST.insertDescend, load_some hnd, bind_ok, hd, hpl, hpr,
      Bool.true_and, decide_eq_true_eq]
    by_cases hv : v = x
    · exact ⟨a, nd, by simp [hv], by simp [Tree.addrs], hnd, by rw [hd, hv]⟩
    · by_cases hlt : v < x
      · have hvl : v ∈ l.toList := by
          rcases hm with hm | hm | hm
          · exact hm
          · exact absurd hm hv
          · exact absurd (hdr v hm) (not_le.mpr hlt)
        obtain ⟨b, nb, hb1, hb2, hb3, hb4⟩ :=
          descend_dup v l fuel (some a) true hl (by omega) hsl hvl
        exact ⟨b, nb, by simp [hv, hlt, hb1], by simp [Tree.addrs, hb2], hb3, hb4⟩
      · have hgt : x < v := lt_of_le_of_ne (not_lt.mp hlt) (Ne.symm hv)
        have hvr : v ∈ r.toList := by
          rcases hm with hm | hm | hm
          · exact absurd ((hld v hm).1) (not_le.mpr hgt)
          · exact absurd hm hv
          · exact hm
        obtain ⟨b, nb, hb1, hb2, hb3, hb4⟩ :=
          descend_dup v r fuel (some a) false hr (by omega) hsr hvr
        exact ⟨b, nb, by simp [hv, hlt, hb1], by simp [Tree.addrs, hb2], hb3, hb4⟩

theorem filter_le_of_all {v : T} {xs : List T} (hx : ∀ y ∈ xs, y ≤ v) :
    xs.filter (fun y => decide (y ≤ v)) = xs ∧ xs.filter (fun y => decide (v < y)) = [] := by
  refine ⟨List.filter_eq_self.mpr (fun y hy => by simpa using hx y hy), ?_⟩
  refine List.filter_eq_nil_iff.mpr (fun y hy => ?_)
  simpa using hx y hy

theorem filter_lt_of_all {v : T} {xs : List T} (hx : ∀ y ∈ xs, v < y) :
    xs.filter (fun y => decide (y ≤ v)) = [] ∧ xs.filter (fun y => decide (v < y)) = xs := by
  refine ⟨?_, List.filter_eq_self.mpr (fun y hy => by simpa using hx y hy)⟩
  refine List.filter_eq_nil_iff.mpr (fun y hy => ?_)
  simpa using hx y hy

/-- The in-order sequence with the new node at the descent position is the former one
with `v` after all elements that are not greater. -/
theorem ins_toList (v : T) (new : Tree T) (hnew : new.toList = [v]) :
    ∀ (t : Tree T), t.toList.Sorted (· ≤ ·) →
      (t.ins v new).toList = insertSorted v t.toList
  | .nil, _ => by simp [Tree.ins, hnew, insertSorted, Tree.toList]
  | .node l a c x r, hsort => by
    simp only [Tree.toList, List.Sorted, List.pairwise_append, List.pairwise_cons,
      List.mem_cons, forall_eq_or_imp] at hsort
    obtain ⟨hsl, ⟨hdr, hsr⟩, hld⟩ := hsort
    simp only [Tree.ins]
    split
    · rename_i hlt
      have hall : ∀ y ∈ x :: r.toList, v < y := by
        intro y hy
        simp only [List.mem_cons] at hy
        rcases hy with rfl | hy
        · exact hlt
        · exact lt_of_lt_of_le hlt (hdr y hy)
      obtain ⟨e1, e2⟩ := filter_lt_of_all hall
      simp only [Tree.toList, ins_toList v new hnew l hsl, insertSorted, List.filter_append,
        e1, e2, List.append_nil, List.append_assoc, List.cons_append]
    · rename_i hlt
      have hxv : x ≤ v := not_lt.mp hlt
      have hall : ∀ y ∈ l.toList, y ≤ v := fun y hy => le_trans (hld y hy).1 hxv
      obtain ⟨e1, e2⟩ := filter_le_of_all hall
      simp only [Tree.toList, ins_toList v new hnew r hsr, insertSorted, List.filter_append,
        e1, e2, List.nil_append, List.append_assoc, List.cons_append, List.filter_cons,
        decide_eq_true_eq, hxv, hlt, ↓reduceIte]

theorem insertSorted_sorted (v : T) (xs : List T) (hs : xs.Sorted (· ≤ ·)) :
    (insertSorted v xs).Sorted (· ≤ ·) := by
  simp only [insertSorted, List.Sorted, List.pairwise_append, List.pairwise_cons,
    List.mem_cons, forall_eq_or_imp, List.mem_filter, decide_eq_true_eq]
  refine ⟨hs.filter _, ⟨fun y hy => le_of_lt hy.2, hs.filter _⟩, fun y hy => ⟨hy.2, ?_⟩⟩
  intro z hz
  exact le_trans hy.2 (le_of_lt hz.2)

end Descent

section InsertSpec

variable {T : Type}

/-- The statements of `insert` that link the new node, at a position of a well-formed
tree where a child is absent: afterwards the heap holds the new red node there, with all
members, below the same ancestors. -/
theorem place_spec {h : Heap T} (v : T) (root : Ptr) :
    ∀ (k : List (Frame T)), RepCtx h none k → (ctxAddrs k).Nodup →
      root = (plug .nil k).ptr →
      ∃ h2, BST.placeNew (newNode h v).2 root (some h.length) (ctxPtr k) (ctxLeft k) =
          .ok (h2, (plug (.node .nil h.length true v .nil) k).ptr) ∧
        (Tree.node .nil h.length true v .nil).Rep h2 (ctxPtr k) ∧
        RepCtx h2 (some h.length) k := by
  intro k hctx hnd hroot
  have hlt := repCtx_lt hctx
  cases k with
  | nil =>
    refine ⟨(newNode h v).2, rfl, ⟨?_, trivial, trivial⟩, trivial⟩
    rw [cell_newNode]
    simp only [↓reduceIte, Tree.ptr, ctxPtr]
  | cons f k =>
    obtain ⟨side, p, c, x, o⟩ := f
    obtain ⟨hc, ho, hk⟩ := hctx
    have hpl : p < h.length := hlt p (by simp [ctxAddrs])
    have hpa : p ≠ h.length := by omega
    have hap : h.length ≠ p := by omega
    have hnew := cell_newNode h v h.length
    have hcp := cell_newNode h v p
    simp only [↓reduceIte, hpa] at hnew hcp
    have hlen : (newNode h v).2.length = h.length + 1 := by simp [newNode]
    have hroot2 : (plug (.node .nil h.length true v .nil) (⟨side, p, c, x, o⟩ :: k)).ptr
        = root := by
      rw [hroot]
      simp only [plug]
      exact plug_ptr_congr k (by rw [fill_ptr, fill_ptr])
    rw [hroot2]
    simp only [ctxAddrs, List.cons_append, List.nodup_cons, List.mem_append, not_or] at hnd
    obtain ⟨⟨hpo, hpk⟩, hndr⟩ := hnd
    have hsame : ∀ (n1 n2 : BNode T) (b : Nat), b ∈ o.addrs ∨ b ∈ ctxAddrs k →
        (((newNode h v).2.store h.length n1).store p n2).cell b = h.cell b := by
      intro n1 n2 b hb
      have hbl : b < h.length := hlt b (by
        simp only [ctxAddrs, List.cons_append, List.mem_cons, List.mem_append]
        exact Or.inr hb)
      have hbp : p ≠ b := by
        rintro rfl
        rcases hb with hb | hb
        · exact hpo hb
        · exact hpk hb
      have hba : h.length ≠ b := by omega
      have hba2 : b ≠ h.length := by omega
      simp only [cell_store, hbp, hba, ↓reduceIte, cell_newNode, hba2]
    cases side with
    | left =>
      simp only at hc
      rw [hc] at hcp
      refine ⟨((newNode h v).2.store h.length ⟨v, none, none, some p, true⟩).store p
        ⟨x, some h.length, o.ptr, ctxPtr k, c⟩, ?_, ⟨?_, trivial, trivial⟩, ?_, ?_, ?_⟩
      · simp only [BST.placeNew, ctxPtr, ctxLeft, ne_eq, reduceCtorEq, not_false_eq_true,
          ↓reduceIte, decide_True, setParent, setLeft, modify, hnew, bind_ok, cell_store, hap,
          hcp, pure_eq_ok]
      · simp only [cell_store, hpa, ↓reduceIte, hlen, Nat.lt_succ_self, Tree.ptr, ctxPtr]
      · simp only [cell_store, length_store, hlen, ↓reduceIte]
        simp only [Nat.lt_succ_of_lt hpl, ↓reduceIte]
      · exact ho.repFrame (fun b hb => hsame _ _ b (Or.inl hb))
      · exact hk.repCtxFrame (fun b hb => hsame _ _ b (Or.inr hb))
    | right =>
      simp only at hc
      rw [hc] at hcp
      refine ⟨((newNode h v).2.store h.length ⟨v, none, none, some p, true⟩).store p
        ⟨x, o.ptr, some h.length, ctxPtr k, c⟩, ?_, ⟨?_, trivial, trivial⟩, ?_, ?_, ?_⟩
      · simp only [BST.placeNew, ctxPtr, ctxLeft, ne_eq, reduceCtorEq, not_false_eq_true,
          ↓reduceIte, decide_False, setParent, setRight, modify, hnew, bind_ok, cell_store,
          hap, hcp, pure_eq_ok, Bool.false_eq_true]
      · simp only [cell_store, hpa, ↓reduceIte, hlen, Nat.lt_succ_self, Tree.ptr, ctxPtr]
      · simp only [cell_store, length_store, hlen, ↓reduceIte]
        simp only [Nat.lt_succ_of_lt hpl, ↓reduceIte]
      · exact ho.repFrame (fun b hb => hsame _ _ b (Or.inl hb))
      · exact hk.repCtxFrame (fun b hb => hsame _ _ b (Or.inr hb))

variable [LinearOrder T]

/-- `insert` on a well-formed tree, when the descent meets no duplicate: the call returns
an iterator to the new node and the flag `true`, the count goes up by one, and the heap
holds below the new root (by elements and child links) a tree whose in-order sequence is
that of the old tree with the new node at the descent position. -/
theorem insert_spec {h : Heap T} {tree : BST} {s : Tree T} (n : Nat) (v : T) (ku : Bool)
    (fuel : Nat) (hs : snapshot n h tree.root = .ok s) (hnd : s.addrs.Nodup)
    (hpar : s.parentsOk h none = true) (hblack : s.isRed = false)
    (hrr : s.redRed = false) (hku : ku = true → v ∉ s.toList) (hfuel : s.height + 3 ≤ fuel) :
    ∃ (h' : Heap T) (t' : Tree T),
      BST.insert fuel h tree v ku =
        .ok (h', ⟨t'.ptr, (tree.numElements + 1) % sizeMod⟩, some h.length, true) ∧
      t'.Skel h' ∧ t'.toList = (s.ins v (.node .nil h.length true v .nil)).toList := by
  have hp := snapshot_ptr _ _ _ hs
  have hrep := snapshot_rep n _ none s hs hpar
  have hdesc := descend_slot v ku s [] fuel tree.root true hrep.skel (by omega) hku
    (by
      intro hnil
      subst hnil
      exact ⟨hp.symm, rfl⟩)
  rw [hp] at hdesc
  have hctx0 : RepCtx h none (descentCtx v s []) := descent_repCtx v s [] hrep trivial
  have hperm := descent_addrs_perm v s []
  simp only [ctxAddrs, List.append_nil] at hperm
  have hndk : (ctxAddrs (descentCtx v s [])).Nodup := (List.Perm.nodup_iff hperm).mpr hnd
  obtain ⟨h2, hplace, hrepnew, hctx2⟩ := place_spec v tree.root _ hctx0 hndk
    (by rw [plug_nil_descent]; exact hp.symm)
  have hfresh : h.length ∉ ctxAddrs (descentCtx v s []) := fun hm =>
    Nat.lt_irrefl _ (repCtx_lt hctx0 _ hm)
  have hlen := descent_length v s []
  simp only [List.length_nil, Nat.add_zero] at hlen
  obtain ⟨h', t', hbal, hskel, hlist, hroot⟩ :=
    balance_spec (descentCtx v s []).length _ (Nat.le_refl _) h2
      (.node .nil h.length true v .nil) h.length fuel rfl hrepnew hctx2
      (by simpa [Tree.addrs] using ⟨hfresh, hndk⟩)
      (ctxInv_descent_root v s hblack hrr) (by omega)
  obtain ⟨f, rfl⟩ : ∃ f, fuel = f + 2 := ⟨fuel - 2, by omega⟩
  refine ⟨h', t', ?_, hskel, ?_⟩
  · generalize hh1 : (newNode h v).2 = h1 at hplace
    have e : newNode h v = (h.length, h1) := by
      rw [← hh1]
      rfl
    simp only [BST.insert, hdesc, bind_ok, e, hplace, hbal, hroot f, pure_eq_ok]
  · rw [hlist, plug_descent]
    rfl

end InsertSpec

section InsertClaims

variable {T : Type}

theorem height_le_size : ∀ (t : Tree T), t.height ≤ t.size
  | .nil => Nat.le_refl _
  | .node l _ _ _ r => by
    have h1 := height_le_size l
    have h2 := height_le_size r
    simp only [Tree.height, Tree.size]
    omega

theorem size_eq_length : ∀ (t : Tree T), t.size = t.toList.length
  | .nil => rfl
  | .node l _ _ _ r => by
    simp only [Tree.size, Tree.toList, List.length_append, List.length_cons,
      size_eq_length l, size_eq_length r]
    omega

variable [LinearOrder T]

theorem insertSorted_perm (v : T) (xs : List T) : (insertSorted v xs).Perm (v :: xs) := by
  have e : (fun y => decide (v < y)) = (fun y => !decide (y ≤ v)) := by
    funext y
    simp only [← not_le, decide_not]
  simp only [insertSorted, e]
  exact List.perm_middle.trans ((List.filter_append_perm _ xs).cons v)

/-- `insert` with `keepUnique` for a value that the tree holds: the early return, with an
iterator to a node with that value and nothing changed. -/
theorem insert_dup {h : Heap T} {tree : BST} {t : Tree T} (v : T) (fuel : Nat)
    (hskel : t.Skel h) (hp : t.ptr = tree.root) (hsorted : t.toList.Sorted (· ≤ ·))
    (hv : v ∈ t.toList) (hfuel : t.height ≤ fuel) :
    ∃ a nd, BST.insert fuel h tree v true = .ok (h, tree, some a, false) ∧ a ∈ t.addrs ∧
      h.cell a = some nd ∧ nd.data = v := by
  obtain ⟨a, nd, hd, ha, hc, hdv⟩ := descend_dup v t fuel tree.root true hskel hfuel hsorted hv
  rw [hp] at hd
  exact ⟨a, nd, by simp only [BST.insert, hd, bind_ok, pure_eq_ok], ha, hc, hdv⟩

/-- C6: for a well-formed tree — the nodes below `root`, read by child links, form the
tree `s` in which no node occurs twice, every parent link is the parent in `s` (none for
the root), the root is black, no red node has a red child, and the in-order sequence is
non-decreasing — and every value `v`, the call `insert(v, false)` returns (with a budget
of at least the height plus three), and afterwards the in-order sequence of the nodes
reachable from the new root by child links is the former sequence with one `v` added
after every former element that is not greater than `v`; it is again non-decreasing. -/
theorem C6_insert_adds_value_in_order (n : Nat) (h : Heap T) (tree : BST) (s : Tree T)
    (v : T) (fuel : Nat) (hs : snapshot n h tree.root = .ok s) (hnodup : s.addrs.Nodup)
    (hpar : s.parentsOk h none = true) (hblack : s.isRed = false)
    (hrr : s.redRed = false) (hsorted : s.toList.Sorted (· ≤ ·))
    (hfuel : s.height + 3 ≤ fuel) :
    ∃ (h' : Heap T) (tree' : BST) (it : Ptr) (s' : Tree T),
      BST.insert fuel h tree v false = .ok (h', tree', it, true) ∧
      snapshot (s.size + 1) h' tree'.root = .ok s' ∧
      s'.toList = insertSorted v s.toList ∧ s'.toList.Sorted (· ≤ ·) := by
  obtain ⟨h', t', hins, hskel, hlist⟩ :=
    insert_spec n v false fuel hs hnodup hpar hblack hrr (fun e => by cases e) hfuel
  rw [ins_toList v (.node .nil h.length true v .nil) rfl s hsorted] at hlist
  have hheight : t'.height ≤ s.size + 1 := by
    have h1 := height_le_size t'
    have h2 := (insertSorted_perm v s.toList).length_eq
    rw [size_eq_length t', hlist, h2, List.length_cons, ← size_eq_length s] at h1
    exact h1
  obtain ⟨s', hs1, hs2, -⟩ := Tree.Skel.snapshot t' (s.size + 1) hskel hheight
  refine ⟨h', _, _, s', hins, hs1, hs2.trans hlist, ?_⟩
  rw [hs2, hlist]
  exact insertSorted_sorted v _ hsorted

/-- C8: for a well-formed tree (as in C6) with a non-decreasing in-order sequence and
every value `v`, the call `insert(v, true)` returns; its flag is false exactly when `v`
is in the tree, and then the iterator refers to a node of the tree with the value `v`
and heap and tree (root and count) are as before.  After the call the tree holds `v`
once if it did not hold it before, and a second call `insert(v, true)` returns the flag
false and changes nothing. -/
theorem C8_insert_unique_reports_duplicate (n : Nat) (h : Heap T) (tree : BST)
    (s : Tree T) (v : T) (fuel : Nat) (hs : snapshot n h tree.root = .ok s)
    (hnodup : s.addrs.Nodup) (hpar : s.parentsOk h none = true) (hblack : s.isRed = false)
    (hrr : s.redRed = false) (hsorted : s.toList.Sorted (· ≤ ·))
    (hfuel : s.height + 3 ≤ fuel) :
    ∃ (h' : Heap T) (tree' : BST) (it : Ptr) (flag : Bool) (s' : Tree T),
      BST.insert fuel h tree v true = .ok (h', tree', it, flag) ∧
      (flag = false ↔ v ∈ s.toList) ∧
      (flag = false → h' = h ∧ tree' = tree ∧
        ∃ a nd, it = some a ∧ a ∈ s.addrs ∧ h.cell a = some nd ∧ nd.data = v) ∧
      snapshot (s.size + 1) h' tree'.root = .ok s' ∧
      (v ∉ s.toList → s'.toList.count v = 1) ∧
      ∃ it2, BST.insert (s.size + 1) h' tree' v true = .ok (h', tree', it2, false) := by
  have hp := snapshot_ptr _ _ _ hs
  have hsk := snapshot_skel _ _ _ hs
  have hhs := height_le_size s
  by_cases hv : v ∈ s.toList
  · obtain ⟨a, nd, hins, ha, hc, hd⟩ := insert_dup v fuel hsk hp hsorted hv (by omega)
    obtain ⟨a2, nd2, hins2, -, -, -⟩ :=
      insert_dup v (s.size + 1) hsk hp hsorted hv (by omega)
    obtain ⟨s', hs1, -, -⟩ := Tree.Skel.snapshot s (s.size + 1) hsk (by omega)
    rw [hp] at hs1
    exact ⟨h, tree, some a, false, s', hins, by simp [hv],
      fun _ => ⟨rfl, rfl, a, nd, rfl, ha, hc, hd⟩, hs1, fun hn => absurd hv hn,
      some a2, hins2⟩
  · obtain ⟨h', t', hins, hskel, hlist⟩ :=
      insert_spec n v true fuel hs hnodup hpar hblack hrr (fun _ => hv) hfuel
    rw [ins_toList v (.node .nil h.length true v .nil) rfl s hsorted] at hlist
    have hperm := insertSorted_perm v s.toList
    have hheight : t'.height ≤ s.size + 1 := by
      have h1 := height_le_size t'
      rw [size_eq_length t', hlist, hperm.length_eq, List.length_cons,
        ← size_eq_length s] at h1
      exact h1
    obtain ⟨s', hs1, hs2, -⟩ := Tree.Skel.snapshot t' (s.size + 1) hskel hheight
    have hsorted' : t'.toList.Sorted (· ≤ ·) := by
      rw [hlist]
      exact insertSorted_sorted v _ hsorted
    have hv' : v ∈ t'.toList := by
      rw [hlist]
      exact hperm.mem_iff.mpr (List.mem_cons_self v _)
    obtain ⟨a2, nd2, hins2, -, -, -⟩ :=
      @insert_dup T _ h' ⟨t'.ptr, (tree.numElements + 1) % sizeMod⟩ t' v (s.size + 1) hskel
        rfl hsorted' hv' hheight
    refine ⟨h', _, _, true, s', hins, by simp [hv], (fun e => by cases e), hs1, fun _ => ?_,
      some a2, hins2⟩
    rw [hs2, hlist, hperm.count_eq, List.count_cons_self, List.count_eq_zero_of_not_mem hv]

end InsertClaims

section InsertWitnesses

theorem C6_insert_adds_value_in_order_witness :
    snapshot 4 heapC2 (⟨some 1, 6⟩ : BST).root = .ok treeC2 ∧ treeC2.addrs.Nodup ∧
      treeC2.parentsOk heapC2 none = true ∧ treeC2.isRed = false ∧
      treeC2.redRed = false ∧ treeC2.toList.Sorted (· ≤ ·) ∧ treeC2.height + 3 ≤ 7 ∧
      ∃ (h' : Heap Nat) (tree' : BST) (it : Ptr) (s' : Tree Nat),
        BST.insert 7 heapC2 ⟨some 1, 6⟩ 3 false = .ok (h', tree', it, true) ∧
        snapshot (treeC2.size + 1) h' tree'.root = .ok s' ∧
        s'.toList = insertSorted 3 treeC2.toList ∧ s'.toList.Sorted (· ≤ ·) :=
  ⟨rfl, by decide, rfl, rfl, rfl, by decide, by decide,
    C6_insert_adds_value_in_order 4 heapC2 ⟨some 1, 6⟩ treeC2 3 7 rfl (by decide) rfl rfl
      rfl (by decide) (by decide)⟩

theorem C8_insert_unique_reports_duplicate_witness :
    snapshot 4 heapC2 (⟨some 1, 6⟩ : BST).root = .ok treeC2 ∧ treeC2.addrs.Nodup ∧
      treeC2.parentsOk heapC2 none = true ∧ treeC2.isRed = false ∧
      treeC2.redRed = false ∧ treeC2.toList.Sorted (· ≤ ·) ∧ treeC2.height + 3 ≤ 7 ∧
      ∃ (h' : Heap Nat) (tree' : BST) (it : Ptr) (flag : Bool) (s' : Tree Nat),
        BST.insert 7 heapC2 ⟨some 1, 6⟩ 5 true = .ok (h', tree', it, flag) ∧
        (flag = false ↔ 5 ∈ treeC2.toList) ∧
        (flag = false → h' = heapC2 ∧ tree' = ⟨some 1, 6⟩ ∧
          ∃ a nd, it = some a ∧ a ∈ treeC2.addrs ∧ heapC2.cell a = some nd ∧ nd.data = 5) ∧
        snapshot (treeC2.size + 1) h' tree'.root = .ok s' ∧
        (5 ∉ treeC2.toList → s'.toList.count 5 = 1) ∧
        ∃ it2, BST.insert (treeC2.size + 1) h' tree' 5 true = .ok (h', tree', it2, false) :=
  ⟨rfl, by decide, rfl, rfl, rfl, by decide, by decide,
    C8_insert_unique_reports_duplicate 4 heapC2 ⟨some 1, 6⟩ treeC2 5 7 rfl (by decide) rfl
      rfl rfl (by decide) (by decide)⟩

end InsertWitnesses

section EraseDivergences

variable {T : Type}

/-- C11 (the code leaves the claim): the tree built from 5, 3, 8, 1, 4, 7, 9, 6 is
well-formed (parent links consistent, count 8 for 8 nodes, in-order sequence 1, 3, 4, 5,
6, 7, 8, 9).  `erase` at the node holding 5 returns, but afterwards the nodes reachable
from the root hold 1, 3, 4, 6, 8, 9: the node holding 7 is still in the free store and
is no longer reachable, while `size()` is 7. -/
theorem C11_erase_unlinks_second_node :
    BST.insertAll 50 false [5, 3, 8, 1, 4, 7, 9, 6] (([] : Heap Nat), BST.empty)
        = .ok (heapC11, ⟨some 0, 8⟩) ∧
      snapshot 4 heapC11 (some 0) = .ok treeC11 ∧
      treeC11.parentsOk heapC11 none = true ∧ treeC11.size = 8 ∧
      treeC11.toList = [1, 3, 4, 5, 6, 7, 8, 9] ∧
      BST.find 50 heapC11 ⟨some 0, 8⟩ 5 = .ok (some 0) ∧
      BST.erase 50 heapC11 ⟨some 0, 8⟩ (some 0) = .ok (heapC11erased, ⟨some 7, 7⟩, some 7) ∧
      snapshot 4 heapC11erased (some 7) = .ok treeC11erased ∧
      treeC11erased.toList = [1, 3, 4, 6, 8, 9] ∧
      heapC11erased.cell 5 = some ⟨7, some 7, none, some 2, false⟩ ∧
      5 ∉ treeC11erased.addrs :=
  ⟨rfl, rfl, rfl, rfl, rfl, rfl, rfl, rfl, rfl, rfl, by decide⟩

/-- C14 (the code leaves the claim): the tree built from 1, 2 is well-formed with the
in-order sequence 1, 2.  `erase` at the root (the node holding 1, which has one child)
deletes the node and leaves `root` with its address, so the nodes reachable from the
root cannot be read: the first step dereferences the deleted node. -/
theorem C14_erase_root_leaves_no_sequence :
    BST.insertAll 50 false [1, 2] (([] : Heap Nat), BST.empty)
        = .ok (heapC14, ⟨some 0, 2⟩) ∧
      snapshot 2 heapC14 (some 0) = .ok (.node .nil 0 false 1 (.node .nil 1 true 2 .nil)) ∧
      (Tree.node .nil 0 false 1 (.node .nil 1 true 2 .nil)).parentsOk heapC14 none = true ∧
      BST.erase 50 heapC14 ⟨some 0, 2⟩ (some 0)
        = .ok ([none, some ⟨2, none, none, none, true⟩], ⟨some 0, 1⟩, some 1) ∧
      ∀ n, snapshot (n + 1) ([none, some ⟨2, none, none, none, true⟩] : Heap Nat)
        (⟨some 0, 1⟩ : BST).root = .error .freedDeref := by
  refine ⟨rfl, rfl, rfl, rfl, ?_⟩
  intro n
  rfl

/-- C16 (the code leaves the claim): in the tree built from 2, 3 the root holds 2 and has
no left child; it is the first node, `begin()`.  The operator `--` at this node evaluates
`pNode->pParent->isRightChild(pNode)` with `pParent == nullptr`: a null pointer is
dereferenced, for every budget. -/
theorem C16_decrement_at_root_dereferences_null :
    BST.insertAll 50 false [2, 3] (([] : Heap Nat), BST.empty)
        = .ok (heapC16, ⟨some 0, 2⟩) ∧
      snapshot 2 heapC16 (some 0) = .ok (.node .nil 0 false 2 (.node .nil 1 true 3 .nil)) ∧
      (Tree.node .nil 0 false 2 (.node .nil 1 true 3 .nil)).parentsOk heapC16 none = true ∧
      BST.begin 50 heapC16 ⟨some 0, 2⟩ = .ok (some 0) ∧
      ∀ fuel, iterator.dec fuel heapC16 (some 0) = .error .nullDeref := by
  refine ⟨rfl, rfl, rfl, rfl, ?_⟩
  intro fuel
  rfl

end EraseDivergences

section EraseAtEnd

variable {T : Type}

/-- C13: `erase` called with the iterator `end()` returns `end()`; the heap (every node
with its links, colour and value) and the members `root` and `numElements` of the tree
are the ones before the call. -/
theorem C13_erase_end_is_noop (fuel : Nat) (h : Heap T) (tree : BST) :
    BST.erase fuel h tree BST.endIt = .ok (h, tree, BST.endIt) :=
  rfl

end EraseAtEnd

section Iterators

variable {T : Type}

theorem leftmostPtr_node (l : Tree T) (a : Nat) (c : Bool) (v : T) (r : Tree T) :
    ∃ b, (Tree.node l a c v r).leftmostPtr = some b := by
  simp only [Tree.leftmostPtr]
  cases l.leftmostPtr with
  | none => exact ⟨a, rfl⟩
  | some b => exact ⟨b, rfl⟩

theorem leftmostPtr_eq_none {t : Tree T} : t.leftmostPtr = none ↔ t = .nil := by
  cases t with
  | nil => simp [Tree.leftmostPtr]
  | node l a c v r =>
    obtain ⟨b, hb⟩ := leftmostPtr_node l a c v r
    simp [hb]

theorem ptr_eq_none {t : Tree T} : t.ptr = none ↔ t = .nil := by
  cases t <;> simp [Tree.ptr]

theorem leftmostPtr_eq_head : ∀ (t : Tree T), t.leftmostPtr = t.addrs.head?
  | .nil => rfl
  | .node l a c v r => by
    simp only [Tree.leftmostPtr, Tree.addrs, leftmostPtr_eq_head l]
    cases l.addrs with
    | nil => rfl
    | cons x xs => rfl

/-- The loop that goes left as far as it can, started at the top of a tree, ends at the
leftmost node. -/
theorem leftmost_spec {h : Heap T} (t : Tree T) :
    ∀ (fuel : Nat), t.Skel h → t ≠ .nil → t.height ≤ fuel →
      leftmost fuel h t.ptr = .ok t.leftmostPtr := by
  induction t with
  | nil => intro _ _ hne; exact absurd rfl hne
  | node l a c v r ihl _ =>
    intro fuel hsk _ hf
    obtain ⟨hc, hl, hr⟩ := hsk
    simp only [Tree.height] at hf
    obtain ⟨fuel, rfl⟩ : ∃ m', fuel = m' + 1 := ⟨fuel - 1, by omega⟩
    simp only [Heap.kids, Option.map_eq_some', Prod.mk.injEq] at hc
    obtain ⟨nd, hnd, hd, hpl, hpr⟩ := hc
    change leftmost (fuel + 1) h (some a) = _
    simp only [leftmost, load_some hnd, bind_ok, hpl]
    by_cases hln : l = .nil
    · subst hln
      rfl
    · have hp : l.ptr ≠ none := fun e => hln (ptr_eq_none.mp e)
      simp only [ne_eq, hp, not_false_eq_true, ↓reduceIte]
      rw [ihl fuel hl hln (by omega)]
      cases hlm : l.leftmostPtr with
      | none => exact absurd (leftmostPtr_eq_none.mp hlm) hln
      | some b => simp only [Tree.leftmostPtr, hlm]

/-- The leftmost node of a tree in the heap has no left child, and its element is the
first of the in-order sequence. -/
theorem leftmost_cell {h : Heap T} (t : Tree T) :
    t.Skel h → ∀ b, t.leftmostPtr = some b →
      ∃ nd, h.cell b = some nd ∧ nd.pLeft = none ∧ b ∈ t.addrs ∧
        t.toList.head? = some nd.data := by
  induction t with
  | nil => intro _ b hb; cases hb
  | node l a c v r ihl _ =>
    intro hsk b hb
    obtain ⟨hc, hl, hr⟩ := hsk
    simp only [Heap.kids, Option.map_eq_some', Prod.mk.injEq] at hc
    obtain ⟨nd, hnd, hd, hpl, hpr⟩ := hc
    simp only [Tree.leftmostPtr] at hb
    cases hlm : l.leftmostPtr with
    | none =>
      rw [hlm] at hb
      cases hb
      have hln := leftmostPtr_eq_none.mp hlm
      subst hln
      exact ⟨nd, hnd, by rw [hpl]; rfl, by simp [Tree.addrs], by simp [Tree.toList, hd]⟩
    | some x =>
      rw [hlm] at hb
      cases hb
      obtain ⟨nb, h1, h2, h3, h4⟩ := ihl hl b hlm
      refine ⟨nb, h1, h2, by simp [Tree.addrs, h3], ?_⟩
      simp only [Tree.toList]
      cases hlt : l.toList with
      | nil => rw [hlt] at h4; cases h4
      | cons y ys => rw [hlt] at h4; simpa using h4

/-- The loop of `++` that climbs while the node is a right child ends at a node whose
parent is the nearest ancestor of which the start lies in the left subtree. -/
theorem climbRight_spec {h : Heap T} :
    ∀ (k : List (Frame T)) (a : Nat) (nd : BNode T) (fuel : Nat), h.cell a = some nd →
      nd.pParent = ctxPtr k → RepCtx h (some a) k → (a :: ctxAddrs k).Nodup →
      k.length + 1 ≤ fuel →
      ∃ b, climbWhileRight fuel h (some a) = .ok (some b) ∧
        memberParent h (some b) = .ok (upLeft k) := by
  intro k
  induction k with
  | nil =>
    intro a nd fuel hc hp _ _ hf
    obtain ⟨fuel, rfl⟩ : ∃ m', fuel = m' + 1 := ⟨fuel - 1, by omega⟩
    refine ⟨a, ?_, ?_⟩
    · simp only [climbWhileRight, load_some hc, bind_ok, hp, ctxPtr, ne_eq, not_true_eq_false,
        ↓reduceIte, pure_eq_ok]
    · simp only [memberParent, load_some hc, bind_ok, hp, ctxPtr, upLeft, pure_eq_ok]
  | cons f k ih =>
    intro a nd fuel hc hp hctx hnd hf
    simp only [List.length_cons] at hf
    obtain ⟨fuel, rfl⟩ : ∃ m', fuel = m' + 1 := ⟨fuel - 1, by omega⟩
    obtain ⟨side, p, cp, vp, o⟩ := f
    obtain ⟨hcp, ho, hk⟩ := hctx
    simp only [ctxAddrs, List.cons_append, List.nodup_cons, List.mem_cons, List.mem_append,
      not_or] at hnd
    obtain ⟨⟨hap, hao, hak⟩, ⟨hpo, hpk⟩, hrest⟩ := hnd
    cases side with
    | left =>
      simp only at hcp
      have hne : o.ptr ≠ some a := fun e => hao (ptr_mem_addrs e)
      refine ⟨a, ?_, ?_⟩
      · simp only [climbWhileRight, load_some hc, bind_ok, hp, ctxPtr, ne_eq, reduceCtorEq,
          not_false_eq_true, ↓reduceIte, BNode.isRightChild, load_some hcp, pure_eq_ok, hne,
          decide_False, Bool.false_eq_true]
      · simp only [memberParent, load_some hc, bind_ok, hp, ctxPtr, upLeft, pure_eq_ok]
    | right =>
      simp only at hcp
      obtain ⟨b, hb1, hb2⟩ := ih p _ fuel hcp rfl hk
        (by
          simp only [List.nodup_cons]
          exact ⟨hpk, (List.nodup_append.mp hrest).2.1⟩) (by omega)
      refine ⟨b, ?_, ?_⟩
      · simp only [climbWhileRight, load_some hc, bind_ok, hp, ctxPtr, ne_eq, reduceCtorEq,
          not_false_eq_true, ↓reduceIte, BNode.isRightChild, load_some hcp, pure_eq_ok,
          decide_True, hb1]
      · simp only [upLeft]
        exact hb2

/-- The operator `++` at a node of a well-formed tree: the result is the in-order
successor, given by the right subtree `r` of the node and its ancestors `k`. -/
theorem inc_spec {h : Heap T} {l r : Tree T} {a : Nat} {c : Bool} {v : T}
    {k : List (Frame T)} (fuel : Nat)
    (hrep : (Tree.node l a c v r).Rep h (ctxPtr k)) (hctx : RepCtx h (some a) k)
    (hnd : ((Tree.node l a c v r).addrs ++ ctxAddrs k).Nodup)
    (hfuel : r.height + k.length + 1 ≤ fuel) :
    iterator.inc fuel h (some a) = .ok (succPtr r k) := by
  obtain ⟨hc, hl, hr⟩ := hrep
  have hnd2 : (a :: ctxAddrs k).Nodup := by
    refine List.Nodup.sublist ?_ hnd
    exact (List.singleton_sublist.mpr (by simp [Tree.addrs])).append (List.Sublist.refl _)
  by_cases hrn : r = .nil
  · subst hrn
    replace hc : h.cell a = some ⟨v, l.ptr, none, ctxPtr k, c⟩ := hc
    obtain ⟨b, hb1, hb2⟩ := climbRight_spec k a _ fuel hc rfl hctx hnd2 (by omega)
    cases k with
    | nil =>
      simp only [iterator.inc, reduceCtorEq, ↓reduceIte, load_some hc, bind_ok,
        ne_eq, not_true_eq_false, ctxPtr, pure_eq_ok, Bool.false_eq_true, hb1, hb2]
      rfl
    | cons f k =>
      obtain ⟨side, p, cp, vp, o⟩ := f
      obtain ⟨hcp, ho, hk⟩ := hctx
      cases side with
      | left =>
        simp only at hcp
        simp only [iterator.inc, reduceCtorEq, ↓reduceIte, load_some hc, bind_ok,
          ne_eq, not_true_eq_false, ctxPtr, not_false_eq_true, BNode.isLeftChild,
          load_some hcp, pure_eq_ok, decide_True]
        rfl
      | right =>
        simp only at hcp
        simp only [List.nodup_cons, ctxAddrs, List.cons_append, List.mem_cons,
          List.mem_append, not_or] at hnd2
        have hne : o.ptr ≠ some a := fun e => hnd2.1.2.1 (ptr_mem_addrs e)
        simp only [iterator.inc, reduceCtorEq, ↓reduceIte, load_some hc, bind_ok,
          ne_eq, not_true_eq_false, ctxPtr, not_false_eq_true, BNode.isLeftChild,
          load_some hcp, pure_eq_ok, hne, decide_False, Bool.false_eq_true, hb1, hb2]
        rfl
  · have hp : r.ptr ≠ none := fun e => hrn (ptr_eq_none.mp e)
    have hlm := leftmost_spec r fuel hr.skel hrn (by omega)
    simp only [iterator.inc, reduceCtorEq, ↓reduceIte, load_some hc, bind_ok, ne_eq, hp,
      not_false_eq_true, hlm]
    cases hx : r.leftmostPtr with
    | none => exact absurd (leftmostPtr_eq_none.mp hx) hrn
    | some b => simp only [succPtr, hx]

theorem plug_addrs :
    ∀ (k : List (Frame T)) (t : Tree T),
      (plug t k).addrs = ctxBefore k ++ t.addrs ++ ctxAfter k := by
  intro k
  induction k with
  | nil => intro t; simp [plug, ctxBefore, ctxAfter]
  | cons f k ih =>
    intro t
    obtain ⟨side, p, cp, vp, o⟩ := f
    cases side <;>
      simp [plug, ih, Frame.fill, Tree.addrs, ctxBefore, ctxAfter, List.append_assoc]

theorem head_ctxAfter : ∀ (k : List (Frame T)), (ctxAfter k).head? = upLeft k := by
  intro k
  induction k with
  | nil => rfl
  | cons f k ih =>
    obtain ⟨side, p, cp, vp, o⟩ := f
    cases side with
    | left => rfl
    | right => simpa [ctxAfter, upLeft] using ih

theorem nextIn_append (a : Nat) (post : List Nat) :
    ∀ (pre : List Nat), a ∉ pre → nextIn (pre ++ a :: post) a = post.head? := by
  intro pre
  induction pre with
  | nil => intro _; simp [nextIn]
  | cons x xs ih =>
    intro hx
    simp only [List.mem_cons, not_or] at hx
    have hne : x ≠ a := fun e => hx.1 e.symm
    simp only [List.cons_append, nextIn, hne, ↓reduceIte]
    exact ih hx.2

/-- The successor given by the position is the next address of the in-order sequence. -/
theorem succPtr_eq_nextIn {l r : Tree T} {a : Nat} {c : Bool} {v : T} {k : List (Frame T)}
    (hnd : (plug (Tree.node l a c v r) k).addrs.Nodup) :
    succPtr r k = nextIn (plug (Tree.node l a c v r) k).addrs a := by
  rw [plug_addrs] at hnd ⊢
  simp only [Tree.addrs, List.append_assoc, List.cons_append] at hnd ⊢
  rw [← List.append_assoc] at hnd ⊢
  have hnot : a ∉ ctxBefore k ++ l.addrs := by
    intro hm
    have := (List.nodup_append.mp hnd).2.2 hm (List.mem_cons_self a _)
    exact this
  rw [nextIn_append a _ _ hnot]
  simp only [succPtr, leftmostPtr_eq_head]
  cases hr : r.addrs with
  | nil => simp [head_ctxAfter]
  | cons x xs => simp

theorem height_fill (f : Frame T) (t : Tree T) : t.height + 1 ≤ (f.fill t).height := by
  obtain ⟨side, p, cp, vp, o⟩ := f
  cases side <;> simp only [Frame.fill, Tree.height] <;> omega

theorem height_plug :
    ∀ (k : List (Frame T)) (t : Tree T), t.height + k.length ≤ (plug t k).height := by
  intro k
  induction k with
  | nil => intro t; simp [plug]
  | cons f k ih =>
    intro t
    have h1 := ih (f.fill t)
    have h2 := height_fill f t
    simp only [plug, List.length_cons]
    omega

/-- Every node of a tree is at some position. -/
theorem exists_position {a : Nat} :
    ∀ (t : Tree T) (k0 : List (Frame T)), a ∈ t.addrs →
      ∃ l c v r k, plug t k0 = plug (Tree.node l a c v r) k := by
  intro t
  induction t with
  | nil => intro _ hm; simp [Tree.addrs] at hm
  | node l b c v r ihl ihr =>
    intro k0 hm
    simp only [Tree.addrs, List.mem_append, List.mem_cons] at hm
    rcases hm with hm | rfl | hm
    · obtain ⟨l', c', v', r', k, hk⟩ := ihl (⟨.left, b, c, v, r⟩ :: k0) hm
      exact ⟨l', c', v', r', k, hk⟩
    · exact ⟨l, c, v, r, k0, rfl⟩
    · obtain ⟨l', c', v', r', k, hk⟩ := ihr (⟨.right, b, c, v, l⟩ :: k0) hm
      exact ⟨l', c', v', r', k, hk⟩

/-- The operator `++` at any node of a well-formed tree returns the next address of the
in-order sequence. -/
theorem inc_next {h : Heap T} {s : Tree T} {a : Nat} (fuel : Nat) (hrep : s.Rep h none)
    (hnodup : s.addrs.Nodup) (ha : a ∈ s.addrs) (hfuel : s.height ≤ fuel) :
    iterator.inc fuel h (some a) = .ok (nextIn s.addrs a) := by
  obtain ⟨l, c, v, r, k, hk⟩ := exists_position s [] ha
  simp only [plug] at hk
  subst hk
  obtain ⟨h1, h2⟩ := (rep_plug k _).mp hrep
  have hnd := (List.Perm.nodup_iff (plug_addrs_perm k (Tree.node l a c v r))).mp hnodup
  have hh := height_plug k (Tree.node l a c v r)
  simp only [Tree.height] at hh
  rw [← succPtr_eq_nextIn hnodup]
  exact inc_spec fuel h1 h2 hnd (by omega)

/-- C15: in a well-formed tree — the nodes below `root`, read by child links, form the
tree `s` in which no node occurs twice and every parent link is the parent in `s` (none
for the root) — the operator `++` at a node `a` with right subtree `r` and ancestors `k`
(nearest first) moves the iterator to the leftmost node of `r` if `a` has a right child,
otherwise to the nearest ancestor of which `a` lies in the left subtree, and to the end
sentinel when there is no such ancestor.  That node is the one after `a` in the in-order
sequence. -/
theorem C15_increment_moves_to_successor (n : Nat) (h : Heap T) (root : Ptr) (s : Tree T)
    (l : Tree T) (a : Nat) (c : Bool) (v : T) (r : Tree T) (k : List (Frame T))
    (fuel : Nat) (hs : snapshot n h root = .ok s) (hnodup : s.addrs.Nodup)
    (hpar : s.parentsOk h none = true) (hpos : s = plug (.node l a c v r) k)
    (hfuel : s.height ≤ fuel) :
    iterator.inc fuel h (some a) = .ok (succPtr r k) ∧
      (r ≠ .nil → succPtr r k = r.leftmostPtr) ∧
      (r = .nil → succPtr r k = upLeft k) ∧
      (r = .nil → upLeft k = none → succPtr r k = BST.endIt) ∧
      succPtr r k = nextIn s.addrs a := by
  have hrep := snapshot_rep n _ none s hs hpar
  subst hpos
  obtain ⟨h1, h2⟩ := (rep_plug k _).mp hrep
  have hnd := (List.Perm.nodup_iff (plug_addrs_perm k (Tree.node l a c v r))).mp hnodup
  have hh := height_plug k (Tree.node l a c v r)
  simp only [Tree.height] at hh
  refine ⟨inc_spec fuel h1 h2 hnd (by omega), ?_, ?_, ?_, succPtr_eq_nextIn hnodup⟩
  · intro hr
    cases hx : r.leftmostPtr with
    | none => exact absurd (leftmostPtr_eq_none.mp hx) hr
    | some b => simp only [succPtr, hx]
  · intro hr
    subst hr
    rfl
  · intro hr hu
    subst hr
    simp only [succPtr, Tree.leftmostPtr, hu]
    rfl

/-- C17: `begin()` returns the leftmost node, reached from the root by left links; this
is `end()` exactly when the root is absent.  The leftmost node has no left child, and
when the in-order sequence is non-decreasing its value is a minimum of the tree.
`end()` is the null sentinel, different from every iterator to a node. -/
theorem C17_begin_is_leftmost_or_end (n : Nat) (h : Heap T) (tree : BST) (s : Tree T)
    [LinearOrder T] (fuel : Nat) (hs : snapshot n h tree.root = .ok s)
    (hfuel : s.height ≤ fuel) :
    BST.begin fuel h tree = .ok s.leftmostPtr ∧
      (s.leftmostPtr = BST.endIt ↔ tree.root = none) ∧
      (∀ b, s.leftmostPtr = some b →
        ∃ nd, h.cell b = some nd ∧ nd.pLeft = none ∧ b ∈ s.addrs ∧
          (s.toList.Sorted (· ≤ ·) → ∀ x ∈ s.toList, nd.data ≤ x)) ∧
      BST.endIt = none ∧ ∀ b : Nat, (some b : Ptr) ≠ BST.endIt := by
  have hp := snapshot_ptr _ _ _ hs
  have hsk := snapshot_skel _ _ _ hs
  refine ⟨?_, ?_, ?_, rfl, fun b e => by cases e⟩
  · by_cases hr : tree.root = none
    · have hsn : s = .nil := ptr_eq_none.mp (hp.trans hr)
      subst hsn
      simp only [BST.begin, hr, ↓reduceIte]
      rfl
    · have hsn : s ≠ .nil := fun e => hr (hp ▸ ptr_eq_none.mpr e)
      simp only [BST.begin, hr, ↓reduceIte]
      rw [← hp]
      exact leftmost_spec s fuel hsk hsn hfuel
  · rw [← hp]
    exact leftmostPtr_eq_none.trans ptr_eq_none.symm
  · intro b hb
    obtain ⟨nd, h1, h2, h3, h4⟩ := leftmost_cell s hsk b hb
    refine ⟨nd, h1, h2, h3, ?_⟩
    intro hsorted x hx
    cases hl : s.toList with
    | nil => rw [hl] at hx; cases hx
    | cons y ys =>
      rw [hl] at h4 hx hsorted
      simp only [List.head?_cons, Option.some.injEq] at h4
      subst h4
      simp only [List.mem_cons] at hx
      rcases hx with rfl | hx
      · exact le_refl _
      · exact List.rel_of_sorted_cons hsorted x hx

end Iterators

section IteratorWitnesses

theorem C15_increment_moves_to_successor_witness :
    snapshot 4 heapC2 (some 1) = .ok treeC2 ∧ treeC2.addrs.Nodup ∧
      treeC2.parentsOk heapC2 none = true ∧
      treeC2 = plug (.node (.node .nil 5 true 3 .nil) 2 false 4 .nil)
        [⟨.left, 3, true, 5, .node .nil 4 false 6 .nil⟩,
         ⟨.right, 1, false, 2, .node .nil 0 false 1 .nil⟩] ∧
      treeC2.height ≤ 4 ∧
      iterator.inc 4 heapC2 (some 2) = .ok (succPtr (.nil : Tree Nat)
        [⟨.left, 3, true, 5, .node .nil 4 false 6 .nil⟩,
         ⟨.right, 1, false, 2, .node .nil 0 false 1 .nil⟩]) ∧
      ((.nil : Tree Nat) ≠ .nil → succPtr (.nil : Tree Nat)
        [⟨.left, 3, true, 5, .node .nil 4 false 6 .nil⟩,
         ⟨.right, 1, false, 2, .node .nil 0 false 1 .nil⟩] = (.nil : Tree Nat).leftmostPtr) ∧
      ((.nil : Tree Nat) = .nil → succPtr (.nil : Tree Nat)
        [⟨.left, 3, true, 5, .node .nil 4 false 6 .nil⟩,
         ⟨.right, 1, false, 2, .node .nil 0 false 1 .nil⟩] = upLeft
        [(⟨.left, 3, true, 5, .node .nil 4 false 6 .nil⟩ : Frame Nat),
         ⟨.right, 1, false, 2, .node .nil 0 false 1 .nil⟩]) ∧
      ((.nil : Tree Nat) = .nil → upLeft
        [(⟨.left, 3, true, 5, .node .nil 4 false 6 .nil⟩ : Frame Nat),
         ⟨.right, 1, false, 2, .node .nil 0 false 1 .nil⟩] = none →
        succPtr (.nil : Tree Nat)
        [⟨.left, 3, true, 5, .node .nil 4 false 6 .nil⟩,
         ⟨.right, 1, false, 2, .node .nil 0 false 1 .nil⟩] = BST.endIt) ∧
      succPtr (.nil : Tree Nat)
        [⟨.left, 3, true, 5, .node .nil 4 false 6 .nil⟩,
         ⟨.right, 1, false, 2, .node .nil 0 false 1 .nil⟩] = nextIn treeC2.addrs 2 :=
  ⟨rfl, by decide, rfl, rfl, by decide,
    C15_increment_moves_to_successor 4 heapC2 (some 1) treeC2
      (.node .nil 5 true 3 .nil) 2 false 4 .nil
      [⟨.left, 3, true, 5, .node .nil 4 false 6 .nil⟩,
       ⟨.right, 1, false, 2, .node .nil 0 false 1 .nil⟩] 4 rfl (by decide) rfl rfl
      (by decide)⟩

theorem C17_begin_is_leftmost_or_end_witness :
    snapshot 4 heapC2 (⟨some 1, 6⟩ : BST).root = .ok treeC2 ∧ treeC2.height ≤ 4 ∧
      BST.begin 4 heapC2 ⟨some 1, 6⟩ = .ok treeC2.leftmostPtr ∧
      (treeC2.leftmostPtr = BST.endIt ↔ (⟨some 1, 6⟩ : BST).root = none) ∧
      (∀ b, treeC2.leftmostPtr = some b →
        ∃ nd, heapC2.cell b = some nd ∧ nd.pLeft = none ∧ b ∈ treeC2.addrs ∧
          (treeC2.toList.Sorted (· ≤ ·) → ∀ x ∈ treeC2.toList, nd.data ≤ x)) ∧
      BST.endIt = none ∧ ∀ b : Nat, (some b : Ptr) ≠ BST.endIt :=
  ⟨rfl, by decide,
    C17_begin_is_leftmost_or_end 4 heapC2 ⟨some 1, 6⟩ treeC2 4 rfl (by decide)⟩

end IteratorWitnesses

section Clear

variable {T : Type}

theorem cell_delete (h : Heap T) (a b : Nat) :
    (delete h a).cell b = if a = b then none else h.cell b := by
  simp only [delete, Heap.cell, List.getElem?_set]
  split_ifs <;> simp

theorem upLeft_allLeft : ∀ (k : List (Frame T)), (∀ f ∈ k, f.side = .left) → upLeft k = ctxPtr k
  | [], _ => rfl
  | f :: k, hl => by
    have := hl f (List.mem_cons_self _ _)
    simp only [upLeft, this, ctxPtr]

theorem leftmostPtr_fill_left (f : Frame T) (t : Tree T) (hf : f.side = .left) :
    (f.fill t).leftmostPtr =
      (match t.leftmostPtr with
      | some b => some b
      | none => some f.addr) := by
  obtain ⟨side, p, cp, vp, o⟩ := f
  simp only at hf
  subst hf
  rfl

theorem leftmostPtr_plug :
    ∀ (k : List (Frame T)) (t : Tree T), (∀ f ∈ k, f.side = .left) →
      (plug t k).leftmostPtr =
        (match t.leftmostPtr with
        | some b => some b
        | none => ctxPtr k) := by
  intro k
  induction k with
  | nil =>
    intro t _
    simp only [plug, ctxPtr]
    cases t.leftmostPtr <;> rfl
  | cons f k ih =>
    intro t hl
    have hf := hl f (List.mem_cons_self _ _)
    rw [plug, ih (f.fill t) (fun g hg => hl g (List.mem_cons_of_mem _ hg)),
      leftmostPtr_fill_left f t hf]
    cases t.leftmostPtr <;> rfl

/-- The leftmost node of a non-empty tree has no left child, and all its ancestors hold
it in their left subtree. -/
theorem exists_min_position :
    ∀ (t : Tree T) (k0 : List (Frame T)), t ≠ .nil → (∀ f ∈ k0, f.side = .left) →
      ∃ a c v r k, plug t k0 = plug (Tree.node .nil a c v r) k ∧ ∀ f ∈ k, f.side = .left := by
  intro t
  induction t with
  | nil => intro _ hne; exact absurd rfl hne
  | node l b c v r ihl _ =>
    intro k0 _ hk0
    by_cases hl : l = .nil
    · subst hl
      exact ⟨b, c, v, r, k0, rfl, hk0⟩
    · obtain ⟨a', c', v', r', k, hk, hkl⟩ := ihl (⟨.left, b, c, v, r⟩ :: k0) hl
        (by
          intro f hf
          simp only [List.mem_cons] at hf
          rcases hf with rfl | hf
          · rfl
          · exact hk0 f hf)
      exact ⟨a', c', v', r', k, hk, hkl⟩

/-- `erase` at the leftmost node of a well-formed tree: the call returns the in-order
successor, the node is deleted, and the heap holds the rest of the tree with all links;
the member `root` is not assigned. -/
theorem erase_min {h : Heap T} {a : Nat} {c : Bool} {v : T} {r : Tree T}
    {k : List (Frame T)} (fuel : Nat) (tree : BST)
    (hrep : (Tree.node .nil a c v r).Rep h (ctxPtr k)) (hctx : RepCtx h (some a) k)
    (hnd : ((Tree.node .nil a c v r).addrs ++ ctxAddrs k).Nodup)
    (hleft : ∀ f ∈ k, f.side = .left) (hfuel : r.height + k.length + 1 ≤ fuel) :
    ∃ h1, BST.erase fuel h tree (some a) =
        .ok (h1, ⟨tree.root, decrSize tree.numElements⟩, succPtr r k) ∧
      r.Rep h1 (ctxPtr k) ∧ RepCtx h1 r.ptr k ∧ h1.cell a = none ∧
      ∀ b, b ∉ (Tree.node .nil a c v r).addrs ++ ctxAddrs k → h1.cell b = h.cell b := by
  have hinc := inc_spec fuel hrep hctx hnd hfuel
  obtain ⟨hc, -, hr⟩ := hrep
  replace hc : h.cell a = some ⟨v, none, r.ptr, ctxPtr k, c⟩ := hc
  have hal := cell_lt_length hc
  simp only [Tree.addrs, List.nil_append, List.cons_append, List.nodup_cons, List.mem_append,
    not_or] at hnd
  obtain ⟨⟨har, hak⟩, hndr⟩ := hnd
  cases k with
  | nil =>
    cases r with
    | nil =>
      replace hc : h.cell a = some ⟨v, none, none, none, c⟩ := hc
      refine ⟨delete h a, ?_, trivial, trivial, ?_, ?_⟩
      · simp only [BST.erase, hinc, bind_ok, load_some hc, and_self, ↓reduceIte, eraseLeaf,
          ne_eq, not_true_eq_false, pure_eq_ok]
      · simp only [cell_delete, ↓reduceIte]
      · intro b hb
        simp only [Tree.addrs, List.nil_append, ctxAddrs, List.append_nil, List.mem_singleton]
          at hb
        simp only [cell_delete, Ne.symm hb, ↓reduceIte]
    | node rl rb cr vr rr =>
      obtain ⟨hcr, hrl, hrr⟩ := hr
      replace hc : h.cell a = some ⟨v, none, some rb, none, c⟩ := hc
      have hrbl := cell_lt_length hcr
      have hab : a ≠ rb := fun e => har (by simp [Tree.addrs, e])
      have hba : rb ≠ a := Ne.symm hab
      have hsame : ∀ b, b ≠ a → b ≠ rb →
          (delete (h.store rb ⟨vr, rl.ptr, rr.ptr, none, cr⟩) a).cell b = h.cell b := by
        intro b h1 h2
        simp only [cell_delete, Ne.symm h1, ↓reduceIte, cell_store, Ne.symm h2]
      have hnr : rb ∉ rl.addrs ∧ rb ∉ rr.addrs := by
        have h0 : (rl.addrs ++ rb :: rr.addrs).Nodup := (List.nodup_append.mp hndr).1
        obtain ⟨-, h2, h3⟩ := List.nodup_append.mp h0
        exact ⟨fun hm => h3 hm (List.mem_cons_self _ _), (List.nodup_cons.mp h2).1⟩
      refine ⟨delete (h.store rb ⟨vr, rl.ptr, rr.ptr, none, cr⟩) a, ?_, ⟨?_, ?_, ?_⟩,
        trivial, ?_, ?_⟩
      · simp only [BST.erase, hinc, bind_ok, load, hc, reduceCtorEq, false_and,
          ↓reduceIte, ne_eq, not_true_eq_false, and_false, not_false_eq_true, and_self,
          eraseRightOnly, setParent, modify, hcr, cell_store, hba, pure_eq_ok,
          Bool.false_eq_true]
      · simp only [cell_delete, hab, ↓reduceIte, cell_store, hrbl, ctxPtr]
      · exact hrl.repFrame (fun b hb => hsame b
          (fun e => har (by simp [Tree.addrs, ← e, hb])) (fun e => hnr.1 (e ▸ hb)))
      · exact hrr.repFrame (fun b hb => hsame b
          (fun e => har (by simp [Tree.addrs, ← e, hb])) (fun e => hnr.2 (e ▸ hb)))
      · simp only [cell_delete, ↓reduceIte]
      · intro b hb
        simp only [Tree.addrs, List.nil_append, ctxAddrs, List.append_nil, List.mem_cons,
          List.mem_append, not_or] at hb
        exact hsame b hb.1 hb.2.2.1
  | cons f k =>
    obtain ⟨side, p, cp, vp, o⟩ := f
    have hs : side = .left := hleft _ (List.mem_cons_self _ _)
    subst hs
    obtain ⟨hcp, ho, hk⟩ := hctx
    replace hcp : h.cell p = some ⟨vp, some a, o.ptr, ctxPtr k, cp⟩ := hcp
    have hpl := cell_lt_length hcp
    simp only [ctxAddrs, List.cons_append, List.mem_cons, List.mem_append, not_or] at hak
    obtain ⟨hap, hao, hakk⟩ := hak
    have hpa : p ≠ a := Ne.symm hap
    have hoa : o.ptr ≠ some a := fun e => hao (ptr_mem_addrs e)
    have hndr2 := List.nodup_append.mp hndr
    simp only [ctxAddrs, List.cons_append, List.nodup_cons, List.mem_append, not_or,
      List.mem_cons, forall_eq_or_imp] at hndr2
    obtain ⟨hrnd, ⟨⟨hpo, hpk⟩, hok⟩, hdisj⟩ := hndr2
    cases r with
    | nil =>
      replace hc : h.cell a = some ⟨v, none, none, some p, c⟩ := hc
      have hsame : ∀ b, b ≠ a → b ≠ p →
          (delete (h.store p ⟨vp, none, o.ptr, ctxPtr k, cp⟩) a).cell b = h.cell b := by
        intro b h1 h2
        simp only [cell_delete, Ne.symm h1, ↓reduceIte, cell_store, Ne.symm h2]
      refine ⟨delete (h.store p ⟨vp, none, o.ptr, ctxPtr k, cp⟩) a, ?_, trivial,
        ⟨?_, ?_, ?_⟩, ?_, ?_⟩
      · simp only [BST.erase, hinc, bind_ok, load_some hc, and_self, ↓reduceIte, eraseLeaf,
          ne_eq, reduceCtorEq, not_false_eq_true, BNode.isRightChild, load_some hcp,
          pure_eq_ok, hoa, decide_False, Bool.false_eq_true, setLeft, modify, hcp]
      · simp only [cell_delete, hap, ↓reduceIte, cell_store, hpl, Tree.ptr]
      · exact ho.repFrame (fun b hb => hsame b (fun e => hao (e ▸ hb)) (fun e => hpo (e ▸ hb)))
      · exact hk.repCtxFrame (fun b hb => hsame b (fun e => hakk (e ▸ hb))
          (fun e => hpk (e ▸ hb)))
      · simp only [cell_delete, ↓reduceIte]
      · intro b hb
        simp only [Tree.addrs, List.nil_append, ctxAddrs, List.cons_append, List.mem_cons,
          List.mem_append, not_or] at hb
        exact hsame b hb.1 hb.2.1
    | node rl rb cr vr rr =>
      obtain ⟨hcr, hrl, hrr⟩ := hr
      replace hc : h.cell a = some ⟨v, none, some rb, some p, c⟩ := hc
      have hrbl := cell_lt_length hcr
      have hab : a ≠ rb := fun e => har (by simp [Tree.addrs, e])
      have hba : rb ≠ a := Ne.symm hab
      have hrbm : rb ∈ (Tree.node rl rb cr vr rr).addrs := by simp [Tree.addrs]
      have hrbp : rb ≠ p := fun e => hdisj hrbm (e ▸ List.mem_cons_self _ _)
      have hprb : p ≠ rb := Ne.symm hrbp
      have hsame : ∀ b, b ≠ a → b ≠ rb → b ≠ p →
          (delete ((h.store rb ⟨vr, rl.ptr, rr.ptr, some p, cr⟩).store p
            ⟨vp, some rb, o.ptr, ctxPtr k, cp⟩) a).cell b = h.cell b := by
        intro b h1 h2 h3
        simp only [cell_delete, Ne.symm h1, ↓reduceIte, cell_store, Ne.symm h2, Ne.symm h3]
      have hnr : rb ∉ rl.addrs ∧ rb ∉ rr.addrs := by
        have h0 : (rl.addrs ++ rb :: rr.addrs).Nodup := hrnd
        obtain ⟨-, h2, h3⟩ := List.nodup_append.mp h0
        exact ⟨fun hm => h3 hm (List.mem_cons_self _ _), (List.nodup_cons.mp h2).1⟩
      have hrsub : ∀ b, b ∈ rl.addrs ∨ b ∈ rr.addrs →
          b ∈ (Tree.node rl rb cr vr rr).addrs := by
        intro b hb
        simp only [Tree.addrs, List.mem_append, List.mem_cons]
        tauto
      refine ⟨delete ((h.store rb ⟨vr, rl.ptr, rr.ptr, some p, cr⟩).store p
        ⟨vp, some rb, o.ptr, ctxPtr k, cp⟩) a, ?_, ⟨?_, ?_, ?_⟩, ⟨?_, ?_, ?_⟩, ?_, ?_⟩
      · simp only [BST.erase, hinc, bind_ok, load, hc, reduceCtorEq, false_and,
          ↓reduceIte, ne_eq, not_true_eq_false, and_false, not_false_eq_true, and_self,
          eraseRightOnly, setParent, setLeft, modify, hcr, cell_store, hba, hrbp, hcp,
          pure_eq_ok, BNode.isRightChild, BNode.isLeftChild, hoa, decide_False,
          decide_True, Bool.false_eq_true, length_store]
      · simp only [cell_delete, hab, ↓reduceIte, cell_store, hprb, hrbl, ctxPtr]
      · exact hrl.repFrame (fun b hb => hsame b
          (fun e => har (e ▸ hrsub b (Or.inl hb))) (fun e => hnr.1 (e ▸ hb))
          (fun e => hdisj (hrsub b (Or.inl hb)) (e ▸ List.mem_cons_self _ _)))
      · exact hrr.repFrame (fun b hb => hsame b
          (fun e => har (e ▸ hrsub b (Or.inr hb))) (fun e => hnr.2 (e ▸ hb))
          (fun e => hdisj (hrsub b (Or.inr hb)) (e ▸ List.mem_cons_self _ _)))
      · simp only [cell_delete, hap, ↓reduceIte, cell_store, length_store, hpl, Tree.ptr]
      · exact ho.repFrame (fun b hb => hsame b (fun e => hao (e ▸ hb))
          (fun e => hdisj hrbm (List.mem_cons_of_mem _ (List.mem_append_left _ (e ▸ hb))))
          (fun e => hpo (e ▸ hb)))
      · exact hk.repCtxFrame (fun b hb => hsame b (fun e => hakk (e ▸ hb))
          (fun e => hdisj hrbm (List.mem_cons_of_mem _ (List.mem_append_right _ (e ▸ hb))))
          (fun e => hpk (e ▸ hb)))
      · simp only [cell_delete, ↓reduceIte]
      · intro b hb
        simp only [Tree.addrs, List.nil_append, ctxAddrs, List.cons_append, List.mem_cons,
          List.mem_append, not_or] at hb
        exact hsame b hb.1 hb.2.1.2.1 hb.2.2.1

theorem addrs_length : ∀ (t : Tree T), t.addrs.length = t.size
  | .nil => rfl
  | .node l _ _ _ r => by
    simp only [Tree.addrs, Tree.size, List.length_append, List.length_cons, addrs_length l,
      addrs_length r]
    omega

theorem decrSize_succ (n : Nat) (h : n + 1 < sizeMod) : decrSize (n + 1) = n := by
  simp only [decrSize, sizeMod] at *
  omega

theorem clearLoop_none (steps fuel : Nat) (h : Heap T) (tree : BST) :
    BST.clearLoop steps fuel h tree none = .ok (h, tree) := by
  cases steps <;> rfl

theorem begin_eq_leftmost {h : Heap T} {tree : BST} {s : Tree T} (fuel : Nat)
    (hsk : s.Skel h) (hp : s.ptr = tree.root) (hfuel : s.height ≤ fuel) :
    BST.begin fuel h tree = .ok s.leftmostPtr := by
  by_cases hr : tree.root = none
  · have hsn : s = .nil := ptr_eq_none.mp (hp.trans hr)
    subst hsn
    simp only [BST.begin, hr, ↓reduceIte]
    rfl
  · have hsn : s ≠ .nil := fun e => hr (hp ▸ ptr_eq_none.mpr e)
    simp only [BST.begin, hr, ↓reduceIte]
    rw [← hp]
    exact leftmost_spec s fuel hsk hsn hfuel

/-- The loop of `clear`, started at the leftmost node of a well-formed tree with `m`
nodes and count `m`: it ends after `m` calls of `erase`, every node of the tree is
deleted, no other cell changes, and the count is 0. -/
theorem clearLoop_spec (m : Nat) :
    ∀ (s : Tree T) (h : Heap T) (tree : BST) (fuel : Nat), s.size = m →
      s.Rep h none → s.addrs.Nodup → m + 1 ≤ fuel → tree.numElements = m →
      m < sizeMod →
      ∃ h', (∀ steps, m ≤ steps →
          BST.clearLoop steps fuel h tree s.leftmostPtr = .ok (h', ⟨tree.root, 0⟩)) ∧
        (∀ b ∈ s.addrs, h'.cell b = none) ∧ ∀ b, b ∉ s.addrs → h'.cell b = h.cell b := by
  induction m with
  | zero =>
    intro s h tree fuel hsz _ _ _ hcount _
    have hs : s = .nil := by
      cases s with
      | nil => rfl
      | node l a c v r => simp only [Tree.size] at hsz; omega
    subst hs
    refine ⟨h, ?_, fun b hb => by simp [Tree.addrs] at hb, fun _ _ => rfl⟩
    intro steps _
    rw [show (Tree.nil : Tree T).leftmostPtr = none from rfl, clearLoop_none]
    cases tree
    simp only at hcount
    subst hcount
    rfl
  | succ m ih =>
    intro s h tree fuel hsz hrep hnd hfuel hcount hlt
    have hne : s ≠ .nil := by
      rintro rfl
      simp only [Tree.size] at hsz
      omega
    obtain ⟨a, c, v, r, k, hk, hleft⟩ := exists_min_position s [] hne (by simp)
    simp only [plug] at hk
    subst hk
    obtain ⟨hrep1, hctx⟩ := (rep_plug k _).mp hrep
    have hperm := plug_addrs_perm k (Tree.node .nil a c v r)
    have hperm' := plug_addrs_perm k r
    have hnd1 := (List.Perm.nodup_iff hperm).mp hnd
    have hsz' : (plug r k).size = m := by
      have e1 := hperm.length_eq
      have e2 := hperm'.length_eq
      simp only [Tree.addrs, List.nil_append, List.length_append, List.length_cons,
        addrs_length] at e1 e2
      omega
    have hh := height_plug k r
    have hhs := height_le_size (plug r k)
    obtain ⟨h1, her, hr1, hctx1, ha1, hsame1⟩ :=
      erase_min fuel tree hrep1 hctx hnd1 hleft (by omega)
    have hnd' : (plug r k).addrs.Nodup := by
      refine (List.Perm.nodup_iff hperm').mpr (List.Nodup.sublist ?_ hnd1)
      simp only [Tree.addrs, List.nil_append, List.cons_append]
      exact List.sublist_cons_self _ _
    obtain ⟨h', hloop, hdel, hkeep⟩ := ih (plug r k) h1
      ⟨tree.root, decrSize tree.numElements⟩ fuel hsz'
      ((rep_plug k r).mpr ⟨hr1, hctx1⟩) hnd' (by omega)
      (by
        simp only [hcount]
        exact decrSize_succ m hlt) (by omega)
    have hlm : (plug (Tree.node .nil a c v r) k).leftmostPtr = some a := by
      rw [leftmostPtr_plug k _ hleft]
      rfl
    have hlm' : (plug r k).leftmostPtr = succPtr r k := by
      rw [leftmostPtr_plug k _ hleft, succPtr, upLeft_allLeft k hleft]
    have hmem : ∀ b, b ∈ (plug (Tree.node .nil a c v r) k).addrs ↔
        b = a ∨ b ∈ (plug r k).addrs := by
      intro b
      rw [hperm.mem_iff, hperm'.mem_iff]
      simp only [Tree.addrs, List.nil_append, List.cons_append, List.mem_cons]
    refine ⟨h', ?_, ?_, ?_⟩
    · intro steps hsteps
      obtain ⟨steps, rfl⟩ : ∃ st, steps = st + 1 := ⟨steps - 1, by omega⟩
      rw [hlm]
      simp only [BST.clearLoop, her, bind_ok]
      rw [← hlm']
      exact hloop steps (by omega)
    · intro b hb
      rcases (hmem b).mp hb with rfl | hb'
      · by_cases hin : b ∈ (plug r k).addrs
        · exact hdel b hin
        · rw [hkeep b hin]
          exact ha1
      · exact hdel b hb'
    · intro b hb
      have hb1 : b ∉ (plug r k).addrs := fun hm => hb ((hmem b).mpr (Or.inr hm))
      rw [hkeep b hb1]
      refine hsame1 b ?_
      intro hm
      exact hb (hperm.mem_iff.mpr hm)

/-- `clear()` on a well-formed tree whose count is its number of nodes. -/
theorem clear_spec {h : Heap T} {tree : BST} {s : Tree T} (fuel : Nat)
    (hrep : s.Rep h none) (hp : s.ptr = tree.root) (hnd : s.addrs.Nodup)
    (hcount : tree.numElements = s.size) (hsize : s.size < sizeMod)
    (hfuel : s.size + 1 ≤ fuel) :
    ∃ h', BST.clearLoop s.size fuel h tree s.leftmostPtr = .ok (h', ⟨tree.root, 0⟩) ∧
      BST.clear fuel h tree = .ok (h', ⟨none, 0⟩) ∧
      (∀ b ∈ s.addrs, h'.cell b = none) ∧ ∀ b, b ∉ s.addrs → h'.cell b = h.cell b := by
  have hhs := height_le_size s
  obtain ⟨h', hloop, hdel, hkeep⟩ := clearLoop_spec s.size s h tree fuel rfl hrep hnd
    hfuel hcount hsize
  have hbeg := begin_eq_leftmost fuel hrep.skel hp (by omega)
  refine ⟨h', hloop s.size (Nat.le_refl _), ?_, hdel, hkeep⟩
  simp only [BST.clear, hbeg, bind_ok, hloop fuel (by omega), pure_eq_ok]

/-- C20: for a well-formed tree (no node reached twice, parent links consistent with child
links, count equal to the number of nodes), `clear()` terminates: its loop ends after as
many calls of `erase` as the tree has nodes; afterwards every node of the tree is deleted
and no other cell of the free store has changed, `root` is absent, `size()` is 0 and
`begin()` is `end()`. -/
theorem C20_clear_erases_every_node (n : Nat) (h : Heap T) (tree : BST) (s : Tree T)
    (fuel : Nat) (hs : snapshot n h tree.root = .ok s) (hnodup : s.addrs.Nodup)
    (hpar : s.parentsOk h none = true) (hcount : tree.numElements = s.size)
    (hsize : s.size < sizeMod) (hfuel : s.size + 1 ≤ fuel) :
    ∃ h', BST.clear fuel h tree = .ok (h', ⟨none, 0⟩) ∧
      BST.clearLoop s.size fuel h tree s.leftmostPtr = .ok (h', ⟨tree.root, 0⟩) ∧
      (∀ b ∈ s.addrs, h'.cell b = none) ∧ (∀ b, b ∉ s.addrs → h'.cell b = h.cell b) ∧
      (⟨none, 0⟩ : BST).root = none ∧ (⟨none, 0⟩ : BST).numElements = 0 ∧
      BST.begin fuel h' ⟨none, 0⟩ = .ok BST.endIt := by
  obtain ⟨h', h1, h2, h3, h4⟩ := clear_spec fuel (snapshot_rep n _ none s hs hpar)
    (snapshot_ptr _ _ _ hs) hnodup hcount hsize hfuel
  exact ⟨h', h2, h1, h3, h4, rfl, rfl, rfl⟩

/-- C19: for a well-formed destination tree whose count is its number of nodes and any
source, move assignment returns; the destination then holds the source's former root and
count, and the source is empty: root absent and `size()` 0.  The nodes of the source are
not touched (no cell outside the destination's former nodes changes).  Move construction
is the case of the empty destination. -/
theorem C19_move_assignment_transfers_tree (n : Nat) (h : Heap T) (this rhs : BST)
    (s : Tree T) (fuel : Nat) (hs : snapshot n h this.root = .ok s)
    (hnodup : s.addrs.Nodup) (hpar : s.parentsOk h none = true)
    (hcount : this.numElements = s.size) (hsize : s.size < sizeMod)
    (hfuel : s.size + 1 ≤ fuel) :
    ∃ h', BST.assignMove fuel h this rhs
        = .ok (h', ⟨rhs.root, rhs.numElements⟩, ⟨none, 0⟩) ∧
      (∀ b, b ∉ s.addrs → h'.cell b = h.cell b) ∧
      BST.constructMove fuel h rhs = .ok (h, ⟨rhs.root, rhs.numElements⟩, ⟨none, 0⟩) := by
  obtain ⟨h', -, h2, -, h4⟩ := clear_spec fuel (snapshot_rep n _ none s hs hpar)
    (snapshot_ptr _ _ _ hs) hnodup hcount hsize hfuel
  refine ⟨h', ?_, h4, ?_⟩
  · simp only [BST.assignMove, h2, bind_ok, BST.swap, pure_eq_ok]
  · simp only [BST.constructMove, BST.assignMove, BST.clear, BST.begin, BST.empty,
      ↓reduceIte, pure_eq_ok, bind_ok, clearLoop_none, BST.swap]

end Clear

section ClearWitnesses

theorem C20_clear_erases_every_node_witness :
    snapshot 4 heapC2 (⟨some 1, 6⟩ : BST).root = .ok treeC2 ∧ treeC2.addrs.Nodup ∧
      treeC2.parentsOk heapC2 none = true ∧ (⟨some 1, 6⟩ : BST).numElements = treeC2.size ∧
      treeC2.size < sizeMod ∧ treeC2.size + 1 ≤ 7 ∧
      ∃ h', BST.clear 7 heapC2 ⟨some 1, 6⟩ = .ok (h', ⟨none, 0⟩) ∧
        BST.clearLoop treeC2.size 7 heapC2 ⟨some 1, 6⟩ treeC2.leftmostPtr
          = .ok (h', ⟨(⟨some 1, 6⟩ : BST).root, 0⟩) ∧
        (∀ b ∈ treeC2.addrs, h'.cell b = none) ∧
        (∀ b, b ∉ treeC2.addrs → h'.cell b = heapC2.cell b) ∧
        (⟨none, 0⟩ : BST).root = none ∧ (⟨none, 0⟩ : BST).numElements = 0 ∧
        BST.begin 7 h' ⟨none, 0⟩ = .ok BST.endIt :=
  ⟨rfl, by decide, rfl, rfl, by decide, by decide,
    C20_clear_erases_every_node 4 heapC2 ⟨some 1, 6⟩ treeC2 7 rfl (by decide) rfl rfl
      (by decide) (by decide)⟩

theorem C19_move_assignment_transfers_tree_witness :
    snapshot 4 heapC2 (⟨some 1, 6⟩ : BST).root = .ok treeC2 ∧ treeC2.addrs.Nodup ∧
      treeC2.parentsOk heapC2 none = true ∧ (⟨some 1, 6⟩ : BST).numElements = treeC2.size ∧
      treeC2.size < sizeMod ∧ treeC2.size + 1 ≤ 7 ∧
      ∃ h', BST.assignMove 7 heapC2 ⟨some 1, 6⟩ ⟨none, 0⟩
          = .ok (h', ⟨(⟨none, 0⟩ : BST).root, (⟨none, 0⟩ : BST).numElements⟩, ⟨none, 0⟩) ∧
        (∀ b, b ∉ treeC2.addrs → h'.cell b = heapC2.cell b) ∧
        BST.constructMove 7 heapC2 ⟨none, 0⟩
          = .ok (heapC2, ⟨(⟨none, 0⟩ : BST).root, (⟨none, 0⟩ : BST).numElements⟩,
            ⟨none, 0⟩) :=
  ⟨rfl, by decide, rfl, rfl, by decide, by decide,
    C19_move_assignment_transfers_tree 4 heapC2 ⟨some 1, 6⟩ ⟨none, 0⟩ treeC2 7 rfl
      (by decide) rfl rfl (by decide) (by decide)⟩

end ClearWitnesses

section EraseReturns

variable {T : Type}

theorem ptrIn_none (S : List Nat) : PtrIn S none := fun _ e => by cases e

theorem ptrIn_some {S : List Nat} {a : Nat} (ha : a ∈ S) : PtrIn S (some a) := by
  intro b e
  cases e
  exact ha

theorem Heap.SameData.same_refl (h : Heap T) : h.SameData h := fun _ => rfl

theorem Heap.SameData.same_trans {h1 h2 h3 : Heap T} (a : h1.SameData h2) (b : h2.SameData h3) :
    h1.SameData h3 := fun x => (b x).trans (a x)

/-- An assignment to members of a node of `S` that keeps its element and stores pointers
of `S` succeeds and keeps the heap closed on `S`. -/
theorem closed_modify {h : Heap T} {S : List Nat} {a : Nat} (f : BNode T → BNode T)
    (hcl : h.ClosedOn S) (ha : a ∈ S)
    (hf : ∀ nd, PtrIn S nd.pLeft → PtrIn S nd.pRight → PtrIn S nd.pParent →
      PtrIn S (f nd).pLeft ∧ PtrIn S (f nd).pRight ∧ PtrIn S (f nd).pParent ∧
        (f nd).data = nd.data) :
    ∃ h' nd, h.cell a = some nd ∧ modify h (some a) f = .ok h' ∧ h'.ClosedOn S ∧
      h.SameData h' ∧ h'.cell a = some (f nd) ∧ ∀ b, b ≠ a → h'.cell b = h.cell b := by
  obtain ⟨nd, hc, hl, hr, hp⟩ := hcl a ha
  have hlt := cell_lt_length hc
  obtain ⟨fl, fr, fp, fd⟩ := hf nd hl hr hp
  have hself : (h.store a (f nd)).cell a = some (f nd) := by
    simp only [cell_store, ↓reduceIte, hlt]
  have hother : ∀ b, b ≠ a → (h.store a (f nd)).cell b = h.cell b := by
    intro b hb
    simp only [cell_store, Ne.symm hb, ↓reduceIte]
  refine ⟨h.store a (f nd), nd, hc, ?_, ?_, ?_, hself, hother⟩
  · simp only [modify, hc]
  · intro b hb
    by_cases hba : b = a
    · subst hba
      exact ⟨f nd, hself, fl, fr, fp⟩
    · rw [hother b hba]
      exact hcl b hb
  · intro b
    by_cases hba : b = a
    · subst hba
      rw [hself, hc]
      simp only [Option.map_some', fd]
    · rw [hother b hba]

theorem closed_setLeft {h : Heap T} {S : List Nat} {a : Nat} {x : Ptr} (hcl : h.ClosedOn S)
    (ha : a ∈ S) (hx : PtrIn S x) :
    ∃ h', setLeft h (some a) x = .ok h' ∧ h'.ClosedOn S ∧ h.SameData h' ∧
      ∀ b, b ≠ a → h'.cell b = h.cell b := by
  obtain ⟨h', nd, -, e, cl, sd, -, fr⟩ :=
    closed_modify (fun n => { n with pLeft := x }) hcl ha (fun nd _ hr hp => ⟨hx, hr, hp, rfl⟩)
  exact ⟨h', e, cl, sd, fr⟩

theorem closed_setRight {h : Heap T} {S : List Nat} {a : Nat} {x : Ptr}
    (hcl : h.ClosedOn S) (ha : a ∈ S) (hx : PtrIn S x) :
    ∃ h', setRight h (some a) x = .ok h' ∧ h'.ClosedOn S ∧ h.SameData h' ∧
      ∀ b, b ≠ a → h'.cell b = h.cell b := by
  obtain ⟨h', nd, -, e, cl, sd, -, fr⟩ :=
    closed_modify (fun n => { n with pRight := x }) hcl ha
      (fun nd hl _ hp => ⟨hl, hx, hp, rfl⟩)
  exact ⟨h', e, cl, sd, fr⟩

theorem closed_setParent {h : Heap T} {S : List Nat} {a : Nat} {x : Ptr}
    (hcl : h.ClosedOn S) (ha : a ∈ S) (hx : PtrIn S x) :
    ∃ h', setParent h (some a) x = .ok h' ∧ h'.ClosedOn S ∧ h.SameData h' ∧
      ∀ b, b ≠ a → h'.cell b = h.cell b := by
  obtain ⟨h', nd, -, e, cl, sd, -, fr⟩ :=
    closed_modify (fun n => { n with pParent := x }) hcl ha
      (fun nd hl hr _ => ⟨hl, hr, hx, rfl⟩)
  exact ⟨h', e, cl, sd, fr⟩

theorem closed_addLeft {h : Heap T} {S : List Nat} {a : Nat} {x : Ptr} (hcl : h.ClosedOn S)
    (ha : a ∈ S) (hx : PtrIn S x) :
    ∃ h', BNode.addLeft h (some a) x = .ok h' ∧ h'.ClosedOn S ∧ h.SameData h' ∧
      ∀ b, b ≠ a → x ≠ some b → h'.cell b = h.cell b := by
  obtain ⟨h1, nd, -, e1, cl1, sd1, hs1, fr1⟩ :=
    closed_modify (fun n => { n with pLeft := x }) hcl ha (fun nd _ hr hp => ⟨hx, hr, hp, rfl⟩)
  cases x with
  | none =>
    refine ⟨h1, ?_, cl1, sd1, fun b hb _ => fr1 b hb⟩
    simp only [BNode.addLeft, setLeft, e1, bind_ok, ne_eq, not_true_eq_false, ↓reduceIte,
      pure_eq_ok]
  | some xb =>
    have hxb : xb ∈ S := hx xb rfl
    obtain ⟨h2, e2, cl2, sd2, fr2⟩ := closed_setParent (x := some a) cl1 hxb (ptrIn_some ha)
    refine ⟨h2, ?_, cl2, sd1.same_trans sd2, ?_⟩
    · simp only [BNode.addLeft, setLeft, e1, bind_ok, ne_eq, reduceCtorEq, not_false_eq_true,
        ↓reduceIte, load_some hs1, e2]
    · intro b hba hbx
      rw [fr2 b (fun e => hbx (by rw [e])), fr1 b hba]

theorem closed_addRight {h : Heap T} {S : List Nat} {a : Nat} {x : Ptr}
    (hcl : h.ClosedOn S) (ha : a ∈ S) (hx : PtrIn S x) :
    ∃ h', BNode.addRight h (some a) x = .ok h' ∧ h'.ClosedOn S ∧ h.SameData h' ∧
      ∀ b, b ≠ a → x ≠ some b → h'.cell b = h.cell b := by
  obtain ⟨h1, nd, -, e1, cl1, sd1, hs1, fr1⟩ :=
    closed_modify (fun n => { n with pRight := x }) hcl ha
      (fun nd hl _ hp => ⟨hl, hx, hp, rfl⟩)
  cases x with
  | none =>
    refine ⟨h1, ?_, cl1, sd1, fun b hb _ => fr1 b hb⟩
    simp only [BNode.addRight, setRight, e1, bind_ok, ne_eq, not_true_eq_false, ↓reduceIte,
      pure_eq_ok]
  | some xb =>
    have hxb : xb ∈ S := hx xb rfl
    obtain ⟨h2, e2, cl2, sd2, fr2⟩ := closed_setParent (x := some a) cl1 hxb (ptrIn_some ha)
    refine ⟨h2, ?_, cl2, sd1.same_trans sd2, ?_⟩
    · simp only [BNode.addRight, setRight, e1, bind_ok, ne_eq, reduceCtorEq,
        not_false_eq_true, ↓reduceIte, load_some hs1, e2]
    · intro b hba hbx
      rw [fr2 b (fun e => hbx (by rw [e])), fr1 b hba]

theorem closed_isRightChild {h : Heap T} {S : List Nat} {p : Nat} (hcl : h.ClosedOn S)
    (hp : p ∈ S) (it : Ptr) : ∃ c, BNode.isRightChild h (some p) it = .ok c := by
  obtain ⟨nd, hc, -⟩ := hcl p hp
  exact ⟨decide (nd.pRight = it),
    by simp only [BNode.isRightChild, load_some hc, bind_ok, pure_eq_ok]⟩

theorem closed_isLeftChild {h : Heap T} {S : List Nat} {p : Nat} (hcl : h.ClosedOn S)
    (hp : p ∈ S) (it : Ptr) : ∃ c, BNode.isLeftChild h (some p) it = .ok c := by
  obtain ⟨nd, hc, -⟩ := hcl p hp
  exact ⟨decide (nd.pLeft = it),
    by simp only [BNode.isLeftChild, load_some hc, bind_ok, pure_eq_ok]⟩

/-- The test `p != nullptr && p->isRightChild(it)` on a closed heap. -/
theorem closed_guardRight {h : Heap T} {S : List Nat} {p : Ptr} (hcl : h.ClosedOn S)
    (hp : PtrIn S p) (it : Ptr) :
    ∃ c, (if p ≠ none then BNode.isRightChild h p it else pure false) = .ok c ∧
      (c = true → ∃ b, p = some b ∧ b ∈ S) := by
  cases p with
  | none => exact ⟨false, rfl, fun e => by cases e⟩
  | some b =>
    obtain ⟨c, hc⟩ := closed_isRightChild hcl (hp b rfl) it
    exact ⟨c, by simp only [ne_eq, reduceCtorEq, not_false_eq_true, ↓reduceIte, hc],
      fun _ => ⟨b, rfl, hp b rfl⟩⟩

/-- The test `p != nullptr && p->isLeftChild(it)` on a closed heap. -/
theorem closed_guardLeft {h : Heap T} {S : List Nat} {p : Ptr} (hcl : h.ClosedOn S)
    (hp : PtrIn S p) (it : Ptr) :
    ∃ c, (if p ≠ none then BNode.isLeftChild h p it else pure false) = .ok c ∧
      (c = true → ∃ b, p = some b ∧ b ∈ S) := by
  cases p with
  | none => exact ⟨false, rfl, fun e => by cases e⟩
  | some b =>
    obtain ⟨c, hc⟩ := closed_isLeftChild hcl (hp b rfl) it
    exact ⟨c, by simp only [ne_eq, reduceCtorEq, not_false_eq_true, ↓reduceIte, hc],
      fun _ => ⟨b, rfl, hp b rfl⟩⟩

theorem closed_condSetRight {h : Heap T} {S : List Nat} {p x : Ptr} {c : Bool}
    (hcl : h.ClosedOn S) (hp : c = true → ∃ b, p = some b ∧ b ∈ S) (hx : PtrIn S x) :
    ∃ h', (if c = true then setRight h p x else pure h) = .ok h' ∧ h'.ClosedOn S ∧
      h.SameData h' := by
  cases c with
  | false => exact ⟨h, rfl, hcl, Heap.SameData.same_refl h⟩
  | true =>
    obtain ⟨b, rfl, hb⟩ := hp rfl
    obtain ⟨h', e, cl, sd, -⟩ := closed_setRight hcl hb hx
    exact ⟨h', by simp only [↓reduceIte, e], cl, sd⟩

theorem closed_condSetLeft {h : Heap T} {S : List Nat} {p x : Ptr} {c : Bool}
    (hcl : h.ClosedOn S) (hp : c = true → ∃ b, p = some b ∧ b ∈ S) (hx : PtrIn S x) :
    ∃ h', (if c = true then setLeft h p x else pure h) = .ok h' ∧ h'.ClosedOn S ∧
      h.SameData h' := by
  cases c with
  | false => exact ⟨h, rfl, hcl, Heap.SameData.same_refl h⟩
  | true =>
    obtain ⟨b, rfl, hb⟩ := hp rfl
    obtain ⟨h', e, cl, sd, -⟩ := closed_setLeft hcl hb hx
    exact ⟨h', by simp only [↓reduceIte, e], cl, sd⟩

/-- Case 1 of `erase` on a closed heap returns. -/
theorem eraseLeaf_ok {h : Heap T} {S : List Nat} {a : Nat} (hcl : h.ClosedOn S)
    (ha : a ∈ S) : ∃ h', eraseLeaf h (some a) = .ok h' ∧ h.SameData h' := by
  obtain ⟨nd, hc, hl, hr, hp⟩ := hcl a ha
  cases hpp : nd.pParent with
  | none =>
    exact ⟨h, by simp only [eraseLeaf, load_some hc, bind_ok, hpp, ne_eq, not_true_eq_false,
      ↓reduceIte, pure_eq_ok], Heap.SameData.same_refl h⟩
  | some p =>
    have hpS : p ∈ S := hp p hpp
    obtain ⟨c, hcc⟩ := closed_isRightChild hcl hpS (some a)
    cases c with
    | true =>
      obtain ⟨h', e, -, sd, -⟩ := closed_setRight (x := none) hcl hpS (ptrIn_none S)
      exact ⟨h', by simp only [eraseLeaf, load_some hc, bind_ok, hpp, ne_eq, reduceCtorEq,
        not_false_eq_true, ↓reduceIte, hcc, e], sd⟩
    | false =>
      obtain ⟨h', e, -, sd, -⟩ := closed_setLeft (x := none) hcl hpS (ptrIn_none S)
      exact ⟨h', by simp only [eraseLeaf, load_some hc, bind_ok, hpp, ne_eq, reduceCtorEq,
        not_false_eq_true, ↓reduceIte, hcc, e, Bool.false_eq_true], sd⟩

/-- Case 2 of `erase`, first branch, on a closed heap returns. -/
theorem eraseLeftOnly_ok {h : Heap T} {S : List Nat} {a : Nat} {nd : BNode T}
    (hcl : h.ClosedOn S) (ha : a ∈ S) (hc : h.cell a = some nd) (hne : nd.pLeft ≠ none) :
    ∃ h', eraseLeftOnly h (some a) = .ok h' ∧ h.SameData h' := by
  obtain ⟨nd0, hc0, hl, hr, hp⟩ := hcl a ha
  rw [hc] at hc0
  cases hc0
  obtain ⟨lb, hlb⟩ : ∃ lb, nd.pLeft = some lb := Option.ne_none_iff_exists'.mp hne
  obtain ⟨h1, e1, cl1, sd1, -⟩ := closed_setParent (x := nd.pParent) hcl (hl lb hlb) hp
  obtain ⟨n1, hc1, hl1, hr1, hp1⟩ := cl1 a ha
  obtain ⟨c1, ec1, hc1t⟩ := closed_guardRight cl1 hp1 (some a)
  obtain ⟨h2, e2, cl2, sd2⟩ := closed_condSetRight (c := c1) (p := n1.pParent)
    (x := n1.pLeft) cl1 hc1t hl1
  obtain ⟨n2, hc2, hl2, hr2, hp2⟩ := cl2 a ha
  obtain ⟨c2, ec2, hc2t⟩ := closed_guardLeft cl2 hp2 (some a)
  obtain ⟨h3, e3, cl3, sd3⟩ := closed_condSetLeft (c := c2) (p := n2.pParent)
    (x := n2.pLeft) cl2 hc2t hl2
  refine ⟨h3, ?_, (sd1.same_trans sd2).same_trans sd3⟩
  simp only [eraseLeftOnly, load_some hc, bind_ok, hlb]
  simp only [e1, bind_ok, load_some hc1, ec1, e2, load_some hc2, ec2, e3]

/-- Case 2 of `erase`, second branch, on a closed heap returns. -/
theorem eraseRightOnly_ok {h : Heap T} {S : List Nat} {a : Nat} {nd : BNode T}
    (hcl : h.ClosedOn S) (ha : a ∈ S) (hc : h.cell a = some nd) (hne : nd.pRight ≠ none) :
    ∃ h', eraseRightOnly h (some a) = .ok h' ∧ h.SameData h' := by
  obtain ⟨nd0, hc0, hl, hr, hp⟩ := hcl a ha
  rw [hc] at hc0
  cases hc0
  obtain ⟨rb, hrb⟩ : ∃ rb, nd.pRight = some rb := Option.ne_none_iff_exists'.mp hne
  obtain ⟨h1, e1, cl1, sd1, -⟩ := closed_setParent (x := nd.pParent) hcl (hr rb hrb) hp
  obtain ⟨n1, hc1, hl1, hr1, hp1⟩ := cl1 a ha
  obtain ⟨c1, ec1, hc1t⟩ := closed_guardRight cl1 hp1 (some a)
  obtain ⟨h2, e2, cl2, sd2⟩ := closed_condSetRight (c := c1) (p := n1.pParent)
    (x := n1.pRight) cl1 hc1t hr1
  obtain ⟨n2, hc2, hl2, hr2, hp2⟩ := cl2 a ha
  obtain ⟨c2, ec2, hc2t⟩ := closed_guardLeft cl2 hp2 (some a)
  obtain ⟨h3, e3, cl3, sd3⟩ := closed_condSetLeft (c := c2) (p := n2.pParent)
    (x := n2.pRight) cl2 hc2t hr2
  refine ⟨h3, ?_, (sd1.same_trans sd2).same_trans sd3⟩
  simp only [eraseRightOnly, load_some hc, bind_ok, hrb]
  simp only [e1, bind_ok, load_some hc1, ec1, e2, load_some hc2, ec2, e3]

/-- Case 3 of `erase` returns on a closed heap when the erased node has a right child, is
not its own parent, and the successor is another node of the heap. -/
theorem eraseTwoChildren_ok {h : Heap T} {S : List Nat} {a sb : Nat} {o : BNode T}
    (root : Ptr) (hcl : h.ClosedOn S) (ha : a ∈ S) (hsb : sb ∈ S) (hne : a ≠ sb)
    (hc : h.cell a = some o) (hr : o.pRight ≠ none) (hpar : o.pParent ≠ some a) :
    ∃ h' root', eraseTwoChildren h root (some a) (some sb) = .ok (h', root') ∧
      h.SameData h' := by
  obtain ⟨o0, hc0, hol, hor, hop⟩ := hcl a ha
  rw [hc] at hc0
  cases hc0
  obtain ⟨rb, hrb⟩ : ∃ rb, o.pRight = some rb := Option.ne_none_iff_exists'.mp hr
  -- the slot above the erased node takes the successor
  obtain ⟨h1, root1, e1, cl1, sd1, hc1⟩ : ∃ h1 root1,
      (do
        if o.pParent = none then
          let h ← setParent h (some sb) none
          pure (h, some sb)
        else if (← BNode.isLeftChild h o.pParent (some a)) then
          let h ← BNode.addLeft h o.pParent (some sb)
          pure (h, root)
        else
          let h ← BNode.addRight h o.pParent (some sb)
          pure (h, root)) = Except.ok (h1, root1) ∧
      h1.ClosedOn S ∧ h.SameData h1 ∧ h1.cell a = some o := by
    cases hpp : o.pParent with
    | none =>
      obtain ⟨h1, e, cl, sd, fr⟩ := closed_setParent (x := none) hcl hsb (ptrIn_none S)
      refine ⟨h1, some sb, ?_, cl, sd, ?_⟩
      · simp only [↓reduceIte, e, bind_ok, pure_eq_ok]
      · rw [fr a hne, hc]
    | some p =>
      have hpS : p ∈ S := hop p hpp
      have hpa : a ≠ p := fun e => hpar (by rw [hpp, e])
      obtain ⟨c, hcc⟩ := closed_isLeftChild hcl hpS (some a)
      cases c with
      | true =>
        obtain ⟨h1, e, cl, sd, fr⟩ := closed_addLeft (x := some sb) hcl hpS (ptrIn_some hsb)
        refine ⟨h1, root, ?_, cl, sd, ?_⟩
        · simp only [reduceCtorEq, ↓reduceIte, hcc, bind_ok, e, pure_eq_ok]
        · rw [fr a hpa (fun e => hne (by cases e; rfl)), hc]
      | false =>
        obtain ⟨h1, e, cl, sd, fr⟩ := closed_addRight (x := some sb) hcl hpS (ptrIn_some hsb)
        refine ⟨h1, root, ?_, cl, sd, ?_⟩
        · simp only [reduceCtorEq, ↓reduceIte, hcc, bind_ok, e, pure_eq_ok,
            Bool.false_eq_true]
        · rw [fr a hpa (fun e => hne (by cases e; rfl)), hc]
  obtain ⟨s, hcs, hsl, hsr, hsp⟩ := cl1 sb hsb
  obtain ⟨h2, e2, cl2, sd2, -⟩ := closed_addLeft (x := s.pRight) cl1 (hor rb hrb) hsr
  obtain ⟨o2, hc2, ho2l, ho2r, ho2p⟩ := cl2 a ha
  obtain ⟨h3, e3, cl3, sd3, -⟩ := closed_addLeft (x := o2.pLeft) cl2 hsb ho2l
  obtain ⟨o3, hc3, ho3l, ho3r, ho3p⟩ := cl3 a ha
  obtain ⟨h4, e4, cl4, sd4, -⟩ := closed_addRight (x := o3.pRight) cl3 hsb ho3r
  by_cases hrs : o.pRight = some sb
  · refine ⟨h3, root1, ?_, ((sd1.same_trans sd2).same_trans sd3)⟩
    simp only [eraseTwoChildren, load_some hc, bind_ok]
    simp only [e1, bind_ok, load_some hc1, load_some hcs, hrb, e2, load_some hc2, e3]
    simp only [← hrb, hrs, ne_eq, not_true_eq_false, ↓reduceIte, pure_eq_ok]
  · refine ⟨h4, root1, ?_, (((sd1.same_trans sd2).same_trans sd3).same_trans sd4)⟩
    simp only [eraseTwoChildren, load_some hc, bind_ok]
    simp only [e1, bind_ok, load_some hc1, load_some hcs, hrb, e2, load_some hc2, e3]
    simp only [← hrb, hrs, ne_eq, not_false_eq_true, ↓reduceIte, load_some hc3, bind_ok, e4,
      pure_eq_ok]

theorem closedOn_of_rep {h : Heap T} {S : List Nat} :
    ∀ (t : Tree T) (par : Ptr), t.Rep h par → PtrIn S par → (∀ b ∈ t.addrs, b ∈ S) →
      ∀ b ∈ t.addrs, ∃ nd, h.cell b = some nd ∧
        PtrIn S nd.pLeft ∧ PtrIn S nd.pRight ∧ PtrIn S nd.pParent
  | .nil, _, _, _, _, b, hb => by simp [Tree.addrs] at hb
  | .node l a c v r, par, ⟨hc, hl, hr⟩, hpar, hsub, b, hb => by
    have hsl : ∀ x ∈ l.addrs, x ∈ S := fun x hx => hsub x (by simp [Tree.addrs, hx])
    have hsr : ∀ x ∈ r.addrs, x ∈ S := fun x hx => hsub x (by simp [Tree.addrs, hx])
    have haS : a ∈ S := hsub a (by simp [Tree.addrs])
    simp only [Tree.addrs, List.mem_append, List.mem_cons] at hb
    rcases hb with hb | rfl | hb
    · exact closedOn_of_rep l (some a) hl (ptrIn_some haS) hsl b hb
    · exact ⟨_, hc, fun x hx => hsl x (ptr_mem_addrs hx), fun x hx => hsr x (ptr_mem_addrs hx),
        hpar⟩
    · exact closedOn_of_rep r (some a) hr (ptrIn_some haS) hsr b hb

theorem closedOn_tree {h : Heap T} {s : Tree T} (hrep : s.Rep h none) :
    h.ClosedOn s.addrs :=
  fun a ha => closedOn_of_rep s none hrep (ptrIn_none _) (fun _ hb => hb) a ha

theorem nextIn_mem {a b : Nat} : ∀ (xs : List Nat), nextIn xs a = some b → b ∈ xs
  | [], e => by cases e
  | x :: xs, e => by
    simp only [nextIn] at e
    split at e
    · exact List.mem_cons_of_mem _ (List.mem_of_mem_head? e)
    · exact List.mem_cons_of_mem _ (nextIn_mem xs e)

theorem nextIn_ne {a b : Nat} : ∀ (xs : List Nat), xs.Nodup → nextIn xs a = some b → b ≠ a
  | [], _, e => by cases e
  | x :: xs, hnd, e => by
    obtain ⟨hx, hxs⟩ := List.nodup_cons.mp hnd
    simp only [nextIn] at e
    split at e
    · rename_i hxa
      subst hxa
      intro hba
      subst hba
      exact hx (List.mem_of_mem_head? e)
    · exact nextIn_ne xs hxs e

theorem nextIn_eq_none {a : Nat} :
    ∀ (xs : List Nat), xs.Nodup → a ∈ xs → (nextIn xs a = none ↔ xs.getLast? = some a)
  | [], _, ha => by cases ha
  | [x], _, ha => by
    simp only [List.mem_singleton] at ha
    subst ha
    simp [nextIn]
  | x :: y :: xs, hnd, ha => by
    obtain ⟨hx, hxs⟩ := List.nodup_cons.mp hnd
    simp only [nextIn, List.getLast?_cons_cons]
    by_cases hxa : x = a
    · subst hxa
      simp only [↓reduceIte, List.head?_cons, reduceCtorEq, false_iff]
      intro hlast
      exact hx (List.mem_of_mem_getLast? hlast)
    · have ha' : a ∈ y :: xs := by
        rcases List.mem_cons.mp ha with e | e
        · exact absurd e.symm hxa
        · exact e
      have ih := nextIn_eq_none (y :: xs) hxs ha'
      simp only [nextIn] at ih
      simp only [hxa, ↓reduceIte]
      exact ih

/-- `erase` at any node of a well-formed tree returns the iterator that `++` gives before
the deletion; the node is deleted and no other node is freed or gets another element. -/
theorem erase_returns {h : Heap T} {s : Tree T} {a : Nat} (fuel : Nat) (tree : BST)
    (hrep : s.Rep h none) (hnodup : s.addrs.Nodup) (ha : a ∈ s.addrs)
    (hfuel : s.height ≤ fuel) :
    ∃ h' root', BST.erase fuel h tree (some a) =
        .ok (h', ⟨root', decrSize tree.numElements⟩, nextIn s.addrs a) ∧
      h'.cell a = none ∧
      ∀ b, b ≠ a → (h'.cell b).map (fun nd => nd.data) = (h.cell b).map (fun nd => nd.data) := by
  have hcl := closedOn_tree hrep
  have hinc := inc_next fuel hrep hnodup ha hfuel
  obtain ⟨nd, hc, hpl, hpr, hpp⟩ := hcl a ha
  have hfin : ∀ h1 : Heap T, h.SameData h1 →
      (delete h1 a).cell a = none ∧ ∀ b, b ≠ a →
        ((delete h1 a).cell b).map (fun nd => nd.data) = (h.cell b).map (fun nd => nd.data) := by
    intro h1 sd
    refine ⟨by simp only [cell_delete, ↓reduceIte], fun b hb => ?_⟩
    simp only [cell_delete, Ne.symm hb, ↓reduceIte]
    exact sd b
  by_cases hR : nd.pRight = none
  · by_cases hL : nd.pLeft = none
    · obtain ⟨h1, e1, sd1⟩ := eraseLeaf_ok hcl ha
      refine ⟨delete h1 a, tree.root, ?_, hfin h1 sd1⟩
      simp only [BST.erase, hinc, bind_ok, load_some hc, hR, hL, and_self, ↓reduceIte, e1,
        pure_eq_ok]
    · obtain ⟨h1, e1, sd1⟩ := eraseLeftOnly_ok hcl ha hc hL
      refine ⟨delete h1 a, tree.root, ?_, hfin h1 sd1⟩
      simp only [BST.erase, hinc, bind_ok, load_some hc, hR, hL, and_false, ↓reduceIte, ne_eq,
        not_false_eq_true, and_self, e1, pure_eq_ok]
  · by_cases hL : nd.pLeft = none
    · obtain ⟨h1, e1, sd1⟩ := eraseRightOnly_ok hcl ha hc hR
      refine ⟨delete h1 a, tree.root, ?_, hfin h1 sd1⟩
      simp only [BST.erase, hinc, bind_ok, load_some hc, hR, hL, false_and, ↓reduceIte, ne_eq,
        not_false_eq_true, and_self, e1, pure_eq_ok]
    · obtain ⟨l, c, v, r, k, hk⟩ := exists_position s [] ha
      simp only [plug] at hk
      subst hk
      obtain ⟨hrep1, hctx⟩ := (rep_plug k _).mp hrep
      have hperm := plug_addrs_perm k (Tree.node l a c v r)
      have hnd1 := (List.Perm.nodup_iff hperm).mp hnodup
      have hc' : h.cell a = some ⟨v, l.ptr, r.ptr, ctxPtr k, c⟩ := hrep1.1
      rw [hc] at hc'
      cases hc'
      have hrn : r ≠ .nil := fun e => hR (ptr_eq_none.mpr e)
      obtain ⟨sb, hsb⟩ : ∃ sb, r.leftmostPtr = some sb :=
        Option.ne_none_iff_exists'.mp (fun e => hrn (leftmostPtr_eq_none.mp e))
      obtain ⟨-, -, -, hsbr, -⟩ := leftmost_cell r hrep1.2.2.skel sb hsb
      have hnext : nextIn (plug (Tree.node l a c v r) k).addrs a = some sb := by
        rw [← succPtr_eq_nextIn hnodup]
        simp only [succPtr, hsb]
      simp only [Tree.addrs, List.append_assoc, List.cons_append] at hnd1
      have hna : a ∉ r.addrs ++ ctxAddrs k := by
        have := (List.nodup_append.mp hnd1).2.1
        exact (List.nodup_cons.mp this).1
      have hasb : a ≠ sb := fun e => hna (List.mem_append_left _ (e ▸ hsbr))
      have hsbS : sb ∈ (plug (Tree.node l a c v r) k).addrs :=
        hperm.mem_iff.mpr (by simp [Tree.addrs, hsbr])
      have hpar : (⟨v, l.ptr, r.ptr, ctxPtr k, c⟩ : BNode T).pParent ≠ some a :=
        fun e => hna (List.mem_append_right _ (ctxPtr_mem e))
      obtain ⟨h1, root1, e1, sd1⟩ := eraseTwoChildren_ok tree.root hcl ha hsbS hasb hc hR hpar
      refine ⟨delete h1 a, root1, ?_, hfin h1 sd1⟩
      rw [hnext] at hinc ⊢
      simp only [BST.erase, hinc, bind_ok, load_some hc, hR, hL, false_and, and_false,
        ↓reduceIte, ne_eq, not_true_eq_false, e1, pure_eq_ok]

/-- C12: for a well-formed tree (no node reached twice, parent links consistent with child
links, the root without parent) and an iterator at a node `a` of the tree, `erase`
returns, and the returned iterator is at the node after `a` in the in-order sequence
before the call — `end()` exactly when `a` was the last node.  That node is still in the
free store after the call, with its element. -/
theorem C12_erase_returns_successor (n : Nat) (h : Heap T) (tree : BST) (s : Tree T)
    (a : Nat) (fuel : Nat) (hs : snapshot n h tree.root = .ok s) (hnodup : s.addrs.Nodup)
    (hpar : s.parentsOk h none = true) (ha : a ∈ s.addrs) (hfuel : s.height ≤ fuel) :
    ∃ h' tree', BST.erase fuel h tree (some a) = .ok (h', tree', nextIn s.addrs a) ∧
      (nextIn s.addrs a = BST.endIt ↔ s.addrs.getLast? = some a) ∧
      ∀ b, nextIn s.addrs a = some b →
        b ∈ s.addrs ∧ ∃ nd nd', h.cell b = some nd ∧ h'.cell b = some nd' ∧
          nd'.data = nd.data := by
  have hrep := snapshot_rep n _ none s hs hpar
  obtain ⟨h', root', he, -, hdata⟩ := erase_returns fuel tree hrep hnodup ha hfuel
  refine ⟨h', _, he, nextIn_eq_none s.addrs hnodup ha, ?_⟩
  intro b hb
  have hbm := nextIn_mem s.addrs hb
  have hba := nextIn_ne s.addrs hnodup hb
  obtain ⟨nd, hc, -⟩ := closedOn_tree hrep b hbm
  have hd := hdata b hba
  rw [hc] at hd
  simp only [Option.map_some', Option.map_eq_some'] at hd
  obtain ⟨nd', hc', hd'⟩ := hd
  exact ⟨hbm, nd, nd', hc, hc', hd'⟩

end EraseReturns

section EraseWitnesses

theorem C12_erase_returns_successor_witness :
    snapshot 4 heapC2 (⟨some 1, 6⟩ : BST).root = .ok treeC2 ∧ treeC2.addrs.Nodup ∧
      treeC2.parentsOk heapC2 none = true ∧ 1 ∈ treeC2.addrs ∧ treeC2.height ≤ 4 ∧
      ∃ h' tree', BST.erase 4 heapC2 ⟨some 1, 6⟩ (some 1)
          = .ok (h', tree', nextIn treeC2.addrs 1) ∧
        (nextIn treeC2.addrs 1 = BST.endIt ↔ treeC2.addrs.getLast? = some 1) ∧
        ∀ b, nextIn treeC2.addrs 1 = some b →
          b ∈ treeC2.addrs ∧ ∃ nd nd', heapC2.cell b = some nd ∧ h'.cell b = some nd' ∧
            nd'.data = nd.data :=
  ⟨rfl, by decide, rfl, by decide, by decide,
    C12_erase_returns_successor 4 heapC2 ⟨some 1, 6⟩ treeC2 1 4 rfl (by decide) rfl
      (by decide) (by decide)⟩

end EraseWitnesses

section Copy

variable {T : Type}

theorem slot_get {h : Heap T} {root x : Ptr} {sl : Slot} (hh : sl.Holds h root x) :
    sl.get h root = .ok x := by
  cases sl with
  | root =>
    cases hh
    rfl
  | left p =>
    obtain ⟨a, nd, rfl, hc, rfl⟩ := hh
    simp only [Slot.get, load_some hc, bind_ok, pure_eq_ok]
  | right p =>
    obtain ⟨a, nd, rfl, hc, rfl⟩ := hh
    simp only [Slot.get, load_some hc, bind_ok, pure_eq_ok]

theorem holds_frame {h h' : Heap T} {root x : Ptr} {sl : Slot} (hh : sl.Holds h root x)
    (hsame : ∀ a, sl.owner = some a → h'.cell a = h.cell a) : sl.Holds h' root x := by
  cases sl with
  | root => exact hh
  | left p =>
    obtain ⟨a, nd, rfl, hc, rfl⟩ := hh
    exact ⟨a, nd, rfl, (hsame a rfl).trans hc, rfl⟩
  | right p =>
    obtain ⟨a, nd, rfl, hc, rfl⟩ := hh
    exact ⟨a, nd, rfl, (hsame a rfl).trans hc, rfl⟩

theorem holds_owner_lt {h : Heap T} {root x : Ptr} {sl : Slot} (hh : sl.Holds h root x)
    {a : Nat} (ha : sl.owner = some a) : a < h.length := by
  cases sl with
  | root => cases ha
  | left p =>
    obtain ⟨b, nd, rfl, hc, -⟩ := hh
    cases ha
    exact cell_lt_length hc
  | right p =>
    obtain ⟨b, nd, rfl, hc, -⟩ := hh
    cases ha
    exact cell_lt_length hc

/-- An assignment to a slot. -/
theorem slot_set {h : Heap T} {root x : Ptr} {sl : Slot} (hh : sl.Holds h root x) (y : Ptr) :
    ∃ h', sl.set h root y = .ok (h', sl.rootAfter root y) ∧
      sl.Holds h' (sl.rootAfter root y) y ∧ h'.length = h.length ∧
      (∀ b, sl.owner ≠ some b → h'.cell b = h.cell b) ∧
      (∀ a nd, sl.owner = some a → h.cell a = some nd → h'.cell a = some (sl.upd y nd)) := by
  cases sl with
  | root =>
    exact ⟨h, rfl, rfl, rfl, fun _ _ => rfl, fun a nd e _ => by cases e⟩
  | left p =>
    obtain ⟨a, nd, rfl, hc, rfl⟩ := hh
    have hlt := cell_lt_length hc
    refine ⟨h.store a { nd with pLeft := y }, ?_, ⟨a, { nd with pLeft := y }, rfl, ?_, rfl⟩,
      length_store _ _ _,
      ?_, ?_⟩
    · simp only [Slot.set, setLeft, modify, hc, bind_ok, pure_eq_ok, Slot.rootAfter]
    · simp only [cell_store, ↓reduceIte, hlt]
    · intro b hb
      have hba : a ≠ b := fun e => hb (by rw [e]; rfl)
      simp only [cell_store, hba, ↓reduceIte]
    · intro b nb e hcb
      cases e
      rw [hc] at hcb
      cases hcb
      simp only [cell_store, ↓reduceIte, hlt, Slot.upd]
  | right p =>
    obtain ⟨a, nd, rfl, hc, rfl⟩ := hh
    have hlt := cell_lt_length hc
    refine ⟨h.store a { nd with pRight := y }, ?_, ⟨a, { nd with pRight := y }, rfl, ?_, rfl⟩,
      length_store _ _ _,
      ?_, ?_⟩
    · simp only [Slot.set, setRight, modify, hc, bind_ok, pure_eq_ok, Slot.rootAfter]
    · simp only [cell_store, ↓reduceIte, hlt]
    · intro b hb
      have hba : a ≠ b := fun e => hb (by rw [e]; rfl)
      simp only [cell_store, hba, ↓reduceIte]
    · intro b nb e hcb
      cases e
      rw [hc] at hcb
      cases hcb
      simp only [cell_store, ↓reduceIte, hlt, Slot.upd]

theorem snapshot_held {h : Heap T} :
    ∀ (n : Nat) (p : Ptr) (s : Tree T), snapshot n h p = .ok s → s.Held h := by
  intro n
  induction n with
  | zero =>
    intro p s hs
    cases p with
    | none =>
      rw [snapshot_none] at hs
      cases hs
      trivial
    | some a => exact absurd hs (snapshot_zero_some h a s)
  | succ n ih =>
    intro p s hs
    cases p with
    | none =>
      rw [snapshot_none] at hs
      cases hs
      trivial
    | some a =>
      obtain ⟨nd, l, r, hnd, hl, hr, rfl⟩ := snapshot_succ_ok.mp hs
      exact ⟨⟨nd, hnd, rfl, (snapshot_ptr _ _ _ hl).symm, (snapshot_ptr _ _ _ hr).symm, rfl⟩,
        ih _ _ hl, ih _ _ hr⟩

theorem Tree.Held.heldFrame {h h' : Heap T} :
    ∀ {t : Tree T}, t.Held h → (∀ b ∈ t.addrs, h'.cell b = h.cell b) → t.Held h'
  | .nil, _, _ => trivial
  | .node l a c v r, ⟨⟨nd, hc, hd⟩, hl, hr⟩, hsame => by
    refine ⟨⟨nd, ?_, hd⟩, hl.heldFrame (fun b hb => hsame b ?_),
      hr.heldFrame (fun b hb => hsame b ?_)⟩
    · rw [hsame a (by simp [Tree.addrs])]
      exact hc
    · simp [Tree.addrs, hb]
    · simp [Tree.addrs, hb]

theorem held_lt {h : Heap T} :
    ∀ {t : Tree T}, t.Held h → ∀ b ∈ t.addrs, b < h.length
  | .nil, _, b, hb => by simp [Tree.addrs] at hb
  | .node l a c v r, ⟨⟨nd, hc, _⟩, hl, hr⟩, b, hb => by
    simp only [Tree.addrs, List.mem_append, List.mem_cons] at hb
    rcases hb with hb | rfl | hb
    · exact held_lt hl b hb
    · exact cell_lt_length hc
    · exact held_lt hr b hb

/-- A tree that the heap holds with all members is what `snapshot` reads, and its parent
links pass the check. -/
theorem rep_snapshot {h : Heap T} :
    ∀ (t : Tree T) (par : Ptr) (m : Nat), t.Rep h par → t.height ≤ m →
      snapshot m h t.ptr = .ok t ∧ t.parentsOk h par = true
  | .nil, _, m, _, _ => ⟨snapshot_none m h, rfl⟩
  | .node l a c v r, par, m, ⟨hc, hl, hr⟩, hm => by
    simp only [Tree.height] at hm
    obtain ⟨m, rfl⟩ : ∃ m', m = m' + 1 := ⟨m - 1, by omega⟩
    obtain ⟨l1, l2⟩ := rep_snapshot l (some a) m hl (by omega)
    obtain ⟨r1, r2⟩ := rep_snapshot r (some a) m hr (by omega)
    refine ⟨snapshot_succ_ok.mpr ⟨_, l, r, hc, l1, r1, rfl⟩, ?_⟩
    simp only [Tree.parentsOk, Heap.parent, hc, Option.map_some', decide_True, l2, r2,
      Bool.and_self]

/-- The parent link of the top node of a tree is assigned. -/
theorem rep_setTop {h : Heap T} {t : Tree T} {p0 p : Ptr} (hrep : t.Rep h p0)
    (hnd : t.addrs.Nodup) :
    ∃ h', (if t.ptr ≠ none then setParent h t.ptr p else pure h) = .ok h' ∧ t.Rep h' p ∧
      h'.length = h.length ∧ ∀ b, t.ptr ≠ some b → h'.cell b = h.cell b := by
  cases t with
  | nil => exact ⟨h, rfl, trivial, rfl, fun _ _ => rfl⟩
  | node l a c v r =>
    obtain ⟨hc, hl, hr⟩ := hrep
    have hlt := cell_lt_length hc
    have hother : ∀ b, b ≠ a → (h.store a ⟨v, l.ptr, r.ptr, p, c⟩).cell b = h.cell b := by
      intro b hb
      simp only [cell_store, Ne.symm hb, ↓reduceIte]
    obtain ⟨h1, h2, h3⟩ := List.nodup_append.mp hnd
    refine ⟨h.store a ⟨v, l.ptr, r.ptr, p, c⟩, ?_, ⟨?_, ?_, ?_⟩, length_store _ _ _, ?_⟩
    · simp only [Tree.ptr, ne_eq, reduceCtorEq, not_false_eq_true, ↓reduceIte, setParent,
        modify, hc]
    · simp only [cell_store, ↓reduceIte, hlt]
    · exact hl.repFrame (fun b hb => hother b (fun e => h3 hb (e ▸ List.mem_cons_self _ _)))
    · exact hr.repFrame (fun b hb => hother b (fun e => (List.nodup_cons.mp h2).1 (e ▸ hb)))
    · intro b hb
      exact hother b (fun e => hb (by rw [e]; rfl))

/-- `deleteBinaryTree` on a tree in the heap deletes its nodes and nothing else. -/
theorem deleteBinaryTree_spec {h : Heap T} :
    ∀ (t : Tree T) (fuel : Nat), t.Skel h → t.addrs.Nodup → t.height ≤ fuel →
      ∃ h', deleteBinaryTree fuel h t.ptr = .ok h' ∧ h'.length = h.length ∧
        (∀ b ∈ t.addrs, h'.cell b = none) ∧ ∀ b, b ∉ t.addrs → h'.cell b = h.cell b := by
  intro t
  induction t generalizing h with
  | nil =>
    intro fuel _ _ _
    refine ⟨h, ?_, rfl, fun b hb => by simp [Tree.addrs] at hb, fun _ _ => rfl⟩
    cases fuel <;> rfl
  | node l a c v r ihl ihr =>
    intro fuel hsk hnd hf
    obtain ⟨hc, hl, hr⟩ := hsk
    simp only [Tree.height] at hf
    obtain ⟨fuel, rfl⟩ : ∃ m', fuel = m' + 1 := ⟨fuel - 1, by omega⟩
    simp only [Heap.kids, Option.map_eq_some', Prod.mk.injEq] at hc
    obtain ⟨nd, hnd0, hd, hpl, hpr⟩ := hc
    obtain ⟨n1, n2, n3⟩ := List.nodup_append.mp hnd
    obtain ⟨n4, n5⟩ := List.nodup_cons.mp n2
    have hal : a ∉ l.addrs := fun hm => n3 hm (List.mem_cons_self _ _)
    obtain ⟨h1, e1, len1, del1, keep1⟩ := ihl fuel hl n1 (by omega)
    have hc1 : h1.cell a = some nd := (keep1 a hal).trans hnd0
    have hr1 : r.Skel h1 := hr.frame (fun b hb => by
      simp only [Heap.kids]
      rw [keep1 b (fun hm => n3 hm (List.mem_cons_of_mem _ hb))])
    obtain ⟨h2, e2, len2, del2, keep2⟩ := ihr fuel hr1 n5 (by omega)
    have hc2 : h2.cell a = some nd := (keep2 a n4).trans hc1
    refine ⟨delete h2 a, ?_, ?_, ?_, ?_⟩
    · change deleteBinaryTree (fuel + 1) h (some a) = _
      simp only [deleteBinaryTree, load_some hnd0, bind_ok, hpl, e1, load_some hc1, hpr, e2,
        load_some hc2, pure_eq_ok]
    · simp only [delete, List.length_set, len2, len1]
    · intro b hb
      simp only [Tree.addrs, List.mem_append, List.mem_cons] at hb
      simp only [cell_delete]
      by_cases hab : a = b
      · simp only [hab, ↓reduceIte]
      · simp only [hab, ↓reduceIte]
        rcases hb with hb | hb | hb
        · rw [keep2 b (fun hm => n3 hb (List.mem_cons_of_mem _ hm))]
          exact del1 b hb
        · exact absurd hb.symm hab
        · exact del2 b hb
    · intro b hb
      simp only [Tree.addrs, List.mem_append, List.mem_cons, not_or] at hb
      simp only [cell_delete, Ne.symm hb.2.1, ↓reduceIte]
      rw [keep2 b hb.2.2, keep1 b hb.1]

theorem holds_rootAfter {h : Heap T} {root x : Ptr} {sl : Slot} (hh : sl.Holds h root x) :
    sl.rootAfter root x = root := by
  cases sl with
  | root => exact hh.symm
  | left p => rfl
  | right p => rfl

theorem holds_upd {h : Heap T} {root x : Ptr} {sl : Slot} (hh : sl.Holds h root x)
    {o : Nat} {nd : BNode T} (ho : sl.owner = some o) (hc : h.cell o = some nd) :
    sl.upd x nd = nd := by
  cases sl with
  | root => rfl
  | left p =>
    obtain ⟨a, na, rfl, hca, rfl⟩ := hh
    cases ho
    rw [hc] at hca
    cases hca
    rfl
  | right p =>
    obtain ⟨a, na, rfl, hca, rfl⟩ := hh
    cases ho
    rw [hc] at hca
    cases hca
    rfl

/-- The first part of `copyBinaryTree` for a source node: afterwards the slot holds a node
`a` with the element and colour of the source node, above the former children of the
destination. -/
theorem copyNode_spec {h : Heap T} {root : Ptr} {sl : Slot} {par : Ptr} {d sL sR : Tree T}
    {sa : Nat} {sc : Bool} {sv : T}
    (hs : (Tree.node sL sa sc sv sR).Held h) (hd : d.Rep h par)
    (hh : sl.Holds h root d.ptr) (hnd : d.addrs.Nodup)
    (hdis : ∀ b ∈ (Tree.node sL sa sc sv sR).addrs, b ∉ d.addrs)
    (hown : ∀ o, sl.owner = some o → o ∉ (Tree.node sL sa sc sv sR).addrs ∧ o ∉ d.addrs) :
    ∃ (h1 : Heap T) (a : Nat) (dl dr : Tree T),
      copyNode h root sl (some sa) = .ok (h1, sl.rootAfter root (some a)) ∧
      h1.cell a = some ⟨sv, dl.ptr, dr.ptr, topPar d par, sc⟩ ∧
      dl.Rep h1 (some a) ∧ dr.Rep h1 (some a) ∧
      sl.Holds h1 (sl.rootAfter root (some a)) (some a) ∧
      h.length ≤ h1.length ∧ (a ∈ d.addrs ∨ a = h.length) ∧
      (∀ b, b ∈ dl.addrs ∨ b ∈ dr.addrs → b ∈ d.addrs) ∧
      (dl.addrs ++ a :: dr.addrs).Nodup ∧
      (∀ b, b < h.length → b ≠ a → sl.owner ≠ some b → h1.cell b = h.cell b) ∧
      (∀ o nd, sl.owner = some o → h.cell o = some nd →
        h1.cell o = some (sl.upd (some a) nd)) ∧
      dl.height ≤ d.height ∧ dr.height ≤ d.height := by
  obtain ⟨⟨ns, hcs, hsd, hsl, hsr, hsc⟩, -, -⟩ := hs
  have hsalt := cell_lt_length hcs
  have hsam : sa ∈ (Tree.node sL sa sc sv sR).addrs := by simp [Tree.addrs]
  have hsaown : sl.owner ≠ some sa := fun e => (hown sa e).1 hsam
  cases d with
  | nil =>
    -- a new node
    replace hh : sl.Holds h root none := hh
    have hN : ∀ b, b ≠ h.length → (newNode h ns.data).2.cell b = h.cell b := by
      intro b hb
      rw [cell_newNode]
      simp only [hb, ↓reduceIte]
    have hNa := cell_newNode h ns.data h.length
    simp only [↓reduceIte] at hNa
    have hNlen : (newNode h ns.data).2.length = h.length + 1 := by simp [newNode]
    have hownlt : ∀ o, sl.owner = some o → o < h.length := fun o ho => holds_owner_lt hh ho
    have hhN : sl.Holds (newNode h ns.data).2 root none :=
      holds_frame hh (fun o ho => hN o (Nat.ne_of_lt (hownlt o ho)))
    obtain ⟨h2, e2, hh2, len2, fr2, ow2⟩ := slot_set hhN (some h.length)
    have hc2a : h2.cell h.length = some ⟨ns.data, none, none, none, true⟩ := by
      rw [fr2 h.length (fun e => Nat.lt_irrefl _ (hownlt _ e)), hNa]
    have hc2s : h2.cell sa = some ns := by
      rw [fr2 sa hsaown, hN sa (Nat.ne_of_lt hsalt), hcs]
    have hlt2 : h.length < h2.length := by omega
    have hother : ∀ b, b ≠ h.length →
        (h2.store h.length ⟨ns.data, none, none, none, ns.isRed⟩).cell b = h2.cell b := by
      intro b hb
      simp only [cell_store, Ne.symm hb, ↓reduceIte]
    refine ⟨h2.store h.length ⟨ns.data, none, none, none, ns.isRed⟩, h.length, .nil, .nil,
      ?_, ?_, trivial, trivial, ?_, ?_, Or.inr rfl, ?_, ?_, ?_, ?_, Nat.le_refl _,
      Nat.le_refl _⟩
    · generalize hg : (newNode h ns.data).2 = hNew at e2
      have e : newNode h ns.data = (h.length, hNew) := by
        rw [← hg]
        rfl
      simp only [copyNode, slot_get hh, bind_ok, ↓reduceIte, load_some hcs, e, e2,
        slot_get hh2, load_some hc2s, setRed, modify, hc2a, pure_eq_ok]
    · simp only [cell_store, ↓reduceIte, hlt2, topPar, hsd, hsc]
      rfl
    · exact holds_frame hh2 (fun o ho => hother o (Nat.ne_of_lt (hownlt o ho)))
    · simp only [length_store]
      omega
    · intro b hb
      simp [Tree.addrs] at hb
    · simp [Tree.addrs]
    · intro b hb hba hbo
      rw [hother b hba, fr2 b hbo, hN b (Nat.ne_of_lt hb)]
    · intro o nd ho hco
      rw [hother o (Nat.ne_of_lt (hownlt o ho))]
      exact ow2 o nd ho ((hN o (Nat.ne_of_lt (hownlt o ho))).trans hco)
  | node dl da dc dv dr =>
    obtain ⟨hcd, hdl, hdr⟩ := hd
    replace hh : sl.Holds h root (some da) := hh
    have hdalt := cell_lt_length hcd
    have hdam : da ∈ (Tree.node dl da dc dv dr).addrs := by simp [Tree.addrs]
    have hownda : ∀ o, sl.owner = some o → o ≠ da := fun o ho e => (hown o ho).2 (e ▸ hdam)
    have hsada : sa ≠ da := fun e => hdis sa hsam (e ▸ hdam)
    obtain ⟨n1, n2, n3⟩ := List.nodup_append.mp hnd
    obtain ⟨n4, n5⟩ := List.nodup_cons.mp n2
    have hdal : da ∉ dl.addrs := fun hm => n3 hm (List.mem_cons_self _ _)
    have hother : ∀ b, b ≠ da →
        ((h.store da ⟨ns.data, dl.ptr, dr.ptr, par, dc⟩).store da
          ⟨ns.data, dl.ptr, dr.ptr, par, ns.isRed⟩).cell b = h.cell b := by
      intro b hb
      simp only [cell_store, Ne.symm hb, ↓reduceIte]
    have hh1 : sl.Holds (h.store da ⟨ns.data, dl.ptr, dr.ptr, par, dc⟩) root (some da) :=
      holds_frame hh (fun o ho => by
        simp only [cell_store, Ne.symm (hownda o ho), ↓reduceIte])
    have hra : sl.rootAfter root (some da) = root := holds_rootAfter hh
    refine ⟨(h.store da ⟨ns.data, dl.ptr, dr.ptr, par, dc⟩).store da
      ⟨ns.data, dl.ptr, dr.ptr, par, ns.isRed⟩, da, dl, dr, ?_, ?_, ?_, ?_, ?_, ?_,
      Or.inl hdam, ?_, hnd, ?_, ?_, ?_, ?_⟩
    · rw [hra]
      have e1 : setData h (some da) ns.data
          = .ok (h.store da ⟨ns.data, dl.ptr, dr.ptr, par, dc⟩) := by
        simp only [setData, modify, hcd]
      have hc1s : (h.store da ⟨ns.data, dl.ptr, dr.ptr, par, dc⟩).cell sa = some ns := by
        simp only [cell_store, hsada.symm, ↓reduceIte, hcs]
      have hc1d : (h.store da ⟨ns.data, dl.ptr, dr.ptr, par, dc⟩).cell da
          = some ⟨ns.data, dl.ptr, dr.ptr, par, dc⟩ := by
        simp only [cell_store, ↓reduceIte, hdalt]
      have e2 : setRed (h.store da ⟨ns.data, dl.ptr, dr.ptr, par, dc⟩) (some da) ns.isRed
          = .ok ((h.store da ⟨ns.data, dl.ptr, dr.ptr, par, dc⟩).store da
            ⟨ns.data, dl.ptr, dr.ptr, par, ns.isRed⟩) := by
        simp only [setRed, modify, hc1d]
      simp only [copyNode, slot_get hh, bind_ok, reduceCtorEq, ↓reduceIte, load_some hcs, e1,
        slot_get hh1, load_some hc1s, e2, pure_eq_ok]
    · simp only [cell_store, ↓reduceIte, length_store, hdalt, topPar, hsd, hsc]
    · exact hdl.repFrame (fun b hb => hother b (fun e => hdal (e ▸ hb)))
    · exact hdr.repFrame (fun b hb => hother b (fun e => n4 (e ▸ hb)))
    · rw [hra]
      exact holds_frame hh (fun o ho => hother o (hownda o ho))
    · simp only [length_store]
      exact Nat.le_refl _
    · intro b hb
      simp only [Tree.addrs, List.mem_append, List.mem_cons]
      tauto
    · intro b _ hba _
      exact hother b hba
    · intro o nd ho hco
      rw [hother o (hownda o ho), hco, holds_upd hh ho hco]
    · simp only [Tree.height]
      omega
    · simp only [Tree.height]
      omega

/-- The second part of `copyBinaryTree` for a source node, given what the two recursive
calls do: afterwards the node `a` in the slot is the top of a tree with the shape of the
source tree, with all links below the top. -/
theorem copyChildren_spec
    {again : Heap T → Ptr → Slot → Ptr → Except Fault (Heap T × Ptr)} {h : Heap T}
    {root : Ptr} {sl : Slot} {a : Nat} {tp : Ptr} {sL sR dl dr : Tree T} {sa : Nat}
    {sc : Bool} {sv : T}
    (hR : CopySpec again sR dr) (hL : CopySpec again sL dl)
    (hs : (Tree.node sL sa sc sv sR).Held h)
    (hca : h.cell a = some ⟨sv, dl.ptr, dr.ptr, tp, sc⟩)
    (hdl : dl.Rep h (some a)) (hdr : dr.Rep h (some a))
    (hh : sl.Holds h root (some a))
    (hnd : (dl.addrs ++ a :: dr.addrs).Nodup)
    (hdis : ∀ b ∈ (Tree.node sL sa sc sv sR).addrs, b ≠ a ∧ b ∉ dl.addrs ∧ b ∉ dr.addrs)
    (hown : ∀ o, sl.owner = some o → o ≠ a ∧ o ∉ dl.addrs ∧ o ∉ dr.addrs) :
    ∃ (h' : Heap T) (dL' dR' : Tree T),
      copyChildren again h root sl (some sa) = .ok (h', root) ∧
      dL'.shape = sL.shape ∧ dR'.shape = sR.shape ∧
      (Tree.node dL' a sc sv dR').Rep h' tp ∧
      h.length ≤ h'.length ∧
      (∀ b, b ∈ dL'.addrs ∨ b ∈ dR'.addrs → b ∈ dl.addrs ∨ b ∈ dr.addrs ∨ h.length ≤ b) ∧
      (dL'.addrs ++ a :: dR'.addrs).Nodup ∧
      (∀ b, b < h.length → b ≠ a → b ∉ dl.addrs → b ∉ dr.addrs → h'.cell b = h.cell b) := by
  obtain ⟨⟨ns, hcs, hsd, hsl, hsr, hsc⟩, hsL, hsR⟩ := hs
  have hal := cell_lt_length hca
  obtain ⟨n1, n2, n3⟩ := List.nodup_append.mp hnd
  obtain ⟨n4, n5⟩ := List.nodup_cons.mp n2
  have hadl : a ∉ dl.addrs := fun hm => n3 hm (List.mem_cons_self _ _)
  have hdlr : ∀ b ∈ dl.addrs, b ∉ dr.addrs := fun b hb hm => n3 hb (List.mem_cons_of_mem _ hm)
  have hdllt := rep_lt hdl
  have hdrlt := rep_lt hdr
  have hsam : sa ∈ (Tree.node sL sa sc sv sR).addrs := by simp [Tree.addrs]
  have hsLm : ∀ b ∈ sL.addrs, b ∈ (Tree.node sL sa sc sv sR).addrs := fun b hb => by
    simp [Tree.addrs, hb]
  have hsRm : ∀ b ∈ sR.addrs, b ∈ (Tree.node sL sa sc sv sR).addrs := fun b hb => by
    simp [Tree.addrs, hb]
  have hsalt := cell_lt_length hcs
  have hsLlt := held_lt hsL
  have hownlt : ∀ o, sl.owner = some o → o < h.length := fun o ho => holds_owner_lt hh ho
  -- the right child
  obtain ⟨h1, dR', eR, shR, repR, -, len1, subR, ndR, fr1, ow1⟩ :=
    hR h root (.right (some a)) (some a) hsR hdr ⟨a, _, rfl, hca, rfl⟩ n5
      (fun b hb => (hdis b (hsRm b hb)).2.2)
      (fun o ho => by
        cases ho
        exact ⟨fun hm => (hdis a (hsRm a hm)).1 rfl, n4⟩)
  replace eR : again h root (.right (some a)) sR.ptr = .ok (h1, root) := eR
  have hca1 : h1.cell a = some ⟨sv, dl.ptr, dR'.ptr, tp, sc⟩ := ow1 a _ rfl hca
  have frame1 : ∀ b, b < h.length → b ∉ dr.addrs → b ≠ a → h1.cell b = h.cell b :=
    fun b hb hbr hba => fr1 b hb hbr (fun e => hba (by cases e; rfl))
  have hRold : ∀ b, b < h.length → b ∉ dr.addrs → b ∉ dR'.addrs := by
    intro b hb hbr hm
    rcases subR b hm with h' | h'
    · exact hbr h'
    · omega
  have haR' : a ∉ dR'.addrs := hRold a hal n4
  have hh1 : sl.Holds h1 root (some a) :=
    holds_frame hh (fun o ho => frame1 o (hownlt o ho) (hown o ho).2.2 (hown o ho).1)
  have hcs1 : h1.cell sa = some ns :=
    (frame1 sa hsalt (hdis sa hsam).2.2 (hdis sa hsam).1).trans hcs
  -- its parent link
  obtain ⟨h2, e2, repR2, len2, fr2⟩ := rep_setTop (p := some a) repR ndR
  simp only [pure_eq_ok] at e2
  have frame2 : ∀ b, b ∉ dR'.addrs → h2.cell b = h1.cell b :=
    fun b hb => fr2 b (fun e => hb (ptr_mem_addrs e))
  have frame02 : ∀ b, b < h.length → b ∉ dr.addrs → b ≠ a → h2.cell b = h.cell b :=
    fun b hb hbr hba => (frame2 b (hRold b hb hbr)).trans (frame1 b hb hbr hba)
  have hca2 : h2.cell a = some ⟨sv, dl.ptr, dR'.ptr, tp, sc⟩ := (frame2 a haR').trans hca1
  have hh2 : sl.Holds h2 root (some a) :=
    holds_frame hh (fun o ho => frame02 o (hownlt o ho) (hown o ho).2.2 (hown o ho).1)
  have hcs2 : h2.cell sa = some ns :=
    (frame02 sa hsalt (hdis sa hsam).2.2 (hdis sa hsam).1).trans hcs
  have hsL2 : sL.Held h2 := hsL.heldFrame (fun b hb =>
    frame02 b (hsLlt b hb) (hdis b (hsLm b hb)).2.2 (hdis b (hsLm b hb)).1)
  have hdl2 : dl.Rep h2 (some a) := hdl.repFrame (fun b hb =>
    frame02 b (hdllt b hb) (hdlr b hb) (fun e => hadl (e ▸ hb)))
  -- the left child
  obtain ⟨h3, dL', eL, shL, repL, -, len3, subL, ndL, fr3, ow3⟩ :=
    hL h2 root (.left (some a)) (some a) hsL2 hdl2 ⟨a, _, rfl, hca2, rfl⟩ n1
      (fun b hb => (hdis b (hsLm b hb)).2.1)
      (fun o ho => by
        cases ho
        exact ⟨fun hm => (hdis a (hsLm a hm)).1 rfl, hadl⟩)
  replace eL : again h2 root (.left (some a)) sL.ptr = .ok (h3, root) := eL
  have hca3 : h3.cell a = some ⟨sv, dL'.ptr, dR'.ptr, tp, sc⟩ := ow3 a _ rfl hca2
  have frame3 : ∀ b, b < h2.length → b ∉ dl.addrs → b ≠ a → h3.cell b = h2.cell b :=
    fun b hb hbl hba => fr3 b hb hbl (fun e => hba (by cases e; rfl))
  have hLold : ∀ b, b < h2.length → b ∉ dl.addrs → b ∉ dL'.addrs := by
    intro b hb hbl hm
    rcases subL b hm with h' | h'
    · exact hbl h'
    · omega
  have haL' : a ∉ dL'.addrs := hLold a (by omega) hadl
  have hh3 : sl.Holds h3 root (some a) :=
    holds_frame hh2 (fun o ho => frame3 o (by have := hownlt o ho; omega) (hown o ho).2.1
      (hown o ho).1)
  -- its parent link
  obtain ⟨h4, e4, repL4, len4, fr4⟩ := rep_setTop (p := some a) repL ndL
  simp only [pure_eq_ok] at e4
  have frame4 : ∀ b, b ∉ dL'.addrs → h4.cell b = h3.cell b :=
    fun b hb => fr4 b (fun e => hb (ptr_mem_addrs e))
  have hRlt := rep_lt repR2
  have hRdl : ∀ b ∈ dR'.addrs, b ∉ dl.addrs := by
    intro b hb hm
    rcases subR b hb with h' | h'
    · exact hdlr b hm h'
    · have := hdllt b hm
      omega
  have hRLdisj : ∀ b ∈ dR'.addrs, b ∉ dL'.addrs :=
    fun b hb => hLold b (hRlt b hb) (hRdl b hb)
  have hca4 : h4.cell a = some ⟨sv, dL'.ptr, dR'.ptr, tp, sc⟩ := (frame4 a haL').trans hca3
  have repR4 : dR'.Rep h4 (some a) := repR2.repFrame (fun b hb =>
    (frame4 b (hRLdisj b hb)).trans (frame3 b (hRlt b hb) (hRdl b hb)
      (fun e => haR' (e ▸ hb))))
  refine ⟨h4, dL', dR', ?_, shL, shR, ⟨hca4, repL4, repR4⟩, by omega, ?_, ?_, ?_⟩
  · simp only [copyChildren, slot_get hh, bind_ok, load_some hcs, hsr, eR, slot_get hh1,
      load_some hca1, pure_eq_ok, e2, slot_get hh2, load_some hcs2, hsl, eL, slot_get hh3,
      load_some hca3]
    by_cases hz : dL'.ptr = none
    · simp only [hz, ne_eq, not_true_eq_false, ↓reduceIte] at e4 ⊢
      cases e4
      rfl
    · simp only [hz, ne_eq, not_false_eq_true, ↓reduceIte] at e4 ⊢
      simp only [e4, bind_ok]
  · intro b hb
    rcases hb with hb | hb
    · rcases subL b hb with h' | h'
      · exact Or.inl h'
      · exact Or.inr (Or.inr (by omega))
    · rcases subR b hb with h' | h'
      · exact Or.inr (Or.inl h')
      · exact Or.inr (Or.inr h')
  · refine List.nodup_append.mpr ⟨ndL, List.nodup_cons.mpr ⟨haR', ndR⟩, ?_⟩
    intro b hbl hbr
    rcases List.mem_cons.mp hbr with e | hbr
    · exact haL' (e ▸ hbl)
    · exact hRLdisj b hbr hbl
  · intro b hb hba hbl hbr
    rw [frame4 b (hLold b (by omega) hbl), frame3 b (by omega) hbl hba]
    exact frame02 b hb hbr hba

theorem shape_height : ∀ (t : Tree T), t.shape.height = t.height
  | .nil => rfl
  | .node l _ _ _ r => by
    simp only [Tree.shape, Tree.height, shape_height l, shape_height r]

theorem snapshot_frame {h h' : Heap T} :
    ∀ (n : Nat) (p : Ptr) (s : Tree T), snapshot n h p = .ok s →
      (∀ b ∈ s.addrs, h'.cell b = h.cell b) → snapshot n h' p = .ok s := by
  intro n
  induction n with
  | zero =>
    intro p s hs _
    cases p with
    | none =>
      rw [snapshot_none] at hs ⊢
      exact hs
    | some a => exact absurd hs (snapshot_zero_some h a s)
  | succ n ih =>
    intro p s hs hsame
    cases p with
    | none =>
      rw [snapshot_none] at hs ⊢
      exact hs
    | some a =>
      obtain ⟨nd, l, r, hnd, hl, hr, rfl⟩ := snapshot_succ_ok.mp hs
      refine snapshot_succ_ok.mpr ⟨nd, l, r, ?_, ?_, ?_, rfl⟩
      · rw [hsame a (by simp [Tree.addrs])]
        exact hnd
      · exact ih _ _ hl (fun b hb => hsame b (by simp [Tree.addrs, hb]))
      · exact ih _ _ hr (fun b hb => hsame b (by simp [Tree.addrs, hb]))

/-- `copyBinaryTree` does what `CopySpec` says, for every budget above the heights of the
source and the destination. -/
theorem copy_spec :
    ∀ (fuel : Nat) (s d : Tree T), s.height + d.height + 1 ≤ fuel →
      CopySpec (copyBinaryTree fuel) s d := by
  intro fuel
  induction fuel with
  | zero =>
    intro s d hf
    omega
  | succ f ih =>
    intro s d hf h root sl par hs hd hh hnd hdis hown
    cases s with
    | nil =>
      obtain ⟨h1, e1, len1, -, keep1⟩ := deleteBinaryTree_spec d f hd.skel hnd (by omega)
      have hh1 : sl.Holds h1 root d.ptr :=
        holds_frame hh (fun o ho => keep1 o (hown o ho).2)
      obtain ⟨h2, e2, hh2, len2, fr2, ow2⟩ := slot_set hh1 none
      refine ⟨h2, .nil, ?_, rfl, trivial, hh2, by omega, ?_, List.nodup_nil, ?_, ?_⟩
      · change copyBinaryTree (f + 1) h root sl none = .ok (h2, sl.rootAfter root none)
        simp only [copyBinaryTree, ↓reduceIte, slot_get hh, bind_ok, e1, e2]
      · intro b hb
        simp [Tree.addrs] at hb
      · intro b _ hbd hbo
        rw [fr2 b hbo, keep1 b hbd]
      · intro o nd ho hco
        exact ow2 o nd ho ((keep1 o (hown o ho).2).trans hco)
    | node sL sa sc sv sR =>
      simp only [Tree.height] at hf
      obtain ⟨h1, a, dl, dr, eN, hca, hdl, hdr, hh1, len1, hamem, hsub, hnd1, fr1, ow1, hhl,
        hhr⟩ := copyNode_spec hs hd hh hnd hdis hown
      have hslt := held_lt hs
      have hdlt := rep_lt hd
      have hownlt : ∀ o, sl.owner = some o → o < h.length := fun o ho => holds_owner_lt hh ho
      have hane : ∀ b, b < h.length → b ∉ d.addrs → b ≠ a := by
        intro b hb hbd e
        rcases hamem with h' | h'
        · exact hbd (e ▸ h')
        · omega
      have hs1 : (Tree.node sL sa sc sv sR).Held h1 := hs.heldFrame (fun b hb =>
        fr1 b (hslt b hb) (hane b (hslt b hb) (hdis b hb)) (fun e => (hown b e).1 hb))
      obtain ⟨h', dL', dR', eC, shL, shR, rep', len', sub', nd', fr'⟩ :=
        copyChildren_spec (ih sR dr (by omega)) (ih sL dl (by omega)) hs1 hca hdl hdr hh1 hnd1
          (fun b hb => ⟨hane b (hslt b hb) (hdis b hb),
            fun hm => hdis b hb (hsub b (Or.inl hm)),
            fun hm => hdis b hb (hsub b (Or.inr hm))⟩)
          (fun o ho => ⟨hane o (hownlt o ho) (hown o ho).2,
            fun hm => (hown o ho).2 (hsub o (Or.inl hm)),
            fun hm => (hown o ho).2 (hsub o (Or.inr hm))⟩)
      refine ⟨h', .node dL' a sc sv dR', ?_, ?_, rep', ?_, by omega, ?_, nd', ?_, ?_⟩
      · change copyBinaryTree (f + 1) h root sl (some sa)
          = .ok (h', sl.rootAfter root (some a))
        simp only [copyBinaryTree, reduceCtorEq, ↓reduceIte, eN, bind_ok, eC]
      · simp only [Tree.shape, shL, shR]
      · refine holds_frame hh1 (fun o ho => fr' o (by have := hownlt o ho; omega)
          (hane o (hownlt o ho) (hown o ho).2) (fun hm => (hown o ho).2 (hsub o (Or.inl hm)))
          (fun hm => (hown o ho).2 (hsub o (Or.inr hm))))
      · intro b hb
        simp only [Tree.addrs, List.mem_append, List.mem_cons] at hb
        rcases hb with hb | rfl | hb
        · rcases sub' b (Or.inl hb) with h' | h' | h'
          · exact Or.inl (hsub b (Or.inl h'))
          · exact Or.inl (hsub b (Or.inr h'))
          · exact Or.inr (by omega)
        · rcases hamem with h' | h'
          · exact Or.inl h'
          · exact Or.inr (by omega)
        · rcases sub' b (Or.inr hb) with h' | h' | h'
          · exact Or.inl (hsub b (Or.inl h'))
          · exact Or.inl (hsub b (Or.inr h'))
          · exact Or.inr (by omega)
      · intro b hb hbd hbo
        rw [fr' b (by omega) (hane b hb hbd) (fun hm => hbd (hsub b (Or.inl hm)))
          (fun hm => hbd (hsub b (Or.inr hm)))]
        exact fr1 b hb (hane b hb hbd) hbo
      · intro o nd ho hco
        rw [fr' o (by have := hownlt o ho; omega) (hane o (hownlt o ho) (hown o ho).2)
          (fun hm => (hown o ho).2 (hsub o (Or.inl hm)))
          (fun hm => (hown o ho).2 (hsub o (Or.inr hm)))]
        exact ow1 o nd ho hco

theorem store_self {h : Heap T} {a : Nat} {nd : BNode T} (hc : h.cell a = some nd) :
    h.store a nd = h := by
  apply List.ext_getElem?
  intro i
  simp only [Heap.store, List.getElem?_set]
  split_ifs with h1 h2
  · subst h1
    simp only [Heap.cell] at hc
    cases hx : h[a]? with
    | none => rw [hx] at hc; cases hc
    | some o =>
      rw [hx] at hc
      simp only [Option.join] at hc
      rw [← hc]
      rfl
  · subst h1
    rw [List.getElem?_eq_none (by omega)]
  · rfl

theorem modify_self {h : Heap T} {a : Nat} {nd : BNode T} (f : BNode T → BNode T)
    (hc : h.cell a = some nd) (hf : f nd = nd) : modify h (some a) f = .ok h := by
  simp only [modify, hc, hf, store_self hc]

theorem snapshot_det {h : Heap T} :
    ∀ (n m : Nat) (p : Ptr) (s d : Tree T), snapshot n h p = .ok s →
      snapshot m h p = .ok d → s = d := by
  intro n
  induction n with
  | zero =>
    intro m p s d hs hd
    cases p with
    | none =>
      rw [snapshot_none] at hs hd
      cases hs
      cases hd
      rfl
    | some a => exact absurd hs (snapshot_zero_some h a s)
  | succ n ih =>
    intro m p s d hs hd
    cases p with
    | none =>
      rw [snapshot_none] at hs hd
      cases hs
      cases hd
      rfl
    | some a =>
      cases m with
      | zero => exact absurd hd (snapshot_zero_some h a d)
      | succ m =>
        obtain ⟨nd, l, r, hnd, hl, hr, rfl⟩ := snapshot_succ_ok.mp hs
        obtain ⟨nd2, l2, r2, hnd2, hl2, hr2, rfl⟩ := snapshot_succ_ok.mp hd
        rw [hnd] at hnd2
        cases hnd2
        rw [ih m _ _ _ hl hl2, ih m _ _ _ hr hr2]

/-- Copying a tree onto itself (self-assignment) changes nothing. -/
theorem copy_self :
    ∀ (fuel : Nat) (t : Tree T), t.height + 1 ≤ fuel →
      ∀ (h : Heap T) (root : Ptr) (sl : Slot) (par : Ptr), t.Rep h par →
        sl.Holds h root t.ptr → copyBinaryTree fuel h root sl t.ptr = .ok (h, root) := by
  intro fuel
  induction fuel with
  | zero =>
    intro t hf
    omega
  | succ f ih =>
    intro t hf h root sl par ht hh
    cases t with
    | nil =>
      replace hh : sl.Holds h root none := hh
      change copyBinaryTree (f + 1) h root sl none = .ok (h, root)
      simp only [copyBinaryTree, ↓reduceIte, slot_get hh, bind_ok, deleteBinaryTree,
        pure_eq_ok]
      cases sl with
      | root =>
        cases hh
        rfl
      | left p =>
        obtain ⟨a, nd, rfl, hc, hl⟩ := hh
        have e : ({ nd with pLeft := none } : BNode T) = nd := by rw [← hl]
        simp only [Slot.set, setLeft, modify_self (fun n => { n with pLeft := none }) hc e,
          bind_ok, pure_eq_ok]
      | right p =>
        obtain ⟨a, nd, rfl, hc, hl⟩ := hh
        have e : ({ nd with pRight := none } : BNode T) = nd := by rw [← hl]
        simp only [Slot.set, setRight,
          modify_self (fun n => { n with pRight := none }) hc e, bind_ok, pure_eq_ok]
    | node l a c v r =>
      simp only [Tree.height] at hf
      obtain ⟨hc, hl, hr⟩ := ht
      replace hh : sl.Holds h root (some a) := hh
      change copyBinaryTree (f + 1) h root sl (some a) = .ok (h, root)
      have eR := ih r (by omega) h root (.right (some a)) (some a) hr ⟨a, _, rfl, hc, rfl⟩
      have eL := ih l (by omega) h root (.left (some a)) (some a) hl ⟨a, _, rfl, hc, rfl⟩
      have hpR : (if r.ptr ≠ none then setParent h r.ptr (some a) else pure h)
          = (.ok h : Except Fault (Heap T)) := by
        cases r with
        | nil => rfl
        | node rl ra rc rv rr =>
          change (if some ra ≠ none then setParent h (some ra) (some a) else pure h) = _
          simp only [ne_eq, reduceCtorEq, not_false_eq_true, ↓reduceIte, setParent]
          exact modify_self _ hr.1 rfl
      have hpL : (if l.ptr ≠ none then
            (do let h ← setParent h l.ptr (some a); pure (h, root))
          else pure (h, root)) = (.ok (h, root) : Except Fault (Heap T × Ptr)) := by
        cases l with
        | nil => rfl
        | node ll la lc lv lr =>
          have e : setParent h (some la) (some a) = .ok h := modify_self _ hl.1 rfl
          change (if some la ≠ none then
            ((setParent h (some la) (some a)).bind fun h => pure (h, root))
            else pure (h, root)) = (_ : Except Fault (Heap T × Ptr))
          simp only [ne_eq, reduceCtorEq, not_false_eq_true, ↓reduceIte, e]
          rfl
      have hD : setData h (some a) v = .ok h :=
        modify_self (fun n => { n with data := v }) hc rfl
      have hC : setRed h (some a) c = .ok h :=
        modify_self (fun n => { n with isRed := c }) hc rfl
      simp only [pure_eq_ok] at hpR hpL
      simp only [copyBinaryTree, reduceCtorEq, ↓reduceIte, copyNode, copyChildren,
        slot_get hh, bind_ok, load_some hc, hD, hC, pure_eq_ok, eR, eL, hpR, hpL]

/-- Copy assignment onto a well-formed destination that shares no node with the source:
the destination gets the shape, elements and colours of the source, with consistent
parent links, and the count of the source; the nodes of the source are unchanged. -/
theorem assignCopy_spec {h : Heap T} {this rhs : BST} {s d : Tree T} (ns nd fuel : Nat)
    (hs : snapshot ns h rhs.root = .ok s) (hd : snapshot nd h this.root = .ok d)
    (hnodup : d.addrs.Nodup) (hpar : d.parentsOk h none = true)
    (hdis : ∀ b ∈ s.addrs, b ∉ d.addrs) (hfuel : s.height + d.height + 1 ≤ fuel) :
    ∃ (h' : Heap T) (root' : Ptr) (d' : Tree T),
      BST.assignCopy fuel h this rhs = .ok (h', ⟨root', rhs.numElements⟩) ∧
      snapshot s.height h' root' = .ok d' ∧ d'.shape = s.shape ∧
      d'.parentsOk h' none = true ∧ d'.addrs.Nodup ∧
      snapshot ns h' rhs.root = .ok s ∧ ∀ b ∈ s.addrs, h'.cell b = h.cell b := by
  have hheld := snapshot_held _ _ _ hs
  have hsp := snapshot_ptr _ _ _ hs
  have hdp := snapshot_ptr _ _ _ hd
  have hrep := snapshot_rep nd _ none d hd hpar
  obtain ⟨h', d', e, hsh, rep', -, -, -, nd', fr', -⟩ :=
    copy_spec fuel s d hfuel h this.root .root none hheld hrep hdp.symm hnodup hdis
      (fun a ha => by cases ha)
  have htp : topPar d (none : Ptr) = none := by cases d <;> rfl
  rw [htp] at rep'
  have hh : d'.height = s.height := by rw [← shape_height d', hsh, shape_height]
  obtain ⟨snap', par'⟩ := rep_snapshot d' none s.height rep' (by omega)
  have hsame : ∀ b ∈ s.addrs, h'.cell b = h.cell b := fun b hb =>
    fr' b (held_lt hheld b hb) (hdis b hb) (fun e => by cases e)
  refine ⟨h', d'.ptr, d', ?_, snap', hsh, par', nd', snapshot_frame _ _ _ hs hsame, hsame⟩
  rw [hsp] at e
  simp only [BST.assignCopy, e, bind_ok, pure_eq_ok]
  rfl

end Copy

section CopyClaim

variable {T : Type}

/-- C18: for a source tree and a well-formed destination tree (no node reached twice,
parent links consistent with child links) that is the source itself or shares no node
with it, copy assignment returns with enough fuel; the destination then has the shape of
the source with the same element and the same colour at every position, consistent parent
links and the count of the source, and every node of the source is unchanged.  Copy
construction, the case of the empty destination, does the same. -/
theorem C18_copy_assignment_clones_source (ns nd : Nat) (h : Heap T) (this rhs : BST)
    (s d : Tree T) (fuel : Nat) (hs : snapshot ns h rhs.root = .ok s)
    (hd : snapshot nd h this.root = .ok d) (hnodup : d.addrs.Nodup)
    (hpar : d.parentsOk h none = true)
    (hdis : this = rhs ∨ ∀ b ∈ s.addrs, b ∉ d.addrs)
    (hfuel : s.height + d.height + 1 ≤ fuel) :
    (∃ (h' : Heap T) (root' : Ptr) (d' : Tree T),
      BST.assignCopy fuel h this rhs = .ok (h', ⟨root', rhs.numElements⟩) ∧
      snapshot s.height h' root' = .ok d' ∧ d'.shape = s.shape ∧
      d'.parentsOk h' none = true ∧ d'.addrs.Nodup ∧
      snapshot ns h' rhs.root = .ok s ∧ ∀ b ∈ s.addrs, h'.cell b = h.cell b) ∧
    ∃ (h' : Heap T) (root' : Ptr) (d' : Tree T),
      BST.constructCopy fuel h rhs = .ok (h', ⟨root', rhs.numElements⟩) ∧
      snapshot s.height h' root' = .ok d' ∧ d'.shape = s.shape ∧
      d'.parentsOk h' none = true ∧ d'.addrs.Nodup ∧
      snapshot ns h' rhs.root = .ok s ∧ ∀ b ∈ s.addrs, h'.cell b = h.cell b := by
  refine ⟨?_, assignCopy_spec ns 0 fuel hs (snapshot_none 0 h) List.nodup_nil rfl
    (fun _ _ hb => by cases hb) (by simp only [Tree.height]; omega)⟩
  rcases hdis with rfl | hdis
  · cases snapshot_det _ _ _ _ _ hs hd
    have hrep := snapshot_rep nd _ none s hd hpar
    have hp := snapshot_ptr _ _ _ hd
    have e := copy_self fuel s (by omega) h this.root .root none hrep hp.symm
    rw [hp] at e
    refine ⟨h, this.root, s, ?_, ?_, rfl, hpar, hnodup, hs, fun _ _ => rfl⟩
    · simp only [BST.assignCopy, e, bind_ok, pure_eq_ok]
    · rw [← hp]
      exact (rep_snapshot s none s.height hrep (Nat.le_refl _)).1
  · exact assignCopy_spec ns nd fuel hs hd hnodup hpar hdis hfuel

end CopyClaim

section CopyWitness

theorem C18_copy_assignment_clones_source_witness :
    snapshot 3 heapC18 (⟨some 2, 3⟩ : BST).root = .ok treeC18src ∧
      snapshot 3 heapC18 (⟨some 0, 2⟩ : BST).root = .ok treeC18dest ∧
      treeC18dest.addrs.Nodup ∧ treeC18dest.parentsOk heapC18 none = true ∧
      ((⟨some 0, 2⟩ : BST) = ⟨some 2, 3⟩ ∨ ∀ b ∈ treeC18src.addrs, b ∉ treeC18dest.addrs) ∧
      treeC18src.height + treeC18dest.height + 1 ≤ 5 ∧
      (∃ (h' : Heap Nat) (root' : Ptr) (d' : Tree Nat),
        BST.assignCopy 5 heapC18 ⟨some 0, 2⟩ ⟨some 2, 3⟩
          = .ok (h', ⟨root', (⟨some 2, 3⟩ : BST).numElements⟩) ∧
        snapshot treeC18src.height h' root' = .ok d' ∧ d'.shape = treeC18src.shape ∧
        d'.parentsOk h' none = true ∧ d'.addrs.Nodup ∧
        snapshot 3 h' (⟨some 2, 3⟩ : BST).root = .ok treeC18src ∧
        ∀ b ∈ treeC18src.addrs, h'.cell b = heapC18.cell b) ∧
      ∃ (h' : Heap Nat) (root' : Ptr) (d' : Tree Nat),
        BST.constructCopy 5 heapC18 ⟨some 2, 3⟩
          = .ok (h', ⟨root', (⟨some 2, 3⟩ : BST).numElements⟩) ∧
        snapshot treeC18src.height h' root' = .ok d' ∧ d'.shape = treeC18src.shape ∧
        d'.parentsOk h' none = true ∧ d'.addrs.Nodup ∧
        snapshot 3 h' (⟨some 2, 3⟩ : BST).root = .ok treeC18src ∧
        ∀ b ∈ treeC18src.addrs, h'.cell b = heapC18.cell b :=
  ⟨rfl, rfl, by decide, rfl, Or.inr (by decide), by decide,
    C18_copy_assignment_clones_source 3 3 heapC18 ⟨some 0, 2⟩ ⟨some 2, 3⟩ treeC18src
      treeC18dest 5 rfl rfl (by decide) rfl (Or.inr (by decide)) (by decide)⟩

end CopyWitness


section InsertBy

variable {T : Type} [LinearOrder T]

/-- With the equality and the order of `T` as `operator==` and `operator<`, the descent
with comparison functions is the descent of `BST::insert`. -/
theorem insertDescendBy_eq (fuel : Nat) (h : Heap T) (t : T) (keepUnique : Bool) :
    ∀ (pParent p : Ptr) (putLeft : Bool),
      BST.insertDescendBy (fun x y => decide (x = y)) (fun x y => decide (x < y)) fuel h t
          keepUnique pParent p putLeft
        = BST.insertDescend fuel h t keepUnique pParent p putLeft := by
  induction fuel with
  | zero =>
    intro pParent p putLeft
    cases p <;> rfl
  | succ f ih =>
    intro pParent p putLeft
    cases p with
    | none => rfl
    | some a =>
      simp only [BST.insertDescendBy, BST.insertDescend, ih, decide_eq_true_eq]

theorem insertBy_eq (fuel : Nat) (h : Heap T) (tree : BST) (t : T) (keepUnique : Bool) :
    BST.insertBy (fun x y => decide (x = y)) (fun x y => decide (x < y)) fuel h tree t
        keepUnique
      = BST.insert fuel h tree t keepUnique := by
  simp only [BST.insertBy, BST.insert, insertDescendBy_eq]

end InsertBy

section LaterDivergences

/-- C22 (the code leaves the claim): the tree built from 5, 3, 8, 1, 4, 7, 9, 6 has 8 nodes
and the count 8.  After `erase` at the node holding 5 the count is 7, but only 6 nodes
are reachable from the root by child links.  Inserts alone do it too: after inserting
1, 2, 3, 6, 4, 7, 8, 5 the count is 8 and 5 nodes are reachable from the root. -/
theorem C22_count_exceeds_reachable_nodes :
    BST.insertAll 50 false [5, 3, 8, 1, 4, 7, 9, 6] (([] : Heap Nat), BST.empty)
        = .ok (heapC11, ⟨some 0, 8⟩) ∧
      snapshot 4 heapC11 (some 0) = .ok treeC11 ∧ treeC11.size = 8 ∧
      BST.erase 50 heapC11 ⟨some 0, 8⟩ (some 0) = .ok (heapC11erased, ⟨some 7, 7⟩, some 7) ∧
      (⟨some 7, 7⟩ : BST).size = 7 ∧
      snapshot 4 heapC11erased (some 7) = .ok treeC11erased ∧ treeC11erased.size = 6 ∧
      BST.insertAll 50 false [1, 2, 3, 6, 4, 7, 8, 5] (([] : Heap Nat), BST.empty)
        = .ok (heapC5, ⟨some 1, 8⟩) ∧
      (⟨some 1, 8⟩ : BST).size = 8 ∧
      snapshot 4 heapC5 (some 1) = .ok treeC5 ∧ treeC5.size = 5 :=
  ⟨rfl, rfl, rfl, rfl, rfl, rfl, rfl, rfl, rfl, rfl, rfl⟩

/-- C23 (the code leaves the claim): the values 1, 2, 3, 6, 4, 7, 8, 5 are inserted into
the empty set (initializer-list insertion; every call is `bst.insert(element, true)`).
Then `insert(6)` returns the flag `true` although 6 was inserted before: the set holds 6
in two nodes, and `size()` is 9 for 8 distinct values. -/
theorem C23_set_holds_a_value_twice :
    set.insertList 50 [1, 2, 3, 6, 4, 7, 8, 5] (([] : Heap Nat), set.empty)
        = .ok (heapC5, ⟨⟨some 1, 8⟩⟩) ∧
      6 ∈ [1, 2, 3, 6, 4, 7, 8, 5] ∧
      set.insert 50 heapC5 ⟨⟨some 1, 8⟩⟩ 6 = .ok (heapC23, ⟨⟨some 1, 9⟩⟩, some 8, true) ∧
      (⟨⟨some 1, 9⟩⟩ : set).size = 9 ∧
      ([1, 2, 3, 6, 4, 7, 8, 5] ++ [6]).dedup.length = 8 ∧
      heapC23.cell 3 = some ⟨6, some 4, some 5, some 5, true⟩ ∧
      heapC23.cell 8 = some ⟨6, none, none, some 7, true⟩ :=
  ⟨rfl, by decide, rfl, rfl, by decide, rfl, rfl⟩

/-- C24 (the code leaves the claim): the map holds the pair (1, 10).  `insert` of the
pair (1, 20), whose key 1 is present, returns the flag `true` and `size()` goes from 1
to 2: `map::insert` calls `bst.insert(rhs)` with the default `keepUnique = false`.  The
initializer-list insertion of the same pair, which passes `true`, changes nothing. -/
theorem C24_map_insert_accepts_present_key :
    map.insert 50 ([] : Heap (pair Nat Nat)) map.empty ⟨1, 10⟩
        = .ok ([some ⟨⟨1, 10⟩, none, none, none, false⟩], ⟨⟨some 0, 1⟩⟩, some 0, true) ∧
      pair.eq (⟨1, 20⟩ : pair Nat Nat) ⟨1, 10⟩ = true ∧
      map.insert 50 [some ⟨(⟨1, 10⟩ : pair Nat Nat), none, none, none, false⟩]
          ⟨⟨some 0, 1⟩⟩ ⟨1, 20⟩
        = .ok ([some ⟨⟨1, 10⟩, none, some 1, none, false⟩,
                some ⟨⟨1, 20⟩, none, none, some 0, true⟩], ⟨⟨some 0, 2⟩⟩, some 1, true) ∧
      (⟨⟨some 0, 1⟩⟩ : map).size = 1 ∧ (⟨⟨some 0, 2⟩⟩ : map).size = 2 ∧
      map.insertList 50 [(⟨1, 20⟩ : pair Nat Nat)]
          ([some ⟨⟨1, 10⟩, none, none, none, false⟩], ⟨⟨some 0, 1⟩⟩)
        = .ok ([some ⟨⟨1, 10⟩, none, none, none, false⟩], ⟨⟨some 0, 1⟩⟩) :=
  ⟨rfl, rfl, rfl, rfl, rfl, rfl⟩

/-- C25: inserting 10, 5, 15, 3, 7 in that order into the empty tree with
`keepUnique = false` returns; the traversal with the iterator from `begin()` to `end()`
yields 3, 5, 7, 10, 15 and the root node holds 10. -/
theorem C25_scenario_one_traversal_and_root :
    BST.insertAll 50 false [10, 5, 15, 3, 7] (([] : Heap Nat), BST.empty)
        = .ok (heapC25, ⟨some 0, 5⟩) ∧
      BST.walk 50 heapC25 ⟨some 0, 5⟩ = .ok [3, 5, 7, 10, 15] ∧
      iterator.deref heapC25 (⟨some 0, 5⟩ : BST).root = .ok 10 :=
  ⟨rfl, rfl, rfl⟩

/-- C26 (the claim does not hold): inserting 1, 2, 3, 4, 5, 6, 7 in ascending order into
the empty tree gives a tree of height 4, counted in nodes on the longest path from the
root to a leaf (2, 4, 6, 7): the height is not at most 3. -/
theorem C26_ascending_inserts_give_height_four :
    BST.insertAll 50 false [1, 2, 3, 4, 5, 6, 7] (([] : Heap Nat), BST.empty)
        = .ok (heapC26, ⟨some 1, 7⟩) ∧
      snapshot 7 heapC26 (⟨some 1, 7⟩ : BST).root = .ok treeC26 ∧
      treeC26.height = 4 ∧ ¬ treeC26.height ≤ 3 :=
  ⟨rfl, rfl, rfl, by decide⟩

/-- C26, amended: inserting 1, 2, 3, 4, 5, 6, 7 in ascending order into the empty tree
gives a tree of height at most 4 whose in-order sequence and iterator traversal are
1, ..., 7; it is the red-black tree of these insertions (root black, no red node with a
red child, the same number of black nodes on every path, consistent parent links). -/
theorem C26_ascending_inserts_height_at_most_four :
    BST.insertAll 50 false [1, 2, 3, 4, 5, 6, 7] (([] : Heap Nat), BST.empty)
        = .ok (heapC26, ⟨some 1, 7⟩) ∧
      snapshot 7 heapC26 (⟨some 1, 7⟩ : BST).root = .ok treeC26 ∧
      treeC26.height ≤ 4 ∧ treeC26.toList = [1, 2, 3, 4, 5, 6, 7] ∧
      BST.walk 50 heapC26 ⟨some 1, 7⟩ = .ok [1, 2, 3, 4, 5, 6, 7] ∧
      treeC26.isRed = false ∧ treeC26.redRed = false ∧
      treeC26.blackCounts = List.replicate 8 2 ∧ treeC26.parentsOk heapC26 none = true :=
  ⟨rfl, rfl, by decide, rfl, rfl, rfl, rfl, rfl, rfl⟩

/-- C27 (the code leaves the claim): the tree built from 10, 5, 15, 1 is well-formed
(consistent parent links, root black, no red node with a red child, equal black counts).
`insert(3, false)` runs the double rotation 4c below the grandparent holding 5, which is
not the root: afterwards the left slot of the root refers to the new node, whose parent
link still refers to the node holding 1, its own left child. -/
theorem C27_insert_leaves_stale_parent_link :
    BST.insertAll 50 false [10, 5, 15, 1] (([] : Heap Nat), BST.empty)
        = .ok (heapC27, ⟨some 0, 4⟩) ∧
      snapshot 3 heapC27 (some 0) = .ok treeC27 ∧ treeC27.parentsOk heapC27 none = true ∧
      treeC27.isRed = false ∧ treeC27.redRed = false ∧
      treeC27.blackCounts = List.replicate 5 2 ∧
      BST.insert 50 heapC27 ⟨some 0, 4⟩ 3 false = .ok (heapC1, ⟨some 0, 5⟩, some 4, true) ∧
      snapshot 3 heapC1 (some 0) = .ok treeC1 ∧ treeC1.parentsOk heapC1 none = false ∧
      heapC1.cell 0 = some ⟨10, some 4, some 2, none, false⟩ ∧
      heapC1.cell 4 = some ⟨3, some 3, some 1, some 3, true⟩ :=
  ⟨rfl, rfl, rfl, rfl, rfl, rfl, rfl, rfl, rfl, rfl, rfl⟩

/-- C28 (the code leaves the claim): in the well-formed tree of `heapC28` the node n at
address 4 (holding 3) is red, its parent p at 3 (holding 1) is red with n as right child,
the grandparent g at 1 (holding 5) is black with p as left child, no uncle, and the parent
of g is the root at 0.  `balance` on n returns with n above p and g and in the left slot
of the root, but the parent link of n refers to p, not to the root, n is red and g is
black. -/
theorem C28_double_rotation_below_non_root :
    snapshot 4 heapC28 (some 0) = .ok treeC28 ∧ treeC28.parentsOk heapC28 none = true ∧
      heapC28.cell 4 = some ⟨3, none, none, some 3, true⟩ ∧
      heapC28.cell 3 = some ⟨1, none, some 4, some 1, true⟩ ∧
      heapC28.cell 1 = some ⟨5, some 3, none, some 0, false⟩ ∧
      BNode.balance 50 heapC28 (some 4) = .ok heapC1 ∧
      heapC1.cell 4 = some ⟨3, some 3, some 1, some 3, true⟩ ∧
      heapC1.cell 3 = some ⟨1, none, none, some 4, false⟩ ∧
      heapC1.cell 1 = some ⟨5, none, none, some 4, false⟩ ∧
      heapC1.cell 0 = some ⟨10, some 4, some 2, none, false⟩ :=
  ⟨rfl, rfl, rfl, rfl, rfl, rfl, rfl, rfl, rfl, rfl⟩

/-- C21 (the claim does not hold): after inserting 1, 1, 1 with `keepUnique = false` the
root holds 1 and its left child holds 1 (the single rotation 4b moved the former root
there): a value in the left subtree is not less than the node's value.  No value in a
left subtree is greater than the node's value. -/
theorem C21_equal_value_in_left_subtree :
    BST.insertAll 50 false [1, 1, 1] (([] : Heap Nat), BST.empty)
        = .ok (heapC21, ⟨some 1, 3⟩) ∧
      snapshot 2 heapC21 (⟨some 1, 3⟩ : BST).root = .ok treeC21 ∧
      treeC21 = .node (.node .nil 0 true 1 .nil) 1 false 1 (.node .nil 2 true 1 .nil) ∧
      treeC21.strictOrder = false ∧ treeC21.weakOrder = true :=
  ⟨rfl, rfl, rfl, by decide, by decide⟩

end LaterDivergences

section RotationMoved

variable {T : Type}

set_option maxHeartbeats 4000000 in
/-- Case 4a of `balance` on a well-formed neighbourhood: the top node of the parent's
other subtree gets the grandparent as its parent and keeps everything else. -/
theorem exec4a_moved {again : Heap T → Ptr → Except Fault (Heap T)} {h : Heap T}
    {a p g s : Nat} {v vp vg : T} {lp rp up hdp : Ptr} {c : Bool} {nds : BNode T}
    (ca : h.cell a = some ⟨v, lp, rp, some p, c⟩)
    (cp : h.cell p = some ⟨vp, some a, some s, some g, true⟩)
    (cg : h.cell g = some ⟨vg, some p, up, hdp, false⟩)
    (cs : h.cell s = some nds)
    (hap : a ≠ p) (hag : a ≠ g) (hpg : p ≠ g) (dsa : s ≠ a) (dsp : s ≠ p) (dsg : s ≠ g)
    (hhd : h.Free hdp [a, p, g]) (hsh : hdp ≠ some s) :
    ∀ h', balanceRotate again h (some a) (some g) (some s) hdp = .ok h' →
      h'.cell s = some { nds with pParent := some g } := by
  have la := cell_lt_length ca
  have lp' := cell_lt_length cp
  have lg := cell_lt_length cg
  have ls := cell_lt_length cs
  have hpa := hap.symm
  have hga := hag.symm
  have hgp := hpg.symm
  have dsa' := Ne.symm dsa
  have dsp' := Ne.symm dsp
  have dsg' := Ne.symm dsg
  intro h' hh
  rcases hdp with _ | hd
  · clear hhd hsh
    simp only [balanceRotate, cond4a, cond4b, cond4c, cond4d, body4a, body4b, body4c,
        body4d, relinkAbove, relinkHead, memberParent, load, modify, BNode.isLeftChild,
        BNode.isRightChild, BNode.addLeft, BNode.addRight, setLeft, setRight, setParent, setRed,
        pure_eq_ok, bind_ok, bind_error, bind_assoc, decide_eq_true_eq, decide_True,
        decide_False, ↓reduceIte, ne_eq, reduceCtorEq, not_false_eq_true, not_true_eq_false,
        Bool.not_eq_eq_eq_not, Bool.not_true, Bool.not_false, Option.some.injEq,
        Bool.false_eq_true, Bool.true_eq_false, ite_self, Except.ok.injEq, exists_eq_left',
        Option.map_some', Option.map_none', true_and, and_true, and_self, cell_store,
        length_store, *] at hh
    subst hh
    simp only [pure_eq_ok, bind_ok, bind_error, bind_assoc, decide_eq_true_eq, decide_True,
        decide_False, ↓reduceIte, ne_eq, reduceCtorEq, not_false_eq_true, not_true_eq_false,
        Bool.not_eq_eq_eq_not, Bool.not_true, Bool.not_false, Option.some.injEq,
        Bool.false_eq_true, Bool.true_eq_false, ite_self, Except.ok.injEq, exists_eq_left',
        Option.map_some', Option.map_none', true_and, and_true, and_self, cell_store,
        length_store, *]
  · obtain ⟨⟨⟨vh, hl, hr, hpar, hc⟩, ch⟩, hn⟩ := hhd hd rfl
    simp only [List.mem_cons, List.mem_singleton, List.not_mem_nil, or_false, not_or] at hn
    obtain ⟨dha, dhp, dhg⟩ := hn
    have lh := cell_lt_length ch
    have dha' := Ne.symm dha
    have dhp' := Ne.symm dhp
    have dhg' := Ne.symm dhg
    have dsh : s ≠ hd := fun e => hsh (by rw [e])
    have dsh' := Ne.symm dsh
    clear hhd hsh
    by_cases hrg : hr = some g
    · simp only [balanceRotate, cond4a, cond4b, cond4c, cond4d, body4a, body4b, body4c,
          body4d, relinkAbove, relinkHead, memberParent, load, modify, BNode.isLeftChild,
          BNode.isRightChild, BNode.addLeft, BNode.addRight, setLeft, setRight, setParent, setRed,
          pure_eq_ok, bind_ok, bind_error, bind_assoc, decide_eq_true_eq, decide_True,
          decide_False, ↓reduceIte, ne_eq, reduceCtorEq, not_false_eq_true, not_true_eq_false,
          Bool.not_eq_eq_eq_not, Bool.not_true, Bool.not_false, Option.some.injEq,
          Bool.false_eq_true, Bool.true_eq_false, ite_self, Except.ok.injEq, exists_eq_left',
          Option.map_some', Option.map_none', true_and, and_true, and_self, cell_store,
          length_store, *] at hh
      subst hh
      simp only [pure_eq_ok, bind_ok, bind_error, bind_assoc, decide_eq_true_eq, decide_True,
          decide_False, ↓reduceIte, ne_eq, reduceCtorEq, not_false_eq_true, not_true_eq_false,
          Bool.not_eq_eq_eq_not, Bool.not_true, Bool.not_false, Option.some.injEq,
          Bool.false_eq_true, Bool.true_eq_false, ite_self, Except.ok.injEq, exists_eq_left',
          Option.map_some', Option.map_none', true_and, and_true, and_self, cell_store,
          length_store, *]
    · simp only [balanceRotate, cond4a, cond4b, cond4c, cond4d, body4a, body4b, body4c,
          body4d, relinkAbove, relinkHead, memberParent, load, modify, BNode.isLeftChild,
          BNode.isRightChild, BNode.addLeft, BNode.addRight, setLeft, setRight, setParent, setRed,
          pure_eq_ok, bind_ok, bind_error, bind_assoc, decide_eq_true_eq, decide_True,
          decide_False, ↓reduceIte, ne_eq, reduceCtorEq, not_false_eq_true, not_true_eq_false,
          Bool.not_eq_eq_eq_not, Bool.not_true, Bool.not_false, Option.some.injEq,
          Bool.false_eq_true, Bool.true_eq_false, ite_self, Except.ok.injEq, exists_eq_left',
          Option.map_some', Option.map_none', true_and, and_true, and_self, cell_store,
          length_store, *] at hh
      subst hh
      simp only [pure_eq_ok, bind_ok, bind_error, bind_assoc, decide_eq_true_eq, decide_True,
          decide_False, ↓reduceIte, ne_eq, reduceCtorEq, not_false_eq_true, not_true_eq_false,
          Bool.not_eq_eq_eq_not, Bool.not_true, Bool.not_false, Option.some.injEq,
          Bool.false_eq_true, Bool.true_eq_false, ite_self, Except.ok.injEq, exists_eq_left',
          Option.map_some', Option.map_none', true_and, and_true, and_self, cell_store,
          length_store, *]

set_option maxHeartbeats 4000000 in
/-- Case 4b of `balance` on a well-formed neighbourhood: the top node of the parent's
other subtree gets the grandparent as its parent and keeps everything else. -/
theorem exec4b_moved {again : Heap T → Ptr → Except Fault (Heap T)} {h : Heap T}
    {a p g s : Nat} {v vp vg : T} {lp rp up hdp : Ptr} {c : Bool} {nds : BNode T}
    (ca : h.cell a = some ⟨v, lp, rp, some p, c⟩)
    (cp : h.cell p = some ⟨vp, some s, some a, some g, true⟩)
    (cg : h.cell g = some ⟨vg, up, some p, hdp, false⟩)
    (cs : h.cell s = some nds)
    (hap : a ≠ p) (hag : a ≠ g) (hpg : p ≠ g) (dsa : s ≠ a) (dsp : s ≠ p) (dsg : s ≠ g)
    (hhd : h.Free hdp [a, p, g]) (hsh : hdp ≠ some s) :
    ∀ h', balanceRotate again h (some a) (some g) (some s) hdp = .ok h' →
      h'.cell s = some { nds with pParent := some g } := by
  have la := cell_lt_length ca
  have lp' := cell_lt_length cp
  have lg := cell_lt_length cg
  have ls := cell_lt_length cs
  have hpa := hap.symm
  have hga := hag.symm
  have hgp := hpg.symm
  have dsa' := Ne.symm dsa
  have dsp' := Ne.symm dsp
  have dsg' := Ne.symm dsg
  intro h' hh
  rcases hdp with _ | hd
  · clear hhd hsh
    simp only [balanceRotate, cond4a, cond4b, cond4c, cond4d, body4a, body4b, body4c,
        body4d, relinkAbove, relinkHead, memberParent, load, modify, BNode.isLeftChild,
        BNode.isRightChild, BNode.addLeft, BNode.addRight, setLeft, setRight, setParent, setRed,
        pure_eq_ok, bind_ok, bind_error, bind_assoc, decide_eq_true_eq, decide_True,
        decide_False, ↓reduceIte, ne_eq, reduceCtorEq, not_false_eq_true, not_true_eq_false,
        Bool.not_eq_eq_eq_not, Bool.not_true, Bool.not_false, Option.some.injEq,
        Bool.false_eq_true, Bool.true_eq_false, ite_self, Except.ok.injEq, exists_eq_left',
        Option.map_some', Option.map_none', true_and, and_true, and_self, cell_store,
        length_store, *] at hh
    subst hh
    simp only [pure_eq_ok, bind_ok, bind_error, bind_assoc, decide_eq_true_eq, decide_True,
        decide_False, ↓reduceIte, ne_eq, reduceCtorEq, not_false_eq_true, not_true_eq_false,
        Bool.not_eq_eq_eq_not, Bool.not_true, Bool.not_false, Option.some.injEq,
        Bool.false_eq_true, Bool.true_eq_false, ite_self, Except.ok.injEq, exists_eq_left',
        Option.map_some', Option.map_none', true_and, and_true, and_self, cell_store,
        length_store, *]
  · obtain ⟨⟨⟨vh, hl, hr, hpar, hc⟩, ch⟩, hn⟩ := hhd hd rfl
    simp only [List.mem_cons, List.mem_singleton, List.not_mem_nil, or_false, not_or] at hn
    obtain ⟨dha, dhp, dhg⟩ := hn
    have lh := cell_lt_length ch
    have dha' := Ne.symm dha
    have dhp' := Ne.symm dhp
    have dhg' := Ne.symm dhg
    have dsh : s ≠ hd := fun e => hsh (by rw [e])
    have dsh' := Ne.symm dsh
    clear hhd hsh
    by_cases hrg : hr = some g
    · simp only [balanceRotate, cond4a, cond4b, cond4c, cond4d, body4a, body4b, body4c,
          body4d, relinkAbove, relinkHead, memberParent, load, modify, BNode.isLeftChild,
          BNode.isRightChild, BNode.addLeft, BNode.addRight, setLeft, setRight, setParent, setRed,
          pure_eq_ok, bind_ok, bind_error, bind_assoc, decide_eq_true_eq, decide_True,
          decide_False, ↓reduceIte, ne_eq, reduceCtorEq, not_false_eq_true, not_true_eq_false,
          Bool.not_eq_eq_eq_not, Bool.not_true, Bool.not_false, Option.some.injEq,
          Bool.false_eq_true, Bool.true_eq_false, ite_self, Except.ok.injEq, exists_eq_left',
          Option.map_some', Option.map_none', true_and, and_true, and_self, cell_store,
          length_store, *] at hh
      subst hh
      simp only [pure_eq_ok, bind_ok, bind_error, bind_assoc, decide_eq_true_eq, decide_True,
          decide_False, ↓reduceIte, ne_eq, reduceCtorEq, not_false_eq_true, not_true_eq_false,
          Bool.not_eq_eq_eq_not, Bool.not_true, Bool.not_false, Option.some.injEq,
          Bool.false_eq_true, Bool.true_eq_false, ite_self, Except.ok.injEq, exists_eq_left',
          Option.map_some', Option.map_none', true_and, and_true, and_self, cell_store,
          length_store, *]
    · simp only [balanceRotate, cond4a, cond4b, cond4c, cond4d, body4a, body4b, body4c,
          body4d, relinkAbove, relinkHead, memberParent, load, modify, BNode.isLeftChild,
          BNode.isRightChild, BNode.addLeft, BNode.addRight, setLeft, setRight, setParent, setRed,
          pure_eq_ok, bind_ok, bind_error, bind_assoc, decide_eq_true_eq, decide_True,
          decide_False, ↓reduceIte, ne_eq, reduceCtorEq, not_false_eq_true, not_true_eq_false,
          Bool.not_eq_eq_eq_not, Bool.not_true, Bool.not_false, Option.some.injEq,
          Bool.false_eq_true, Bool.true_eq_false, ite_self, Except.ok.injEq, exists_eq_left',
          Option.map_some', Option.map_none', true_and, and_true, and_self, cell_store,
          length_store, *] at hh
      subst hh
      simp only [pure_eq_ok, bind_ok, bind_error, bind_assoc, decide_eq_true_eq, decide_True,
          decide_False, ↓reduceIte, ne_eq, reduceCtorEq, not_false_eq_true, not_true_eq_false,
          Bool.not_eq_eq_eq_not, Bool.not_true, Bool.not_false, Option.some.injEq,
          Bool.false_eq_true, Bool.true_eq_false, ite_self, Except.ok.injEq, exists_eq_left',
          Option.map_some', Option.map_none', true_and, and_true, and_self, cell_store,
          length_store, *]

end RotationMoved


section SingleRotation

variable {T : Type}

theorem balance_eq_rotate_4a {h : Heap T} {a p g : Nat} {v vp vg : T}
    {lp rp sp up hdp : Ptr} {c : Bool} (fuel : Nat)
    (ca : h.cell a = some ⟨v, lp, rp, some p, c⟩)
    (cp : h.cell p = some ⟨vp, some a, sp, some g, true⟩)
    (cg : h.cell g = some ⟨vg, some p, up, hdp, false⟩)
    (hu : auntIsRed h up = .ok false) :
    BNode.balance (fuel + 1) h (some a)
      = balanceRotate (BNode.balance fuel) h (some a) (some g) sp hdp := by
  simp only [balance_succ, load, ca, cp, cg, hu, pure_eq_ok, bind_ok, bind_error, bind_assoc,
    decide_eq_true_eq, decide_True, decide_False, ↓reduceIte, ne_eq, reduceCtorEq,
    not_false_eq_true, not_true_eq_false, Bool.not_eq_eq_eq_not, Bool.not_true,
    Bool.not_false, Option.some.injEq, Bool.false_eq_true, Bool.true_eq_false, ite_self,
    Except.ok.injEq, exists_eq_left', Option.map_some', Option.map_none', true_and, and_true,
    and_self]

theorem balance_eq_rotate_4b {h : Heap T} {a p g : Nat} {v vp vg : T}
    {lp rp sp up hdp : Ptr} {c : Bool} (fuel : Nat)
    (ca : h.cell a = some ⟨v, lp, rp, some p, c⟩)
    (cp : h.cell p = some ⟨vp, sp, some a, some g, true⟩)
    (cg : h.cell g = some ⟨vg, up, some p, hdp, false⟩)
    (hu : auntIsRed h up = .ok false) (hsa : sp ≠ some a) (hup : up ≠ some p) :
    BNode.balance (fuel + 1) h (some a)
      = balanceRotate (BNode.balance fuel) h (some a) (some g) sp hdp := by
  have hsa2 : ¬ sp = some a := hsa
  have hup2 : ¬ up = some p := hup
  simp only [balance_succ, load, ca, cp, cg, hu, hsa2, hup2, pure_eq_ok, bind_ok, bind_error,
    bind_assoc, decide_eq_true_eq, decide_True, decide_False, ↓reduceIte, ne_eq,
    reduceCtorEq, not_false_eq_true, not_true_eq_false, Bool.not_eq_eq_eq_not, Bool.not_true,
    Bool.not_false, Option.some.injEq, Bool.false_eq_true, Bool.true_eq_false, ite_self,
    Except.ok.injEq, exists_eq_left', Option.map_some', Option.map_none', true_and, and_true,
    and_self]

/-- The ancestors of a rotated subtree after the rotation: the slot that held the old top
`g` holds the new top, with all members of every ancestor. -/
theorem repCtx_retarget {h h' : Heap T} {g top : Nat} {k : List (Frame T)}
    (hctx : RepCtx h (some g) k) (hhead : HeadCell h h' (ctxPtr k) g top)
    (hsame : ∀ b ∈ ctxAddrs k, ctxPtr k ≠ some b → h'.cell b = h.cell b)
    (hnd : (ctxAddrs k).Nodup) (hg : g ∉ ctxAddrs k) : RepCtx h' (some top) k := by
  cases k with
  | nil => trivial
  | cons f k' =>
    obtain ⟨hc, ho, hk'⟩ := hctx
    rw [ctxAddrs, List.nodup_append, List.nodup_cons] at hnd
    obtain ⟨⟨hfo, -⟩, -, hdj⟩ := hnd
    have hfk : f.addr ∉ ctxAddrs k' := fun hm => hdj (List.mem_cons_self _ _) hm
    have hgo : g ∉ f.other.addrs := fun hm => hg (by simp [ctxAddrs, hm])
    refine ⟨?_, ho.repFrame (fun b hb => hsame b (by simp [ctxAddrs, hb]) ?_),
      hk'.repCtxFrame (fun b hb => hsame b (by simp [ctxAddrs, hb]) ?_)⟩
    · have hx := hhead f.addr _ rfl hc
      obtain ⟨side, addr, red, val, other⟩ := f
      cases side
      · have hne : ¬ other.ptr = some g := fun e => hgo (ptr_mem_addrs e)
        simp only [hx, hne, if_false]
      · simp only [hx, if_true]
    · simp only [ctxPtr, ne_eq, Option.some.injEq]
      rintro rfl
      exact hfo hb
    · simp only [ctxPtr, ne_eq, Option.some.injEq]
      rintro rfl
      exact hfk hb

/-- A subtree whose top node got a new parent link and whose nodes are otherwise as
before. -/
theorem rep_reparent {h h' : Heap T} {t : Tree T} {par par' : Ptr} (ht : t.Rep h par)
    (hnd : t.addrs.Nodup)
    (htop : ∀ b nd, t.ptr = some b → h.cell b = some nd →
      h'.cell b = some { nd with pParent := par' })
    (hsame : ∀ b ∈ t.addrs, some b ≠ t.ptr → h'.cell b = h.cell b) : t.Rep h' par' := by
  cases t with
  | nil => trivial
  | node l a c v r =>
    obtain ⟨hc, hl, hr⟩ := ht
    simp only [Tree.addrs] at hnd
    obtain ⟨-, h2, h3⟩ := List.nodup_append.mp hnd
    refine ⟨?_, hl.repFrame (fun b hb => hsame b (by simp [Tree.addrs, hb]) ?_),
      hr.repFrame (fun b hb => hsame b (by simp [Tree.addrs, hb]) ?_)⟩
    · rw [htop a _ rfl hc]
    · simp only [Tree.ptr, ne_eq, Option.some.injEq]
      rintro rfl
      exact h3 hb (List.mem_cons_self _ _)
    · simp only [Tree.ptr, ne_eq, Option.some.injEq]
      rintro rfl
      exact (List.nodup_cons.mp h2).1 hb

/-- Cases 4a and 4b of `balance` on a well-formed tree: the heap after the single rotation
holds the rotated subtree and its ancestors with all members of every node, and no cell
outside the tree changes. -/
theorem single_rotation_spec {h : Heap T} {l r sib aunt : Tree T} {a p g : Nat} {c : Bool}
    {v vp vg : T} {side : Side} {k : List (Frame T)} (fuel : Nat)
    (hrep : (Tree.node l a c v r).Rep h (some p))
    (hctx : RepCtx h (some a) (⟨side, p, true, vp, sib⟩ :: ⟨side, g, false, vg, aunt⟩ :: k))
    (hnd : ((Tree.node l a c v r).addrs ++ ctxAddrs
      (⟨side, p, true, vp, sib⟩ :: ⟨side, g, false, vg, aunt⟩ :: k)).Nodup)
    (hU : aunt.isRed = false) :
    ∃ h', BNode.balance (fuel + 1) h (some a) = .ok h' ∧
      (Frame.fill ⟨side, p, false, vp, Frame.fill ⟨side, g, true, vg, aunt⟩ sib⟩
        (.node l a c v r)).Rep h' (ctxPtr k) ∧
      RepCtx h' (some p) k ∧
      ∀ b, b ∉ (Tree.node l a c v r).addrs ++ ctxAddrs
        (⟨side, p, true, vp, sib⟩ :: ⟨side, g, false, vg, aunt⟩ :: k) →
        h'.cell b = h.cell b := by
  have hndS : sib.addrs.Nodup := by
    refine hnd.sublist ?_
    simp only [ctxAddrs, Tree.addrs]
    refine List.Sublist.trans ?_ (List.sublist_append_right _ _)
    exact (List.sublist_append_left _ _).cons _
  simp only [Tree.addrs, ctxAddrs] at hnd
  obtain ⟨hap, hag, hpg, dL, dR, dS, dU, dK, hK, -⟩ := nodup_parts hnd
  obtain ⟨ca, hl, hr⟩ := hrep
  obtain ⟨cp, hsib, cg, haunt, hk⟩ := hctx
  have hu : auntIsRed h aunt.ptr = .ok false := by
    rw [auntIsRed_of_rep haunt, hU]
  have nK : ∀ b ∈ [a, p, g], b ∉ ctxAddrs k := fun b hb hm => dK b hm hb
  have nS : ∀ b ∈ [a, p, g], b ∉ sib.addrs := fun b hb hm => (dS b hm).1 hb
  have hhd := free_of_repCtx hk [a, p, g] nK
  have hsp := free_of_rep hsib [a, p, g] nS
  have hsh := ptr_ne_ctxPtr (s := sib) (k := k) (fun b hb => (dS b hb).2.2)
  have hsa : sib.ptr ≠ some a := not_mem_of_ptr (nS a (by simp))
  have hup : aunt.ptr ≠ some p := not_mem_of_ptr (fun hm => (dU p hm).1 (by simp))
  have hgK : g ∉ ctxAddrs k := nK g (by simp)
  -- what is left to show once the heap after the rotation is known
  have finish : ∀ h' : Heap T,
      h'.cell a = some ⟨v, l.ptr, r.ptr, some p, c⟩ →
      HeadCell h h' (ctxPtr k) g p → RestSame h h' [a, p, g] (ctxPtr k) [sib.ptr] →
      (∀ s nds, sib.ptr = some s → h.cell s = some nds →
        h'.cell s = some { nds with pParent := some g }) →
      (Tree.node l a c v r).Rep h' (some p) ∧ sib.Rep h' (some g) ∧ aunt.Rep h' (some g) ∧
        RepCtx h' (some p) k ∧
        ∀ b, b ∉ (l.addrs ++ a :: r.addrs) ++ (p :: sib.addrs ++ (g :: aunt.addrs ++
          ctxAddrs k)) → h'.cell b = h.cell b := by
    intro h' cA hHead hRest hMoved
    have same : ∀ b, b ∉ [a, p, g] → b ∉ ctxAddrs k → b ∉ sib.addrs → h'.cell b = h.cell b := by
      intro b h1 h2 h3
      refine (hRest b h1 (fun e => h2 (ctxPtr_mem e))).2 ?_
      simp only [List.mem_singleton]
      exact fun e => h3 (ptr_mem_addrs e.symm)
    have sameS : ∀ b ∈ sib.addrs, some b ≠ sib.ptr → h'.cell b = h.cell b := by
      intro b hb hne
      refine (hRest b (dS b hb).1 (fun e => (dS b hb).2.2 (ctxPtr_mem e))).2 ?_
      simp only [List.mem_singleton]
      exact hne
    refine ⟨⟨cA, ?_, ?_⟩, rep_reparent hsib hndS hMoved sameS, ?_, ?_, ?_⟩
    · exact hl.repFrame (fun b hb => same b (dL b hb).1 (dL b hb).2.2.2.2 (dL b hb).2.2.1)
    · exact hr.repFrame (fun b hb => same b (dR b hb).1 (dR b hb).2.2.2 (dR b hb).2.1)
    · exact haunt.repFrame (fun b hb => same b (dU b hb).1 (dU b hb).2
        (fun hm => (dS b hm).2.1 hb))
    · refine repCtx_retarget hk hHead (fun b hb _ => ?_) hK hgK
      exact (hRest b (dK b hb) (by assumption)).2 (by
        simp only [List.mem_singleton]
        exact fun e => (dS b (ptr_mem_addrs e.symm)).2.2 hb)
    · intro b hb
      simp only [List.mem_append, List.mem_cons, not_or] at hb
      obtain ⟨⟨-, hba, -⟩, ⟨hbp, hbs⟩, ⟨hbg, -⟩, hbk⟩ := hb
      refine same b ?_ hbk hbs
      simp only [List.mem_cons, List.mem_singleton, List.not_mem_nil, or_false, not_or]
      exact ⟨hba, hbp, hbg⟩
  cases side
  · -- 4a
    replace cp : h.cell p = some ⟨vp, some a, sib.ptr, some g, true⟩ := cp
    replace cg : h.cell g = some ⟨vg, some p, aunt.ptr, ctxPtr k, false⟩ := cg
    replace hsp : h.Free sib.ptr [a, p, g] := hsp
    have e := balance_eq_rotate_4a fuel ca cp cg hu
    obtain ⟨h', hex, cA, cP, cG, hHead, hRest⟩ :=
      @exec4a T (BNode.balance fuel) _ _ _ _ _ _ _ _ _ _ _ _ _ ca cp cg hap hag hpg hhd hsp
        hsh
    obtain ⟨r1, r2, r3, r4, r5⟩ := finish h' cA hHead hRest (by
      intro s nds hs hc
      rw [hs] at cp hex
      have hsm := ptr_mem_addrs hs
      have hds := (dS s hsm).1
      simp only [List.mem_cons, List.mem_singleton, List.not_mem_nil, or_false, not_or] at hds
      refine exec4a_moved ca cp cg hc hap hag hpg hds.1 hds.2.1 hds.2.2 hhd ?_ h' hex
      exact fun e => (dS s hsm).2.2 (ctxPtr_mem e))
    refine ⟨h', e.trans hex, ?_, r4, r5⟩
    exact ⟨cP, r1, cG, r2, r3⟩
  · -- 4b
    replace cp : h.cell p = some ⟨vp, sib.ptr, some a, some g, true⟩ := cp
    replace cg : h.cell g = some ⟨vg, aunt.ptr, some p, ctxPtr k, false⟩ := cg
    replace hsp : h.Free sib.ptr [a, p, g] := hsp
    have e := balance_eq_rotate_4b fuel ca cp cg hu hsa hup
    obtain ⟨h', hex, cA, cP, cG, hHead, hRest⟩ :=
      @exec4b T (BNode.balance fuel) _ _ _ _ _ _ _ _ _ _ _ _ _ ca cp cg hap hag hpg hhd hsp
        hsh
    obtain ⟨r1, r2, r3, r4, r5⟩ := finish h' cA hHead hRest (by
      intro s nds hs hc
      rw [hs] at cp hex
      have hsm := ptr_mem_addrs hs
      have hds := (dS s hsm).1
      simp only [List.mem_cons, List.mem_singleton, List.not_mem_nil, or_false, not_or] at hds
      refine exec4b_moved ca cp cg hc hap hag hpg hds.1 hds.2.1 hds.2.2 hhd ?_ h' hex
      exact fun e => (dS s hsm).2.2 (ctxPtr_mem e))
    refine ⟨h', e.trans hex, ?_, r4, r5⟩
    exact ⟨cP, ⟨cG, r3, r2⟩, r1⟩

end SingleRotation


section RecolourSpec

variable {T : Type}

theorem cell_paint (h : Heap T) (a b : Nat) (c : Bool) :
    (h.paint a c).cell b =
      if a = b then (h.cell b).map (fun nd => { nd with isRed := c }) else h.cell b := by
  unfold Heap.paint
  cases hc : h.cell a with
  | none =>
    by_cases hab : a = b
    · subst hab
      simp only [hc, ↓reduceIte, Option.map_none']
    · simp only [hab, ↓reduceIte]
  | some nd =>
    have hl := cell_lt_length hc
    by_cases hab : a = b
    · subst hab
      simp only [cell_store, ↓reduceIte, hl, hc, Option.map_some']
    · simp only [cell_store, hab, ↓reduceIte]

/-- Painting a node writes no element and no link. -/
theorem paint_links (h : Heap T) (a b : Nat) (c : Bool) :
    (h.paint a c).kids b = h.kids b ∧ (h.paint a c).parent b = h.parent b := by
  simp only [Heap.kids, Heap.parent, cell_paint]
  by_cases hab : a = b
  · simp only [hab, ↓reduceIte]
    cases h.cell b <;> exact ⟨rfl, rfl⟩
  · simp only [hab, ↓reduceIte, and_self]

/-- The recolour step of the spec writes no element and no link. -/
theorem recolourSpec_links (h : Heap T) (p u g b : Nat) :
    (recolourSpec h p u g).kids b = h.kids b ∧ (recolourSpec h p u g).parent b = h.parent b := by
  unfold recolourSpec
  obtain ⟨a1, a2⟩ := paint_links ((h.paint g true).paint p false) u b false
  obtain ⟨b1, b2⟩ := paint_links (h.paint g true) p b false
  obtain ⟨c1, c2⟩ := paint_links h g b true
  exact ⟨a1.trans (b1.trans c1), a2.trans (b2.trans c2)⟩

/-- The cells after the recolour step of the spec. -/
theorem recolourSpec_cells {h : Heap T} {p u g : Nat} {np nu ng : BNode T}
    (cp : h.cell p = some np) (cu : h.cell u = some nu) (cg : h.cell g = some ng)
    (hpg : p ≠ g) (hpu : p ≠ u) (hgu : g ≠ u) :
    (recolourSpec h p u g).cell g = some { ng with isRed := true } ∧
      (recolourSpec h p u g).cell p = some { np with isRed := false } ∧
      (recolourSpec h p u g).cell u = some { nu with isRed := false } ∧
      ∀ b, b ≠ g → b ≠ p → b ≠ u → (recolourSpec h p u g).cell b = h.cell b := by
  have hgp := hpg.symm
  have hup := hpu.symm
  have hug := hgu.symm
  refine ⟨?_, ?_, ?_, ?_⟩
  · simp only [recolourSpec, cell_paint, hug, hpg, ↓reduceIte, cg, Option.map_some']
  · simp only [recolourSpec, cell_paint, hup, hgp, ↓reduceIte, cp, Option.map_some']
  · simp only [recolourSpec, cell_paint, hpu, hgu, ↓reduceIte, cu, Option.map_some']
  · intro b h1 h2 h3
    have h1' := Ne.symm h1
    have h2' := Ne.symm h2
    have h3' := Ne.symm h3
    simp only [recolourSpec, cell_paint, h1', h2', h3', ↓reduceIte]

/-- The heap of the recolour step of the spec, as the stores of the three colours. -/
theorem recolourSpec_eq {h : Heap T} {p u g : Nat} {np nu ng : BNode T}
    (cp : h.cell p = some np) (cu : h.cell u = some nu) (cg : h.cell g = some ng)
    (hpg : p ≠ g) (hpu : p ≠ u) (hgu : g ≠ u) :
    recolourSpec h p u g = ((h.store g { ng with isRed := true }).store p
      { np with isRed := false }).store u { nu with isRed := false } := by
  have lg := cell_lt_length cg
  have hgp := hpg.symm
  have hup := hpu.symm
  have hug := hgu.symm
  simp only [recolourSpec, Heap.paint, cg, cell_store, hgp, hgu, hpu, ↓reduceIte, cp, cu]

/-- Case 3 of `balance` on a well-formed neighbourhood: `balance` goes on from the
grandparent in the heap of the recolour step of the spec. -/
theorem balance_recolor_paint {h : Heap T} {a p g u : Nat} {v vp vg vu : T}
    {lp rp pl pr gl gr ul ur hdp : Ptr} {c : Bool} (fuel : Nat)
    (ca : h.cell a = some ⟨v, lp, rp, some p, c⟩)
    (cp : h.cell p = some ⟨vp, pl, pr, some g, true⟩)
    (cg : h.cell g = some ⟨vg, gl, gr, hdp, false⟩)
    (cu : h.cell u = some ⟨vu, ul, ur, some g, true⟩)
    (hsh : (gl = some p ∧ gr = some u) ∨ (gl = some u ∧ gr = some p))
    (hap : a ≠ p) (hag : a ≠ g) (hau : a ≠ u) (hpg : p ≠ g) (hpu : p ≠ u) (hgu : g ≠ u) :
    BNode.balance (fuel + 1) h (some a)
      = BNode.balance fuel (recolourSpec h p u g) (some g) := by
  have la := cell_lt_length ca
  have lp' := cell_lt_length cp
  have lg := cell_lt_length cg
  have lu := cell_lt_length cu
  have hpa := hap.symm
  have hga := hag.symm
  have hua := hau.symm
  have hgp := hpg.symm
  have hup := hpu.symm
  have hug := hgu.symm
  have hup' : ¬ (some u : Ptr) = some p := by simpa using hup
  rw [recolourSpec_eq cp cu cg hpg hpu hgu]
  rcases hsh with ⟨rfl, rfl⟩ | ⟨rfl, rfl⟩ <;>
  simp only [balance_succ, balanceRecolor, auntIsRed, memberParent, load, setRed, modify,
    pure_eq_ok, bind_ok, bind_error, bind_assoc, decide_eq_true_eq, decide_True,
    decide_False, ↓reduceIte, ne_eq, reduceCtorEq, not_false_eq_true, not_true_eq_false,
    Bool.not_eq_eq_eq_not, Bool.not_true, Bool.not_false, Option.some.injEq,
    Bool.false_eq_true, Bool.true_eq_false, ite_self, Except.ok.injEq, exists_eq_left',
    true_and, and_true, and_self, cell_store, length_store, *]

/-- Case 3 of `balance` on a well-formed tree: the heap of the recolour step of the spec
holds the recoloured tree with all members of every node, and `balance` goes on in it
from the grandparent. -/
theorem recolour_spec {h : Heap T} {l r ul ur : Tree T} {a u : Nat} {c : Bool}
    {v vu : T} {sideP sideG : Side} {p g : Nat} {vp vg : T} {sib : Tree T}
    {k : List (Frame T)} (fuel : Nat)
    (hrep : (Tree.node l a c v r).Rep h (some p))
    (hctx : RepCtx h (some a)
      (⟨sideP, p, true, vp, sib⟩ :: ⟨sideG, g, false, vg, .node ul u true vu ur⟩ :: k))
    (hnd : ((Tree.node l a c v r).addrs ++ ctxAddrs
      (⟨sideP, p, true, vp, sib⟩ :: ⟨sideG, g, false, vg, .node ul u true vu ur⟩ :: k)).Nodup) :
    BNode.balance (fuel + 1) h (some a)
        = BNode.balance fuel (recolourSpec h p u g) (some g) ∧
      (Tree.node l a c v r).Rep (recolourSpec h p u g) (some p) ∧
      RepCtx (recolourSpec h p u g) (some a)
        (⟨sideP, p, false, vp, sib⟩ :: ⟨sideG, g, true, vg, .node ul u false vu ur⟩ :: k) := by
  simp only [Tree.addrs, ctxAddrs] at hnd
  obtain ⟨hap, hag, hpg, dL, dR, dS, dU, dK, hK, hU⟩ := nodup_parts hnd
  have hu : u ∈ ul.addrs ++ u :: ur.addrs := by simp
  have hau : a ≠ u := fun e => (dU u hu).1 (by simp [e])
  have hpu : p ≠ u := fun e => (dU u hu).1 (by simp [e])
  have hgu : g ≠ u := fun e => (dU u hu).1 (by simp [e])
  obtain ⟨ca, hl, hr⟩ := hrep
  obtain ⟨cp, hsib, cg, ⟨cu, hul, hur⟩, hk⟩ := hctx
  obtain ⟨c3g, c3p, c3u, hsame⟩ := recolourSpec_cells cp cu cg hpg hpu hgu
  have same : ∀ b, b ∉ [a, p, g] → b ≠ u → (recolourSpec h p u g).cell b = h.cell b := by
    intro b hb hbu
    simp only [List.mem_cons, List.mem_singleton, List.not_mem_nil, or_false, not_or] at hb
    exact hsame b hb.2.2 hb.2.1 hbu
  have huU : ∀ b, b ∉ ul.addrs ++ u :: ur.addrs → b ≠ u := by
    intro b hb e
    exact hb (by simp [e])
  rw [List.nodup_append, List.nodup_cons] at hU
  refine ⟨?_, ⟨?_, ?_, ?_⟩, ?_, ?_, ?_, ⟨c3u, ?_, ?_⟩, ?_⟩
  · cases sideP <;> cases sideG
    · exact balance_recolor_paint fuel ca cp cg cu (Or.inl ⟨rfl, rfl⟩) hap hag hau hpg hpu hgu
    · exact balance_recolor_paint fuel ca cp cg cu (Or.inr ⟨rfl, rfl⟩) hap hag hau hpg hpu hgu
    · exact balance_recolor_paint fuel ca cp cg cu (Or.inl ⟨rfl, rfl⟩) hap hag hau hpg hpu hgu
    · exact balance_recolor_paint fuel ca cp cg cu (Or.inr ⟨rfl, rfl⟩) hap hag hau hpg hpu hgu
  · rw [hsame a hag hap hau]
    exact ca
  · exact hl.repFrame (fun b hb => same b (dL b hb).1 (huU b (dL b hb).2.2.2.1))
  · exact hr.repFrame (fun b hb => same b (dR b hb).1 (huU b (dR b hb).2.2.1))
  · rw [c3p]
    cases sideP <;> rfl
  · exact hsib.repFrame (fun b hb => same b (dS b hb).1 (huU b (dS b hb).2.1))
  · rw [c3g]
    cases sideG <;> rfl
  · refine hul.repFrame (fun b hb => same b (dU b (by simp [hb])).1 ?_)
    rintro rfl
    exact hU.2.2 hb (List.mem_cons_self _ _)
  · refine hur.repFrame (fun b hb => same b (dU b (by simp [hb])).1 ?_)
    rintro rfl
    exact hU.2.1.1 hb
  · exact hk.repCtxFrame (fun b hb => same b (dK b hb) (fun e => (dU u hu).2 (e ▸ hb)))

end RecolourSpec


section RotationClaims

variable {T : Type}

theorem weakOrder_iff_sorted [LinearOrder T] :
    ∀ (t : Tree T), t.weakOrder = true ↔ t.toList.Sorted (· ≤ ·)
  | .nil => by simp [Tree.weakOrder, Tree.toList]
  | .node l a c v r => by
    have hl := weakOrder_iff_sorted l
    have hr := weakOrder_iff_sorted r
    simp only [Tree.weakOrder, Tree.toList, Bool.and_eq_true, List.all_eq_true,
      decide_eq_true_eq, hl, hr, List.Sorted, List.pairwise_append, List.pairwise_cons,
      List.mem_cons]
    constructor
    · rintro ⟨⟨⟨h1, h2⟩, h3⟩, h4⟩
      refine ⟨h3, ⟨h2, h4⟩, ?_⟩
      rintro x hx y (rfl | hy)
      · exact h1 x hx
      · exact le_trans (h1 x hx) (h2 y hy)
    · rintro ⟨h3, ⟨h2, h4⟩, h5⟩
      exact ⟨⟨⟨fun x hx => h5 x hx v (Or.inl rfl), h2⟩, h3⟩, h4⟩

/-- C21, amended: for a well-formed tree (no node reached twice, consistent parent links,
root black, no red node with a red child) in which, for every node, no value in its left
subtree is greater than its value and no value in its right subtree is less, and every
value `v`, `insert(v, false)` returns and the tree reachable from the new root by child
links has that order again (with "less or equal" on the left, not "less"). -/
theorem C21_insert_keeps_weak_order [LinearOrder T] (n : Nat) (h : Heap T) (tree : BST)
    (s : Tree T) (v : T) (fuel : Nat) (hs : snapshot n h tree.root = .ok s)
    (hnodup : s.addrs.Nodup) (hpar : s.parentsOk h none = true) (hblack : s.isRed = false)
    (hrr : s.redRed = false) (hord : s.weakOrder = true) (hfuel : s.height + 3 ≤ fuel) :
    ∃ (h' : Heap T) (tree' : BST) (it : Ptr) (s' : Tree T),
      BST.insert fuel h tree v false = .ok (h', tree', it, true) ∧
      snapshot (s.size + 1) h' tree'.root = .ok s' ∧ s'.weakOrder = true ∧
      s'.toList.Perm (v :: s.toList) := by
  have hsorted := (weakOrder_iff_sorted s).mp hord
  obtain ⟨h', t', hins, hskel, hlist⟩ :=
    insert_spec n v false fuel hs hnodup hpar hblack hrr (fun e => by cases e) hfuel
  rw [ins_toList v (.node .nil h.length true v .nil) rfl s hsorted] at hlist
  have hheight : t'.height ≤ s.size + 1 := by
    have h1 := height_le_size t'
    have h2 := (insertSorted_perm v s.toList).length_eq
    rw [size_eq_length t', hlist, h2, List.length_cons, ← size_eq_length s] at h1
    exact h1
  obtain ⟨s', hs1, hs2, -⟩ := Tree.Skel.snapshot t' (s.size + 1) hskel hheight
  refine ⟨h', _, _, s', hins, hs1, ?_, ?_⟩
  · rw [weakOrder_iff_sorted, hs2, hlist]
    exact insertSorted_sorted v _ hsorted
  · rw [hs2, hlist]
    exact insertSorted_perm v _

/-- C29: in a well-formed tree (no node reached twice, consistent parent links) with the
node n at `a`, its red parent p, its black grandparent g, n and p children on the same
side `side`, and the uncle absent or black, `balance` on n returns.  Afterwards the heap
holds, with consistent parent links, the tree in which p is at the former position of g
(below the ancestors `k` of g) and black, n is where it was below p, and g is red and the
other child of p, with the former other subtree `sib` of p in the slot that held p.  All
other nodes are as before, and no cell outside the tree changes. -/
theorem C29_single_rotation_relinks_and_recolours (n : Nat) (h : Heap T) (root : Ptr)
    (l r sib aunt : Tree T) (a p g : Nat) (c : Bool) (v vp vg : T) (side : Side)
    (k : List (Frame T)) (fuel : Nat)
    (hs : snapshot n h root = .ok (plug (.node l a c v r)
      (⟨side, p, true, vp, sib⟩ :: ⟨side, g, false, vg, aunt⟩ :: k)))
    (hpar : (plug (.node l a c v r)
      (⟨side, p, true, vp, sib⟩ :: ⟨side, g, false, vg, aunt⟩ :: k)).parentsOk h none = true)
    (hnodup : (plug (.node l a c v r)
      (⟨side, p, true, vp, sib⟩ :: ⟨side, g, false, vg, aunt⟩ :: k)).addrs.Nodup)
    (haunt : aunt.isRed = false) (hfuel : 1 ≤ fuel) :
    ∃ h', BNode.balance fuel h (some a) = .ok h' ∧
      snapshot (plug (.node l a c v r)
          (⟨side, p, false, vp, Frame.fill ⟨side, g, true, vg, aunt⟩ sib⟩ :: k)).height h'
          (plug (.node l a c v r)
            (⟨side, p, false, vp, Frame.fill ⟨side, g, true, vg, aunt⟩ sib⟩ :: k)).ptr
        = .ok (plug (.node l a c v r)
          (⟨side, p, false, vp, Frame.fill ⟨side, g, true, vg, aunt⟩ sib⟩ :: k)) ∧
      (plug (.node l a c v r)
        (⟨side, p, false, vp, Frame.fill ⟨side, g, true, vg, aunt⟩ sib⟩ :: k)).parentsOk h'
          none = true ∧
      ∀ b, b ∉ (plug (.node l a c v r)
        (⟨side, p, true, vp, sib⟩ :: ⟨side, g, false, vg, aunt⟩ :: k)).addrs →
        h'.cell b = h.cell b := by
  obtain ⟨fuel, rfl⟩ : ∃ f, fuel = f + 1 := ⟨fuel - 1, by omega⟩
  have hrep := snapshot_rep n _ none _ hs hpar
  obtain ⟨hN, hctx⟩ := (rep_plug _ _).mp hrep
  have hperm := plug_addrs_perm (⟨side, p, true, vp, sib⟩ :: ⟨side, g, false, vg, aunt⟩ :: k)
    (Tree.node l a c v r)
  have hnd := (List.Perm.nodup_iff hperm).mp hnodup
  obtain ⟨h', hbal, hrot, hk, hsame⟩ := single_rotation_spec fuel hN hctx hnd haunt
  have hpost : (plug (.node l a c v r)
      (⟨side, p, false, vp, Frame.fill ⟨side, g, true, vg, aunt⟩ sib⟩ :: k)).Rep h' none := by
    rw [plug, rep_plug]
    exact ⟨hrot, by rw [fill_ptr]; exact hk⟩
  obtain ⟨h1, h2⟩ := rep_snapshot _ none _ hpost (Nat.le_refl _)
  exact ⟨h', hbal, h1, h2, fun b hb => hsame b (fun hm => hb (hperm.mem_iff.mpr hm))⟩

end RotationClaims

section RotationWitnesses

theorem C21_insert_keeps_weak_order_witness :
    snapshot 4 heapC2 (⟨some 1, 6⟩ : BST).root = .ok treeC2 ∧ treeC2.addrs.Nodup ∧
      treeC2.parentsOk heapC2 none = true ∧ treeC2.isRed = false ∧
      treeC2.redRed = false ∧ treeC2.weakOrder = true ∧ treeC2.height + 3 ≤ 7 ∧
      ∃ (h' : Heap Nat) (tree' : BST) (it : Ptr) (s' : Tree Nat),
        BST.insert 7 heapC2 ⟨some 1, 6⟩ 4 false = .ok (h', tree', it, true) ∧
        snapshot (treeC2.size + 1) h' tree'.root = .ok s' ∧ s'.weakOrder = true ∧
        s'.toList.Perm (4 :: treeC2.toList) :=
  ⟨rfl, by decide, rfl, rfl, rfl, by decide, by decide,
    C21_insert_keeps_weak_order 4 heapC2 ⟨some 1, 6⟩ treeC2 4 7 rfl (by decide) rfl rfl
      rfl (by decide) (by decide)⟩

theorem C29_single_rotation_relinks_and_recolours_witness :
    snapshot 4 heapC29 (some 0) = .ok (plug (.node .nil 4 true 1 .nil)
        (⟨.left, 3, true, 3, .nil⟩ :: ⟨.left, 1, false, 5, .nil⟩ ::
          [⟨.left, 0, false, 10, .node .nil 2 false 15 .nil⟩])) ∧
      (plug (.node .nil 4 true 1 .nil)
        (⟨.left, 3, true, 3, .nil⟩ :: ⟨.left, 1, false, 5, .nil⟩ ::
          [⟨.left, 0, false, 10, .node .nil 2 false 15 .nil⟩])).parentsOk heapC29 none
        = true ∧
      (plug (.node .nil 4 true 1 .nil)
        (⟨.left, 3, true, 3, .nil⟩ :: ⟨.left, 1, false, 5, .nil⟩ ::
          [⟨.left, 0, false, 10, .node .nil 2 false 15 .nil⟩])).addrs.Nodup ∧
      (Tree.nil : Tree Nat).isRed = false ∧ 1 ≤ 1 ∧
      ∃ h', BNode.balance 1 heapC29 (some 4) = .ok h' ∧
        snapshot (plug (.node .nil 4 true 1 .nil)
            (⟨.left, 3, false, 3, Frame.fill ⟨.left, 1, true, 5, .nil⟩ .nil⟩ ::
              [⟨.left, 0, false, 10, .node .nil 2 false 15 .nil⟩])).height h'
            (plug (.node .nil 4 true 1 .nil)
              (⟨.left, 3, false, 3, Frame.fill ⟨.left, 1, true, 5, .nil⟩ .nil⟩ ::
                [⟨.left, 0, false, 10, .node .nil 2 false 15 .nil⟩])).ptr
          = .ok (plug (.node .nil 4 true 1 .nil)
            (⟨.left, 3, false, 3, Frame.fill ⟨.left, 1, true, 5, .nil⟩ .nil⟩ ::
              [⟨.left, 0, false, 10, .node .nil 2 false 15 .nil⟩])) ∧
        (plug (.node .nil 4 true 1 .nil)
          (⟨.left, 3, false, 3, Frame.fill ⟨.left, 1, true, 5, .nil⟩ .nil⟩ ::
            [⟨.left, 0, false, 10, .node .nil 2 false 15 .nil⟩])).parentsOk h' none
          = true ∧
        ∀ b, b ∉ (plug (.node .nil 4 true 1 .nil)
          (⟨.left, 3, true, 3, .nil⟩ :: ⟨.left, 1, false, 5, .nil⟩ ::
            [⟨.left, 0, false, 10, .node .nil 2 false 15 .nil⟩])).addrs →
          h'.cell b = heapC29.cell b :=
  ⟨rfl, rfl, by decide, rfl, by decide,
    C29_single_rotation_relinks_and_recolours 4 heapC29 (some 0) .nil .nil .nil .nil 4 3 1
      true 1 3 5 .left [⟨.left, 0, false, 10, .node .nil 2 false 15 .nil⟩] 1 rfl rfl
      (by decide) rfl (by decide)⟩

end RotationWitnesses


section LastConcrete

variable {T : Type}

/-- C31: `insert` of a value `v` into the empty tree, with either `keepUnique` and a
budget of one step, returns an iterator to a new node and the flag `true`; the root is
that node, it holds `v`, is black and has no parent and no children; `size()` is 1.  The
nodes of other trees in the heap are as before. -/
theorem C31_insert_into_empty_tree [LinearOrder T] (h : Heap T) (v : T) (keepUnique : Bool)
    (fuel : Nat) (hfuel : 1 ≤ fuel) :
    ∃ h', BST.insert fuel h BST.empty v keepUnique
        = .ok (h', ⟨some h.length, 1⟩, some h.length, true) ∧
      h'.cell h.length = some ⟨v, none, none, none, false⟩ ∧
      snapshot 1 h' (some h.length) = .ok (.node .nil h.length false v .nil) ∧
      (⟨some h.length, 1⟩ : BST).size = 1 ∧
      ∀ b, b ≠ h.length → h'.cell b = h.cell b := by
  obtain ⟨fuel, rfl⟩ : ∃ f, fuel = f + 1 := ⟨fuel - 1, by omega⟩
  have hnew : (newNode h v).2.cell h.length = some ⟨v, none, none, none, true⟩ := by
    rw [cell_newNode]
    simp only [↓reduceIte]
  have hlen : h.length < (newNode h v).2.length := by simp [newNode]
  have hc : ((newNode h v).2.store h.length ⟨v, none, none, none, false⟩).cell h.length
      = some ⟨v, none, none, none, false⟩ := by
    simp only [cell_store, ↓reduceIte, hlen]
  refine ⟨(newNode h v).2.store h.length ⟨v, none, none, none, false⟩, ?_, hc, ?_, rfl, ?_⟩
  · generalize hh1 : (newNode h v).2 = h1 at hnew hc
    have e : newNode h v = (h.length, h1) := by
      rw [← hh1]
      rfl
    have hd : BST.insertDescend (fuel + 1) h v keepUnique (BST.empty : BST).root
        (BST.empty : BST).root true = .ok (.slot none true) := rfl
    simp only [BST.insert, hd, bind_ok, e, BST.placeNew, ne_eq, not_true_eq_false,
      ↓reduceIte, pure_eq_ok, balance_succ, load_some hnew, setRed, modify, hnew,
      BST.findRoot, load_some hc]
    rfl
  · simp only [snapshot, load_some hc, bind_ok, pure_eq_ok]
  · intro b hb
    have hb' : h.length ≠ b := fun e => hb e.symm
    simp only [cell_store, hb', ↓reduceIte, cell_newNode, hb]

/-- C37: `swap` gives `*this` the root and the count of `rhs` and `rhs` those of `*this`;
it takes no node of the heap as operand.  Two calls restore both trees, and `a.swap(b)`
leaves the two trees as `b.swap(a)` does. -/
theorem C37_swap_exchanges_roots_and_counts (a b : BST) :
    BST.swap a b = (b, a) ∧
      (BST.swap a b).1.root = b.root ∧ (BST.swap a b).1.size = b.size ∧
      (BST.swap a b).2.root = a.root ∧ (BST.swap a b).2.size = a.size ∧
      BST.swap (BST.swap a b).1 (BST.swap a b).2 = (a, b) ∧
      BST.swap b a = ((BST.swap a b).2, (BST.swap a b).1) :=
  ⟨rfl, rfl, rfl, rfl, rfl, rfl, rfl⟩

end LastConcrete

section LastDivergences

/-- C32 (the code leaves the claim): the tree built from 1, 2 is well-formed; its root
holds 1 and has one child, the node at address 1 holding 2.  After `erase` at the root
the child has no parent link, as the claim says, but the member `root` still holds the
address 0 of the deleted node instead of the address of the child.  The same with the
mirror image, the tree built from 2, 1. -/
theorem C32_erase_root_with_one_child_keeps_root :
    BST.insertAll 50 false [1, 2] (([] : Heap Nat), BST.empty)
        = .ok (heapC14, ⟨some 0, 2⟩) ∧
      snapshot 2 heapC14 (some 0) = .ok (.node .nil 0 false 1 (.node .nil 1 true 2 .nil)) ∧
      (Tree.node .nil 0 false 1 (.node .nil 1 true 2 .nil)).parentsOk heapC14 none = true ∧
      BST.erase 50 heapC14 ⟨some 0, 2⟩ (some 0)
        = .ok ([none, some ⟨2, none, none, none, true⟩], ⟨some 0, 1⟩, some 1) ∧
      (⟨some 0, 1⟩ : BST).root ≠ some 1 ∧
      Heap.cell ([none, some ⟨2, none, none, none, true⟩] : Heap Nat) 0 = none ∧
      BST.insertAll 50 false [2, 1] (([] : Heap Nat), BST.empty)
        = .ok ([some ⟨2, some 1, none, none, false⟩, some ⟨1, none, none, some 0, true⟩],
            ⟨some 0, 2⟩) ∧
      BST.erase 50 [some ⟨2, some 1, none, none, false⟩, some ⟨1, none, none, some 0, true⟩]
          ⟨some 0, 2⟩ (some 0)
        = .ok ([none, some ⟨1, none, none, none, true⟩], ⟨some 0, 1⟩, none) :=
  ⟨rfl, rfl, rfl, rfl, by decide, rfl, rfl, rfl⟩

/-- C35 (the code leaves the claim): after inserting 1, 2, 3, 6, 4, 7, 8, 5 into the
empty tree, `find(6)` returns `end()`: the node holding 6, at address 3, is alive but is
not among the nodes reachable from the root by child links.  A value that is reachable,
such as 5, is found. -/
theorem C35_inserted_value_is_not_found :
    BST.insertAll 50 false [1, 2, 3, 6, 4, 7, 8, 5] (([] : Heap Nat), BST.empty)
        = .ok (heapC5, ⟨some 1, 8⟩) ∧
      6 ∈ [1, 2, 3, 6, 4, 7, 8, 5] ∧
      BST.find 50 heapC5 ⟨some 1, 8⟩ 6 = .ok BST.endIt ∧
      heapC5.cell 3 = some ⟨6, some 4, some 5, some 5, true⟩ ∧
      snapshot 4 heapC5 (⟨some 1, 8⟩ : BST).root = .ok treeC5 ∧
      3 ∉ treeC5.addrs ∧ 6 ∉ treeC5.toList ∧
      BST.find 50 heapC5 ⟨some 1, 8⟩ 5 = .ok (some 7) :=
  ⟨rfl, by decide, rfl, rfl, rfl, by decide, by decide, rfl⟩

/-- C38 (the code leaves the claim): in the tree reachable from the root of `heapC5` the
root is black and no red node has a red child, but the paths from the root to an absent
child hold 2 and 3 black nodes.  `verifyRedBlack`, called on the root with the depth that
`findDepth` returns (3), returns `true`: the test of rule d never holds, and the call
returns `true` for every other depth as well. -/
theorem C38_checker_accepts_unequal_black_counts :
    snapshot 4 heapC5 (some 1) = .ok treeC5 ∧
      treeC5.isRed = false ∧ treeC5.redRed = false ∧
      treeC5.blackCounts = [2, 2, 3, 3, 3, 3] ∧
      BNode.findDepth 50 heapC5 (some 1) = .ok 3 ∧
      BNode.verifyRedBlack 50 heapC5 (some 1) 3 = .ok true ∧
      ∀ depth : Int, BNode.verifyRedBlack 50 heapC5 (some 1) depth = .ok true :=
  ⟨rfl, rfl, rfl, rfl, rfl, rfl, fun _ => rfl⟩

end LastDivergences

section LastWitnesses

theorem C31_insert_into_empty_tree_witness :
    1 ≤ 1 ∧
      ∃ h', BST.insert 1 ([] : Heap Nat) BST.empty 5 true
          = .ok (h', ⟨some ([] : Heap Nat).length, 1⟩, some ([] : Heap Nat).length, true) ∧
        h'.cell ([] : Heap Nat).length = some ⟨5, none, none, none, false⟩ ∧
        snapshot 1 h' (some ([] : Heap Nat).length)
          = .ok (.node .nil ([] : Heap Nat).length false 5 .nil) ∧
        (⟨some ([] : Heap Nat).length, 1⟩ : BST).size = 1 ∧
        ∀ b, b ≠ ([] : Heap Nat).length → h'.cell b = Heap.cell ([] : Heap Nat) b :=
  ⟨by decide, C31_insert_into_empty_tree [] 5 true 1 (by decide)⟩

end LastWitnesses


section EraseColours

variable {T : Type}

theorem Heap.SameColour.colour_refl (h : Heap T) : h.SameColour h :=
  fun _ nd' hb => ⟨nd', hb, rfl⟩

theorem Heap.SameColour.colour_trans {h1 h2 h3 : Heap T} (h12 : h1.SameColour h2)
    (h23 : h2.SameColour h3) : h1.SameColour h3 := by
  intro b nd3 hb
  obtain ⟨nd2, h2', hc2⟩ := h23 b nd3 hb
  obtain ⟨nd1, h1', hc1⟩ := h12 b nd2 h2'
  exact ⟨nd1, h1', hc2.trans hc1⟩

theorem sameColour_modify {h h' : Heap T} {p : Ptr} {f : BNode T → BNode T}
    (hm : modify h p f = .ok h') (hf : ∀ nd, (f nd).isRed = nd.isRed) : h.SameColour h' := by
  intro b nd' hb
  rcases cell_modify_cases hm hb with ⟨_, hb0⟩ | ⟨_, nd, hb0, rfl⟩
  · exact ⟨nd', hb0, rfl⟩
  · exact ⟨nd, hb0, hf nd⟩

theorem sameColour_setLeft {h h' : Heap T} {p x : Ptr} (hm : setLeft h p x = .ok h') :
    h.SameColour h' :=
  sameColour_modify hm (fun _ => rfl)

theorem sameColour_setRight {h h' : Heap T} {p x : Ptr} (hm : setRight h p x = .ok h') :
    h.SameColour h' :=
  sameColour_modify hm (fun _ => rfl)

theorem sameColour_setParent {h h' : Heap T} {p x : Ptr} (hm : setParent h p x = .ok h') :
    h.SameColour h' :=
  sameColour_modify hm (fun _ => rfl)

theorem sameColour_addLeft {h h' : Heap T} {this x : Ptr}
    (hm : BNode.addLeft h this x = .ok h') : h.SameColour h' := by
  simp only [BNode.addLeft, bind_eq_ok] at hm
  obtain ⟨h1, hh1, hm⟩ := hm
  by_cases hx : x = none
  · simp only [hx, ne_eq, not_true_eq_false, if_false, pure_eq_ok, Except.ok.injEq] at hm
    subst hm
    exact sameColour_setLeft hh1
  · simp only [ne_eq, hx, not_false_eq_true, if_true, bind_eq_ok] at hm
    obtain ⟨self, _, hm⟩ := hm
    exact (sameColour_setLeft hh1).colour_trans (sameColour_setParent hm)

theorem sameColour_addRight {h h' : Heap T} {this x : Ptr}
    (hm : BNode.addRight h this x = .ok h') : h.SameColour h' := by
  simp only [BNode.addRight, bind_eq_ok] at hm
  obtain ⟨h1, hh1, hm⟩ := hm
  by_cases hx : x = none
  · simp only [hx, ne_eq, not_true_eq_false, if_false, pure_eq_ok, Except.ok.injEq] at hm
    subst hm
    exact sameColour_setRight hh1
  · simp only [ne_eq, hx, not_false_eq_true, if_true, bind_eq_ok] at hm
    obtain ⟨self, _, hm⟩ := hm
    exact (sameColour_setRight hh1).colour_trans (sameColour_setParent hm)

theorem sameColour_delete (h : Heap T) (a : Nat) : h.SameColour (delete h a) := by
  intro b nd' hb
  rw [cell_delete] at hb
  by_cases hab : a = b
  · simp only [hab, if_true] at hb
    cases hb
  · simp only [hab, if_false] at hb
    exact ⟨nd', hb, rfl⟩

/-- A statement that runs or not, as a test says. -/
theorem sameColour_cond {h h' : Heap T} {c : Bool} {x : Except Fault (Heap T)}
    (hx : ∀ h1, x = .ok h1 → h.SameColour h1)
    (hm : (if c = true then x else pure h) = .ok h') : h.SameColour h' := by
  cases c with
  | true => exact hx h' (by simpa using hm)
  | false =>
    simp only [Bool.false_eq_true, if_false, pure_eq_ok, Except.ok.injEq] at hm
    subst hm
    exact Heap.SameColour.colour_refl h

theorem sameColour_eraseLeaf {h h' : Heap T} {it : Ptr} (hm : eraseLeaf h it = .ok h') :
    h.SameColour h' := by
  simp only [eraseLeaf, bind_eq_ok] at hm
  obtain ⟨n, -, hm⟩ := hm
  by_cases hp : n.pParent = none
  · simp only [hp, ne_eq, not_true_eq_false, if_false, pure_eq_ok, Except.ok.injEq] at hm
    subst hm
    exact Heap.SameColour.colour_refl h
  · simp only [ne_eq, hp, not_false_eq_true, if_true, bind_eq_ok] at hm
    obtain ⟨c, -, hm⟩ := hm
    cases c with
    | true => exact sameColour_setRight (by simpa using hm)
    | false => exact sameColour_setLeft (by simpa using hm)

theorem sameColour_eraseLeftOnly {h h' : Heap T} {it : Ptr}
    (hm : eraseLeftOnly h it = .ok h') : h.SameColour h' := by
  simp only [eraseLeftOnly, bind_eq_ok] at hm
  obtain ⟨n, -, h1, hh1, n1, -, c1, -, h2, hh2, n2, -, c2, -, hm⟩ := hm
  have s2 : h1.SameColour h2 := sameColour_cond (fun _ hx => sameColour_setRight hx) hh2
  have s3 : h2.SameColour h' := sameColour_cond (fun _ hx => sameColour_setLeft hx) hm
  exact ((sameColour_setParent hh1).colour_trans s2).colour_trans s3

theorem sameColour_eraseRightOnly {h h' : Heap T} {it : Ptr}
    (hm : eraseRightOnly h it = .ok h') : h.SameColour h' := by
  simp only [eraseRightOnly, bind_eq_ok] at hm
  obtain ⟨n, -, h1, hh1, n1, -, c1, -, h2, hh2, n2, -, c2, -, hm⟩ := hm
  have s2 : h1.SameColour h2 := sameColour_cond (fun _ hx => sameColour_setRight hx) hh2
  have s3 : h2.SameColour h' := sameColour_cond (fun _ hx => sameColour_setLeft hx) hm
  exact ((sameColour_setParent hh1).colour_trans s2).colour_trans s3

theorem sameColour_eraseTwoChildren {h h' : Heap T} {root root' oldNode successor : Ptr}
    (hm : eraseTwoChildren h root oldNode successor = .ok (h', root')) :
    h.SameColour h' := by
  simp only [eraseTwoChildren, bind_eq_ok] at hm
  obtain ⟨o, -, ⟨h1, r1⟩, hfirst, o1, -, s, -, h2, hh2, o2, -, h3, hh3, hm⟩ := hm
  have c1 : h.SameColour h1 := by
    by_cases hp : o.pParent = none
    · simp only [hp, if_true, bind_eq_ok, pure_eq_ok, Except.ok.injEq, Prod.mk.injEq] at hfirst
      obtain ⟨hx, hhx, rfl, -⟩ := hfirst
      exact sameColour_setParent hhx
    · simp only [hp, if_false, bind_eq_ok] at hfirst
      obtain ⟨c, -, hfirst⟩ := hfirst
      cases c with
      | true =>
        simp only [if_true, bind_eq_ok, pure_eq_ok, Except.ok.injEq, Prod.mk.injEq] at hfirst
        obtain ⟨hx, hhx, rfl, -⟩ := hfirst
        exact sameColour_addLeft hhx
      | false =>
        simp only [Bool.false_eq_true, if_false, bind_eq_ok, pure_eq_ok, Except.ok.injEq,
          Prod.mk.injEq] at hfirst
        obtain ⟨hx, hhx, rfl, -⟩ := hfirst
        exact sameColour_addRight hhx
  have c3 : h.SameColour h3 :=
    (c1.colour_trans (sameColour_addLeft hh2)).colour_trans (sameColour_addLeft hh3)
  by_cases hne : o1.pRight = successor
  · simp only [hne, ne_eq, not_true_eq_false, if_false, pure_eq_ok, Except.ok.injEq,
      Prod.mk.injEq] at hm
    obtain ⟨rfl, -⟩ := hm
    exact c3
  · simp only [ne_eq, hne, not_false_eq_true, if_true, bind_eq_ok, pure_eq_ok,
      Except.ok.injEq, Prod.mk.injEq] at hm
    obtain ⟨o3, -, h4, hh4, rfl, -⟩ := hm
    exact c3.colour_trans (sameColour_addRight hh4)

/-- `erase` writes no colour flag: a node that is alive after the call was alive before
and has the colour it had. -/
theorem erase_sameColour {h h' : Heap T} {tree tree' : BST} {it nxt : Ptr} (fuel : Nat)
    (hm : BST.erase fuel h tree it = .ok (h', tree', nxt)) : h.SameColour h' := by
  cases it with
  | none =>
    simp only [BST.erase, pure_eq_ok, Except.ok.injEq, Prod.mk.injEq] at hm
    obtain ⟨rfl, -, -⟩ := hm
    exact Heap.SameColour.colour_refl h
  | some a =>
    simp only [BST.erase, bind_eq_ok, pure_eq_ok, Except.ok.injEq, Prod.mk.injEq] at hm
    obtain ⟨next, -, n, -, ⟨h1, r1⟩, hcase, rfl, -, -⟩ := hm
    by_cases c1 : n.pRight = none ∧ n.pLeft = none
    · rw [if_pos c1] at hcase
      simp only [bind_eq_ok, pure_eq_ok, Except.ok.injEq, Prod.mk.injEq] at hcase
      obtain ⟨hx, hhx, rfl, -⟩ := hcase
      exact (sameColour_eraseLeaf hhx).colour_trans (sameColour_delete _ _)
    · rw [if_neg c1] at hcase
      by_cases c2 : n.pRight = none ∧ n.pLeft ≠ none
      · rw [if_pos c2] at hcase
        simp only [bind_eq_ok, pure_eq_ok, Except.ok.injEq, Prod.mk.injEq] at hcase
        obtain ⟨hx, hhx, rfl, -⟩ := hcase
        exact (sameColour_eraseLeftOnly hhx).colour_trans (sameColour_delete _ _)
      · rw [if_neg c2] at hcase
        by_cases c3 : n.pLeft = none ∧ n.pRight ≠ none
        · rw [if_pos c3] at hcase
          simp only [bind_eq_ok, pure_eq_ok, Except.ok.injEq, Prod.mk.injEq] at hcase
          obtain ⟨hx, hhx, rfl, -⟩ := hcase
          exact (sameColour_eraseRightOnly hhx).colour_trans (sameColour_delete _ _)
        · rw [if_neg c3] at hcase
          simp only [bind_eq_ok, pure_eq_ok, Except.ok.injEq, Prod.mk.injEq] at hcase
          obtain ⟨⟨hx, rx⟩, hhx, rfl, -⟩ := hcase
          exact (sameColour_eraseTwoChildren hhx).colour_trans (sameColour_delete _ _)

/-- C34: `erase` changes no colour. For every heap, tree and iterator, when the call
returns, every node that is alive afterwards was alive before with the same colour flag
(whichever of the three structural cases applied). For a well-formed tree and an iterator
at one of its nodes the call does return: the node is freed and every other node stays
alive with its colour flag. -/
theorem C34_erase_changes_no_colour (fuel : Nat) (h : Heap T) (tree : BST)
    (it : Ptr) :
    (∀ h' tree' nxt, BST.erase fuel h tree it = .ok (h', tree', nxt) →
        ∀ b nd', h'.cell b = some nd' → ∃ nd, h.cell b = some nd ∧ nd'.isRed = nd.isRed) ∧
      (∀ n s a, snapshot n h tree.root = .ok s → s.addrs.Nodup →
        s.parentsOk h none = true → it = some a → a ∈ s.addrs → s.height ≤ fuel →
        ∃ h' tree' nxt, BST.erase fuel h tree it = .ok (h', tree', nxt) ∧
          h'.cell a = none ∧
          ∀ b nd, b ≠ a → h.cell b = some nd →
            ∃ nd', h'.cell b = some nd' ∧ nd'.isRed = nd.isRed) := by
  constructor
  · intro h' tree' nxt hm
    exact erase_sameColour fuel hm
  · intro n s a hs hnodup hpar hit ha hfuel
    subst hit
    have hrep := snapshot_rep n _ none s hs hpar
    obtain ⟨h', root', he, hfree, hdata⟩ := erase_returns fuel tree hrep hnodup ha hfuel
    refine ⟨h', _, _, he, hfree, ?_⟩
    intro b nd hb hc
    have hd := hdata b hb
    rw [hc] at hd
    cases hc' : h'.cell b with
    | none => rw [hc'] at hd; cases hd
    | some nd' =>
      obtain ⟨nd0, hc0, hcol⟩ := erase_sameColour fuel he b nd' hc'
      rw [hc] at hc0
      cases hc0
      exact ⟨nd', rfl, hcol⟩

theorem C34_erase_changes_no_colour_witness :
    snapshot 4 heapC2 (⟨some 1, 6⟩ : BST).root = .ok treeC2 ∧ treeC2.addrs.Nodup ∧
      treeC2.parentsOk heapC2 none = true ∧ 3 ∈ treeC2.addrs ∧ treeC2.height ≤ 4 ∧
      ∃ h' tree' nxt, BST.erase 4 heapC2 ⟨some 1, 6⟩ (some 3) = .ok (h', tree', nxt) ∧
        h'.cell 3 = none ∧
        ∀ b nd, b ≠ 3 → heapC2.cell b = some nd →
          ∃ nd', h'.cell b = some nd' ∧ nd'.isRed = nd.isRed :=
  ⟨rfl, by decide, rfl, by decide, by decide,
    (C34_erase_changes_no_colour 4 heapC2 ⟨some 1, 6⟩ (some 3)).2 4 treeC2 3 rfl (by decide)
      rfl rfl (by decide) (by decide)⟩

end EraseColours


section Decrement

variable {T : Type}

theorem rightmostPtr_node (l : Tree T) (a : Nat) (c : Bool) (v : T) (r : Tree T) :
    ∃ b, (Tree.node l a c v r).rightmostPtr = some b := by
  simp only [Tree.rightmostPtr]
  cases r.rightmostPtr with
  | none => exact ⟨a, rfl⟩
  | some b => exact ⟨b, rfl⟩

theorem rightmostPtr_eq_none {t : Tree T} : t.rightmostPtr = none ↔ t = .nil := by
  cases t with
  | nil => simp [Tree.rightmostPtr]
  | node l a c v r =>
    obtain ⟨b, hb⟩ := rightmostPtr_node l a c v r
    simp [hb]

theorem rightmostPtr_eq_getLast : ∀ (t : Tree T), t.rightmostPtr = t.addrs.getLast?
  | .nil => rfl
  | .node l a c v r => by
    simp only [Tree.rightmostPtr, Tree.addrs, rightmostPtr_eq_getLast r]
    cases hr : r.addrs with
    | nil => simp
    | cons x xs =>
      have e : l.addrs ++ a :: x :: xs = (l.addrs ++ [a]) ++ (x :: xs) := by simp
      rw [e, List.getLast?_append_of_ne_nil _ (List.cons_ne_nil x xs)]
      cases hg : (x :: xs).getLast? with
      | none => simp at hg
      | some b => rfl

/-- The loop that goes right as far as it can, started at the top of a tree, ends at the
rightmost node. -/
theorem rightmost_spec {h : Heap T} (t : Tree T) :
    ∀ (fuel : Nat), t.Skel h → t ≠ .nil → t.height ≤ fuel →
      rightmost fuel h t.ptr = .ok t.rightmostPtr := by
  induction t with
  | nil => intro _ _ hne; exact absurd rfl hne
  | node l a c v r _ ihr =>
    intro fuel hsk _ hf
    obtain ⟨hc, hl, hr⟩ := hsk
    simp only [Tree.height] at hf
    obtain ⟨fuel, rfl⟩ : ∃ m', fuel = m' + 1 := ⟨fuel - 1, by omega⟩
    simp only [Heap.kids, Option.map_eq_some', Prod.mk.injEq] at hc
    obtain ⟨nd, hnd, hd, hpl, hpr⟩ := hc
    change rightmost (fuel + 1) h (some a) = _
    simp only [rightmost, load_some hnd, bind_ok, hpr]
    by_cases hrn : r = .nil
    · subst hrn
      rfl
    · have hp : r.ptr ≠ none := fun e => hrn (ptr_eq_none.mp e)
      simp only [ne_eq, hp, not_false_eq_true, ↓reduceIte]
      rw [ihr fuel hr hrn (by omega)]
      cases hrm : r.rightmostPtr with
      | none => exact absurd (rightmostPtr_eq_none.mp hrm) hrn
      | some b => simp only [Tree.rightmostPtr, hrm]

/-- The loop of `--` that climbs while the node is a left child ends at a node whose
parent is the nearest ancestor of which the start lies in the right subtree. -/
theorem climbLeft_spec {h : Heap T} :
    ∀ (k : List (Frame T)) (a : Nat) (nd : BNode T) (fuel : Nat), h.cell a = some nd →
      nd.pParent = ctxPtr k → RepCtx h (some a) k → (a :: ctxAddrs k).Nodup →
      k.length + 1 ≤ fuel →
      ∃ b, climbWhileLeft fuel h (some a) = .ok (some b) ∧
        memberParent h (some b) = .ok (upRight k) := by
  intro k
  induction k with
  | nil =>
    intro a nd fuel hc hp _ _ hf
    obtain ⟨fuel, rfl⟩ : ∃ m', fuel = m' + 1 := ⟨fuel - 1, by omega⟩
    refine ⟨a, ?_, ?_⟩
    · simp only [climbWhileLeft, load_some hc, bind_ok, hp, ctxPtr, ne_eq, not_true_eq_false,
        ↓reduceIte, pure_eq_ok]
    · simp only [memberParent, load_some hc, bind_ok, hp, ctxPtr, upRight, pure_eq_ok]
  | cons f k ih =>
    intro a nd fuel hc hp hctx hnd hf
    simp only [List.length_cons] at hf
    obtain ⟨fuel, rfl⟩ : ∃ m', fuel = m' + 1 := ⟨fuel - 1, by omega⟩
    obtain ⟨side, p, cp, vp, o⟩ := f
    obtain ⟨hcp, ho, hk⟩ := hctx
    simp only [ctxAddrs, List.cons_append, List.nodup_cons, List.mem_cons, List.mem_append,
      not_or] at hnd
    obtain ⟨⟨hap, hao, hak⟩, ⟨hpo, hpk⟩, hrest⟩ := hnd
    cases side with
    | right =>
      simp only at hcp
      have hne : o.ptr ≠ some a := fun e => hao (ptr_mem_addrs e)
      refine ⟨a, ?_, ?_⟩
      · simp only [climbWhileLeft, load_some hc, bind_ok, hp, ctxPtr, ne_eq, reduceCtorEq,
          not_false_eq_true, ↓reduceIte, BNode.isLeftChild, load_some hcp, pure_eq_ok, hne,
          decide_False, Bool.false_eq_true]
      · simp only [memberParent, load_some hc, bind_ok, hp, ctxPtr, upRight, pure_eq_ok]
    | left =>
      simp only at hcp
      obtain ⟨b, hb1, hb2⟩ := ih p _ fuel hcp rfl hk
        (by
          simp only [List.nodup_cons]
          exact ⟨hpk, (List.nodup_append.mp hrest).2.1⟩) (by omega)
      refine ⟨b, ?_, ?_⟩
      · simp only [climbWhileLeft, load_some hc, bind_ok, hp, ctxPtr, ne_eq, reduceCtorEq,
          not_false_eq_true, ↓reduceIte, BNode.isLeftChild, load_some hcp, pure_eq_ok,
          decide_True, hb1]
      · simp only [upRight]
        exact hb2

/-- The operator `--` at a node of a well-formed tree that has a left child or a parent:
the result is the in-order predecessor, given by the left subtree `l` of the node and its
ancestors `k`. -/
theorem dec_spec {h : Heap T} {l r : Tree T} {a : Nat} {c : Bool} {v : T}
    {k : List (Frame T)} (fuel : Nat)
    (hrep : (Tree.node l a c v r).Rep h (ctxPtr k)) (hctx : RepCtx h (some a) k)
    (hnd : ((Tree.node l a c v r).addrs ++ ctxAddrs k).Nodup)
    (hpos : l ≠ .nil ∨ k ≠ []) (hfuel : l.height + k.length + 1 ≤ fuel) :
    iterator.dec fuel h (some a) = .ok (predPtr l k) := by
  obtain ⟨hc, hl, hr⟩ := hrep
  have hnd2 : (a :: ctxAddrs k).Nodup := by
    refine List.Nodup.sublist ?_ hnd
    exact (List.singleton_sublist.mpr (by simp [Tree.addrs])).append (List.Sublist.refl _)
  by_cases hln : l = .nil
  · subst hln
    replace hc : h.cell a = some ⟨v, none, r.ptr, ctxPtr k, c⟩ := hc
    obtain ⟨b, hb1, hb2⟩ := climbLeft_spec k a _ fuel hc rfl hctx hnd2 (by omega)
    cases k with
    | nil =>
      rcases hpos with hpos | hpos
      · exact absurd rfl hpos
      · exact absurd rfl hpos
    | cons f k =>
      obtain ⟨side, p, cp, vp, o⟩ := f
      obtain ⟨hcp, ho, hk⟩ := hctx
      cases side with
      | right =>
        simp only at hcp
        simp only [iterator.dec, reduceCtorEq, ↓reduceIte, load_some hc, bind_ok,
          ne_eq, not_true_eq_false, ctxPtr, not_false_eq_true, BNode.isRightChild,
          load_some hcp, pure_eq_ok, decide_True]
        rfl
      | left =>
        simp only at hcp
        simp only [List.nodup_cons, ctxAddrs, List.cons_append, List.mem_cons,
          List.mem_append, not_or] at hnd2
        have hne : o.ptr ≠ some a := fun e => hnd2.1.2.1 (ptr_mem_addrs e)
        simp only [iterator.dec, reduceCtorEq, ↓reduceIte, load_some hc, bind_ok,
          ne_eq, not_true_eq_false, ctxPtr, not_false_eq_true, BNode.isRightChild,
          BNode.isLeftChild, load_some hcp, pure_eq_ok, hne, decide_False, decide_True,
          Bool.false_eq_true, hb1, hb2]
        rfl
  · have hp : l.ptr ≠ none := fun e => hln (ptr_eq_none.mp e)
    have hrm := rightmost_spec l fuel hl.skel hln (by omega)
    simp only [iterator.dec, reduceCtorEq, ↓reduceIte, load_some hc, bind_ok, ne_eq, hp,
      not_false_eq_true, hrm]
    cases hx : l.rightmostPtr with
    | none => exact absurd (rightmostPtr_eq_none.mp hx) hln
    | some b => simp only [predPtr, hx]

theorem getLast_ctxBefore : ∀ (k : List (Frame T)), (ctxBefore k).getLast? = upRight k := by
  intro k
  induction k with
  | nil => rfl
  | cons f k ih =>
    obtain ⟨side, p, cp, vp, o⟩ := f
    cases side with
    | left => simpa [ctxBefore, upRight] using ih
    | right => simp [ctxBefore, upRight, ← List.append_assoc]

theorem prevFrom_append (a : Nat) (post : List Nat) :
    ∀ (pre : List Nat) (q : Ptr), a ∉ pre →
      prevFrom q (pre ++ a :: post) a = (if pre = [] then q else pre.getLast?) := by
  intro pre
  induction pre with
  | nil => intro q _; simp [prevFrom]
  | cons x xs ih =>
    intro q hx
    simp only [List.mem_cons, not_or] at hx
    have hne : x ≠ a := fun e => hx.1 e.symm
    rw [List.cons_append]
    simp only [prevFrom, hne, ↓reduceIte, reduceCtorEq]
    rw [ih (some x) hx.2]
    cases xs with
    | nil => simp
    | cons y ys => simp [List.getLast?_cons_cons]

/-- The predecessor given by the position is the address before the node in the in-order
sequence. -/
theorem predPtr_eq_prevIn {l r : Tree T} {a : Nat} {c : Bool} {v : T} {k : List (Frame T)}
    (hnd : (plug (Tree.node l a c v r) k).addrs.Nodup) :
    predPtr l k = prevIn (plug (Tree.node l a c v r) k).addrs a := by
  rw [plug_addrs] at hnd ⊢
  simp only [Tree.addrs, List.append_assoc, List.cons_append] at hnd ⊢
  rw [← List.append_assoc] at hnd ⊢
  have hnot : a ∉ ctxBefore k ++ l.addrs := by
    intro hm
    have := (List.nodup_append.mp hnd).2.2 hm (List.mem_cons_self a _)
    exact this
  rw [prevIn, prevFrom_append a _ _ _ hnot]
  simp only [predPtr, rightmostPtr_eq_getLast]
  cases hl : l.addrs with
  | nil =>
    simp only [List.append_nil, List.getLast?_nil]
    cases hk : ctxBefore k with
    | nil => simp [← getLast_ctxBefore, hk]
    | cons x xs => simp [← getLast_ctxBefore, hk]
  | cons x xs =>
    rw [List.getLast?_append_of_ne_nil _ (List.cons_ne_nil x xs)]
    simp only [List.append_eq_nil, reduceCtorEq, and_false, ↓reduceIte]
    cases hg : (x :: xs).getLast? with
    | none => simp at hg
    | some b => rfl

/-- The operator `--` at a node of a well-formed tree that is not the first one returns
the address before the node in the in-order sequence. -/
theorem dec_prev {h : Heap T} {s : Tree T} {a w : Nat} (fuel : Nat) (hrep : s.Rep h none)
    (hnodup : s.addrs.Nodup) (ha : a ∈ s.addrs) (hw : prevIn s.addrs a = some w)
    (hfuel : s.height ≤ fuel) :
    iterator.dec fuel h (some a) = .ok (some w) := by
  obtain ⟨l, c, v, r, k, hk⟩ := exists_position s [] ha
  simp only [plug] at hk
  subst hk
  obtain ⟨h1, h2⟩ := (rep_plug k _).mp hrep
  have hnd := (List.Perm.nodup_iff (plug_addrs_perm k (Tree.node l a c v r))).mp hnodup
  have hh := height_plug k (Tree.node l a c v r)
  simp only [Tree.height] at hh
  rw [← predPtr_eq_prevIn hnodup] at hw
  rw [← hw]
  refine dec_spec fuel h1 h2 hnd ?_ (by omega)
  by_contra hcon
  simp only [not_or, not_not] at hcon
  obtain ⟨rfl, rfl⟩ := hcon
  simp [predPtr, Tree.rightmostPtr, upRight] at hw

theorem prevFrom_mem {a w : Nat} :
    ∀ (xs : List Nat) (q : Ptr), prevFrom q xs a = some w → q = some w ∨ w ∈ xs := by
  intro xs
  induction xs with
  | nil => intro q hq; simp [prevFrom] at hq
  | cons x xs ih =>
    intro q hq
    simp only [prevFrom] at hq
    by_cases hx : x = a
    · simp only [hx, ↓reduceIte] at hq
      exact Or.inl hq
    · simp only [hx, ↓reduceIte] at hq
      rcases ih (some x) hq with e | hm
      · cases e
        exact Or.inr (List.mem_cons_self _ _)
      · exact Or.inr (List.mem_cons_of_mem _ hm)

/-- In a list without repetitions, the entry after `a` has `a` before it. -/
theorem prevFrom_of_nextIn {a b : Nat} :
    ∀ (xs : List Nat) (q : Ptr), xs.Nodup → nextIn xs a = some b →
      prevFrom q xs b = some a := by
  intro xs
  induction xs with
  | nil => intro q _ hn; simp [nextIn] at hn
  | cons x xs ih =>
    intro q hnd hn
    obtain ⟨hx, hnd'⟩ := List.nodup_cons.mp hnd
    simp only [nextIn] at hn
    by_cases hxa : x = a
    · subst hxa
      simp only [↓reduceIte] at hn
      cases xs with
      | nil => simp at hn
      | cons y ys =>
        simp only [List.head?_cons, Option.some.injEq] at hn
        subst hn
        have hne : x ≠ y := fun e => hx (e ▸ List.mem_cons_self _ _)
        simp only [prevFrom, hne, ↓reduceIte]
    · simp only [hxa, ↓reduceIte] at hn
      have hb : b ∈ xs := nextIn_mem xs hn
      have hxb : x ≠ b := fun e => hx (e ▸ hb)
      simp only [prevFrom, hxb, ↓reduceIte]
      exact ih (some x) hnd' hn

/-- In a list without repetitions, the entry before `a` has `a` after it. -/
theorem nextIn_of_prevFrom {a w : Nat} :
    ∀ (xs : List Nat) (q : Ptr), (∀ y, q = some y → y ∉ xs) → xs.Nodup →
      prevFrom q xs a = some w → w ∈ xs → nextIn xs w = some a := by
  intro xs
  induction xs with
  | nil => intro q _ _ hp; simp [prevFrom] at hp
  | cons x xs ih =>
    intro q hq hnd hp hw
    obtain ⟨hx, hnd'⟩ := List.nodup_cons.mp hnd
    simp only [prevFrom] at hp
    by_cases hxa : x = a
    · simp only [hxa, ↓reduceIte] at hp
      exact absurd hw (hq w hp)
    · simp only [hxa, ↓reduceIte] at hp
      rcases prevFrom_mem xs (some x) hp with e | hm
      · cases e
        -- `w` is `x`, the entry before the list `xs`, which starts with `a`
        cases xs with
        | nil => simp [prevFrom] at hp
        | cons y ys =>
          simp only [prevFrom] at hp
          by_cases hya : y = a
          · subst hya
            simp [nextIn]
          · simp only [hya, ↓reduceIte] at hp
            rcases prevFrom_mem ys (some y) hp with e | hm
            · cases e
              exact absurd (List.mem_cons_self _ _) hx
            · exact absurd (List.mem_cons_of_mem _ hm) hx
      · have hxw : x ≠ w := fun e => hx (e ▸ hm)
        simp only [nextIn, hxw, ↓reduceIte]
        refine ih (some x) ?_ hnd' hp hm
        intro y e
        cases e
        exact hx

end Decrement

section DecrementClaim

variable {T : Type}

theorem prevFrom_some {a : Nat} :
    ∀ (xs : List Nat) (y : Nat), a ∈ xs → ∃ w, prevFrom (some y) xs a = some w := by
  intro xs
  induction xs with
  | nil => intro _ hm; simp at hm
  | cons x xs ih =>
    intro y hm
    simp only [prevFrom]
    by_cases hx : x = a
    · simp only [hx, ↓reduceIte]
      exact ⟨y, rfl⟩
    · simp only [hx, ↓reduceIte]
      rcases List.mem_cons.mp hm with e | hm
      · exact absurd e.symm hx
      · exact ih x hm

/-- An entry that is not the first one has an entry before it. -/
theorem prevIn_some {a : Nat} (xs : List Nat) (hm : a ∈ xs) (hfirst : xs.head? ≠ some a) :
    ∃ w, prevIn xs a = some w := by
  cases xs with
  | nil => simp at hm
  | cons x xs =>
    have hx : x ≠ a := fun e => hfirst (by simp [e])
    simp only [prevIn, prevFrom, hx, ↓reduceIte]
    rcases List.mem_cons.mp hm with e | hm
    · exact absurd e.symm hx
    · exact prevFrom_some xs x hm

/-- C36: in a well-formed tree (the links read from the root give a tree `s` whose
addresses are distinct and whose parent links agree with the child links), for every node
`a` that is not the last one in in-order, `++` at `a` gives a node `b` and `--` at `b`
gives `a` again; and for every node `a` that is not the first one in in-order, `--` at `a`
gives a node `w` and `++` at `w` gives `a` again. -/
theorem C36_increment_and_decrement_are_inverse (n : Nat) (h : Heap T)
    (root : Ptr) (s : Tree T) (a : Nat) (fuel : Nat) (hs : snapshot n h root = .ok s)
    (hnodup : s.addrs.Nodup) (hpar : s.parentsOk h none = true) (ha : a ∈ s.addrs)
    (hfuel : s.height ≤ fuel) :
    (s.addrs.getLast? ≠ some a →
        ∃ b, iterator.inc fuel h (some a) = .ok (some b) ∧
          iterator.dec fuel h (some b) = .ok (some a) ∧
          (iterator.inc fuel h (some a) >>= iterator.dec fuel h) = .ok (some a)) ∧
      (s.addrs.head? ≠ some a →
        ∃ w, iterator.dec fuel h (some a) = .ok (some w) ∧
          iterator.inc fuel h (some w) = .ok (some a) ∧
          (iterator.dec fuel h (some a) >>= iterator.inc fuel h) = .ok (some a)) := by
  have hrep := snapshot_rep n _ none s hs hpar
  constructor
  · intro hlast
    have hinc := inc_next fuel hrep hnodup ha hfuel
    cases hb : nextIn s.addrs a with
    | none => exact absurd ((nextIn_eq_none s.addrs hnodup ha).mp hb) hlast
    | some b =>
      rw [hb] at hinc
      have hdec := dec_prev fuel hrep hnodup (nextIn_mem s.addrs hb)
        (prevFrom_of_nextIn s.addrs none hnodup hb) hfuel
      refine ⟨b, hinc, hdec, ?_⟩
      rw [hinc]
      exact hdec
  · intro hfirst
    obtain ⟨w, hw⟩ := prevIn_some s.addrs ha hfirst
    have hdec := dec_prev fuel hrep hnodup ha hw hfuel
    have hwm : w ∈ s.addrs := by
      rcases prevFrom_mem s.addrs none hw with e | hm
      · cases e
      · exact hm
    have hinc := inc_next fuel hrep hnodup hwm hfuel
    rw [nextIn_of_prevFrom s.addrs none (by intro y e; cases e) hnodup hw hwm] at hinc
    refine ⟨w, hdec, hinc, ?_⟩
    rw [hdec]
    exact hinc

theorem C36_increment_and_decrement_are_inverse_witness :
    snapshot 4 heapC2 (some 1) = .ok treeC2 ∧ treeC2.addrs.Nodup ∧
      treeC2.parentsOk heapC2 none = true ∧ 3 ∈ treeC2.addrs ∧ treeC2.height ≤ 4 ∧
      treeC2.addrs.getLast? ≠ some 3 ∧ treeC2.addrs.head? ≠ some 3 ∧
      (treeC2.addrs.getLast? ≠ some 3 →
        ∃ b, iterator.inc 4 heapC2 (some 3) = .ok (some b) ∧
          iterator.dec 4 heapC2 (some b) = .ok (some 3) ∧
          (iterator.inc 4 heapC2 (some 3) >>= iterator.dec 4 heapC2) = .ok (some 3)) ∧
      (treeC2.addrs.head? ≠ some 3 →
        ∃ w, iterator.dec 4 heapC2 (some 3) = .ok (some w) ∧
          iterator.inc 4 heapC2 (some w) = .ok (some 3) ∧
          (iterator.dec 4 heapC2 (some 3) >>= iterator.inc 4 heapC2) = .ok (some 3)) :=
  ⟨rfl, by decide, rfl, by decide, by decide, by decide, by decide,
    C36_increment_and_decrement_are_inverse 4 heapC2 (some 1) treeC2 3 4 rfl (by decide) rfl
      (by decide) (by decide)⟩

end DecrementClaim


section EraseTwoChildren

variable {T : Type}

/-- The call `this->addLeft(pNode)` for a node `pNode` that is not `this`. -/
theorem addLeft_node {h : Heap T} {t q : Nat} {nd ndq : BNode T} (hc : h.cell t = some nd)
    (hq : h.cell q = some ndq) (hne : t ≠ q) :
    BNode.addLeft h (some t) (some q) =
      .ok ((h.store t { nd with pLeft := some q }).store q { ndq with pParent := some t }) := by
  have hl := cell_lt_length hc
  simp only [BNode.addLeft, setLeft, setParent, modify, hc, bind_ok, ne_eq, reduceCtorEq,
    not_false_eq_true, ↓reduceIte, load, cell_store, hl, hne, hq]

/-- The call `this->addRight(pNode)` for a node `pNode` that is not `this`. -/
theorem addRight_node {h : Heap T} {t q : Nat} {nd ndq : BNode T} (hc : h.cell t = some nd)
    (hq : h.cell q = some ndq) (hne : t ≠ q) :
    BNode.addRight h (some t) (some q) =
      .ok ((h.store t { nd with pRight := some q }).store q { ndq with pParent := some t }) := by
  have hl := cell_lt_length hc
  simp only [BNode.addRight, setRight, setParent, modify, hc, bind_ok, ne_eq, reduceCtorEq,
    not_false_eq_true, ↓reduceIte, load, cell_store, hl, hne, hq]

/-- The call `this->addLeft(this->pRight)` in a well-formed tree: only the left link of
`this` changes. -/
theorem addLeft_own_right {h : Heap T} {t : Nat} {v : T} {x par : Ptr} {c : Bool}
    {r : Tree T} (hc : h.cell t = some ⟨v, x, r.ptr, par, c⟩) (hr : r.Rep h (some t))
    (hn : t ∉ r.addrs) :
    BNode.addLeft h (some t) r.ptr = .ok (h.store t ⟨v, r.ptr, r.ptr, par, c⟩) := by
  have hl := cell_lt_length hc
  cases r with
  | nil =>
    simp only [BNode.addLeft, setLeft, modify, hc, bind_ok, Tree.ptr, ne_eq, not_true_eq_false,
      ↓reduceIte, pure_eq_ok]
  | node rl q cq vq rr =>
    obtain ⟨hcq, -, -⟩ := hr
    have hne : t ≠ q := fun e => hn (by simp [Tree.addrs, e])
    have hq2 : (h.store t ⟨v, some q, some q, par, c⟩).cell q
        = some ⟨vq, rl.ptr, rr.ptr, some t, cq⟩ := by
      simp only [cell_store, hne, ↓reduceIte, hcq]
    simp only [BNode.addLeft, setLeft, modify, hc, bind_ok, Tree.ptr, ne_eq, reduceCtorEq,
      not_false_eq_true, ↓reduceIte, load, cell_store, hl, setParent, hne, hcq]
    exact congrArg Except.ok (store_self hq2)

end EraseTwoChildren

section EraseTwoChildrenB

variable {T : Type}

theorem erase_two_key {h : Heap T} {ll lr rr : Tree T} {a lb rb : Nat} {c cl cr : Bool}
    {v vl vr : T} {k : List (Frame T)} (fuel : Nat) (tree : BST)
    (hrep : (Tree.node (.node ll lb cl vl lr) a c v (.node .nil rb cr vr rr)).Rep h (ctxPtr k))
    (hctx : RepCtx h (some a) k)
    (hnd : ((Tree.node (.node ll lb cl vl lr) a c v (.node .nil rb cr vr rr)).addrs
      ++ ctxAddrs k).Nodup)
    (hfuel : rr.height + k.length + 2 ≤ fuel) :
    ∃ h1, BST.erase fuel h tree (some a) =
        .ok (h1, ⟨if ctxPtr k = none then some rb else tree.root,
          decrSize tree.numElements⟩, some rb) ∧
      h1.cell rb = some ⟨vr, some lb, rr.ptr, ctxPtr k, cr⟩ ∧
      h1.cell lb = some ⟨vl, ll.ptr, lr.ptr, some rb, cl⟩ ∧
      h1.cell a = none ∧ HeadCell h h1 (ctxPtr k) a rb ∧
      ∀ b, b ≠ a → b ≠ rb → b ≠ lb → ctxPtr k ≠ some b → h1.cell b = h.cell b := by
  have hinc : iterator.inc fuel h (some a) = .ok (some rb) :=
    inc_spec fuel hrep hctx hnd (by simp only [Tree.height]; omega)
  obtain ⟨hc, ⟨hcl, hll, hlr⟩, ⟨hcr, -, hrr⟩⟩ := hrep
  replace hc : h.cell a = some ⟨v, some lb, some rb, ctxPtr k, c⟩ := hc
  replace hcl : h.cell lb = some ⟨vl, ll.ptr, lr.ptr, some a, cl⟩ := hcl
  replace hcr : h.cell rb = some ⟨vr, none, rr.ptr, some a, cr⟩ := hcr
  simp only [Tree.addrs, List.append_assoc, List.cons_append, List.nil_append,
    List.nodup_append, List.nodup_cons, List.mem_append, List.mem_cons, not_or,
    List.nodup_nil, List.not_mem_nil] at hnd
  obtain ⟨hllnd, ⟨⟨hlblr, hlba, hlbrb, hlbrr, hlbk⟩, hlrnd,
    ⟨⟨harb, harr, hak⟩, ⟨hrbrr, hrbk⟩, hrrnd, hknd, hrrk⟩, hlrdisj⟩, hlldisj⟩ := hnd
  have hrba : rb ≠ a := Ne.symm harb
  have hal := cell_lt_length hc
  have hlbl := cell_lt_length hcl
  have hrbl := cell_lt_length hcr
  cases k with
  | nil =>
    replace hc : h.cell a = some ⟨v, some lb, some rb, none, c⟩ := hc
    have hB : BNode.addLeft (h.store rb ⟨vr, none, rr.ptr, none, cr⟩) (some rb) rr.ptr
        = .ok ((h.store rb ⟨vr, none, rr.ptr, none, cr⟩).store rb
            ⟨vr, rr.ptr, rr.ptr, none, cr⟩) :=
      addLeft_own_right
        (show (h.store rb ⟨vr, none, rr.ptr, none, cr⟩).cell rb
            = some ⟨vr, none, rr.ptr, none, cr⟩ by simp only [cell_store, ↓reduceIte, hrbl])
        (hrr.repFrame (fun b hb => by
          have hne : rb ≠ b := fun e => hrbrr (e ▸ hb)
          simp only [cell_store, hne, ↓reduceIte])) hrbrr
    have hC : BNode.addLeft ((h.store rb ⟨vr, none, rr.ptr, none, cr⟩).store rb
          ⟨vr, rr.ptr, rr.ptr, none, cr⟩) (some rb) (some lb)
        = .ok _ :=
      addLeft_node (by simp only [cell_store, ↓reduceIte, length_store, hrbl]; rfl)
        (by simp only [cell_store, Ne.symm hlbrb, ↓reduceIte]; exact hcl) (Ne.symm hlbrb)
    refine ⟨delete ((((h.store rb ⟨vr, none, rr.ptr, none, cr⟩).store rb
      ⟨vr, rr.ptr, rr.ptr, none, cr⟩).store rb ⟨vr, some lb, rr.ptr, none, cr⟩).store lb
      ⟨vl, ll.ptr, lr.ptr, some rb, cl⟩) a, ?_, ?_, ?_, ?_, ?_, ?_⟩
    · simp only [BST.erase, hinc, bind_ok, hc, reduceCtorEq, false_and, and_false,
        and_self, ↓reduceIte, ne_eq, not_false_eq_true, not_true_eq_false, eraseTwoChildren,
        setParent, modify, hcr, pure_eq_ok, load, cell_store, hrba, hB, hC, ctxPtr, hrbl,
        length_store, hlba]
    · simp only [cell_delete, harb, ↓reduceIte, cell_store, hlbrb, length_store, hrbl, ctxPtr]
    · simp only [cell_delete, Ne.symm hlba, ↓reduceIte, cell_store, length_store, hlbl]
    · simp only [cell_delete, ↓reduceIte]
    · intro hd nd e
      cases e
    · intro b h1 h2 h3 _
      simp only [cell_delete, Ne.symm h1, ↓reduceIte, cell_store, Ne.symm h2, Ne.symm h3]
  | cons f k =>
    obtain ⟨side, p, cp, vp, o⟩ := f
    obtain ⟨hcp, ho, hk⟩ := hctx
    simp only [ctxAddrs, List.cons_append, List.mem_cons, List.mem_append, not_or] at hak hrbk hlbk
    obtain ⟨hap, hao, -⟩ := hak
    obtain ⟨hrbp, hrbo, -⟩ := hrbk
    obtain ⟨hlbp, hlbo, -⟩ := hlbk
    have hpa : p ≠ a := Ne.symm hap
    have hprb : p ≠ rb := Ne.symm hrbp
    have hplb : p ≠ lb := Ne.symm hlbp
    have hoa : o.ptr ≠ some a := fun e => hao (ptr_mem_addrs e)
    have hprr : p ∉ rr.addrs := fun hm => hrrk hm (by simp [ctxAddrs])
    replace hc : h.cell a = some ⟨v, some lb, some rb, some p, c⟩ := hc
    cases side with
    | left =>
      replace hcp : h.cell p = some ⟨vp, some a, o.ptr, ctxPtr k, cp⟩ := hcp
      have hpl := cell_lt_length hcp
      have hH : BNode.addLeft h (some p) (some rb)
          = .ok ((h.store p ⟨vp, some rb, o.ptr, ctxPtr k, cp⟩).store rb
              ⟨vr, none, rr.ptr, some p, cr⟩) := addLeft_node hcp hcr hprb
      have hB : BNode.addLeft ((h.store p ⟨vp, some rb, o.ptr, ctxPtr k, cp⟩).store rb
            ⟨vr, none, rr.ptr, some p, cr⟩) (some rb) rr.ptr
          = .ok (((h.store p ⟨vp, some rb, o.ptr, ctxPtr k, cp⟩).store rb
              ⟨vr, none, rr.ptr, some p, cr⟩).store rb ⟨vr, rr.ptr, rr.ptr, some p, cr⟩) :=
        addLeft_own_right
          (show ((h.store p ⟨vp, some rb, o.ptr, ctxPtr k, cp⟩).store rb
              ⟨vr, none, rr.ptr, some p, cr⟩).cell rb = some ⟨vr, none, rr.ptr, some p, cr⟩ by
            simp only [cell_store, ↓reduceIte, length_store, hrbl])
          (hrr.repFrame (fun b hb => by
            have hne : rb ≠ b := fun e => hrbrr (e ▸ hb)
            have hne2 : p ≠ b := fun e => hprr (e ▸ hb)
            simp only [cell_store, hne, hne2, ↓reduceIte])) hrbrr
      have hC : BNode.addLeft (((h.store p ⟨vp, some rb, o.ptr, ctxPtr k, cp⟩).store rb
            ⟨vr, none, rr.ptr, some p, cr⟩).store rb ⟨vr, rr.ptr, rr.ptr, some p, cr⟩)
            (some rb) (some lb)
          = .ok _ :=
        addLeft_node (by simp only [cell_store, ↓reduceIte, length_store, hrbl]; rfl)
          (by simp only [cell_store, Ne.symm hlbrb, hplb, ↓reduceIte]; exact hcl)
          (Ne.symm hlbrb)
      refine ⟨delete (((((h.store p ⟨vp, some rb, o.ptr, ctxPtr k, cp⟩).store rb
        ⟨vr, none, rr.ptr, some p, cr⟩).store rb
        ⟨vr, rr.ptr, rr.ptr, some p, cr⟩).store rb ⟨vr, some lb, rr.ptr, some p, cr⟩).store lb
        ⟨vl, ll.ptr, lr.ptr, some rb, cl⟩) a, ?_, ?_, ?_, ?_, ?_, ?_⟩
      · simp only [BST.erase, hinc, bind_ok, hc, reduceCtorEq, false_and, and_false,
          and_self, ↓reduceIte, ne_eq, not_false_eq_true, not_true_eq_false, eraseTwoChildren,
          BNode.isLeftChild, hcp, decide_True, hH,
          pure_eq_ok, load, cell_store, hrba, hpa, hB, hC, hrbl, length_store, hlba,
          show ctxPtr (⟨.left, p, cp, vp, o⟩ :: k) = some p from rfl]
      · simp only [cell_delete, harb, ↓reduceIte, cell_store, hlbrb, length_store, hrbl,
          ctxPtr]
      · simp only [cell_delete, Ne.symm hlba, ↓reduceIte, cell_store, length_store, hlbl]
      · simp only [cell_delete, ↓reduceIte]
      · intro hd nd e hcd
        simp only [ctxPtr, Option.some.injEq] at e
        subst e
        rw [hcp] at hcd
        cases hcd
        simp only [cell_delete, hap, ↓reduceIte, cell_store, hrbp, hlbp, length_store, hpl, hoa]
      · intro b h1 h2 h3 h4
        have h5 : p ≠ b := fun e => h4 (by simp [ctxPtr, e])
        simp only [cell_delete, Ne.symm h1, ↓reduceIte, cell_store, Ne.symm h2, Ne.symm h3, h5]
    | right =>
      replace hcp : h.cell p = some ⟨vp, o.ptr, some a, ctxPtr k, cp⟩ := hcp
      have hpl := cell_lt_length hcp
      have hH : BNode.addRight h (some p) (some rb)
          = .ok ((h.store p ⟨vp, o.ptr, some rb, ctxPtr k, cp⟩).store rb
              ⟨vr, none, rr.ptr, some p, cr⟩) := addRight_node hcp hcr hprb
      have hB : BNode.addLeft ((h.store p ⟨vp, o.ptr, some rb, ctxPtr k, cp⟩).store rb
            ⟨vr, none, rr.ptr, some p, cr⟩) (some rb) rr.ptr
          = .ok (((h.store p ⟨vp, o.ptr, some rb, ctxPtr k, cp⟩).store rb
              ⟨vr, none, rr.ptr, some p, cr⟩).store rb ⟨vr, rr.ptr, rr.ptr, some p, cr⟩) :=
        addLeft_own_right
          (show ((h.store p ⟨vp, o.ptr, some rb, ctxPtr k, cp⟩).store rb
              ⟨vr, none, rr.ptr, some p, cr⟩).cell rb = some ⟨vr, none, rr.ptr, some p, cr⟩ by
            simp only [cell_store, ↓reduceIte, length_store, hrbl])
          (hrr.repFrame (fun b hb => by
            have hne : rb ≠ b := fun e => hrbrr (e ▸ hb)
            have hne2 : p ≠ b := fun e => hprr (e ▸ hb)
            simp only [cell_store, hne, hne2, ↓reduceIte])) hrbrr
      have hC : BNode.addLeft (((h.store p ⟨vp, o.ptr, some rb, ctxPtr k, cp⟩).store rb
            ⟨vr, none, rr.ptr, some p, cr⟩).store rb ⟨vr, rr.ptr, rr.ptr, some p, cr⟩)
            (some rb) (some lb)
          = .ok _ :=
        addLeft_node (by simp only [cell_store, ↓reduceIte, length_store, hrbl]; rfl)
          (by simp only [cell_store, Ne.symm hlbrb, hplb, ↓reduceIte]; exact hcl)
          (Ne.symm hlbrb)
      refine ⟨delete (((((h.store p ⟨vp, o.ptr, some rb, ctxPtr k, cp⟩).store rb
        ⟨vr, none, rr.ptr, some p, cr⟩).store rb
        ⟨vr, rr.ptr, rr.ptr, some p, cr⟩).store rb ⟨vr, some lb, rr.ptr, some p, cr⟩).store lb
        ⟨vl, ll.ptr, lr.ptr, some rb, cl⟩) a, ?_, ?_, ?_, ?_, ?_, ?_⟩
      · simp only [BST.erase, hinc, bind_ok, hc, reduceCtorEq, false_and, and_false,
          and_self, ↓reduceIte, ne_eq, not_false_eq_true, not_true_eq_false, eraseTwoChildren,
          BNode.isLeftChild, hcp, hoa, decide_False, Bool.false_eq_true, hH,
          pure_eq_ok, load, cell_store, hrba, hpa, hB, hC, hrbl, length_store, hlba,
          show ctxPtr (⟨.right, p, cp, vp, o⟩ :: k) = some p from rfl]
      · simp only [cell_delete, harb, ↓reduceIte, cell_store, hlbrb, length_store, hrbl,
          ctxPtr]
      · simp only [cell_delete, Ne.symm hlba, ↓reduceIte, cell_store, length_store, hlbl]
      · simp only [cell_delete, ↓reduceIte]
      · intro hd nd e hcd
        simp only [ctxPtr, Option.some.injEq] at e
        subst e
        rw [hcp] at hcd
        cases hcd
        simp only [cell_delete, hap, ↓reduceIte, cell_store, hrbp, hlbp, length_store, hpl]
      · intro b h1 h2 h3 h4
        have h5 : p ≠ b := fun e => h4 (by simp [ctxPtr, e])
        simp only [cell_delete, Ne.symm h1, ↓reduceIte, cell_store, Ne.symm h2, Ne.symm h3, h5]

end EraseTwoChildrenB

section EraseTwoChildrenC

variable {T : Type}

/-- Case 3 of `erase` at a node of a well-formed tree whose right child has no left child:
the call returns the right child, which takes the place of the node with the node's left
subtree in its left slot and its own right subtree; the heap holds the tree after the
call with all links, the node is deleted, and `root` is assigned exactly when the node had
no parent. -/
theorem erase_two_right_spec {h : Heap T} {ll lr rr : Tree T} {a lb rb : Nat}
    {c cl cr : Bool} {v vl vr : T} {k : List (Frame T)} (fuel : Nat) (tree : BST)
    (hrep : (Tree.node (.node ll lb cl vl lr) a c v (.node .nil rb cr vr rr)).Rep h (ctxPtr k))
    (hctx : RepCtx h (some a) k)
    (hnd : ((Tree.node (.node ll lb cl vl lr) a c v (.node .nil rb cr vr rr)).addrs
      ++ ctxAddrs k).Nodup)
    (hfuel : rr.height + k.length + 2 ≤ fuel) :
    ∃ h1, BST.erase fuel h tree (some a) =
        .ok (h1, ⟨if ctxPtr k = none then some rb else tree.root,
          decrSize tree.numElements⟩, some rb) ∧
      (Tree.node (.node ll lb cl vl lr) rb cr vr rr).Rep h1 (ctxPtr k) ∧
      RepCtx h1 (some rb) k ∧ h1.cell a = none ∧
      ∀ b, b ∉ (Tree.node (.node ll lb cl vl lr) a c v (.node .nil rb cr vr rr)).addrs
        ++ ctxAddrs k → h1.cell b = h.cell b := by
  obtain ⟨h1, he, c1, c2, c3, chead, csame⟩ := erase_two_key fuel tree hrep hctx hnd hfuel
  obtain ⟨-, ⟨-, hll, hlr⟩, ⟨-, -, hrr⟩⟩ := hrep
  simp only [Tree.addrs, List.append_assoc, List.cons_append, List.nil_append,
    List.nodup_append, List.nodup_cons, List.mem_append, List.mem_cons, not_or,
    List.nodup_nil, List.not_mem_nil] at hnd
  obtain ⟨-, ⟨⟨hlblr, -, -, hlbrr, hlbk⟩, -,
    ⟨⟨-, harr, hak⟩, ⟨hrbrr, hrbk⟩, -, hknd, hrrk⟩, hlrdisj⟩, hlldisj⟩ := hnd
  have hup : ∀ b, b ∉ ctxAddrs k → ctxPtr k ≠ some b := fun b hb e => hb (ctxPtr_mem e)
  have sll : ∀ b ∈ ll.addrs, h1.cell b = h.cell b := by
    intro b hb
    have hd : b ∉ lb :: (lr.addrs ++ a :: rb :: (rr.addrs ++ ctxAddrs k)) :=
      fun hm => hlldisj hb hm
    simp only [List.mem_cons, List.mem_append, not_or] at hd
    exact csame b hd.2.2.1 hd.2.2.2.1 hd.1 (hup b hd.2.2.2.2.2)
  have slr : ∀ b ∈ lr.addrs, h1.cell b = h.cell b := by
    intro b hb
    have hd : b ∉ a :: rb :: (rr.addrs ++ ctxAddrs k) := fun hm => hlrdisj hb hm
    simp only [List.mem_cons, List.mem_append, not_or] at hd
    exact csame b hd.1 hd.2.1 (fun e => hlblr (e ▸ hb)) (hup b hd.2.2.2)
  have srr : ∀ b ∈ rr.addrs, h1.cell b = h.cell b := by
    intro b hb
    exact csame b (fun e => harr (e ▸ hb)) (fun e => hrbrr (e ▸ hb))
      (fun e => hlbrr (e ▸ hb)) (hup b (fun hm => hrrk hb hm))
  refine ⟨h1, he, ⟨c1, ⟨c2, hll.repFrame sll, hlr.repFrame slr⟩, hrr.repFrame srr⟩, ?_, c3, ?_⟩
  · refine repCtx_retarget hctx chead ?_ hknd hak
    intro b hb hne
    exact csame b (fun e => hak (e ▸ hb)) (fun e => hrbk (e ▸ hb)) (fun e => hlbk (e ▸ hb)) hne
  · intro b hb
    simp only [Tree.addrs, List.append_assoc, List.cons_append, List.nil_append,
      List.mem_append, List.mem_cons, not_or] at hb
    exact csame b hb.2.2.2.1 hb.2.2.2.2.1 hb.2.1 (hup b hb.2.2.2.2.2.2)

end EraseTwoChildrenC

section EraseTwoChildrenClaim

variable {T : Type}

/-- C33: two-child removal when the successor is the removed node's own right child. In a
well-formed tree (the links read from the root give a tree `s` whose addresses are distinct
and whose parent links agree with the child links), let `a` be a node with left subtree
`node ll lb ..`, whose right child `rb` has no left child and right subtree `rr`, and let
`k` be the ancestors of `a`. Then `erase` at `a` returns an iterator at `rb`, and
afterwards: `rb` has the former parent of `a` as parent link (none, and `rb` is the root,
when `a` was the root), the slot of that parent refers to `rb` and all ancestors are
otherwise as before, the left child of `rb` is `lb`, the top of the former left subtree
of `a`, with parent link `rb` and that subtree below it as before, the right subtree of
`rb` is `rr` as before, `a` is deleted, and the links read from the root give the tree
with `rb` in the place of `a`. -/
theorem C33_erase_puts_right_child_in_place (n : Nat) (h : Heap T) (tree : BST) (s : Tree T)
    (ll lr rr : Tree T) (a lb rb : Nat) (c cl cr : Bool) (v vl vr : T) (k : List (Frame T))
    (fuel : Nat) (hs : snapshot n h tree.root = .ok s) (hnodup : s.addrs.Nodup)
    (hpar : s.parentsOk h none = true)
    (hpos : s = plug (.node (.node ll lb cl vl lr) a c v (.node .nil rb cr vr rr)) k)
    (hfuel : s.height ≤ fuel) :
    ∃ h1 tree1, BST.erase fuel h tree (some a) = .ok (h1, tree1, some rb) ∧
      h1.cell rb = some ⟨vr, some lb, rr.ptr, ctxPtr k, cr⟩ ∧
      (ctxPtr k = none → tree1.root = some rb) ∧
      (ctxPtr k ≠ none → tree1.root = tree.root) ∧
      RepCtx h1 (some rb) k ∧
      h1.cell lb = some ⟨vl, ll.ptr, lr.ptr, some rb, cl⟩ ∧
      ll.Rep h1 (some lb) ∧ lr.Rep h1 (some lb) ∧
      rr.Rep h (some rb) ∧ rr.Rep h1 (some rb) ∧
      h1.cell a = none ∧
      snapshot (plug (.node (.node ll lb cl vl lr) rb cr vr rr) k).height h1 tree1.root
        = .ok (plug (.node (.node ll lb cl vl lr) rb cr vr rr) k) ∧
      (plug (.node (.node ll lb cl vl lr) rb cr vr rr) k).parentsOk h1 none = true ∧
      ∀ b, b ∉ s.addrs → h1.cell b = h.cell b := by
  have hrep := snapshot_rep n _ none s hs hpar
  have hroot := snapshot_ptr n _ s hs
  subst hpos
  obtain ⟨h1, h2⟩ := (rep_plug k _).mp hrep
  have hperm := plug_addrs_perm k
    (Tree.node (.node ll lb cl vl lr) a c v (.node .nil rb cr vr rr))
  have hnd := (List.Perm.nodup_iff hperm).mp hnodup
  have hh := height_plug k (Tree.node (.node ll lb cl vl lr) a c v (.node .nil rb cr vr rr))
  simp only [Tree.height] at hh
  obtain ⟨hn, he, hnew, hctx, hfree, hsame⟩ :=
    erase_two_right_spec fuel tree h1 h2 hnd (by omega)
  have hwhole : (plug (.node (.node ll lb cl vl lr) rb cr vr rr) k).Rep hn none :=
    (rep_plug k _).mpr ⟨hnew, hctx⟩
  have hptr : (plug (Tree.node (.node ll lb cl vl lr) rb cr vr rr) k).ptr
      = (if ctxPtr k = none then some rb else tree.root) := by
    cases k with
    | nil => rfl
    | cons f k =>
      simp only [ctxPtr, reduceCtorEq, ↓reduceIte, plug]
      rw [← hroot]
      exact plug_ptr_congr k (by rw [fill_ptr, fill_ptr])
  obtain ⟨hsnap, hpok⟩ := rep_snapshot _ none _ hwhole (Nat.le_refl _)
  rw [hptr] at hsnap
  obtain ⟨hcrb, ⟨hclb, hll, hlr⟩, hrr⟩ := hnew
  refine ⟨hn, _, he, hcrb, ?_, ?_, hctx, hclb, hll, hlr, h1.2.2.2.2, hrr, hfree, hsnap, hpok, ?_⟩
  · intro e
    simp only [e, ↓reduceIte]
  · intro e
    simp only [e, ↓reduceIte]
  · intro b hb
    exact hsame b (fun hm => hb (hperm.mem_iff.mpr hm))

theorem C33_erase_puts_right_child_in_place_witness :
    snapshot 4 heapC2 (⟨some 1, 6⟩ : BST).root = .ok treeC2 ∧ treeC2.addrs.Nodup ∧
      treeC2.parentsOk heapC2 none = true ∧
      treeC2 = plug (.node (.node (.node .nil 5 true 3 .nil) 2 false 4 .nil) 3 true 5
          (.node .nil 4 false 6 .nil))
        [⟨.right, 1, false, 2, .node .nil 0 false 1 .nil⟩] ∧
      treeC2.height ≤ 4 ∧
      ∃ h1 tree1, BST.erase 4 heapC2 ⟨some 1, 6⟩ (some 3) = .ok (h1, tree1, some 4) ∧
        h1.cell 4 = some ⟨6, some 2, (.nil : Tree Nat).ptr,
          ctxPtr [(⟨.right, 1, false, 2, .node .nil 0 false 1 .nil⟩ : Frame Nat)], false⟩ ∧
        (ctxPtr [(⟨.right, 1, false, 2, .node .nil 0 false 1 .nil⟩ : Frame Nat)] = none →
          tree1.root = some 4) ∧
        (ctxPtr [(⟨.right, 1, false, 2, .node .nil 0 false 1 .nil⟩ : Frame Nat)] ≠ none →
          tree1.root = (⟨some 1, 6⟩ : BST).root) ∧
        RepCtx h1 (some 4) [⟨.right, 1, false, 2, .node .nil 0 false 1 .nil⟩] ∧
        h1.cell 2 = some ⟨4, (Tree.node .nil 5 true 3 .nil).ptr, (.nil : Tree Nat).ptr,
          some 4, false⟩ ∧
        (Tree.node .nil 5 true 3 .nil).Rep h1 (some 2) ∧ (.nil : Tree Nat).Rep h1 (some 2) ∧
        (.nil : Tree Nat).Rep heapC2 (some 4) ∧ (.nil : Tree Nat).Rep h1 (some 4) ∧
        h1.cell 3 = none ∧
        snapshot (plug (.node (.node (.node .nil 5 true 3 .nil) 2 false 4 .nil) 4 false 6 .nil)
            [(⟨.right, 1, false, 2, .node .nil 0 false 1 .nil⟩ : Frame Nat)]).height h1
            tree1.root
          = .ok (plug (.node (.node (.node .nil 5 true 3 .nil) 2 false 4 .nil) 4 false 6 .nil)
            [⟨.right, 1, false, 2, .node .nil 0 false 1 .nil⟩]) ∧
        (plug (.node (.node (.node .nil 5 true 3 .nil) 2 false 4 .nil) 4 false 6 .nil)
          [(⟨.right, 1, false, 2, .node .nil 0 false 1 .nil⟩ : Frame Nat)]).parentsOk h1 none
            = true ∧
        ∀ b, b ∉ treeC2.addrs → h1.cell b = heapC2.cell b :=
  ⟨rfl, by decide, rfl, rfl, by decide,
    C33_erase_puts_right_child_in_place 4 heapC2 ⟨some 1, 6⟩ treeC2 (.node .nil 5 true 3 .nil)
      .nil .nil 3 2 4 true false false 5 4 6
      [⟨.right, 1, false, 2, .node .nil 0 false 1 .nil⟩] 4 rfl (by decide) rfl rfl
      (by decide)⟩

end EraseTwoChildrenClaim


section RootBlackTotal

variable {T : Type}

/-- The root of a well-formed tree with a black top: absent, or a live black node without
parent link. -/
theorem root_of_rep {h : Heap T} {s : Tree T} {root : Ptr} (hrep : s.Rep h none)
    (hp : s.ptr = root) (hblack : s.isRed = false) :
    (root = none ∧ s = .nil) ∨
      ∃ a nd, root = some a ∧ h.cell a = some nd ∧ nd.pParent = none ∧ nd.isRed = false := by
  cases s with
  | nil => exact Or.inl ⟨hp.symm, rfl⟩
  | node l a c v r =>
    obtain ⟨hc, -, -⟩ := hrep
    exact Or.inr ⟨a, _, hp.symm, hc, rfl, hblack⟩

/-- C4: (1) when a non-empty sequence of `insert` calls (each with its own `keepUnique`),
started on the empty tree in an empty free store, has returned, `root` refers to a live
node that has no parent link and whose colour flag `isRed` is false, and every node of the
free store without parent link is black.  (2) Every call of `insert` on a well-formed tree
does return — the nodes below `root` form a tree in which no node occurs twice, parent
links are consistent, the root is black, no red node has a red child and the values are in
order, in a free store whose nodes without parent link are black, with a budget of at
least the height plus three — and after it `root` again refers to a live node without
parent link whose colour flag is false, whether the root stayed or a rotation moved it. -/
theorem C4_root_is_black_without_parent [LinearOrder T] (fuel : Nat) :
    (∀ (calls : List (T × Bool)) (h : Heap T) (tree : BST), calls ≠ [] →
        BST.insertCalls fuel calls (([] : Heap T), BST.empty) = .ok (h, tree) →
        h.All BNode.TopBlack ∧
          ∃ a nd, tree.root = some a ∧ h.cell a = some nd ∧ nd.pParent = none ∧
            nd.isRed = false) ∧
      (∀ (n : Nat) (h : Heap T) (tree : BST) (s : Tree T) (v : T) (ku : Bool),
        snapshot n h tree.root = .ok s → s.addrs.Nodup → s.parentsOk h none = true →
        s.isRed = false → s.redRed = false → s.toList.Sorted (· ≤ ·) →
        h.All BNode.TopBlack → s.height + 3 ≤ fuel →
        ∃ h' tree' it flag, BST.insert fuel h tree v ku = .ok (h', tree', it, flag) ∧
          h'.All BNode.TopBlack ∧
          ∃ a nd, tree'.root = some a ∧ h'.cell a = some nd ∧ nd.pParent = none ∧
            nd.isRed = false) := by
  constructor
  · intro calls h tree hne hrun
    have hall : Heap.All BNode.TopBlack ([] : Heap T) := by
      intro a nd hc
      simp [Heap.cell] at hc
    obtain ⟨a1, r1⟩ :=
      insertCalls_topBlack fuel calls [] BST.empty h tree hrun hall (Or.inl rfl)
    obtain ⟨a, nd, hr, hc, hp⟩ := r1 hne
    exact ⟨a1, a, nd, hr, hc, hp, a1 a nd hc hp⟩
  · intro n h tree s v ku hs hnodup hpar hblack hrr hsorted hall hfuel
    have hp := snapshot_ptr _ _ _ hs
    have hsk := snapshot_skel _ _ _ hs
    have hrep := snapshot_rep n _ none s hs hpar
    have hroot := root_of_rep hrep hp hblack
    have hroot2 : tree.root = none ∨
        ∃ a nd, tree.root = some a ∧ h.cell a = some nd ∧ nd.pParent = none := by
      rcases hroot with ⟨e, -⟩ | ⟨a, nd, e, hc, hpn, -⟩
      · exact Or.inl e
      · exact Or.inr ⟨a, nd, e, hc, hpn⟩
    by_cases hd : ku = true ∧ v ∈ s.toList
    · obtain ⟨hku, hv⟩ := hd
      subst hku
      obtain ⟨a, nd, hins, -, -, -⟩ := insert_dup v fuel hsk hp hsorted hv (by omega)
      refine ⟨h, tree, some a, false, hins, hall, ?_⟩
      rcases hroot with ⟨-, e⟩ | hr
      · subst e
        simp [Tree.toList] at hv
      · exact hr
    · obtain ⟨h', t', hins, -, -⟩ :=
        insert_spec n v ku fuel hs hnodup hpar hblack hrr (fun e hv => hd ⟨e, hv⟩) hfuel
      obtain ⟨hall', a, nd, hr, hc, hpn⟩ := insert_topBlack hins hall hroot2
      exact ⟨h', _, _, true, hins, hall', a, nd, hr, hc, hpn, hall' a nd hc hpn⟩

end RootBlackTotal

section RootBlackWitness

theorem C4_root_is_black_without_parent_witness :
    [((1 : Nat), false), (2, true), (3, false)] ≠ [] ∧
      BST.insertCalls 50 [((1 : Nat), false), (2, true)] (([] : Heap Nat), BST.empty)
        = .ok (heapC14, ⟨some 0, 2⟩) ∧
      BST.insertCalls 50 [((1 : Nat), false), (2, true), (3, false)]
          (([] : Heap Nat), BST.empty)
        = .ok ([some ⟨1, none, none, some 1, true⟩, some ⟨2, some 0, some 2, none, false⟩,
            some ⟨3, none, none, some 1, true⟩], ⟨some 1, 3⟩) ∧
      (Heap.All BNode.TopBlack ([some ⟨1, none, none, some 1, true⟩,
          some ⟨2, some 0, some 2, none, false⟩, some ⟨3, none, none, some 1, true⟩] : Heap Nat) ∧
        ∃ a nd, (⟨some 1, 3⟩ : BST).root = some a ∧
          Heap.cell ([some ⟨1, none, none, some 1, true⟩,
            some ⟨2, some 0, some 2, none, false⟩, some ⟨3, none, none, some 1, true⟩] : Heap Nat)
            a = some nd ∧ nd.pParent = none ∧ nd.isRed = false) ∧
      snapshot 2 heapC14 (⟨some 0, 2⟩ : BST).root
        = .ok (.node .nil 0 false 1 (.node .nil 1 true 2 .nil)) ∧
      (Tree.node .nil 0 false 1 (.node .nil 1 true 2 .nil)).addrs.Nodup ∧
      (Tree.node .nil 0 false 1 (.node .nil 1 true 2 .nil)).parentsOk heapC14 none = true ∧
      (Tree.node .nil 0 false 1 (.node .nil 1 true 2 .nil)).isRed = false ∧
      (Tree.node .nil 0 false 1 (.node .nil 1 true 2 .nil)).redRed = false ∧
      (Tree.node .nil 0 false 1 (.node .nil 1 true 2 .nil)).toList.Sorted (· ≤ ·) ∧
      (Tree.node .nil 0 false 1 (.node .nil 1 true 2 .nil)).height + 3 ≤ 50 ∧
      BST.insert 50 heapC14 ⟨some 0, 2⟩ 3 false
        = .ok ([some ⟨1, none, none, some 1, true⟩, some ⟨2, some 0, some 2, none, false⟩,
            some ⟨3, none, none, some 1, true⟩], ⟨some 1, 3⟩, some 2, true) ∧
      ∃ h' tree' it flag, BST.insert 50 heapC14 ⟨some 0, 2⟩ 3 false
          = .ok (h', tree', it, flag) ∧
        h'.All BNode.TopBlack ∧
        ∃ a nd, tree'.root = some a ∧ h'.cell a = some nd ∧ nd.pParent = none ∧
          nd.isRed = false :=
  ⟨by simp, rfl, rfl,
    (@C4_root_is_black_without_parent Nat _ 50).1 [((1 : Nat), false), (2, true), (3, false)] _ _
      (by simp) rfl,
    rfl, by decide, rfl, rfl, rfl, by decide, by decide, rfl,
    (@C4_root_is_black_without_parent Nat _ 50).2 2 heapC14 ⟨some 0, 2⟩
      (.node .nil 0 false 1 (.node .nil 1 true 2 .nil)) 3 false rfl (by decide) rfl rfl rfl
      (by decide)
      ((@C4_root_is_black_without_parent Nat _ 50).1 [((1 : Nat), false), (2, true)] _ _
        (by simp) rfl).1
      (by decide)⟩

end RootBlackWitness


section RecolourStep

variable {T : Type}

/-- The three colour assignments of case 3 of `balance` on a well-formed neighbourhood,
followed by any continuation `again`: the continuation runs from the grandparent in the
heap of the recolour step of the spec. -/
theorem balanceRecolor_paint {again : Heap T → Ptr → Except Fault (Heap T)} {h : Heap T}
    {a p g u : Nat} {na np ng nu : BNode T}
    (ca : h.cell a = some na) (cp : h.cell p = some np) (cg : h.cell g = some ng)
    (cu : h.cell u = some nu) (hpar : na.pParent = some p)
    (hag : a ≠ g) (hpg : p ≠ g) (hpu : p ≠ u) (hgu : g ≠ u) :
    balanceRecolor again h (some a) (some g) (some u)
      = again (recolourSpec h p u g) (some g) := by
  have la := cell_lt_length ca
  have lp := cell_lt_length cp
  have lg := cell_lt_length cg
  have lu := cell_lt_length cu
  have hga := hag.symm
  have hgp := hpg.symm
  rw [recolourSpec_eq cp cu cg hpg hpu hgu]
  simp only [balanceRecolor, setRed, modify, cg, bind_ok, memberParent, load, cell_store,
    hga, ↓reduceIte, ca, hpar, pure_eq_ok, hgp, cp, length_store, lg, hgu, hpu, cu]

/-- Case 3 of `balance` on a well-formed neighbourhood: the call is the recolouring
branch with the grandparent and the aunt as found from the links. -/
theorem balance_eq_recolor {h : Heap T} {a p g u : Nat} {v vp vg vu : T}
    {lp rp pl pr gl gr ul ur hdp : Ptr} {c : Bool} (fuel : Nat)
    (ca : h.cell a = some ⟨v, lp, rp, some p, c⟩)
    (cp : h.cell p = some ⟨vp, pl, pr, some g, true⟩)
    (cg : h.cell g = some ⟨vg, gl, gr, hdp, false⟩)
    (cu : h.cell u = some ⟨vu, ul, ur, some g, true⟩)
    (hsh : (gl = some p ∧ gr = some u) ∨ (gl = some u ∧ gr = some p))
    (hpu : p ≠ u) :
    BNode.balance (fuel + 1) h (some a)
      = balanceRecolor (BNode.balance fuel) h (some a) (some g) (some u) := by
  have hup : ¬ (some u : Ptr) = some p := by
    intro e
    cases e
    exact hpu rfl
  rcases hsh with ⟨rfl, rfl⟩ | ⟨rfl, rfl⟩ <;>
  simp only [balance_succ, load, ca, bind_ok, reduceCtorEq, ↓reduceIte, cp, Bool.not_true,
    Bool.false_eq_true, cg, Bool.not_false, auntIsRed, cu, pure_eq_ok, hup]

end RecolourStep

section ColourFrame

variable {T : Type}

theorem colour_modify {h h' : Heap T} {p : Ptr} {f : BNode T → BNode T}
    (hm : modify h p f = .ok h') (hf : ∀ nd, (f nd).isRed = nd.isRed) (b : Nat) :
    h'.colour b = h.colour b := by
  simp only [Heap.colour, cell_modify hm b]
  by_cases hp : p = some b
  · simp only [hp, ↓reduceIte]
    cases h.cell b with
    | none => rfl
    | some nd => simp only [Option.map_some', hf]
  · simp only [hp, ↓reduceIte]

theorem colour_setLeft {h h' : Heap T} {p x : Ptr} (hm : setLeft h p x = .ok h') (b : Nat) :
    h'.colour b = h.colour b := colour_modify hm (fun _ => rfl) b

theorem colour_setRight {h h' : Heap T} {p x : Ptr} (hm : setRight h p x = .ok h') (b : Nat) :
    h'.colour b = h.colour b := colour_modify hm (fun _ => rfl) b

theorem colour_setParent {h h' : Heap T} {p x : Ptr} (hm : setParent h p x = .ok h')
    (b : Nat) : h'.colour b = h.colour b := colour_modify hm (fun _ => rfl) b

/-- An assignment to `isRed` leaves the colour of every other node. -/
theorem colour_setRed {h h' : Heap T} {p : Ptr} {c : Bool} (hm : setRed h p c = .ok h')
    {b : Nat} (hp : p ≠ some b) : h'.colour b = h.colour b := by
  simp only [Heap.colour, cell_modify hm b, hp, ↓reduceIte]

theorem colour_addLeft {h h' : Heap T} {this x : Ptr} (hm : BNode.addLeft h this x = .ok h')
    (b : Nat) : h'.colour b = h.colour b := by
  obtain ⟨h1, hh1, hm⟩ := addLeft_eq_ok.mp hm
  by_cases hx : x = none
  · simp only [hx, ↓reduceIte] at hm
    subst hm
    exact colour_setLeft hh1 b
  · simp only [hx, ↓reduceIte] at hm
    exact (colour_setParent hm b).trans (colour_setLeft hh1 b)

theorem colour_addRight {h h' : Heap T} {this x : Ptr}
    (hm : BNode.addRight h this x = .ok h') (b : Nat) : h'.colour b = h.colour b := by
  obtain ⟨h1, hh1, hm⟩ := addRight_eq_ok.mp hm
  by_cases hx : x = none
  · simp only [hx, ↓reduceIte] at hm
    subst hm
    exact colour_setRight hh1 b
  · simp only [hx, ↓reduceIte] at hm
    exact (colour_setParent hm b).trans (colour_setRight hh1 b)

theorem colour_relinkAbove {h h' : Heap T} {this g : Ptr}
    (hm : relinkAbove h this g = .ok h') (b : Nat) : h'.colour b = h.colour b := by
  simp only [relinkAbove, bind_eq_ok] at hm
  obtain ⟨nd, -, hm⟩ := hm
  by_cases c1 : nd.pParent = none
  · rw [if_pos c1] at hm
    exact colour_setParent hm b
  · rw [if_neg c1] at hm
    simp only [bind_eq_ok] at hm
    obtain ⟨flag, -, hm⟩ := hm
    cases flag
    · simp only [Bool.false_eq_true, ↓reduceIte] at hm
      exact colour_setLeft hm b
    · simp only [↓reduceIte] at hm
      exact colour_setRight hm b

/-- The body of case 4c writes the colour of `this` and of the grandparent only. -/
theorem colour_body4c {h h' : Heap T} {this g : Ptr} (hm : body4c h this g = .ok h')
    {b : Nat} (hthis : this ≠ some b) (hg : g ≠ some b) : h'.colour b = h.colour b := by
  simp only [body4c, bind_eq_ok] at hm
  obtain ⟨tp, -, self, -, h1, e1, pp, -, self2, -, h2, e2, h3, e3, h4, e4, h5, e5, h6, e6,
    e7⟩ := hm
  rw [colour_setRed e7 hthis, colour_setRed e6 hg, colour_addLeft e5, colour_addRight e4,
    colour_relinkAbove e3, colour_addRight e2, colour_addLeft e1]

/-- The body of case 4d writes the colour of `this` and of the grandparent only. -/
theorem colour_body4d {h h' : Heap T} {this g : Ptr} (hm : body4d h this g = .ok h')
    {b : Nat} (hthis : this ≠ some b) (hg : g ≠ some b) : h'.colour b = h.colour b := by
  simp only [body4d, bind_eq_ok] at hm
  obtain ⟨tp, -, self, -, h1, e1, pp, -, self2, -, h2, e2, h3, e3, h4, e4, h5, e5, h6, e6,
    e7⟩ := hm
  rw [colour_setRed e7 hthis, colour_setRed e6 hg, colour_addRight e5, colour_addLeft e4,
    colour_relinkAbove e3, colour_addLeft e2, colour_addRight e1]

/-- Two heaps that hold the same tree below the same parent agree on its nodes. -/
theorem rep_cell_eq {h h' : Heap T} :
    ∀ {t : Tree T} {par : Ptr}, t.Rep h par → t.Rep h' par →
      ∀ b ∈ t.addrs, h'.cell b = h.cell b
  | .nil, _, _, _ => fun b hb => by simp [Tree.addrs] at hb
  | .node l a c v r, par, ⟨hc, hl, hr⟩, ⟨hc', hl', hr'⟩ => by
    intro b hb
    simp only [Tree.addrs, List.mem_append, List.mem_cons] at hb
    rcases hb with hb | rfl | hb
    · exact rep_cell_eq hl hl' b hb
    · rw [hc, hc']
    · exact rep_cell_eq hr hr' b hb

end ColourFrame

section RotationBodies

variable {T : Type}

set_option maxHeartbeats 1000000 in
/-- Case 4c of `balance`: outside the three nodes of the rotation, the heap after the call
is the heap after the body of the case; the recursive call writes those three nodes only. -/
theorem balance_4c_body {h : Heap T} {a p g : Nat} {v vp vg : T}
    {lp rp sp up hdp : Ptr} {c : Bool} (fuel : Nat)
    (ca : h.cell a = some ⟨v, lp, rp, some p, c⟩)
    (cp : h.cell p = some ⟨vp, sp, some a, some g, true⟩)
    (cg : h.cell g = some ⟨vg, some p, up, hdp, false⟩)
    (hu : auntIsRed h up = .ok false) (hsa : sp ≠ some a) (hup : up ≠ some p)
    (hap : a ≠ p) (hag : a ≠ g) (hpg : p ≠ g)
    (hhd : h.Free hdp [a, p, g])
    (hlp : h.Free lp [a, p, g]) (hlh : lp = none ∨ lp ≠ hdp)
    (hrp : h.Free rp [a, p, g]) (hrh : rp = none ∨ rp ≠ hdp)
    (hlr : lp = none ∨ lp ≠ rp) :
    ∃ h' H, BNode.balance (fuel + 3) h (some a) = .ok h' ∧
      body4c h (some a) (some g) = .ok H ∧
      ∀ b, b ≠ a → b ≠ p → b ≠ g → h'.cell b = H.cell b := by
  have hsa' : ¬ sp = some a := hsa
  have hup' : ¬ up = some p := hup
  have hrpa : rp ≠ some a := by
    intro e
    have := (hrp a e).2
    simp at this
  have hpa := hap.symm
  have hga := hag.symm
  have hgp := hpg.symm
  have e : BNode.balance (fuel + 3) h (some a)
      = balanceRotate (BNode.balance (fuel + 2)) h (some a) (some g) sp hdp := by
    simp only [balance_succ (fuel + 2), load, ca, cp, cg, hu, hsa', hup', pure_eq_ok, bind_ok, bind_error, bind_assoc, decide_eq_true_eq, decide_True,
    decide_False, ↓reduceIte, ne_eq, reduceCtorEq, not_false_eq_true, not_true_eq_false,
    Bool.not_eq_eq_eq_not, Bool.not_true, Bool.not_false, Option.some.injEq,
    Bool.false_eq_true, Bool.true_eq_false, ite_self, Except.ok.injEq, exists_eq_left',
    Option.map_some', Option.map_none', true_and, and_true, and_self]
  obtain ⟨H, hbody, cA, cP, cG, hHead, hRest⟩ :=
    body4c_exec ca cp cg hap hag hpg hhd hlp hlh hrp hrh hlr
  rcases hdp with _ | hd
  · simp only [if_true] at cA
    obtain ⟨H', hin, hsame⟩ := inner_root (fuel + 1) cA
    refine ⟨H', H, ?_, hbody, fun b _ _ _ => hsame b⟩
    · rw [e]
      simp only [balanceRotate, cond4a, cond4b, cond4c, cond4d, memberParent,
        BNode.isLeftChild, BNode.isRightChild, load, ca, cp, cg, hbody, hin, hsame, cA, cP,
        cG, hsa', hup', hap, hag, hpg, hpa, hga, hgp, pure_eq_ok, bind_ok, bind_error, bind_assoc, decide_eq_true_eq, decide_True,
    decide_False, ↓reduceIte, ne_eq, reduceCtorEq, not_false_eq_true, not_true_eq_false,
    Bool.not_eq_eq_eq_not, Bool.not_true, Bool.not_false, Option.some.injEq,
    Bool.false_eq_true, Bool.true_eq_false, ite_self, Except.ok.injEq, exists_eq_left',
    Option.map_some', Option.map_none', true_and, and_true, and_self]
  · simp only [reduceCtorEq, if_false] at cA
    obtain ⟨H', hin, cA', cP', cG', hsame⟩ :=
      inner_stale fuel cA cP cG (Or.inl ⟨rfl, rfl⟩) hsa hap hag hpg
    refine ⟨H', H, ?_, hbody, hsame⟩
    · rw [e]
      simp only [balanceRotate, cond4a, cond4b, cond4c, cond4d, memberParent,
        BNode.isLeftChild, BNode.isRightChild, load, ca, cp, cg, hbody, hin, cA', cP',
        cG', hsa', hup', hrpa, hap, hag, hpg, hpa, hga, hgp, pure_eq_ok, bind_ok, bind_error, bind_assoc, decide_eq_true_eq, decide_True,
    decide_False, ↓reduceIte, ne_eq, reduceCtorEq, not_false_eq_true, not_true_eq_false,
    Bool.not_eq_eq_eq_not, Bool.not_true, Bool.not_false, Option.some.injEq,
    Bool.false_eq_true, Bool.true_eq_false, ite_self, Except.ok.injEq, exists_eq_left',
    Option.map_some', Option.map_none', true_and, and_true, and_self]

set_option maxHeartbeats 1000000 in
/-- Case 4d of `balance`: outside the three nodes of the rotation, the heap after the call
is the heap after the body of the case; the recursive call writes those three nodes only. -/
theorem balance_4d_body {h : Heap T} {a p g : Nat} {v vp vg : T}
    {lp rp sp up hdp : Ptr} {c : Bool} (fuel : Nat)
    (ca : h.cell a = some ⟨v, lp, rp, some p, c⟩)
    (cp : h.cell p = some ⟨vp, some a, sp, some g, true⟩)
    (cg : h.cell g = some ⟨vg, up, some p, hdp, false⟩)
    (hu : auntIsRed h up = .ok false) (hsa : sp ≠ some a) (hup : up ≠ some p)
    (hap : a ≠ p) (hag : a ≠ g) (hpg : p ≠ g)
    (hhd : h.Free hdp [a, p, g])
    (hlp : h.Free lp [a, p, g]) (hlh : lp = none ∨ lp ≠ hdp)
    (hrp : h.Free rp [a, p, g]) (hrh : rp = none ∨ rp ≠ hdp)
    (hlr : lp = none ∨ lp ≠ rp) :
    ∃ h' H, BNode.balance (fuel + 3) h (some a) = .ok h' ∧
      body4d h (some a) (some g) = .ok H ∧
      ∀ b, b ≠ a → b ≠ p → b ≠ g → h'.cell b = H.cell b := by
  have hsa' : ¬ sp = some a := hsa
  have hup' : ¬ up = some p := hup
  have hrpa : rp ≠ some a := by
    intro e
    have := (hrp a e).2
    simp at this
  have hpa := hap.symm
  have hga := hag.symm
  have hgp := hpg.symm
  have e : BNode.balance (fuel + 3) h (some a)
      = balanceRotate (BNode.balance (fuel + 2)) h (some a) (some g) sp hdp := by
    simp only [balance_succ (fuel + 2), load, ca, cp, cg, hu, hsa', hup', pure_eq_ok, bind_ok, bind_error, bind_assoc, decide_eq_true_eq, decide_True,
    decide_False, ↓reduceIte, ne_eq, reduceCtorEq, not_false_eq_true, not_true_eq_false,
    Bool.not_eq_eq_eq_not, Bool.not_true, Bool.not_false, Option.some.injEq,
    Bool.false_eq_true, Bool.true_eq_false, ite_self, Except.ok.injEq, exists_eq_left',
    Option.map_some', Option.map_none', true_and, and_true, and_self]
  obtain ⟨H, hbody, cA, cP, cG, hHead, hRest⟩ :=
    body4d_exec ca cp cg hap hag hpg hhd hlp hlh hrp hrh hlr
  rcases hdp with _ | hd
  · simp only [if_true] at cA
    obtain ⟨H', hin, hsame⟩ := inner_root (fuel + 1) cA
    refine ⟨H', H, ?_, hbody, fun b _ _ _ => hsame b⟩
    · rw [e]
      simp only [balanceRotate, cond4a, cond4b, cond4c, cond4d, memberParent,
        BNode.isLeftChild, BNode.isRightChild, load, ca, cp, cg, hbody, hin, hsame, cA, cP,
        cG, hsa', hup', hap, hag, hpg, hpa, hga, hgp, pure_eq_ok, bind_ok, bind_error, bind_assoc, decide_eq_true_eq, decide_True,
    decide_False, ↓reduceIte, ne_eq, reduceCtorEq, not_false_eq_true, not_true_eq_false,
    Bool.not_eq_eq_eq_not, Bool.not_true, Bool.not_false, Option.some.injEq,
    Bool.false_eq_true, Bool.true_eq_false, ite_self, Except.ok.injEq, exists_eq_left',
    Option.map_some', Option.map_none', true_and, and_true, and_self]
  · simp only [reduceCtorEq, if_false] at cA
    obtain ⟨H', hin, cA', cP', cG', hsame⟩ :=
      inner_stale fuel cA cP cG (Or.inr ⟨rfl, rfl⟩) hrpa hap hag hpg
    refine ⟨H', H, ?_, hbody, hsame⟩
    · rw [e]
      simp only [balanceRotate, cond4a, cond4b, cond4c, cond4d, memberParent,
        BNode.isLeftChild, BNode.isRightChild, load, ca, cp, cg, hbody, hin, cA', cP',
        cG', hsa', hup', hrpa, hap, hag, hpg, hpa, hga, hgp, pure_eq_ok, bind_ok, bind_error, bind_assoc, decide_eq_true_eq, decide_True,
    decide_False, ↓reduceIte, ne_eq, reduceCtorEq, not_false_eq_true, not_true_eq_false,
    Bool.not_eq_eq_eq_not, Bool.not_true, Bool.not_false, Option.some.injEq,
    Bool.false_eq_true, Bool.true_eq_false, ite_self, Except.ok.injEq, exists_eq_left',
    Option.map_some', Option.map_none', true_and, and_true, and_self]

end RotationBodies

section BalanceBelow

variable {T : Type}

theorem colour_of_cell {h h' : Heap T} {b : Nat} (e : h'.cell b = h.cell b) :
    h'.colour b = h.colour b := by
  simp only [Heap.colour, e]

/-- Case 1 of `balance`: only the colour of `this` is written. -/
theorem below_root {h h' : Heap T} {a : Nat} {nd : BNode T} (fuel : Nat)
    (hc : h.cell a = some nd) (hp : nd.pParent = none)
    (hb : BNode.balance (fuel + 1) h (some a) = .ok h') :
    ∀ b, b ≠ a → h'.kids b = h.kids b ∧ h'.colour b = h.colour b := by
  simp only [balance_succ, load, hc, bind_ok, hp, ↓reduceIte] at hb
  intro b hne
  exact ⟨setRed_kids hb b, colour_setRed hb (fun e => hne (Option.some.inj e).symm)⟩

/-- Case 2 of `balance`: nothing is written. -/
theorem below_black {h h' : Heap T} {a : Nat} {l r : Tree T} {c : Bool} {v : T}
    {fP : Frame T} {k : List (Frame T)} (fuel : Nat)
    (hrep : (Tree.node l a c v r).Rep h (ctxPtr (fP :: k)))
    (hctx : RepCtx h (some a) (fP :: k)) (hblack : fP.red = false)
    (hb : BNode.balance (fuel + 1) h (some a) = .ok h') : h' = h := by
  have hc := hrep.1
  have hp := hctx.1
  obtain ⟨side, p, red, val, other⟩ := fP
  simp only at hblack
  subst hblack
  cases side <;>
  · simp only [ctxPtr] at hc hp
    simp only [balance_succ, load, hc, bind_ok, reduceCtorEq, ↓reduceIte, hp, Bool.not_false,
      pure_eq_ok, Except.ok.injEq] at hb
    exact hb.symm

set_option maxHeartbeats 1000000 in
/-- Case 4 of `balance` on a well-formed tree: the nodes below `this` keep their elements,
child links and colours. -/
theorem below_rotate {h h' : Heap T} {l r : Tree T} {a : Nat} {c : Bool} {v : T}
    {fP fG : Frame T} {k : List (Frame T)} (fuel : Nat)
    (hrep : (Tree.node l a c v r).Rep h (ctxPtr (fP :: fG :: k)))
    (hctx : RepCtx h (some a) (fP :: fG :: k))
    (hnd : ((Tree.node l a c v r).addrs ++ ctxAddrs (fP :: fG :: k)).Nodup)
    (hPred : fP.red = true) (hGblack : fG.red = false) (hUblack : fG.other.isRed = false)
    (hb : BNode.balance (fuel + 3) h (some a) = .ok h') :
    ∀ b, b ∈ l.addrs ∨ b ∈ r.addrs → h'.kids b = h.kids b ∧ h'.colour b = h.colour b := by
  obtain ⟨sideP, p, redP, vp, sib⟩ := fP
  obtain ⟨sideG, g, redG, vg, aunt⟩ := fG
  simp only at hPred hGblack hUblack
  subst hPred hGblack
  simp only [Tree.addrs, ctxAddrs] at hnd
  obtain ⟨hap, hag, hpg, dL, dR, dS, dU, dK, hK, -⟩ := nodup_parts hnd
  obtain ⟨ca, hl, hr⟩ := hrep
  obtain ⟨cp, hsib, cg, haunt, hk⟩ := hctx
  simp only [ctxPtr] at ca cp cg
  have hu : auntIsRed h aunt.ptr = .ok false := by
    rw [auntIsRed_of_rep haunt, hUblack]
  have nK : ∀ b ∈ [a, p, g], b ∉ ctxAddrs k := fun b hb hm => dK b hm hb
  have nS : ∀ b ∈ [a, p, g], b ∉ sib.addrs := fun b hb hm => (dS b hm).1 hb
  have nL : ∀ b ∈ [a, p, g], b ∉ l.addrs := fun b hb hm => (dL b hm).1 hb
  have nR : ∀ b ∈ [a, p, g], b ∉ r.addrs := fun b hb hm => (dR b hm).1 hb
  have hhd := free_of_repCtx hk [a, p, g] nK
  have hsp := free_of_rep hsib [a, p, g] nS
  have hlp := free_of_rep hl [a, p, g] nL
  have hrp := free_of_rep hr [a, p, g] nR
  have hsh := @ptr_ne_ctxPtr T sib k (fun b hb => (dS b hb).2.2)
  have hlh := @ptr_ne_ctxPtr T l k (fun b hb => (dL b hb).2.2.2.2)
  have hrh := @ptr_ne_ctxPtr T r k (fun b hb => (dR b hb).2.2.2)
  have hlr := @ptr_ne_ptr T l r (fun b hb => (dL b hb).2.1)
  have hsa : sib.ptr ≠ some a := not_mem_of_ptr (nS a (by simp))
  have hup : aunt.ptr ≠ some p := not_mem_of_ptr (fun hm => (dU p hm).1 (by simp))
  -- what is known of every node below `this`
  have hfacts : ∀ b, b ∈ l.addrs ∨ b ∈ r.addrs →
      b ∉ [a, p, g] ∧ ctxPtr k ≠ some b ∧ some b ∉ [sib.ptr] := by
    intro b hb
    rcases hb with hb | hb
    · refine ⟨(dL b hb).1, fun e => (dL b hb).2.2.2.2 (ctxPtr_mem e), fun hm => ?_⟩
      simp only [List.mem_singleton] at hm
      exact (dL b hb).2.2.1 (ptr_mem_addrs hm.symm)
    · refine ⟨(dR b hb).1, fun e => (dR b hb).2.2.2 (ctxPtr_mem e), fun hm => ?_⟩
      simp only [List.mem_singleton] at hm
      exact (dR b hb).2.1 (ptr_mem_addrs hm.symm)
  have hne3 : ∀ b, b ∉ [a, p, g] → b ≠ a ∧ b ≠ p ∧ b ≠ g := by
    intro b hb
    simpa using hb
  intro b hbm
  obtain ⟨f1, f2, f3⟩ := hfacts b hbm
  obtain ⟨n1, n2, n3⟩ := hne3 b f1
  have hta : (some a : Ptr) ≠ some b := fun e => n1 (Option.some.inj e).symm
  have htg : (some g : Ptr) ≠ some b := fun e => n3 (Option.some.inj e).symm
  cases sideP <;> cases sideG
  · -- 4a
    simp only [Tree.ptr] at cp cg
    obtain ⟨h2, hex, hpost⟩ := balance_4a (fuel + 2) ca cp cg hu hap hag hpg hhd hsp hsh
    obtain rfl : h2 = h' := Except.ok.inj (hex.symm.trans hb)
    obtain ⟨k1, k2⟩ := hpost.2.2.2.2.2 b f1 f2
    exact ⟨k1, colour_of_cell (k2 f3)⟩
  · -- 4d
    simp only [Tree.ptr] at cp cg
    obtain ⟨h2, hex, hpost⟩ :=
      balance_4d fuel ca cp cg hu hsa hup hap hag hpg hhd hlp hlh hrp hrh hlr
    obtain rfl : h2 = h' := Except.ok.inj (hex.symm.trans hb)
    obtain ⟨h3, H, hex3, hbody, hsame⟩ :=
      balance_4d_body fuel ca cp cg hu hsa hup hap hag hpg hhd hlp hlh hrp hrh hlr
    obtain rfl : h3 = h2 := Except.ok.inj (hex3.symm.trans hb)
    exact ⟨(hpost.2.2.2.2.2 b f1 f2).1,
      (colour_of_cell (hsame b n1 n2 n3)).trans (colour_body4d hbody hta htg)⟩
  · -- 4c
    simp only [Tree.ptr] at cp cg
    obtain ⟨h2, hex, hpost⟩ :=
      balance_4c fuel ca cp cg hu hsa hup hap hag hpg hhd hlp hlh hrp hrh hlr
    obtain rfl : h2 = h' := Except.ok.inj (hex.symm.trans hb)
    obtain ⟨h3, H, hex3, hbody, hsame⟩ :=
      balance_4c_body fuel ca cp cg hu hsa hup hap hag hpg hhd hlp hlh hrp hrh hlr
    obtain rfl : h3 = h2 := Except.ok.inj (hex3.symm.trans hb)
    exact ⟨(hpost.2.2.2.2.2 b f1 f2).1,
      (colour_of_cell (hsame b n1 n2 n3)).trans (colour_body4c hbody hta htg)⟩
  · -- 4b
    simp only [Tree.ptr] at cp cg
    obtain ⟨h2, hex, hpost⟩ := balance_4b (fuel + 2) ca cp cg hu hup hap hag hpg hhd hsp hsh
    obtain rfl : h2 = h' := Except.ok.inj (hex.symm.trans hb)
    obtain ⟨k1, k2⟩ := hpost.2.2.2.2.2 b f1 f2
    exact ⟨k1, colour_of_cell (k2 f3)⟩

/-- What `balance` leaves alone on a well-formed tree, called on the top node `a` of the
subtree `t`: every node of `t` below `a` keeps its element, its child links and its
colour, however far up the recolouring and the rotations go. -/
theorem balance_below (n : Nat) :
    ∀ (k : List (Frame T)), k.length ≤ n → ∀ (h h' : Heap T) (t : Tree T) (a fuel : Nat),
      t.ptr = some a → t.Rep h (ctxPtr k) → RepCtx h (some a) k →
      (t.addrs ++ ctxAddrs k).Nodup → CtxInv k → k.length + 3 ≤ fuel →
      BNode.balance fuel h (some a) = .ok h' →
      ∀ b ∈ t.addrs, b ≠ a → h'.kids b = h.kids b ∧ h'.colour b = h.colour b := by
  induction n with
  | zero =>
    intro k hk h h' t a fuel ht hrep hctx hnd hinv hfuel hb b hbm hne
    obtain ⟨fuel, rfl⟩ : ∃ f, fuel = f + 1 := ⟨fuel - 1, by omega⟩
    have hk0 : k = [] := List.length_eq_zero.mp (Nat.le_zero.mp hk)
    subst hk0
    cases t with
    | nil => cases ht
    | node l a1 c v r =>
      cases ht
      exact below_root fuel hrep.1 rfl hb b hne
  | succ n ih =>
    intro k hk h h' t a fuel ht hrep hctx hnd hinv hfuel hb b hbm hne
    obtain ⟨fuel, rfl⟩ : ∃ f, fuel = f + 3 := ⟨fuel - 3, by omega⟩
    cases t with
    | nil => cases ht
    | node l a1 c v r =>
      cases ht
      match k, hk, hrep, hctx, hnd, hinv, hfuel with
      | [], _, hrep, _, _, _, _ => exact below_root (fuel + 2) hrep.1 rfl hb b hne
      | [fP], _, hrep, hctx, _, hinv, _ =>
        obtain rfl := below_black (fuel + 2) hrep hctx hinv hb
        exact ⟨rfl, rfl⟩
      | fP :: fG :: k, hk, hrep, hctx, hnd, hinv, hfuel =>
        have hbm2 : b ∈ l.addrs ∨ b ∈ r.addrs := by
          simp only [Tree.addrs, List.mem_append, List.mem_cons] at hbm
          rcases hbm with hbm | hbm | hbm
          · exact Or.inl hbm
          · exact absurd hbm hne
          · exact Or.inr hbm
        by_cases hP : fP.red = true
        · have hG : fG.red = false := hinv.1 hP
          by_cases hU : fG.other.isRed = true
          · obtain ⟨sideP, p, redP, vp, sib⟩ := fP
            obtain ⟨sideG, g, redG, vg, aunt⟩ := fG
            simp only at hP hG hU
            subst hP hG
            cases aunt with
            | nil => cases hU
            | node ul u cu vu ur =>
              simp only [Tree.isRed] at hU
              subst hU
              obtain ⟨h3, hex, hrep3, hctx3⟩ := balance_spec_recolor (fuel + 2) hrep hctx hnd
              have hnd3 : ((Frame.fill ⟨sideG, g, true, vg, .node ul u false vu ur⟩
                  (Frame.fill ⟨sideP, p, false, vp, sib⟩ (.node l a c v r))).addrs
                  ++ ctxAddrs k).Nodup := by
                refine (List.Perm.nodup_iff ?_).mpr hnd
                simp only [ctxAddrs]
                refine ((fill_addrs_perm _ _).append_right _).trans ?_
                refine (((fill_addrs_perm _ _).append_right _).append_right _).trans ?_
                simp only [Tree.addrs, List.append_assoc]
                exact List.Perm.refl _
              simp only [List.length_cons] at hk hfuel
              rw [hex] at hb
              have hmem : b ∈ (Frame.fill ⟨sideG, g, true, vg, .node ul u false vu ur⟩
                  (Frame.fill ⟨sideP, p, false, vp, sib⟩ (.node l a c v r))).addrs := by
                refine (fill_addrs_perm _ _).mem_iff.mpr (List.mem_append_left _ ?_)
                exact (fill_addrs_perm _ _).mem_iff.mpr (List.mem_append_left _ hbm)
              simp only [Tree.addrs, ctxAddrs] at hnd
              obtain ⟨-, -, -, dL, dR, -, -, -, -, -⟩ := nodup_parts hnd
              have hbg : b ≠ g := by
                rintro rfl
                rcases hbm2 with hm | hm
                · exact (dL b hm).1 (by simp)
                · exact (dR b hm).1 (by simp)
              obtain ⟨k1, k2⟩ := ih k (by omega) h3 h' _ g (fuel + 2) (fill_ptr _ _) hrep3
                hctx3 hnd3 (ctxInv_tail (ctxInv_tail hinv)) (by omega) hb b hmem hbg
              have hN3 := (rep_fill.mp (rep_fill.mp hrep3).2.2).2.2
              have e3 : h3.cell b = h.cell b := rep_cell_eq hrep hN3 b hbm
              refine ⟨k1.trans ?_, k2.trans (colour_of_cell e3)⟩
              simp only [Heap.kids, e3]
          · exact below_rotate fuel hrep hctx hnd hP hG (by simpa using hU) hb b hbm2
        · obtain rfl := below_black (fuel + 2) hrep hctx (by simpa using hP) hb
          exact ⟨rfl, rfl⟩

end BalanceBelow

section RecolourTotal

variable {T : Type}

theorem ctxInv_above_black (fP : Frame T) {fG : Frame T} {k : List (Frame T)}
    (hG : fG.red = false) (hinv : CtxInv k) : CtxInv (fP :: fG :: k) := by
  refine ⟨fun _ => hG, ?_⟩
  cases k with
  | nil => exact hG
  | cons f k => exact ⟨fun e => absurd (hG.symm.trans e) (by decide), hinv⟩

theorem fill_addrs_recolour (sideP sideG : Side) (p g : Nat) (cp cg cp2 cg2 : Bool)
    (vp vg : T) (sib : Tree T) (ul ur : Tree T) (u : Nat) (cu cu2 : Bool) (vu : T)
    (t : Tree T) :
    (Frame.fill ⟨sideG, g, cg, vg, .node ul u cu vu ur⟩
        (Frame.fill ⟨sideP, p, cp, vp, sib⟩ t)).addrs
      = (Frame.fill ⟨sideG, g, cg2, vg, .node ul u cu2 vu ur⟩
        (Frame.fill ⟨sideP, p, cp2, vp, sib⟩ t)).addrs := by
  cases sideP <;> cases sideG <;> rfl

/-- Case 3 of `balance` on a well-formed tree whose ancestors above the grandparent have
no red node with a red parent and a black root: the call returns; the result is that of
`balance` on the grandparent in the heap of the recolour step of the spec; the heap holds
(by elements and child links) a tree with the in-order sequence of before, whose top the
root-finding loop of `insert` reaches; and every node below the grandparent has the
element and the child links of before and the colour of the recolour step. -/
theorem recolour_total {h : Heap T} {l r ul ur : Tree T} {a u : Nat} {c : Bool}
    {v vu : T} {sideP sideG : Side} {p g : Nat} {vp vg : T} {sib : Tree T}
    {k : List (Frame T)} (fuel : Nat)
    (hrep : (Tree.node l a c v r).Rep h (some p))
    (hctx : RepCtx h (some a)
      (⟨sideP, p, true, vp, sib⟩ :: ⟨sideG, g, false, vg, .node ul u true vu ur⟩ :: k))
    (hnd : ((Tree.node l a c v r).addrs ++ ctxAddrs
      (⟨sideP, p, true, vp, sib⟩ :: ⟨sideG, g, false, vg, .node ul u true vu ur⟩ :: k)).Nodup)
    (hinv : CtxInv k) (hfuel : k.length + 4 ≤ fuel) :
    ∃ (h' : Heap T) (t' : Tree T), BNode.balance (fuel + 1) h (some a) = .ok h' ∧
      BNode.balance fuel (recolourSpec h p u g) (some g) = .ok h' ∧
      t'.Skel h' ∧
      t'.toList = (plug (Tree.node l a c v r) (⟨sideP, p, true, vp, sib⟩ ::
        ⟨sideG, g, false, vg, .node ul u true vu ur⟩ :: k)).toList ∧
      (∀ f, BST.findRoot (f + 2) h' (plug (Tree.node l a c v r) (⟨sideP, p, true, vp, sib⟩ ::
        ⟨sideG, g, false, vg, .node ul u true vu ur⟩ :: k)).ptr = .ok t'.ptr) ∧
      ∀ b ∈ (Frame.fill ⟨sideG, g, false, vg, .node ul u true vu ur⟩
          (Frame.fill ⟨sideP, p, true, vp, sib⟩ (.node l a c v r))).addrs, b ≠ g →
        h'.kids b = h.kids b ∧ h'.colour b = (recolourSpec h p u g).colour b := by
  obtain ⟨h', t', hbal, hskel, hlist, hroot⟩ :=
    balance_spec (k.length + 2)
      (⟨sideP, p, true, vp, sib⟩ :: ⟨sideG, g, false, vg, .node ul u true vu ur⟩ :: k)
      (by simp only [List.length_cons]; omega) h (.node l a c v r) a (fuel + 1) rfl hrep
      hctx hnd (ctxInv_above_black _ rfl hinv) (by simp only [List.length_cons]; omega)
  obtain ⟨heq, hN, hctxR⟩ := recolour_spec fuel hrep hctx hnd
  have hbalR := heq.symm.trans hbal
  have hwhole : (plug (Frame.fill ⟨sideG, g, true, vg, .node ul u false vu ur⟩
      (Frame.fill ⟨sideP, p, false, vp, sib⟩ (.node l a c v r))) k).Rep
      (recolourSpec h p u g) none :=
    (rep_plug (⟨sideP, p, false, vp, sib⟩ :: ⟨sideG, g, true, vg, .node ul u false vu ur⟩ :: k)
      _).mpr ⟨hN, hctxR⟩
  obtain ⟨hrep3, hctx3⟩ := (rep_plug k _).mp hwhole
  rw [fill_ptr] at hctx3
  have hnd3 : ((Frame.fill ⟨sideG, g, true, vg, .node ul u false vu ur⟩
      (Frame.fill ⟨sideP, p, false, vp, sib⟩ (.node l a c v r))).addrs
      ++ ctxAddrs k).Nodup := by
    refine (List.Perm.nodup_iff ?_).mpr hnd
    simp only [ctxAddrs]
    refine ((fill_addrs_perm _ _).append_right _).trans ?_
    refine (((fill_addrs_perm _ _).append_right _).append_right _).trans ?_
    simp only [Tree.addrs, List.append_assoc]
    exact List.Perm.refl _
  have hbelow := balance_below k.length k (Nat.le_refl _) (recolourSpec h p u g) h' _ g fuel
    (fill_ptr _ _) hrep3 hctx3 hnd3 hinv (by omega) hbalR
  refine ⟨h', t', hbal, hbalR, hskel, hlist, hroot, ?_⟩
  intro b hb hbg
  rw [fill_addrs_recolour sideP sideG p g true false false true vp vg sib ul ur u true false
    vu] at hb
  obtain ⟨k1, k2⟩ := hbelow b hb hbg
  exact ⟨k1.trans (recolourSpec_links h p u g b).1, k2⟩

end RecolourTotal

section RecolourClaim

variable {T : Type}

/-- C30: in a well-formed tree (no node reached twice, consistent parent links) with the
node n at `a`, its red parent p, its black grandparent g and its red uncle u.
(1) `balance` on n takes the recolouring branch; the three colour assignments of that
branch, followed by any continuation, run the continuation from g in the heap of the
recolour step of the spec (g red, p and u black), so `balance` on n gives what `balance`
on g gives in that heap.
(2) That heap holds the same tree with these three colours changed: p, g and u are the
nodes of before with the new colour, every other cell is as before, and the element, the
child links and the parent link of every node are as before.
(3) When among the ancestors of g no red node has a red parent and the topmost one is
black, and the budget is at least their number plus four, `balance` on n returns; its
result is the result of `balance` on g in the recoloured heap; it holds (by elements and
child links) a tree with the in-order sequence of before whose top the root-finding loop
reaches; in it p and u are black, and every node below g has the element and the child
links of before and, other than p and u, the colour of before.
(4) When g is the root, the result is the recoloured heap with g painted black; when the
parent of g is black, the result is the recoloured heap. -/
theorem C30_recolour_case_continues_at_grandparent (n : Nat) (h : Heap T) (root : Ptr)
    (l r sib ul ur : Tree T) (a p g u : Nat) (c : Bool) (v vp vg vu : T)
    (sideP sideG : Side) (k : List (Frame T)) (fuel : Nat)
    (hs : snapshot n h root = .ok (plug (.node l a c v r)
      (⟨sideP, p, true, vp, sib⟩ :: ⟨sideG, g, false, vg, .node ul u true vu ur⟩ :: k)))
    (hpar : (plug (.node l a c v r) (⟨sideP, p, true, vp, sib⟩ ::
      ⟨sideG, g, false, vg, .node ul u true vu ur⟩ :: k)).parentsOk h none = true)
    (hnodup : (plug (.node l a c v r) (⟨sideP, p, true, vp, sib⟩ ::
      ⟨sideG, g, false, vg, .node ul u true vu ur⟩ :: k)).addrs.Nodup) :
    BNode.balance (fuel + 1) h (some a)
        = balanceRecolor (BNode.balance fuel) h (some a) (some g) (some u) ∧
      (∀ again : Heap T → Ptr → Except Fault (Heap T),
        balanceRecolor again h (some a) (some g) (some u)
          = again (recolourSpec h p u g) (some g)) ∧
      BNode.balance (fuel + 1) h (some a)
        = BNode.balance fuel (recolourSpec h p u g) (some g) ∧
      (∀ h', BNode.balance fuel (recolourSpec h p u g) (some g) = .ok h' →
        BNode.balance (fuel + 1) h (some a) = .ok h') ∧
      snapshot (plug (.node l a c v r) (⟨sideP, p, false, vp, sib⟩ ::
          ⟨sideG, g, true, vg, .node ul u false vu ur⟩ :: k)).height
          (recolourSpec h p u g) root
        = .ok (plug (.node l a c v r) (⟨sideP, p, false, vp, sib⟩ ::
          ⟨sideG, g, true, vg, .node ul u false vu ur⟩ :: k)) ∧
      (plug (.node l a c v r) (⟨sideP, p, false, vp, sib⟩ ::
        ⟨sideG, g, true, vg, .node ul u false vu ur⟩ :: k)).parentsOk
          (recolourSpec h p u g) none = true ∧
      (∀ b, (recolourSpec h p u g).kids b = h.kids b ∧
        (recolourSpec h p u g).parent b = h.parent b) ∧
      (∃ np ng nu, h.cell p = some np ∧ h.cell g = some ng ∧ h.cell u = some nu ∧
        np.isRed = true ∧ ng.isRed = false ∧ nu.isRed = true ∧
        (recolourSpec h p u g).cell p = some { np with isRed := false } ∧
        (recolourSpec h p u g).cell g = some { ng with isRed := true } ∧
        (recolourSpec h p u g).cell u = some { nu with isRed := false } ∧
        ∀ b, b ≠ p → b ≠ g → b ≠ u → (recolourSpec h p u g).cell b = h.cell b) ∧
      (CtxInv k → k.length + 4 ≤ fuel →
        ∃ (h' : Heap T) (t' : Tree T), BNode.balance (fuel + 1) h (some a) = .ok h' ∧
          BNode.balance fuel (recolourSpec h p u g) (some g) = .ok h' ∧
          t'.Skel h' ∧
          t'.toList = (plug (Tree.node l a c v r) (⟨sideP, p, true, vp, sib⟩ ::
            ⟨sideG, g, false, vg, .node ul u true vu ur⟩ :: k)).toList ∧
          (∀ f, BST.findRoot (f + 2) h' root = .ok t'.ptr) ∧
          h'.colour p = some false ∧ h'.colour u = some false ∧
          ∀ b ∈ (Frame.fill ⟨sideG, g, false, vg, .node ul u true vu ur⟩
              (Frame.fill ⟨sideP, p, true, vp, sib⟩ (.node l a c v r))).addrs, b ≠ g →
            h'.kids b = h.kids b ∧ (b ≠ p → b ≠ u → h'.colour b = h.colour b)) ∧
      (k = [] → 1 ≤ fuel →
        BNode.balance (fuel + 1) h (some a) = .ok ((recolourSpec h p u g).paint g false)) ∧
      (∀ f k', k = f :: k' → f.red = false → 1 ≤ fuel →
        BNode.balance (fuel + 1) h (some a) = .ok (recolourSpec h p u g)) := by
  have hrep := snapshot_rep n _ none _ hs hpar
  obtain ⟨hN, hctx⟩ := (rep_plug _ _).mp hrep
  have hperm := plug_addrs_perm
    (⟨sideP, p, true, vp, sib⟩ :: ⟨sideG, g, false, vg, .node ul u true vu ur⟩ :: k)
    (Tree.node l a c v r)
  have hnd := (List.Perm.nodup_iff hperm).mp hnodup
  obtain ⟨heq, hN2, hctx2⟩ := recolour_spec fuel hN hctx hnd
  have hpost : (plug (.node l a c v r) (⟨sideP, p, false, vp, sib⟩ ::
      ⟨sideG, g, true, vg, .node ul u false vu ur⟩ :: k)).Rep (recolourSpec h p u g) none :=
    (rep_plug _ _).mpr ⟨hN2, hctx2⟩
  obtain ⟨h1, h2⟩ := rep_snapshot _ none _ hpost (Nat.le_refl _)
  have hrootO := snapshot_ptr _ _ _ hs
  have hroot : (plug (.node l a c v r) (⟨sideP, p, false, vp, sib⟩ ::
      ⟨sideG, g, true, vg, .node ul u false vu ur⟩ :: k)).ptr = root := by
    rw [← hrootO]
    simp only [plug]
    exact plug_ptr_congr k (by rw [fill_ptr, fill_ptr])
  rw [hroot] at h1
  -- the cells of the four nodes and their distinctness
  have hnd0 := hnd
  simp only [Tree.addrs, ctxAddrs] at hnd0
  obtain ⟨hap, hag, hpg, -, -, -, dU, -, -, -⟩ := nodup_parts hnd0
  have hu : u ∈ ul.addrs ++ u :: ur.addrs := by simp
  have hpu : p ≠ u := fun e => (dU u hu).1 (by simp [e])
  have hgu : g ≠ u := fun e => (dU u hu).1 (by simp [e])
  have ca := hN.1
  have hctx0 := hctx
  obtain ⟨cp, -, cg, ⟨cu, -, -⟩, -⟩ := hctx
  obtain ⟨c3g, c3p, c3u, hsame⟩ := recolourSpec_cells cp cu cg hpg hpu hgu
  have hstep : ∀ again : Heap T → Ptr → Except Fault (Heap T),
      balanceRecolor again h (some a) (some g) (some u)
        = again (recolourSpec h p u g) (some g) :=
    fun again => balanceRecolor_paint ca cp cg cu rfl hag hpg hpu hgu
  have hdisp : BNode.balance (fuel + 1) h (some a)
      = balanceRecolor (BNode.balance fuel) h (some a) (some g) (some u) :=
    heq.trans (hstep _).symm
  refine ⟨hdisp, hstep, heq, fun h' hh => heq.trans hh, h1, h2,
    fun b => recolourSpec_links h p u g b, ?_, ?_, ?_, ?_⟩
  · refine ⟨_, _, _, cp, cg, cu, ?_, ?_, rfl, c3p, c3g, c3u, fun b h1 h2 h3 => hsame b h2 h1 h3⟩
    · cases sideP <;> rfl
    · cases sideG <;> rfl
  · intro hinv hfuel
    obtain ⟨h', t', hbal, hbalR, hskel, hlist, hfind, hbelow⟩ :=
      recolour_total fuel hN hctx0 hnd hinv hfuel
    rw [hrootO] at hfind
    have hpm : p ∈ (Frame.fill ⟨sideG, g, false, vg, .node ul u true vu ur⟩
        (Frame.fill ⟨sideP, p, true, vp, sib⟩ (.node l a c v r))).addrs := by
      refine (fill_addrs_perm _ _).mem_iff.mpr (List.mem_append_left _ ?_)
      exact (fill_addrs_perm _ _).mem_iff.mpr (List.mem_append_right _ (List.mem_cons_self _ _))
    have hum : u ∈ (Frame.fill ⟨sideG, g, false, vg, .node ul u true vu ur⟩
        (Frame.fill ⟨sideP, p, true, vp, sib⟩ (.node l a c v r))).addrs := by
      refine (fill_addrs_perm _ _).mem_iff.mpr (List.mem_append_right _ ?_)
      simp [Tree.addrs]
    refine ⟨h', t', hbal, hbalR, hskel, hlist, hfind, ?_, ?_, ?_⟩
    · rw [(hbelow p hpm hpg).2]
      simp only [Heap.colour, c3p, Option.map_some']
    · rw [(hbelow u hum (Ne.symm hgu)).2]
      simp only [Heap.colour, c3u, Option.map_some']
    · intro b hb hbg
      obtain ⟨k1, k2⟩ := hbelow b hb hbg
      refine ⟨k1, fun hbp hbu => ?_⟩
      rw [k2]
      simp only [Heap.colour, hsame b hbg hbp hbu]
  · intro hk0 hfuel
    subst hk0
    obtain ⟨fuel, rfl⟩ : ∃ f, fuel = f + 1 := ⟨fuel - 1, by omega⟩
    rw [heq]
    have cgR := c3g
    cases sideG <;>
    · simp only [ctxPtr] at cgR
      simp only [balance_succ, load, cgR, bind_ok, ↓reduceIte, setRed, modify, Heap.paint]
  · intro f k' hk0 hf hfuel
    subst hk0
    obtain ⟨fuel, rfl⟩ : ∃ f, fuel = f + 1 := ⟨fuel - 1, by omega⟩
    rw [heq]
    have cf := hctx2.2.2.2.2.1
    obtain ⟨side, fa, fred, fval, fother⟩ := f
    simp only at hf
    subst hf
    have cgR := c3g
    cases sideG <;> cases side <;>
    · simp only [ctxPtr] at cgR cf
      simp only [balance_succ, load, cgR, bind_ok, reduceCtorEq, ↓reduceIte, cf,
        Bool.not_false, pure_eq_ok]

end RecolourClaim

section RecolourWitness

theorem C30_recolour_case_continues_at_grandparent_witness :
    snapshot 5 heapC30deep (some 1) = .ok (plug (.node .nil 7 true 8 .nil)
        (⟨.right, 6, true, 7, .nil⟩ :: ⟨.right, 5, false, 6, .node .nil 4 true 5 .nil⟩ ::
          [⟨.right, 3, true, 4, .node .nil 2 false 3 .nil⟩,
           ⟨.right, 1, false, 2, .node .nil 0 false 1 .nil⟩])) ∧
      (plug (.node .nil 7 true 8 .nil)
        (⟨.right, 6, true, 7, .nil⟩ :: ⟨.right, 5, false, 6, .node .nil 4 true 5 .nil⟩ ::
          [⟨.right, 3, true, 4, .node .nil 2 false 3 .nil⟩,
           ⟨.right, 1, false, 2, .node .nil 0 false 1 .nil⟩])).parentsOk heapC30deep none
        = true ∧
      (plug (.node .nil 7 true 8 .nil)
        (⟨.right, 6, true, 7, .nil⟩ :: ⟨.right, 5, false, 6, .node .nil 4 true 5 .nil⟩ ::
          [⟨.right, 3, true, 4, .node .nil 2 false 3 .nil⟩,
           ⟨.right, 1, false, 2, .node .nil 0 false 1 .nil⟩])).addrs.Nodup ∧
      CtxInv [(⟨.right, 3, true, 4, .node .nil 2 false 3 .nil⟩ : Frame Nat),
        ⟨.right, 1, false, 2, .node .nil 0 false 1 .nil⟩] ∧
      [(⟨.right, 3, true, 4, .node .nil 2 false 3 .nil⟩ : Frame Nat),
        ⟨.right, 1, false, 2, .node .nil 0 false 1 .nil⟩].length + 4 ≤ 6 ∧
      BNode.balance (6 + 1) heapC30deep (some 7)
        = .ok [some ⟨1, none, none, some 1, false⟩, some ⟨2, some 0, some 2, some 3, true⟩,
            some ⟨3, none, none, some 1, false⟩, some ⟨4, some 1, some 5, none, false⟩,
            some ⟨5, none, none, some 5, false⟩, some ⟨6, some 4, some 6, some 3, true⟩,
            some ⟨7, none, some 7, some 5, false⟩, some ⟨8, none, none, some 6, true⟩] ∧
      (∃ (h' : Heap Nat) (t' : Tree Nat),
        BNode.balance (6 + 1) heapC30deep (some 7) = .ok h' ∧
        BNode.balance 6 (recolourSpec heapC30deep 6 4 5) (some 5) = .ok h' ∧
        t'.Skel h' ∧
        t'.toList = (plug (Tree.node .nil 7 true 8 .nil) (⟨.right, 6, true, 7, .nil⟩ ::
          ⟨.right, 5, false, 6, .node .nil 4 true 5 .nil⟩ ::
          [⟨.right, 3, true, 4, .node .nil 2 false 3 .nil⟩,
           ⟨.right, 1, false, 2, .node .nil 0 false 1 .nil⟩])).toList ∧
        (∀ f, BST.findRoot (f + 2) h' (some 1) = .ok t'.ptr) ∧
        h'.colour 6 = some false ∧ h'.colour 4 = some false ∧
        ∀ b ∈ (Frame.fill ⟨.right, 5, false, 6, .node .nil 4 true 5 .nil⟩
            (Frame.fill ⟨.right, 6, true, 7, .nil⟩ (.node .nil 7 true 8 .nil))).addrs, b ≠ 5 →
          h'.kids b = heapC30deep.kids b ∧
            (b ≠ 6 → b ≠ 4 → h'.colour b = heapC30deep.colour b)) ∧
      snapshot 3 heapC30 (some 0) = .ok (plug (.node .nil 3 true 3 .nil)
        (⟨.left, 1, true, 5, .nil⟩ :: ⟨.left, 0, false, 10, .node .nil 2 true 15 .nil⟩ ::
          [])) ∧
      (plug (.node .nil 3 true 3 .nil)
        (⟨.left, 1, true, 5, .nil⟩ :: ⟨.left, 0, false, 10, .node .nil 2 true 15 .nil⟩ ::
          [])).parentsOk heapC30 none = true ∧
      (plug (.node .nil 3 true 3 .nil)
        (⟨.left, 1, true, 5, .nil⟩ :: ⟨.left, 0, false, 10, .node .nil 2 true 15 .nil⟩ ::
          [])).addrs.Nodup ∧
      BNode.balance (1 + 1) heapC30 (some 3)
        = .ok [some ⟨10, some 1, some 2, none, false⟩, some ⟨5, some 3, none, some 0, false⟩,
            some ⟨15, none, none, some 0, false⟩, some ⟨3, none, none, some 1, true⟩] ∧
      BNode.balance (1 + 1) heapC30 (some 3)
        = .ok ((recolourSpec heapC30 1 2 0).paint 0 false) :=
  ⟨rfl, rfl, by decide, ⟨fun _ => rfl, rfl⟩, by decide, rfl,
    (C30_recolour_case_continues_at_grandparent 5 heapC30deep (some 1) .nil .nil .nil .nil
      .nil 7 6 5 4 true 8 7 6 5 .right .right
      [⟨.right, 3, true, 4, .node .nil 2 false 3 .nil⟩,
       ⟨.right, 1, false, 2, .node .nil 0 false 1 .nil⟩] 6 rfl rfl
      (by decide)).2.2.2.2.2.2.2.2.1 ⟨fun _ => rfl, rfl⟩ (by decide),
    rfl, rfl, by decide, rfl,
    (C30_recolour_case_continues_at_grandparent 3 heapC30 (some 0) .nil .nil .nil .nil .nil
      3 1 0 2 true 3 5 10 15 .left .left [] 1 rfl rfl (by decide)).2.2.2.2.2.2.2.2.2.1
      rfl (by decide)⟩

end RecolourWitness

end custom

